import Mathlib

/-!
Ucore tutorial kernel: address spaces, loader, process manager, signals,
synchronisation, system calls, file system

A shallow embedding of the C sources of the kernel execution core and the
theorems that settle the claims made about it.

Conventions of the embedding

* `uintptr_t`, `uint64_t` and `size_t` values are natural numbers below `2 ^ 64`;
  where the C arithmetic can wrap, the reduction `% 2 ^ 64` is written out.
* Physical memory is a byte-addressed function `Nat → Nat`; 64-bit words are
  read and written little-endian, as on the RISC-V target.
* A `NULL` pointer is the address `0`.
* C globals (`heap_current`, the ready queue, the pools) are fields of explicit
  state records that every function takes and returns.
-/

namespace Ucore

/-! ## `kernel-vm/sv39.h` -/

/-- The constant `PAGE_BITS`. -/
def PAGE_BITS : Nat := 12
/-- The constant `PAGE_SIZE`, `1UL << PAGE_BITS`. -/
def PAGE_SIZE : Nat := 1 <<< PAGE_BITS
/-- The constant `PAGE_MASK`, `PAGE_SIZE - 1`. -/
def PAGE_MASK : Nat := PAGE_SIZE - 1
/-- The constant `LEVELS`. -/
def LEVELS : Nat := 3
/-- The constant `PTE_PER_PAGE`. -/
def PTE_PER_PAGE : Nat := 512
/-- The constant `VPN_BITS`. -/
def VPN_BITS : Nat := 9
/-- The constant `PPN_BITS`. -/
def PPN_BITS : Nat := 44

/-- The function `va_vpn`. -/
def va_vpn (va : Nat) : Nat := (va >>> PAGE_BITS) &&& ((1 <<< 27) - 1)
/-- The function `vpn_to_va`. -/
def vpn_to_va (vpn : Nat) : Nat := (vpn <<< PAGE_BITS) % 2 ^ 64
/-- The function `pa_ppn`. -/
def pa_ppn (pa : Nat) : Nat := pa >>> PAGE_BITS
/-- The function `ppn_to_pa`. -/
def ppn_to_pa (ppn : Nat) : Nat := (ppn <<< PAGE_BITS) % 2 ^ 64
/-- The function `vpn_index` (level 0 is the root level, level 2 the last). -/
def vpn_index (vpn level : Nat) : Nat :=
  (vpn >>> (VPN_BITS * (2 - level))) &&& (PTE_PER_PAGE - 1)
/-- The function `va_offset`. -/
def va_offset (va : Nat) : Nat := va &&& PAGE_MASK

/-- Flag `PTE_V`. -/
def PTE_V : Nat := 1 <<< 0
/-- Flag `PTE_R`. -/
def PTE_R : Nat := 1 <<< 1
/-- Flag `PTE_W`. -/
def PTE_W : Nat := 1 <<< 2
/-- Flag `PTE_X`. -/
def PTE_X : Nat := 1 <<< 3
/-- Flag `PTE_U`. -/
def PTE_U : Nat := 1 <<< 4

/-- The function `pte_ppn`. -/
def pte_ppn (pte : Nat) : Nat := (pte >>> 10) &&& ((1 <<< PPN_BITS) - 1)
/-- The function `pte_flags`. -/
def pte_flags (pte : Nat) : Nat := pte &&& 0x3FF
/-- The function `make_pte`; the shift is taken in 64 bits. -/
def make_pte (ppn flags : Nat) : Nat := ((ppn <<< 10) ||| flags) % 2 ^ 64
/-- The function `pte_valid`. -/
def pte_valid (pte : Nat) : Bool := (pte &&& PTE_V) != 0
/-- The function `pte_is_leaf`. -/
def pte_is_leaf (pte : Nat) : Bool := (pte &&& (PTE_R ||| PTE_W ||| PTE_X)) != 0

/-! ## Physical memory -/

/-- Byte-addressed physical memory. -/
abbrev Mem := Nat → Nat

/-- The library call `memset(dst, val, n)`. -/
def memset (mem : Mem) (dst val n : Nat) : Mem :=
  fun a => if dst ≤ a ∧ a < dst + n then val else mem a

/-- The library call `memcpy(dst, src, n)`; `src i` is the `i`-th source byte. -/
def memcpy (mem : Mem) (dst : Nat) (src : Nat → Nat) (n : Nat) : Mem :=
  fun a => if dst ≤ a ∧ a < dst + n then src (a - dst) else mem a

/-- A store of one byte, `*(uint8_t *)a = v`. -/
def write8 (mem : Mem) (a v : Nat) : Mem :=
  fun x => if x = a then v % 256 else mem x

/-- A load of a `pte_t` (little-endian 64-bit word) at address `a`. -/
def read64 (mem : Mem) (a : Nat) : Nat :=
  mem a % 256 + (mem (a + 1) % 256) * 256 ^ 1 + (mem (a + 2) % 256) * 256 ^ 2
    + (mem (a + 3) % 256) * 256 ^ 3 + (mem (a + 4) % 256) * 256 ^ 4
    + (mem (a + 5) % 256) * 256 ^ 5 + (mem (a + 6) % 256) * 256 ^ 6
    + (mem (a + 7) % 256) * 256 ^ 7

/-- A store of a `pte_t` (little-endian 64-bit word) at address `a`. -/
def write64 (mem : Mem) (a v : Nat) : Mem :=
  fun x => if a ≤ x ∧ x < a + 8 then v / 256 ^ (x - a) % 256 else mem x

/-! ## `kernel-alloc/heap.c` -/

/-- The machine state seen by the allocator and the page-table code: physical
memory and the globals `heap_start`, `heap_end`, `heap_current`.  The field
`alloc_failed` is a ghost: it records that some `heap_alloc` has returned
`NULL`; no function reads it. -/
structure Machine where
  mem : Mem
  heap_start : Nat
  heap_end : Nat
  heap_current : Nat
  alloc_failed : Bool

/-- The bitwise complement `~x` of a 64-bit word. -/
def not64 (x : Nat) : Nat := 2 ^ 64 - 1 - x % 2 ^ 64

/-- The function `heap_alloc`; returns the pointer (`0` is `NULL`). -/
def heap_alloc (m : Machine) (size align : Nat) : Nat × Machine :=
  let aligned := ((m.heap_current + align + (2 ^ 64 - 1)) % 2 ^ 64)
    &&& not64 ((align + (2 ^ 64 - 1)) % 2 ^ 64)
  if (aligned + size) % 2 ^ 64 > m.heap_end then
    (0, { m with alloc_failed := true })
  else
    (aligned, { m with heap_current := (aligned + size) % 2 ^ 64,
                       alloc_failed := m.alloc_failed || (aligned == 0) })

/-! ## `kernel-vm/address_space.c` -/

/-- The struct `address_space_t`. -/
structure address_space_t where
  root : Nat
deriving DecidableEq, Repr

/-- The function `alloc_page`. -/
def alloc_page (m : Machine) : Nat × Machine :=
  let r := heap_alloc m PAGE_SIZE PAGE_SIZE
  if r.1 ≠ 0 then (r.1, { r.2 with mem := memset r.2.mem r.1 0 PAGE_SIZE })
  else r

/-- The function `alloc_pages`. -/
def alloc_pages (m : Machine) (count : Nat) : Nat × Machine :=
  let r := heap_alloc m (count * PAGE_SIZE % 2 ^ 64) PAGE_SIZE
  if r.1 ≠ 0 then
    (r.1, { r.2 with mem := memset r.2.mem r.1 0 (count * PAGE_SIZE % 2 ^ 64) })
  else r

/-- The function `as_create`; `none` is the `NULL` result. -/
def as_create (m : Machine) : Option address_space_t × Machine :=
  let r := heap_alloc m 8 8
  if r.1 = 0 then (none, r.2)
  else
    let p := alloc_page r.2
    if p.1 = 0 then (none, p.2) else (some ⟨p.1⟩, p.2)

/-- The loop of `walk`: `n` levels remain before the last one, `pt` is the
table reached.  Returns the address of the last-level entry (`0` is `NULL`). -/
def walk_loop (vpn : Nat) (create : Bool) : Nat → Nat → Nat → Machine → Nat × Machine
  | 0, _, pt, m => (pt + 8 * vpn_index vpn (LEVELS - 1), m)
  | n + 1, level, pt, m =>
    let pte_addr := pt + 8 * vpn_index vpn level
    let pte := read64 m.mem pte_addr
    if pte_valid pte then
      walk_loop vpn create n (level + 1) (ppn_to_pa (pte_ppn pte)) m
    else if create then
      let r := alloc_page m
      if r.1 = 0 then (0, r.2)
      else
        walk_loop vpn create n (level + 1) r.1
          { r.2 with mem := write64 r.2.mem pte_addr (make_pte (pa_ppn r.1) PTE_V) }
    else (0, m)

/-- The function `walk`. -/
def walk (m : Machine) (as : address_space_t) (vpn : Nat) (create : Bool) :
    Nat × Machine :=
  walk_loop vpn create (LEVELS - 1) 0 as.root m

/-- The loop of `as_map_extern`: `n` iterations remain, `vpn` is the loop
variable. -/
def as_map_extern_loop (as : address_space_t) (vpn_start ppn_base flags : Nat) :
    Nat → Nat → Machine → Machine
  | 0, _, m => m
  | n + 1, vpn, m =>
    let r := walk m as vpn true
    let m1 :=
      if r.1 ≠ 0 then
        let ppn := (ppn_base + (vpn - vpn_start)) % 2 ^ 64
        { r.2 with mem := write64 r.2.mem r.1 (make_pte ppn (flags ||| PTE_V)) }
      else r.2
    as_map_extern_loop as vpn_start ppn_base flags n (vpn + 1) m1

/-- The function `as_map_extern`. -/
def as_map_extern (m : Machine) (as : address_space_t)
    (vpn_start vpn_end ppn_base flags : Nat) : Machine :=
  as_map_extern_loop as vpn_start ppn_base flags (vpn_end - vpn_start) vpn_start m

/-- The function `as_map`.  The source buffer is passed by value: `data` is
`none` for a `NULL` pointer and otherwise gives the byte at each index. -/
def as_map (m : Machine) (as : address_space_t) (vpn_start vpn_end : Nat)
    (data : Option (Nat → Nat)) (len offset flags : Nat) : Machine :=
  let count := (vpn_end + 2 ^ 64 - vpn_start) % 2 ^ 64
  let r := alloc_pages m count
  if r.1 = 0 then r.2
  else
    let m1 :=
      match data with
      | some d => if len > 0 then { r.2 with mem := memcpy r.2.mem (r.1 + offset) d len }
                  else r.2
      | none => r.2
    as_map_extern m1 as vpn_start vpn_end (pa_ppn r.1) flags

/-- The loop of `as_translate`: `n` levels remain. -/
def as_translate_loop (mem : Mem) (vpn va required_flags : Nat) : Nat → Nat → Nat → Nat
  | 0, _, _ => 0
  | n + 1, level, pt =>
    let pte := read64 mem (pt + 8 * vpn_index vpn level)
    if !pte_valid pte then 0
    else if pte_is_leaf pte then
      if (pte_flags pte &&& required_flags) != required_flags then 0
      else (ppn_to_pa (pte_ppn pte) + va_offset va) % 2 ^ 64
    else as_translate_loop mem vpn va required_flags n (level + 1) (ppn_to_pa (pte_ppn pte))

/-- The function `as_translate`; returns the physical address (`0` is `NULL`). -/
def as_translate (m : Machine) (as : address_space_t) (va required_flags : Nat) : Nat :=
  as_translate_loop m.mem (va_vpn va) va required_flags LEVELS 0 as.root

/-- The `for` loop of `clone_page_table` from index `i`, with `n` iterations
remaining; `child` is the recursive call for the next level.  Returns `dst`,
or `0` when an allocation failed. -/
def clone_loop (child : Nat → Nat → Machine → Nat × Machine) (src dst level : Nat) :
    Nat → Nat → Machine → Nat × Machine
  | 0, _, m => (dst, m)
  | n + 1, i, m =>
    let pte := read64 m.mem (src + 8 * i)
    if !pte_valid pte then
      clone_loop child src dst level n (i + 1)
        { m with mem := write64 m.mem (dst + 8 * i) 0 }
    else if pte_is_leaf pte then
      let flags := pte_flags pte
      if (flags &&& PTE_U) != 0 then
        let src_page := ppn_to_pa (pte_ppn pte)
        let r := alloc_page m
        if r.1 = 0 then (0, r.2)
        else
          let mem1 := memcpy r.2.mem r.1 (fun k => r.2.mem (src_page + k)) PAGE_SIZE
          clone_loop child src dst level n (i + 1)
            { r.2 with mem := write64 mem1 (dst + 8 * i) (make_pte (pa_ppn r.1) flags) }
      else
        clone_loop child src dst level n (i + 1)
          { m with mem := write64 m.mem (dst + 8 * i) pte }
    else if level < LEVELS - 1 then
      let r := child (ppn_to_pa (pte_ppn pte)) (level + 1) m
      if r.1 = 0 then (0, r.2)
      else
        clone_loop child src dst level n (i + 1)
          { r.2 with mem := write64 r.2.mem (dst + 8 * i) (make_pte (pa_ppn r.1) (pte_flags pte)) }
    else clone_loop child src dst level n (i + 1) m

/-- The function `clone_page_table`.  The first argument bounds the recursion
depth; the C recursion stops at level `LEVELS - 1`, so `LEVELS` is enough. -/
def clone_page_table : Nat → Nat → Nat → Machine → Nat × Machine
  | 0, _, _, m => (0, m)
  | depth + 1, src, level, m =>
    let r := alloc_page m
    if r.1 = 0 then (0, r.2)
    else clone_loop (clone_page_table depth) src r.1 level PTE_PER_PAGE 0 r.2

/-- The function `as_clone`; `none` is the `NULL` result. -/
def as_clone (m : Machine) (src : address_space_t) : Option address_space_t × Machine :=
  let r := heap_alloc m 8 8
  if r.1 = 0 then (none, r.2)
  else
    let p := clone_page_table LEVELS src.root 0 r.2
    if p.1 = 0 then (none, p.2) else (some ⟨p.1⟩, p.2)

end Ucore

namespace Ucore

/-! ## Histories of mapping calls -/

/-- A call of `as_map_extern` or of `as_map`, with its arguments. -/
inductive MapCall where
  | extern_call (vpn_start vpn_end ppn_base flags : Nat)
  | map (vpn_start vpn_end : Nat) (data : Option (Nat → Nat)) (len offset flags : Nat)

/-- First page of the range of a call. -/
def MapCall.vpn_start : MapCall → Nat
  | .extern_call vs _ _ _ => vs
  | .map vs _ _ _ _ _ => vs

/-- End (exclusive) of the range of a call. -/
def MapCall.vpn_end : MapCall → Nat
  | .extern_call _ ve _ _ => ve
  | .map _ ve _ _ _ _ => ve

/-- The `flags` argument of a call. -/
def MapCall.flags : MapCall → Nat
  | .extern_call _ _ _ f => f
  | .map _ _ _ _ _ f => f

/-- Executes a call on the address space `as`. -/
def MapCall.run (as : address_space_t) (m : Machine) : MapCall → Machine
  | .extern_call vs ve ppn f => as_map_extern m as vs ve ppn f
  | .map vs ve data len offset f => as_map m as vs ve data len offset f

/-- Executes a sequence of calls, first to last. -/
def run_calls (as : address_space_t) (m : Machine) (cs : List MapCall) : Machine :=
  cs.foldl (MapCall.run as) m

/-- The call maps virtual page `vpn`: the page lies in the range of the call. -/
def MapCall.maps (c : MapCall) (vpn : Nat) : Prop :=
  c.vpn_start ≤ vpn ∧ vpn < c.vpn_end

/-- The call respects the domain of its parameters: the range is a range of
27-bit virtual page numbers, and the bytes that `as_map` copies stay inside
the block it allocates. -/
def MapCall.wf : MapCall → Prop
  | .extern_call vs ve _ _ => vs ≤ ve ∧ ve ≤ 2 ^ 27
  | .map vs ve _ len offset _ =>
    vs ≤ ve ∧ ve ≤ 2 ^ 27 ∧ (len = 0 ∨ offset + len ≤ (ve - vs) * PAGE_SIZE)

/-! ## The page-table tree as seen from memory -/

/-- Entry `i` of the table page at `pt`. -/
def entry (mem : Mem) (pt i : Nat) : Nat := read64 mem (pt + 8 * i)

/-- The page that entry `i` of the table at `pt` points to. -/
def child (mem : Mem) (pt i : Nat) : Nat := ppn_to_pa (pte_ppn (entry mem pt i))

/-- The last-level entry of virtual page `vpn`, or `0` when an upper level is
absent. -/
def leaf (mem : Mem) (root vpn : Nat) : Nat :=
  if pte_valid (entry mem root (vpn_index vpn 0)) then
    if pte_valid (entry mem (child mem root (vpn_index vpn 0)) (vpn_index vpn 1)) then
      entry mem (child mem (child mem root (vpn_index vpn 0)) (vpn_index vpn 1))
        (vpn_index vpn 2)
    else 0
  else 0

/-- What `as_translate` answers at a last-level entry `pte`. -/
def leaf_result (pte va required_flags : Nat) : Nat :=
  if pte_valid pte && pte_is_leaf pte
      && (pte_flags pte &&& required_flags == required_flags) then
    (ppn_to_pa (pte_ppn pte) + va_offset va) % 2 ^ 64
  else 0

/-- The invariant of a page-table tree rooted at `root`.  The ghost map
`owner` names, for every table page of the tree, its level and the index path
that leads to it; a page has one owner, so no table is shared. -/
structure PTInv (owner : Nat → Option (Nat × Nat)) (m : Machine) (root : Nat) : Prop where
  cur_le : m.heap_current ≤ m.heap_end
  end_le : m.heap_end ≤ 2 ^ 56
  own_root : owner root = some (0, 0)
  own_page : ∀ p t, owner p = some t →
    p % 4096 = 0 ∧ 0 < p ∧ p + 4096 ≤ m.heap_current
  branch : ∀ p l x i, owner p = some (l, x) → l < 2 → i < 512 →
    pte_valid (entry m.mem p i) = true →
    ∃ q, entry m.mem p i = make_pte (pa_ppn q) PTE_V ∧ owner q = some (l + 1, x * 512 + i)

/-- What `as_map` leaves in byte `i` of the block it allocates. -/
def as_map_byte (data : Option (Nat → Nat)) (len offset i : Nat) : Nat :=
  match data with
  | some d => if 0 < len ∧ offset ≤ i ∧ i < offset + len then d (i - offset) else 0
  | none => 0

/-- The table of the last level on the path of `vpn` exists and is `q`. -/
def reaches (mem : Mem) (root vpn q : Nat) : Prop :=
  pte_valid (entry mem root (vpn_index vpn 0)) = true ∧
  pte_valid (entry mem (child mem root (vpn_index vpn 0)) (vpn_index vpn 1)) = true ∧
  child mem (child mem root (vpn_index vpn 0)) (vpn_index vpn 1) = q

/-- The step from `(owner, m)` to `(owner', m')` keeps the tree of `root` a
tree and only extends it: tables stay tables, new tables are fresh pages,
links between tables are kept, and memory below the old break that is not a
table is untouched. -/
structure Grows (root : Nat) (owner : Nat → Option (Nat × Nat)) (m : Machine)
    (owner' : Nat → Option (Nat × Nat)) (m' : Machine) : Prop where
  inv : PTInv owner' m' root
  ext : ∀ p t, owner p = some t → owner' p = some t
  fresh : ∀ p t, owner' p = some t → owner p = none → m.heap_current ≤ p
  hend : m'.heap_end = m.heap_end
  hcur : m.heap_current ≤ m'.heap_current
  data : ∀ a, a < m.heap_current → owner (a / 4096 * 4096) = none → m'.mem a = m.mem a
  flag : m.alloc_failed = true → m'.alloc_failed = true
  stable : ∀ p l x i, owner p = some (l, x) → l < 2 → i < 512 →
    pte_valid (entry m.mem p i) = true → entry m'.mem p i = entry m.mem p i

end Ucore

namespace Ucore

/-- The machine after a store of the byte `v` at the physical address `a`. -/
def store8 (m : Machine) (a v : Nat) : Machine :=
  ⟨write8 m.mem a v, m.heap_start, m.heap_end, m.heap_current, m.alloc_failed⟩

/-! ## What `clone_page_table` builds -/

/-- Number of pages that cloning one entry with `d` levels below it can take:
one page for a leaf, a table and its 512 entries otherwise. -/
def clone_quota : Nat → Nat
  | 0 => 1
  | d + 1 => 1 + 512 * clone_quota d

/-- The part of the relation between an entry `pte` of a source table and the
entry `pte'` that `clone_page_table` stores for it which is the same at every
level: an invalid entry gives `0`, a leaf without `PTE_U` is stored as it is,
a leaf with `PTE_U` points to a page in `[lo, hi)` with the same flags, which
holds the bytes of the source page when that page lies below `c0`. -/
def CloneLeaf (memS memD : Mem) (c0 hi lo pte pte' : Nat) : Prop :=
  (pte_valid pte = false → pte' = 0) ∧
  (pte_valid pte = true → pte_is_leaf pte = true → pte_flags pte &&& PTE_U = 0 →
    pte' = pte) ∧
  (pte_valid pte = true → pte_is_leaf pte = true → pte_flags pte &&& PTE_U ≠ 0 →
    ∃ pg, pg % 4096 = 0 ∧ lo ≤ pg ∧ pg + 4096 ≤ hi ∧
      pte' = make_pte (pa_ppn pg) (pte_flags pte) ∧
      (ppn_to_pa (pte_ppn pte) + 4096 ≤ c0 →
        ∀ x, x < 4096 → memD (pg + x) = memS (ppn_to_pa (pte_ppn pte) + x)))

/-- The relation between an entry `pte` of a source table with `d` levels
below it (read in `memS`) and the entry `pte'` stored for it (in `memD`): the
clauses of `CloneLeaf`, and a valid entry that is not a leaf gives, at the
last level, `0`, and above it a link with the same flags to a table in
`[lo, hi)` whose 512 entries are related to those of the source table and
whose own pages lie above it. -/
def CloneEntry (memS memD : Mem) (c0 hi : Nat) : Nat → Nat → Nat → Nat → Prop
  | 0, lo, pte, pte' =>
    CloneLeaf memS memD c0 hi lo pte pte' ∧
    (pte_valid pte = true → pte_is_leaf pte = false → pte' = 0)
  | d + 1, lo, pte, pte' =>
    CloneLeaf memS memD c0 hi lo pte pte' ∧
    (pte_valid pte = true → pte_is_leaf pte = false →
      ∃ q, q % 4096 = 0 ∧ lo ≤ q ∧ q + 4096 ≤ hi ∧
        pte' = make_pte (pa_ppn q) (pte_flags pte) ∧
        ∀ k, k < 512 →
          CloneEntry memS memD c0 hi d (q + 4096)
            (entry memS (ppn_to_pa (pte_ppn pte)) k) (entry memD q k))

/-- The state `m` during a clone that started in state `ms`: the break only
moved up, and memory below the break of `ms` is as in `ms`. -/
structure CloneFrame (ms m : Machine) : Prop where
  cur_ge : ms.heap_current ≤ m.heap_current
  cur_le : m.heap_current ≤ m.heap_end
  end_le : m.heap_end ≤ 2 ^ 56
  frame : ∀ a, a < ms.heap_current → m.mem a = ms.mem a

/-- The result `(t, m')` of `clone_page_table` started in state `m` on the
source table `src` with `d` levels below it: `t` is a fresh page, memory below
the old break is untouched, and the entries of `t` are related to those of
`src`. -/
structure CloneTable (ms : Machine) (d src : Nat) (m : Machine) (t : Nat) (m' : Machine) :
    Prop where
  aligned : t % 4096 = 0
  lo : m.heap_current ≤ t
  hi : t + 4096 ≤ m'.heap_current
  cur_le : m'.heap_current ≤ m'.heap_end
  hend : m'.heap_end = m.heap_end
  frame : ∀ a, a < m.heap_current → m'.mem a = m.mem a
  entries : ∀ k, k < 512 →
    CloneEntry ms.mem m'.mem ms.heap_current m'.heap_current d (t + 4096)
      (entry ms.mem src k) (entry m'.mem t k)

/-- The state `m` of the loop of `clone_page_table` before iteration `i`, for
the destination table `dst`: entries from `i` on are still zero, the entries
before `i` are related to those of `src`. -/
structure CloneLoop (ms : Machine) (d src dst i : Nat) (m : Machine) : Prop where
  fr : CloneFrame ms m
  dst_hi : dst + 4096 ≤ m.heap_current
  zero : ∀ k, i ≤ k → k < 512 → entry m.mem dst k = 0
  done : ∀ k, k < i →
    CloneEntry ms.mem m.mem ms.heap_current m.heap_current d (dst + 4096)
      (entry ms.mem src k) (entry m.mem dst k)

end Ucore

namespace Ucore

/-! ## Concrete machines and spaces used as test inputs -/

/-- A machine with zeroed memory and a heap from `0x100000` to `2 ^ 40`. -/
def demo_machine : Machine := ⟨fun _ => 0, 0x100000, 2 ^ 40, 0x100000, false⟩

/-- The space that `as_create` returns on `demo_machine`. -/
def demo_as : address_space_t := ⟨0x101000⟩

/-- A user page at virtual page 5, filled with the byte `0xAA`. -/
def demo_user_call : MapCall :=
  MapCall.map 5 6 (some (fun _ => 0xAA)) 4096 0 (PTE_R ||| PTE_W ||| PTE_U)

/-- The machine after `as_create` and `demo_user_call`. -/
def demo_user : Machine := run_calls demo_as (as_create demo_machine).2 [demo_user_call]

/-- The machine after `as_create` and a mapping of virtual page 5 with `PTE_U`
onto physical page 0. -/
def demo_page0 : Machine :=
  run_calls demo_as (as_create demo_machine).2
    [MapCall.extern_call 5 6 0 (PTE_R ||| PTE_W ||| PTE_U)]

/-- The machine after `as_create` and two mappings of the physical page
`0x50`: at virtual page 1 with `PTE_U`, at virtual page 2 without. -/
def demo_alias : Machine :=
  run_calls demo_as (as_create demo_machine).2
    [MapCall.extern_call 1 2 0x50 (PTE_R ||| PTE_W ||| PTE_U),
     MapCall.extern_call 2 3 0x50 (PTE_R ||| PTE_W)]

/-- The machine after `as_create`, a user page at virtual page 5 filled with
`0xAA` and a page without `PTE_U` at virtual page 6 filled with `0xBB`. -/
def demo_two : Machine :=
  run_calls demo_as (as_create demo_machine).2
    [demo_user_call, MapCall.map 6 7 (some (fun _ => 0xBB)) 4096 0 (PTE_R ||| PTE_W)]

end Ucore

namespace Ucore

/-! ## `task-manage/proc_manage.c`

An array together with its element count (`children` / `child_count`,
`dead_children` / `dead_count`) is the list of its first `count` elements;
the code never reads an array beyond its count. -/

/-- The constant `PID_INVALID`, `(pid_t)-1`. -/
def PID_INVALID : Nat := 2 ^ 64 - 1

/-- The constant `MAX_CHILDREN`. -/
def MAX_CHILDREN : Nat := 32

/-- The constant `MAX_PROCS`. -/
def MAX_PROCS : Nat := 64

/-- An element of `dead_children`. -/
structure dead_child_t where
  pid : Nat
  exit_code : Int
deriving DecidableEq, Repr

/-- The struct `proc_rel_t`. -/
structure proc_rel_t where
  parent : Nat
  children : List Nat
  dead_children : List dead_child_t
deriving DecidableEq, Repr

/-- The struct `proc_manager_t`; `procs` holds the process pointers (`0` is
`NULL`). -/
structure proc_manager_t where
  procs : Nat → Nat
  relations : Nat → proc_rel_t
  ready_queue : Nat → Nat
  queue_head : Nat
  queue_tail : Nat
  current : Nat

/-- The struct `wait_result_t`. -/
structure wait_result_t where
  pid : Nat
  exit_code : Int
  found : Bool
deriving DecidableEq, Repr

/-- A `proc_rel_t` after `memset(rel, 0, sizeof *rel)`. -/
def rel_zero : proc_rel_t := ⟨0, [], []⟩

/-- The function `pm_init`. -/
def pm_init : proc_manager_t :=
  ⟨fun _ => 0, fun _ => rel_zero, fun _ => 0, 0, 0, PID_INVALID⟩

/-- The function `queue_push`. -/
def queue_push (pm : proc_manager_t) (pid : Nat) : proc_manager_t :=
  { pm with ready_queue := Function.update pm.ready_queue pm.queue_tail pid,
            queue_tail := (pm.queue_tail + 1) % MAX_PROCS }

/-- The function `queue_pop`. -/
def queue_pop (pm : proc_manager_t) : Nat × proc_manager_t :=
  if pm.queue_head = pm.queue_tail then (PID_INVALID, pm)
  else (pm.ready_queue pm.queue_head,
        { pm with queue_head := (pm.queue_head + 1) % MAX_PROCS })

/-- The function `pm_add`. -/
def pm_add (pm : proc_manager_t) (pid proc parent : Nat) : proc_manager_t :=
  if pid ≥ MAX_PROCS then pm
  else
    let pm1 : proc_manager_t :=
      { pm with procs := Function.update pm.procs pid proc,
                relations := Function.update pm.relations pid ⟨parent, [], []⟩ }
    let pm2 : proc_manager_t :=
      if parent ≠ PID_INVALID ∧ parent < MAX_PROCS then
        let parent_rel := pm1.relations parent
        if parent_rel.children.length < MAX_CHILDREN then
          let rel1 : proc_rel_t :=
            ⟨parent_rel.parent, parent_rel.children ++ [pid], parent_rel.dead_children⟩
          { pm1 with relations := Function.update pm1.relations parent rel1 }
        else pm1
      else pm1
    queue_push pm2 pid

/-- The function `pm_find_next`; returns the process pointer. -/
def pm_find_next (pm : proc_manager_t) : Nat × proc_manager_t :=
  let r := queue_pop pm
  if r.1 = PID_INVALID then (0, r.2)
  else (r.2.procs r.1, { r.2 with current := r.1 })

/-- The function `pm_current`. -/
def pm_current (pm : proc_manager_t) : Nat :=
  if pm.current = PID_INVALID then 0 else pm.procs pm.current

/-- The function `pm_get`. -/
def pm_get (pm : proc_manager_t) (pid : Nat) : Nat :=
  if pid ≥ MAX_PROCS then 0 else pm.procs pid

/-- The function `pm_suspend_current`. -/
def pm_suspend_current (pm : proc_manager_t) : proc_manager_t :=
  if pm.current ≠ PID_INVALID then { queue_push pm pm.current with current := PID_INVALID }
  else pm

/-- The loop of `pm_exit_current` that hands the children of `pid` over to
`init`, from index `i`; the first argument bounds the number of iterations
(`child_count` never exceeds `MAX_CHILDREN`). -/
def adopt_loop (pid : Nat) : Nat → Nat → proc_manager_t → proc_manager_t
  | 0, _, pm => pm
  | fuel + 1, i, pm =>
    if i < (pm.relations pid).children.length then
      let child := (pm.relations pid).children.getD i 0
      let pm1 : proc_manager_t :=
        if child < MAX_PROCS then
          let rel1 : proc_rel_t :=
            ⟨0, (pm.relations child).children, (pm.relations child).dead_children⟩
          let pm2 : proc_manager_t :=
            { pm with relations := Function.update pm.relations child rel1 }
          let init_rel := pm2.relations 0
          if init_rel.children.length < MAX_CHILDREN then
            let rel2 : proc_rel_t :=
              ⟨init_rel.parent, init_rel.children ++ [child], init_rel.dead_children⟩
            { pm2 with relations := Function.update pm2.relations 0 rel2 }
          else pm2
        else pm
      adopt_loop pid fuel (i + 1) pm1
    else pm

/-- The function `pm_exit_current`. -/
def pm_exit_current (pm : proc_manager_t) (exit_code : Int) : proc_manager_t :=
  let pid := pm.current
  if pid = PID_INVALID then pm
  else
    let parent := (pm.relations pid).parent
    let pm1 : proc_manager_t :=
      if parent ≠ PID_INVALID ∧ parent < MAX_PROCS then
        let parent_rel := pm.relations parent
        if pid ∈ parent_rel.children then
          let dead :=
            if parent_rel.dead_children.length < MAX_CHILDREN then
              parent_rel.dead_children ++ [⟨pid, exit_code⟩]
            else parent_rel.dead_children
          let rel1 : proc_rel_t := ⟨parent_rel.parent, parent_rel.children.erase pid, dead⟩
          { pm with relations := Function.update pm.relations parent rel1 }
        else pm
      else pm
    let pm2 := adopt_loop pid MAX_CHILDREN 0 pm1
    { pm2 with procs := Function.update pm2.procs pid 0,
               relations := Function.update pm2.relations pid rel_zero,
               current := PID_INVALID }

/-- The function `pm_current_pid`. -/
def pm_current_pid (pm : proc_manager_t) : Nat := pm.current

/-- The function `pm_wait`. -/
def pm_wait (pm : proc_manager_t) (child_pid : Nat) : wait_result_t × proc_manager_t :=
  let current := pm.current
  if current = PID_INVALID then (⟨PID_INVALID, -1, false⟩, pm)
  else
    let rel := pm.relations current
    if child_pid = PID_INVALID then
      match rel.dead_children.getLast? with
      | some d =>
        let rel1 : proc_rel_t := ⟨rel.parent, rel.children, rel.dead_children.dropLast⟩
        (⟨d.pid, d.exit_code, true⟩,
          { pm with relations := Function.update pm.relations current rel1 })
      | none =>
        if rel.children.length > 0 then (⟨2 ^ 64 - 2, -1, true⟩, pm)
        else (⟨PID_INVALID, -1, false⟩, pm)
    else
      match rel.dead_children.find? (fun d => d.pid = child_pid) with
      | some d =>
        let i := rel.dead_children.findIdx (fun d => d.pid = child_pid)
        let rel1 : proc_rel_t := ⟨rel.parent, rel.children, rel.dead_children.eraseIdx i⟩
        (⟨d.pid, d.exit_code, true⟩,
          { pm with relations := Function.update pm.relations current rel1 })
      | none =>
        if child_pid ∈ rel.children then (⟨2 ^ 64 - 2, -1, true⟩, pm)
        else (⟨PID_INVALID, -1, false⟩, pm)

/-! ### Scenarios on the process manager -/

/-- The scheduler makes `pid` the current process (what `pm_find_next` does
with the pid it takes from the queue). -/
def set_current (pm : proc_manager_t) (pid : Nat) : proc_manager_t :=
  { pm with current := pid }

/-- Registers the processes `cs`, in order, as children of `parent`. -/
def add_children (pm : proc_manager_t) (parent : Nat) (proc : Nat → Nat) (cs : List Nat) :
    proc_manager_t :=
  cs.foldl (fun pm c => pm_add pm c (proc c) parent) pm

/-- Each process of `es`, in order, is made current and calls
`pm_exit_current` with its exit code. -/
def exit_children (pm : proc_manager_t) (es : List dead_child_t) : proc_manager_t :=
  es.foldl (fun pm e => pm_exit_current (set_current pm e.pid) e.exit_code) pm

/-- The results of `n` successive calls `pm_wait(pm, PID_INVALID)`. -/
def wait_any : Nat → proc_manager_t → List wait_result_t
  | 0, _ => []
  | n + 1, pm =>
    match pm_wait pm PID_INVALID with
    | (r, pm1) => r :: wait_any n pm1

end Ucore

namespace Ucore

/-- A process manager after `pm_init` and the registration of `init` (pid 0,
no parent). -/
def demo_pm : proc_manager_t := pm_add pm_init 0 1 PID_INVALID

/-- The pids `1, ..., n`. -/
def demo_children (n : Nat) : List Nat := (List.range n).map (fun i => i + 1)

/-- The processes `1, ..., n`, each exiting with code `0`. -/
def demo_exits (n : Nat) : List dead_child_t := (demo_children n).map (fun c => ⟨c, 0⟩)

end Ucore

namespace Ucore

/-! ## `kernel-context/context.c` -/

/-- The struct `context_t`; `x i` is the array element `x[i]`, the register
`x(i+1)`. -/
structure context_t where
  sctx : Nat
  x : Nat → Nat
  sepc : Nat
  supervisor : Bool
  interrupt : Bool

/-- The function `context_user`. -/
def context_user (entry : Nat) : context_t := ⟨0, fun _ => 0, entry, false, true⟩

/-- The function `context_thread`. -/
def context_thread (entry : Nat) (interrupt : Bool) : context_t :=
  ⟨0, fun _ => 0, entry, true, interrupt⟩

/-- The function `ctx_reg`. -/
def ctx_reg (ctx : context_t) (n : Nat) : Nat :=
  if n = 0 ∨ n > 31 then 0 else ctx.x (n - 1)

/-- The function `ctx_set_reg`. -/
def ctx_set_reg (ctx : context_t) (n val : Nat) : context_t :=
  if n > 0 ∧ n ≤ 31 then { ctx with x := Function.update ctx.x (n - 1) val } else ctx

/-- The function `ctx_arg`. -/
def ctx_arg (ctx : context_t) (n : Nat) : Nat :=
  if n ≤ 7 then ctx_reg ctx (n + 10) else 0

/-- The function `ctx_set_arg`. -/
def ctx_set_arg (ctx : context_t) (n val : Nat) : context_t :=
  if n ≤ 7 then ctx_set_reg ctx (n + 10) val else ctx

/-- The function `ctx_set_sp`. -/
def ctx_set_sp (ctx : context_t) (sp : Nat) : context_t := ctx_set_reg ctx 2 sp

/-- The function `ctx_pc`. -/
def ctx_pc (ctx : context_t) : Nat := ctx.sepc

/-- The function `ctx_set_pc`. -/
def ctx_set_pc (ctx : context_t) (pc : Nat) : context_t := { ctx with sepc := pc }

/-- The function `ctx_move_next`. -/
def ctx_move_next (ctx : context_t) : context_t := { ctx with sepc := (ctx.sepc + 4) % 2 ^ 64 }

/-! ## `signal/signal.h`, `signal/signal.c` -/

/-- The constant `MAX_SIG`. -/
def MAX_SIG : Nat := 31

/-- The signal number `SIGKILL`. -/
def SIGKILL : Nat := 9

/-- The signal number `SIGUSR1`. -/
def SIGUSR1 : Nat := 10

/-- The signal number `SIGCHLD`. -/
def SIGCHLD : Nat := 17

/-- The signal number `SIGCONT`. -/
def SIGCONT : Nat := 18

/-- The signal number `SIGSTOP`. -/
def SIGSTOP : Nat := 19

/-- The signal number `SIGURG`. -/
def SIGURG : Nat := 23

/-- The struct `signal_action_t`. -/
structure signal_action_t where
  handler : Nat
  mask : Nat
deriving DecidableEq, Repr

/-- The enum `signal_result_type_t`. -/
inductive signal_result_type_t where
  | SIGNAL_NO_SIGNAL
  | SIGNAL_IS_HANDLING
  | SIGNAL_IGNORED
  | SIGNAL_HANDLED
  | SIGNAL_PROCESS_KILLED
  | SIGNAL_PROCESS_SUSPENDED
deriving DecidableEq, Repr

/-- The struct `signal_result_t`. -/
structure signal_result_t where
  type : signal_result_type_t
  exit_code : Int
deriving DecidableEq, Repr

/-- The struct `signal_set_t`. -/
structure signal_set_t where
  bits : Nat
deriving DecidableEq, Repr

/-- The function `sigset_empty`. -/
def sigset_empty : signal_set_t := ⟨0⟩

/-- The function `sigset_contains`. -/
def sigset_contains (set : signal_set_t) (signum : Nat) : Bool :=
  (set.bits >>> signum) &&& 1 != 0

/-- The function `sigset_add`. -/
def sigset_add (set : signal_set_t) (signum : Nat) : signal_set_t :=
  ⟨set.bits ||| ((1 <<< signum) % 2 ^ 64)⟩

/-- The function `sigset_remove`. -/
def sigset_remove (set : signal_set_t) (signum : Nat) : signal_set_t :=
  ⟨set.bits &&& not64 ((1 <<< signum) % 2 ^ 64)⟩

/-- The function `sigset_set_new`; returns the old value. -/
def sigset_set_new (set : signal_set_t) (new_val : Nat) : Nat × signal_set_t :=
  (set.bits, ⟨new_val⟩)

/-- One line of `sigset_find_first`,
`if ((pending & m) == 0) { pos += w; pending >>= w; }`, on the pair
`(pos, pending)`. -/
def find_first_step (w m : Nat) (st : Nat × Nat) : Nat × Nat :=
  if st.2 &&& m = 0 then (st.1 + w, st.2 >>> w) else st

/-- The function `sigset_find_first`; `-1` when no signal is pending. -/
def sigset_find_first (set mask : signal_set_t) : Int :=
  let pending := set.bits &&& not64 mask.bits
  if pending = 0 then -1
  else
    let st := find_first_step 2 0x3 (find_first_step 4 0xF (find_first_step 8 0xFF
      (find_first_step 16 0xFFFF (find_first_step 32 0xFFFFFFFF (0, pending)))))
    if st.2 &&& 0x1 = 0 then ((st.1 + 1 : Nat) : Int) else ((st.1 : Nat) : Int)

/-- The enum `handling_type_t`. -/
inductive handling_type_t where
  | HANDLING_NONE
  | HANDLING_FROZEN
  | HANDLING_USER_SIGNAL
deriving DecidableEq, Repr

/-- The struct `handling_signal_t`. -/
structure handling_signal_t where
  type : handling_type_t
  saved_ctx : context_t

/-- The struct `signal_manager_t`; `actions` and `action_set` are arrays of
`MAX_SIG + 1` elements. -/
structure signal_manager_t where
  received : signal_set_t
  mask : signal_set_t
  handling : handling_signal_t
  actions : Nat → signal_action_t
  action_set : Nat → Bool

/-- The function `signal_init`. -/
def signal_init : signal_manager_t :=
  ⟨⟨0⟩, ⟨0⟩, ⟨handling_type_t.HANDLING_NONE, ⟨0, fun _ => 0, 0, false, false⟩⟩,
    fun _ => ⟨0, 0⟩, fun _ => false⟩

/-- The function `signal_add`. -/
def signal_add (sm : signal_manager_t) (signum : Nat) : signal_manager_t :=
  { sm with received := sigset_add sm.received signum }

/-- The function `signal_is_handling`. -/
def signal_is_handling (sm : signal_manager_t) : Bool :=
  sm.handling.type != handling_type_t.HANDLING_NONE

/-- The function `signal_set_action`. -/
def signal_set_action (sm : signal_manager_t) (signum : Nat) (action : signal_action_t) :
    Bool × signal_manager_t :=
  if signum = SIGKILL ∨ signum = SIGSTOP then (false, sm)
  else if signum > MAX_SIG then (false, sm)
  else
    (true, { sm with actions := Function.update sm.actions signum action,
                     action_set := Function.update sm.action_set signum true })

/-- The function `signal_update_mask`; returns the old mask. -/
def signal_update_mask (sm : signal_manager_t) (new_mask : Nat) : Nat × signal_manager_t :=
  (sm.mask.bits, { sm with mask := ⟨new_mask⟩ })

/-- The function `default_action`. -/
def default_action (signum : Nat) : signal_result_t :=
  if signum = SIGCHLD ∨ signum = SIGURG then ⟨signal_result_type_t.SIGNAL_IGNORED, 0⟩
  else ⟨signal_result_type_t.SIGNAL_PROCESS_KILLED, -(signum : Int)⟩

/-- The function `signal_handle`; returns the result, the manager and the
context. -/
def signal_handle (sm : signal_manager_t) (ctx : context_t) :
    signal_result_t × signal_manager_t × context_t :=
  if signal_is_handling sm then
    if sm.handling.type = handling_type_t.HANDLING_FROZEN then
      if sigset_contains sm.received SIGCONT && !sigset_contains sm.mask SIGCONT then
        let h : handling_signal_t := ⟨handling_type_t.HANDLING_NONE, sm.handling.saved_ctx⟩
        (⟨signal_result_type_t.SIGNAL_HANDLED, 0⟩,
          { sm with received := sigset_remove sm.received SIGCONT, handling := h }, ctx)
      else (⟨signal_result_type_t.SIGNAL_PROCESS_SUSPENDED, 0⟩, sm, ctx)
    else (⟨signal_result_type_t.SIGNAL_IS_HANDLING, 0⟩, sm, ctx)
  else
    let signum := sigset_find_first sm.received sm.mask
    if signum < 0 then (⟨signal_result_type_t.SIGNAL_NO_SIGNAL, 0⟩, sm, ctx)
    else
      let sig := signum.toNat
      let sm1 : signal_manager_t := { sm with received := sigset_remove sm.received sig }
      if sig = SIGKILL then
        (⟨signal_result_type_t.SIGNAL_PROCESS_KILLED, -(SIGKILL : Int)⟩, sm1, ctx)
      else if sig = SIGSTOP then
        let h : handling_signal_t := ⟨handling_type_t.HANDLING_FROZEN, sm1.handling.saved_ctx⟩
        (⟨signal_result_type_t.SIGNAL_PROCESS_SUSPENDED, 0⟩, { sm1 with handling := h }, ctx)
      else if sm1.action_set sig && (sm1.actions sig).handler != 0 then
        let h : handling_signal_t := ⟨handling_type_t.HANDLING_USER_SIGNAL, ctx⟩
        (⟨signal_result_type_t.SIGNAL_HANDLED, 0⟩, { sm1 with handling := h },
          ctx_set_arg (ctx_set_pc ctx (sm1.actions sig).handler) 0 sig)
      else (default_action sig, sm1, ctx)

/-- The function `signal_return`; returns the result, the manager and the
context. -/
def signal_return (sm : signal_manager_t) (ctx : context_t) :
    Bool × signal_manager_t × context_t :=
  if sm.handling.type = handling_type_t.HANDLING_USER_SIGNAL then
    let h : handling_signal_t := ⟨handling_type_t.HANDLING_NONE, sm.handling.saved_ctx⟩
    (true, { sm with handling := h }, sm.handling.saved_ctx)
  else (false, sm, ctx)

end Ucore

namespace Ucore

/-- A signal manager after `signal_init`, the registration of the handler
`0x1000` for `SIGUSR1` and the arrival of `SIGUSR1`. -/
def demo_sm : signal_manager_t :=
  signal_add (signal_set_action signal_init SIGUSR1 ⟨0x1000, 0⟩).2 SIGUSR1

/-- A user context at `0x400000`. -/
def demo_ctx : context_t := context_user 0x400000

end Ucore

namespace Ucore

/-! ## `sync/sync.h`, `sync/sync.c` -/

/-- The constant `TID_INVALID`, `(tid_t)-1` with `tid_t = uint32_t`. -/
def TID_INVALID : Nat := 2 ^ 32 - 1

/-- The constant `WAIT_QUEUE_SIZE`. -/
def WAIT_QUEUE_SIZE : Nat := 16

/-- The struct `wait_queue_t`. -/
structure wait_queue_t where
  queue : Nat → Nat
  head : Nat
  tail : Nat
  count : Nat

/-- The function `wq_init`; the array keeps what it held. -/
def wq_init (wq : wait_queue_t) : wait_queue_t := ⟨wq.queue, 0, 0, 0⟩

/-- The function `wq_push`. -/
def wq_push (wq : wait_queue_t) (tid : Nat) : Bool × wait_queue_t :=
  if wq.count ≥ WAIT_QUEUE_SIZE then (false, wq)
  else
    (true, ⟨Function.update wq.queue wq.tail tid, wq.head,
      (wq.tail + 1) % WAIT_QUEUE_SIZE, wq.count + 1⟩)

/-- The function `wq_pop`. -/
def wq_pop (wq : wait_queue_t) : Nat × wait_queue_t :=
  if wq.count = 0 then (TID_INVALID, wq)
  else (wq.queue wq.head, ⟨wq.queue, (wq.head + 1) % WAIT_QUEUE_SIZE, wq.tail, wq.count - 1⟩)

/-- The struct `mutex_t`. -/
structure mutex_t where
  locked : Bool
  wait_queue : wait_queue_t

/-- The function `mutex_init`. -/
def mutex_init (mtx : mutex_t) : mutex_t := ⟨false, wq_init mtx.wait_queue⟩

/-- The function `mutex_lock`. -/
def mutex_lock (mtx : mutex_t) (tid : Nat) : Bool × mutex_t :=
  if mtx.locked then (false, ⟨mtx.locked, (wq_push mtx.wait_queue tid).2⟩)
  else (true, ⟨true, mtx.wait_queue⟩)

/-- The function `mutex_unlock`; returns the thread to wake. -/
def mutex_unlock (mtx : mutex_t) : Nat × mutex_t :=
  let r := wq_pop mtx.wait_queue
  if r.1 = TID_INVALID then (r.1, ⟨false, r.2⟩) else (r.1, ⟨mtx.locked, r.2⟩)

/-- The struct `semaphore_t`; `count` is an `int`. -/
structure semaphore_t where
  count : Int
  wait_queue : wait_queue_t

/-- The arithmetic of `int`: the value is reduced to 32 bits, two's
complement. -/
def wrap_i32 (v : Int) : Int :=
  if v % 2 ^ 32 < 2 ^ 31 then v % 2 ^ 32 else v % 2 ^ 32 - 2 ^ 32

/-- The function `sem_init`. -/
def sem_init (sem : semaphore_t) (initial_count : Int) : semaphore_t :=
  ⟨initial_count, wq_init sem.wait_queue⟩

/-- The function `sem_down`. -/
def sem_down (sem : semaphore_t) (tid : Nat) : Bool × semaphore_t :=
  if wrap_i32 (sem.count - 1) < 0 then
    (false, ⟨wrap_i32 (sem.count - 1), (wq_push sem.wait_queue tid).2⟩)
  else (true, ⟨wrap_i32 (sem.count - 1), sem.wait_queue⟩)

/-- The function `sem_up`; returns the thread to wake. -/
def sem_up (sem : semaphore_t) : Nat × semaphore_t :=
  ((wq_pop sem.wait_queue).1, ⟨wrap_i32 (sem.count + 1), (wq_pop sem.wait_queue).2⟩)

/-- The struct `condvar_t`. -/
structure condvar_t where
  wait_queue : wait_queue_t

/-- The function `condvar_wait`. -/
def condvar_wait (cv : condvar_t) (tid : Nat) : Bool × condvar_t :=
  (false, ⟨(wq_push cv.wait_queue tid).2⟩)

/-- The function `condvar_signal`. -/
def condvar_signal (cv : condvar_t) : Nat × condvar_t :=
  ((wq_pop cv.wait_queue).1, ⟨(wq_pop cv.wait_queue).2⟩)

/-- The struct `condvar_wait_result_t`. -/
structure condvar_wait_result_t where
  need_block : Bool
  waking_tid : Nat
deriving DecidableEq, Repr

/-- The function `condvar_wait_with_mutex`; returns the result, the condition
variable and the mutex. -/
def condvar_wait_with_mutex (cv : condvar_t) (mtx : mutex_t) (tid : Nat) :
    condvar_wait_result_t × condvar_t × mutex_t :=
  (⟨!(mutex_lock (mutex_unlock mtx).2 tid).1, (mutex_unlock mtx).1⟩, cv,
    (mutex_lock (mutex_unlock mtx).2 tid).2)

/-! ## `syscall/syscall.c` -/

/-- The conversion of a `uintptr_t` to `long`. -/
def to_i64 (n : Nat) : Int :=
  if n % 2 ^ 64 < 2 ^ 63 then ((n % 2 ^ 64 : Nat) : Int) else ((n % 2 ^ 64 : Nat) : Int) - 2 ^ 64

/-- The conversion of a `uintptr_t` to `int`. -/
def to_i32 (n : Nat) : Int :=
  if n % 2 ^ 32 < 2 ^ 31 then ((n % 2 ^ 32 : Nat) : Int) else ((n % 2 ^ 32 : Nat) : Int) - 2 ^ 32

/-- The conversion of a `long` or `int` to `uintptr_t`. -/
def to_u64 (v : Int) : Nat := (v % 2 ^ 64).toNat

/-- The conversion of an `int` to `uint32_t` (`pid_t`, `tid_t` of ch8). -/
def to_u32 (v : Int) : Nat := (v % 2 ^ 32).toNat

/-- The enum `syscall_ret_t`. -/
inductive syscall_ret_t where
  | SYSCALL_OK
  | SYSCALL_UNSUPPORTED
deriving DecidableEq, Repr

/-- The struct `syscall_result_t`. -/
structure syscall_result_t where
  status : syscall_ret_t
  value : Int
deriving DecidableEq, Repr

/-- The system call number `SYS_EXIT`. -/
def SYS_EXIT : Nat := 93

/-- The system call number `SYS_KILL`. -/
def SYS_KILL : Nat := 129

/-- The system call number `SYS_WAITPID`. -/
def SYS_WAITPID : Nat := 260

/-- The system call number `SYS_MUTEX_LOCK`. -/
def SYS_MUTEX_LOCK : Nat := 1011

/-- The system call number `SYS_MUTEX_UNLOCK`. -/
def SYS_MUTEX_UNLOCK : Nat := 1012

/-- The system call number `SYS_SEMAPHORE_DOWN`. -/
def SYS_SEMAPHORE_DOWN : Nat := 1022

/-- The system call number `SYS_CONDVAR_WAIT`. -/
def SYS_CONDVAR_WAIT : Nat := 1032

/-- A registered handler: it receives the argument array and acts on the
kernel state `σ`; `none` stands for an unset handler (or handler group). -/
abbrev handler_t (σ : Type) : Type := Option ((Nat → Nat) → σ → Int × σ)

/-- The handler tables `g_io`, `g_proc`, `g_sched`, `g_clock`, `g_signal`,
`g_thread` and `g_sync`, one field per function pointer. -/
structure syscall_table (σ : Type) where
  sys_open : handler_t σ
  sys_close : handler_t σ
  sys_read : handler_t σ
  sys_write : handler_t σ
  sys_exit : handler_t σ
  sys_sched_yield : handler_t σ
  sys_clock_gettime : handler_t σ
  sys_getpid : handler_t σ
  sys_fork : handler_t σ
  sys_exec : handler_t σ
  sys_waitpid : handler_t σ
  sys_kill : handler_t σ
  sys_sigaction : handler_t σ
  sys_sigprocmask : handler_t σ
  sys_sigreturn : handler_t σ
  sys_thread_create : handler_t σ
  sys_gettid : handler_t σ
  sys_waittid : handler_t σ
  sys_mutex_create : handler_t σ
  sys_mutex_lock : handler_t σ
  sys_mutex_unlock : handler_t σ
  sys_semaphore_create : handler_t σ
  sys_semaphore_up : handler_t σ
  sys_semaphore_down : handler_t σ
  sys_condvar_create : handler_t σ
  sys_condvar_signal : handler_t σ
  sys_condvar_wait : handler_t σ

/-- One `case` of `syscall_dispatch`: the handler is called when it is set,
and `ret.value` keeps `0` otherwise. -/
def call_handler {σ : Type} (h : handler_t σ) (args : Nat → Nat) (k : σ) :
    syscall_result_t × σ :=
  match h with
  | some f => (⟨syscall_ret_t.SYSCALL_OK, (f args k).1⟩, (f args k).2)
  | none => (⟨syscall_ret_t.SYSCALL_OK, 0⟩, k)

/-- The function `syscall_dispatch`.  For `SYS_EXIT` the handler returns
nothing and `ret.value` stays `0`. -/
def syscall_dispatch {σ : Type} (tbl : syscall_table σ) (id : Nat) (args : Nat → Nat) (k : σ) :
    syscall_result_t × σ :=
  if id = 56 then call_handler tbl.sys_open args k
  else if id = 57 then call_handler tbl.sys_close args k
  else if id = 63 then call_handler tbl.sys_read args k
  else if id = 64 then call_handler tbl.sys_write args k
  else if id = SYS_EXIT then
    (⟨syscall_ret_t.SYSCALL_OK, 0⟩, (call_handler tbl.sys_exit args k).2)
  else if id = 124 then call_handler tbl.sys_sched_yield args k
  else if id = 113 then call_handler tbl.sys_clock_gettime args k
  else if id = 172 then call_handler tbl.sys_getpid args k
  else if id = 220 then call_handler tbl.sys_fork args k
  else if id = 221 then call_handler tbl.sys_exec args k
  else if id = SYS_WAITPID then call_handler tbl.sys_waitpid args k
  else if id = SYS_KILL then call_handler tbl.sys_kill args k
  else if id = 134 then call_handler tbl.sys_sigaction args k
  else if id = 135 then call_handler tbl.sys_sigprocmask args k
  else if id = 139 then call_handler tbl.sys_sigreturn args k
  else if id = 1000 then call_handler tbl.sys_thread_create args k
  else if id = 1001 then call_handler tbl.sys_gettid args k
  else if id = 1002 then call_handler tbl.sys_waittid args k
  else if id = 1010 then call_handler tbl.sys_mutex_create args k
  else if id = SYS_MUTEX_LOCK then call_handler tbl.sys_mutex_lock args k
  else if id = SYS_MUTEX_UNLOCK then call_handler tbl.sys_mutex_unlock args k
  else if id = 1020 then call_handler tbl.sys_semaphore_create args k
  else if id = 1021 then call_handler tbl.sys_semaphore_up args k
  else if id = SYS_SEMAPHORE_DOWN then call_handler tbl.sys_semaphore_down args k
  else if id = 1030 then call_handler tbl.sys_condvar_create args k
  else if id = 1031 then call_handler tbl.sys_condvar_signal args k
  else if id = SYS_CONDVAR_WAIT then call_handler tbl.sys_condvar_wait args k
  else (⟨syscall_ret_t.SYSCALL_UNSUPPORTED, to_i64 id⟩, k)

end Ucore

namespace Ucore

namespace Ch8

/-! ## `ch8/main.c`

The kernel state holds the globals `g_thread_pool`, `g_process_pool`, the
ready queue, `g_current_tid` and the counters `g_next_tid`, `g_next_pid`.  In
a process `as` holds the address space its pointer refers to, and a slot of
`semaphores`, `mutexes` or `condvars` the object its pointer refers to (`none`
is `NULL`); `fd_table` and `waiting_exit_code_ptr` hold addresses (`0` is
`NULL`). -/

/-- The constant `PID_INVALID`, `(pid_t)-1` with `pid_t = uint32_t`. -/
def PID_INVALID : Nat := 2 ^ 32 - 1

/-- The constant `MAX_PROCS`. -/
def MAX_PROCS : Nat := 16

/-- The constant `MAX_THREADS`. -/
def MAX_THREADS : Nat := 16

/-- The constant `MAX_SYNC_OBJS`. -/
def MAX_SYNC_OBJS : Nat := 16

/-- The constant `READY_QUEUE_SIZE`. -/
def READY_QUEUE_SIZE : Nat := 64

/-- The constant `EXCEP_U_ECALL`. -/
def EXCEP_U_ECALL : Nat := 8

/-- The constant `SCAUSE_INTERRUPT`. -/
def SCAUSE_INTERRUPT : Nat := 1 <<< 63

/-- The function `is_exception`. -/
def is_exception (scause : Nat) : Bool := scause &&& SCAUSE_INTERRUPT == 0

/-- The function `cause_code`. -/
def cause_code (scause : Nat) : Nat := scause &&& not64 SCAUSE_INTERRUPT

/-- The struct `foreign_ctx_t`. -/
structure foreign_ctx_t where
  ctx : context_t
  satp : Nat
  kernel_satp : Nat
  kernel_stvec : Nat

/-- The struct `thread_t`. -/
structure thread_t where
  tid : Nat
  pid : Nat
  ctx : foreign_ctx_t
  exit_code : Int
  exited : Bool

/-- The struct `process_t`. -/
structure process_t where
  pid : Nat
  as : Option address_space_t
  signal : signal_manager_t
  threads : Nat → Nat
  thread_count : Int
  mutexes : Nat → Option mutex_t
  parent : Nat
  exit_code : Int
  exited : Bool
  waiting_for : Nat
  waiting_tid : Nat
  fd_table : Nat → Nat
  semaphores : Nat → Option semaphore_t
  condvars : Nat → Option condvar_t
  waiting_exit_code_ptr : Nat

/-- The globals of `ch8/main.c`. -/
structure Kernel where
  thread_pool : Nat → thread_t
  process_pool : Nat → process_t
  ready_queue : Nat → Nat
  ready_head : Nat
  ready_tail : Nat
  ready_count : Nat
  current_tid : Nat
  next_tid : Nat
  next_pid : Nat

/-- The function `ready_enqueue`. -/
def ready_enqueue (k : Kernel) (tid : Nat) : Kernel :=
  if k.ready_count < READY_QUEUE_SIZE then
    { k with ready_queue := Function.update k.ready_queue k.ready_tail tid,
             ready_tail := (k.ready_tail + 1) % READY_QUEUE_SIZE,
             ready_count := k.ready_count + 1 }
  else k

/-- The function `ready_dequeue`. -/
def ready_dequeue (k : Kernel) : Nat × Kernel :=
  if k.ready_count = 0 then (TID_INVALID, k)
  else
    (k.ready_queue k.ready_head,
      { k with ready_head := (k.ready_head + 1) % READY_QUEUE_SIZE,
               ready_count := k.ready_count - 1 })

/-- The function `get_thread`: whether the pointer is not `NULL`; the thread
is then `k.thread_pool tid`. -/
def get_thread (tid : Nat) : Bool := decide (tid < MAX_PROCS * MAX_THREADS)

/-- The function `get_process`: whether the pointer is not `NULL`; the
process is then `k.process_pool pid`. -/
def get_process (pid : Nat) : Bool := decide (pid < MAX_PROCS)

/-- The function `current_process`: whether the pointer is not `NULL`; the
process is then that of the current thread. -/
def current_process (k : Kernel) : Bool :=
  get_thread k.current_tid && get_process (k.thread_pool k.current_tid).pid

/-- Stores the context `ctx` into the thread `tid` (a write through
`&t->ctx.ctx`). -/
def set_ctx (k : Kernel) (tid : Nat) (ctx : context_t) : Kernel :=
  let t := k.thread_pool tid
  let t1 : thread_t := ⟨t.tid, t.pid, ⟨ctx, t.ctx.satp, t.ctx.kernel_satp, t.ctx.kernel_stvec⟩,
    t.exit_code, t.exited⟩
  { k with thread_pool := Function.update k.thread_pool tid t1 }

/-- Stores the signal manager `sm` into the process `pid`. -/
def set_signal (k : Kernel) (pid : Nat) (sm : signal_manager_t) : Kernel :=
  let p := k.process_pool pid
  let p1 : process_t := { p with signal := sm }
  { k with process_pool := Function.update k.process_pool pid p1 }

/-- Stores the mutex `mtx` into slot `i` of the process `pid`. -/
def set_mutex (k : Kernel) (pid i : Nat) (mtx : mutex_t) : Kernel :=
  let p := k.process_pool pid
  let p1 : process_t := { p with mutexes := Function.update p.mutexes i (some mtx) }
  { k with process_pool := Function.update k.process_pool pid p1 }

/-- Marks the thread `tid` as exited. -/
def set_thread_exited (k : Kernel) (tid : Nat) : Kernel :=
  let t := k.thread_pool tid
  let t1 : thread_t := { t with exited := true }
  { k with thread_pool := Function.update k.thread_pool tid t1 }

/-- The function `do_exit`. -/
def do_exit (_args : Nat → Nat) (k : Kernel) : Int × Kernel := (0, k)

/-- The function `do_sched_yield`. -/
def do_sched_yield (_args : Nat → Nat) (k : Kernel) : Int × Kernel := (0, k)

/-- The function `do_getpid`.  In `p ? p->pid : -1` the `-1` is converted to
the type of `p->pid`, `uint32_t`, and the result to `long`. -/
def do_getpid (_args : Nat → Nat) (k : Kernel) : Int × Kernel :=
  if current_process k then
    (((k.process_pool (k.thread_pool k.current_tid).pid).pid : Nat), k)
  else (((2 ^ 32 - 1 : Nat) : Int), k)

/-- The function `do_gettid`.  In `t ? t->tid : -1` the `-1` is converted to
the type of `t->tid`, `uint32_t`, and the result to `long`. -/
def do_gettid (_args : Nat → Nat) (k : Kernel) : Int × Kernel :=
  if get_thread k.current_tid then (((k.thread_pool k.current_tid).tid : Nat), k)
  else (((2 ^ 32 - 1 : Nat) : Int), k)

/-- The function `do_sigprocmask`; the old mask is returned as a `long`. -/
def do_sigprocmask (args : Nat → Nat) (k : Kernel) : Int × Kernel :=
  if current_process k then
    let pid := (k.thread_pool k.current_tid).pid
    let r := signal_update_mask (k.process_pool pid).signal (args 0)
    (to_i64 r.1, set_signal k pid r.2)
  else (-1, k)

/-- The function `do_sigreturn`. -/
def do_sigreturn (_args : Nat → Nat) (k : Kernel) : Int × Kernel :=
  if !current_process k || !get_thread k.current_tid then (-1, k)
  else
    let pid := (k.thread_pool k.current_tid).pid
    let r := signal_return (k.process_pool pid).signal (k.thread_pool k.current_tid).ctx.ctx
    (if r.1 then 0 else -1, set_ctx (set_signal k pid r.2.1) k.current_tid r.2.2)

/-- The function `do_kill`; the arguments arrive as `uintptr_t` and are
converted to `int`. -/
def do_kill (args : Nat → Nat) (k : Kernel) : Int × Kernel :=
  let pid := to_i32 (args 0)
  let signum := to_i32 (args 1)
  if signum ≤ 0 ∨ signum > (MAX_SIG : Int) then (-1, k)
  else if !get_process (to_u32 pid) then (-1, k)
  else
    (0, set_signal k (to_u32 pid)
      (signal_add (k.process_pool (to_u32 pid)).signal signum.toNat))

/-- The function `do_mutex_lock`. -/
def do_mutex_lock (args : Nat → Nat) (k : Kernel) : Int × Kernel :=
  let mutex_id := to_i32 (args 0)
  if !current_process k ∨ mutex_id < 0 ∨ mutex_id ≥ (MAX_SYNC_OBJS : Int) then (-1, k)
  else
    let pid := (k.thread_pool k.current_tid).pid
    match (k.process_pool pid).mutexes mutex_id.toNat with
    | none => (-1, k)
    | some mtx =>
      let r := mutex_lock mtx (k.thread_pool k.current_tid).tid
      (if r.1 then 0 else -1, set_mutex k pid mutex_id.toNat r.2)

/-- The function `do_mutex_unlock`. -/
def do_mutex_unlock (args : Nat → Nat) (k : Kernel) : Int × Kernel :=
  let mutex_id := to_i32 (args 0)
  if !current_process k ∨ mutex_id < 0 ∨ mutex_id ≥ (MAX_SYNC_OBJS : Int) then (-1, k)
  else
    let pid := (k.thread_pool k.current_tid).pid
    match (k.process_pool pid).mutexes mutex_id.toNat with
    | none => (-1, k)
    | some mtx =>
      let r := mutex_unlock mtx
      let k1 := set_mutex k pid mutex_id.toNat r.2
      (0, if r.1 ≠ TID_INVALID then ready_enqueue k1 r.1 else k1)

/-- The table that `init_syscall` registers: the handlers defined above, and
the other handlers (those that act on user memory, the file system or the
allocator) as `rest` gives them. -/
def ch8_table (rest : syscall_table Kernel) : syscall_table Kernel :=
  { rest with sys_exit := some do_exit, sys_sched_yield := some do_sched_yield,
              sys_getpid := some do_getpid, sys_kill := some do_kill,
              sys_sigprocmask := some do_sigprocmask, sys_sigreturn := some do_sigreturn,
              sys_gettid := some do_gettid, sys_mutex_lock := some do_mutex_lock,
              sys_mutex_unlock := some do_mutex_unlock }

/-- The body of `if (is_exception(scause) && code == EXCEP_U_ECALL)` in the
scheduling loop of `main`, for the thread `tid`, up to and including
`g_current_tid = TID_INVALID`.  The branch for `SYS_EXIT` is the parameter
`on_exit`.  The result is `none` when `get_process(t->pid)` is `NULL`, which
the code dereferences. -/
def handle_ecall (rest : syscall_table Kernel) (on_exit : Kernel → Nat → Nat → Kernel)
    (k : Kernel) (tid : Nat) : Option Kernel :=
  let ctx := ctx_move_next (k.thread_pool tid).ctx.ctx
  let k1 := set_ctx k tid ctx
  let args : Nat → Nat := fun i => ctx_arg ctx i
  let id := ctx_arg ctx 7
  let r := syscall_dispatch (ch8_table rest) id args k1
  let ret := r.1
  let k2 := r.2
  let pid := (k2.thread_pool tid).pid
  if !get_process pid then none
  else
    let s := signal_handle (k2.process_pool pid).signal (k2.thread_pool tid).ctx.ctx
    let k3 := set_ctx (set_signal k2 pid s.2.1) tid s.2.2
    if s.1.type = signal_result_type_t.SIGNAL_PROCESS_KILLED then
      let p := k3.process_pool pid
      let p1 : process_t := { p with exited := true, exit_code := s.1.exit_code }
      let k4 : Kernel := { k3 with process_pool := Function.update k3.process_pool pid p1 }
      some (set_thread_exited k4 tid)
    else
      let k5 :=
        if id = SYS_EXIT then on_exit k3 tid (args 0)
        else if id = SYS_WAITPID then
          if ret.value = -2 then k3
          else ready_enqueue (set_ctx k3 tid
            (ctx_set_arg (k3.thread_pool tid).ctx.ctx 0 (to_u64 ret.value))) tid
        else if ret.status = syscall_ret_t.SYSCALL_OK then
          let need_block := decide (ret.value = -1) &&
            (decide (id = SYS_MUTEX_LOCK) || decide (id = SYS_SEMAPHORE_DOWN)
              || decide (id = SYS_CONDVAR_WAIT))
          let k6 := set_ctx k3 tid
            (ctx_set_arg (k3.thread_pool tid).ctx.ctx 0 (to_u64 ret.value))
          if !need_block then ready_enqueue k6 tid else k6
        else set_thread_exited k3 tid
      some { k5 with current_tid := TID_INVALID }

/-- One iteration of the scheduling loop `while (1)` of `main`.  The call
`foreign_ctx_run(&t->ctx)` runs the thread until it traps: `uctx` is the
context it leaves in `t->ctx.ctx` and `scause` the cause it leaves in the
register.  The result is `none` when the loop ends (`no task`) or `NULL` is
dereferenced. -/
def sched_iter (rest : syscall_table Kernel) (on_exit : Kernel → Nat → Nat → Kernel)
    (k : Kernel) (uctx : context_t) (scause : Nat) : Option Kernel :=
  let d := ready_dequeue k
  let tid := d.1
  if tid = TID_INVALID then none
  else if !get_thread tid || (d.2.thread_pool tid).exited then some d.2
  else
    let k1 : Kernel := { d.2 with current_tid := tid }
    let k2 := set_ctx k1 tid uctx
    if is_exception scause && cause_code scause == EXCEP_U_ECALL then
      handle_ecall rest on_exit k2 tid
    else some { set_thread_exited k2 tid with current_tid := TID_INVALID }

/-- The thread ids in the ready queue, first to last. -/
def ready_list (k : Kernel) : List Nat :=
  (List.range k.ready_count).map (fun i => k.ready_queue ((k.ready_head + i) % READY_QUEUE_SIZE))

end Ch8

end Ucore

namespace Ucore

namespace Ch8

/-- A handler table with no handler set. -/
def empty_table : syscall_table Kernel :=
  ⟨none, none, none, none, none, none, none, none, none, none, none, none, none, none, none,
    none, none, none, none, none, none, none, none, none, none, none, none⟩

/-- A thread `tid` of process `pid` with a user context at `0x400000`. -/
def demo_thread (tid pid : Nat) : thread_t :=
  ⟨tid, pid, ⟨context_user 0x400000, 0, 0, 0⟩, 0, false⟩

/-- A process with the signal manager `sm` and the mutex table `mutexes`. -/
def demo_process (sm : signal_manager_t) (mutexes : Nat → Option mutex_t) : process_t :=
  ⟨0, none, sm, fun i => i, 2, mutexes, PID_INVALID, 0, false, PID_INVALID, TID_INVALID,
    fun _ => 0, fun _ => none, fun _ => none, 0⟩

/-- A kernel whose process 0 has registered the handler `0x1000` for
`SIGUSR1`; its thread 0 is the only thread in the ready queue. -/
def demo_signal_kernel : Kernel :=
  ⟨fun tid => demo_thread tid 0,
    fun _ => demo_process (signal_set_action signal_init SIGUSR1 ⟨0x1000, 0⟩).2 (fun _ => none),
    fun _ => 0, 0, 1, 1, TID_INVALID, 2, 1⟩

/-- The registers of a thread that traps with the system call `id` and the
arguments `a0`, `a1`, at `pc`. -/
def demo_trap (pc id a0 a1 : Nat) : context_t :=
  ⟨0, fun i => if i = 16 then id else if i = 9 then a0 else if i = 10 then a1 else 0, pc,
    false, true⟩

/-- A kernel whose process 0 holds a mutex fresh from `mutex_init` in slot 3;
its threads 0 and 1 are in the ready queue, in this order. -/
def demo_mutex_kernel : Kernel :=
  ⟨fun tid => demo_thread tid 0,
    fun _ => demo_process signal_init
      (fun i => if i = 3 then some (mutex_init ⟨true, ⟨fun _ => 0, 5, 7, 9⟩⟩) else none),
    fun i => if i = 1 then 1 else 0, 0, 2, 2, TID_INVALID, 2, 1⟩

end Ch8

end Ucore

namespace Ucore

/-! ## `signal/signal.c`, continued -/

/-- The function `signal_fork`; the saved context of `dst` keeps what it
held. -/
def signal_fork (dst src : signal_manager_t) : signal_manager_t :=
  ⟨sigset_empty, src.mask, ⟨handling_type_t.HANDLING_NONE, dst.handling.saved_ctx⟩,
    src.actions, src.action_set⟩

/-- The function `signal_clear`. -/
def signal_clear (sm : signal_manager_t) : signal_manager_t :=
  { sm with actions := fun _ => ⟨0, 0⟩, action_set := fun _ => false }

/-- The function `signal_get_action`; returns the result and the value of
`*action` after the call (`action` is its value before). -/
def signal_get_action (sm : signal_manager_t) (signum : Nat) (action : signal_action_t) :
    Bool × signal_action_t :=
  if signum = SIGKILL ∨ signum = SIGSTOP then (false, action)
  else if signum > MAX_SIG then (false, action)
  else if sm.action_set signum then (true, sm.actions signum)
  else (true, ⟨0, 0⟩)

/-- A signal manager that holds the handler `0x1000` in every slot of its
action table, with handling state none and the signals of `bits` pending. -/
def demo_handlers (bits : Nat) : signal_manager_t :=
  ⟨⟨bits⟩, ⟨0⟩, ⟨handling_type_t.HANDLING_NONE, context_user 0⟩, fun _ => ⟨0x1000, 0⟩,
    fun _ => true⟩

/-- A signal manager with handling state `t`, pending set `bits` and mask
`mask`, and no action set. -/
def demo_state (t : handling_type_t) (bits mask : Nat) : signal_manager_t :=
  ⟨⟨bits⟩, ⟨mask⟩, ⟨t, context_user 0x400000⟩, fun _ => ⟨0, 0⟩, fun _ => false⟩

/-! ## The scheduling loop of `ch8/main.c`, continued -/

/-- The system call number `SYS_SIGRETURN`. -/
def SYS_SIGRETURN : Nat := 139

/-- The system call number `SYS_GETPID`. -/
def SYS_GETPID : Nat := 172

/-- The system call number `SYS_GETTID`. -/
def SYS_GETTID : Nat := 1001

namespace Ch8

/-- The kernel state in which an iteration of the scheduling loop calls
`syscall_dispatch`: the thread at the head of the ready queue has been
dequeued and made current, it has trapped with the context `uctx`, and
`ctx_move_next` has been applied. -/
def at_dispatch (k : Kernel) (uctx : context_t) : Kernel :=
  let tid := (ready_dequeue k).1
  let k1 : Kernel := { (ready_dequeue k).2 with current_tid := tid }
  let k2 := set_ctx k1 tid uctx
  set_ctx k2 tid (ctx_move_next (k2.thread_pool tid).ctx.ctx)

/-- The result of the call `syscall_dispatch(id, args)` in that iteration. -/
def dispatched (rest : syscall_table Kernel) (k : Kernel) (uctx : context_t) :
    syscall_result_t × Kernel :=
  syscall_dispatch (ch8_table rest) (ctx_arg uctx 7) (fun i => ctx_arg uctx i)
    (at_dispatch k uctx)

/-- The value of `need_block` in the scheduling loop. -/
def need_block (id : Nat) (ret : syscall_result_t) : Bool :=
  decide (ret.value = -1) &&
    (decide (id = SYS_MUTEX_LOCK) || decide (id = SYS_SEMAPHORE_DOWN)
      || decide (id = SYS_CONDVAR_WAIT))

/-- The kernel state at the end of that iteration when the process is not
killed by a signal and the thread neither exits nor is marked exited: the
signal manager and the context are as `signal_handle` leaves them, then `a0`
is set to the return value; with `enq` the thread is put back into the ready
queue. -/
def after_trap (rest : syscall_table Kernel) (k : Kernel) (uctx : context_t) (enq : Bool) :
    Kernel :=
  let r := dispatched rest k uctx
  let tid := (ready_dequeue k).1
  let pid := (r.2.thread_pool tid).pid
  let s := signal_handle (r.2.process_pool pid).signal (r.2.thread_pool tid).ctx.ctx
  let k3 := set_ctx (set_signal r.2 pid s.2.1) tid s.2.2
  let k6 := set_ctx k3 tid (ctx_set_arg (k3.thread_pool tid).ctx.ctx 0 (to_u64 r.1.value))
  let k7 := if enq then ready_enqueue k6 tid else k6
  { k7 with current_tid := TID_INVALID }

/-- What the mutex scenario relies on in a kernel state: process `p` has no
signal to handle, slot `m` of its mutex table holds `mtx`, and the ready
queue is a well-formed ring that holds the thread ids `l`, first to last. -/
structure MutexScene (k : Kernel) (p m : Nat) (mtx : mutex_t) (l : List Nat) : Prop where
  hp : p < MAX_PROCS
  hm : m < MAX_SYNC_OBJS
  sig_none : (k.process_pool p).signal.handling.type = handling_type_t.HANDLING_NONE
  sig_quiet :
    (k.process_pool p).signal.received.bits &&& not64 (k.process_pool p).signal.mask.bits = 0
  mutex : (k.process_pool p).mutexes m = some mtx
  head : k.ready_head < READY_QUEUE_SIZE
  tail : k.ready_tail = (k.ready_head + k.ready_count) % READY_QUEUE_SIZE
  list : ready_list k = l

/-- Thread `t` is a live thread of process `p`. -/
structure LiveThread (k : Kernel) (p t : Nat) : Prop where
  lt : t < MAX_PROCS * MAX_THREADS
  tid : (k.thread_pool t).tid = t
  pid : (k.thread_pool t).pid = p
  live : (k.thread_pool t).exited = false

/-- A kernel whose process 0 has registered the handler `0x1000` for
`SIGUSR1` and has the signals of `bits` pending; its thread 1 is the only
thread in the ready queue. -/
def demo_pending_kernel (bits : Nat) : Kernel :=
  ⟨fun tid => demo_thread tid 0,
    fun _ => demo_process
      ⟨⟨bits⟩, ⟨0⟩, ⟨handling_type_t.HANDLING_NONE, context_user 0⟩,
        fun i => if i = SIGUSR1 then ⟨0x1000, 0⟩ else ⟨0, 0⟩, fun i => decide (i = SIGUSR1)⟩
      (fun _ => none),
    fun _ => 1, 0, 1, 1, TID_INVALID, 2, 1⟩

/-- What a run of two iterations of the scheduling loop leaves in the context
of thread `tid`: program counter, `a0`, `a1` and `a7`. -/
def two_traps (k : Kernel) (tid : Nat) (u1 u2 : context_t) : Option (Nat × Nat × Nat × Nat) :=
  ((sched_iter empty_table (fun k _ _ => k) k u1 EXCEP_U_ECALL).bind
    (fun k1 => sched_iter empty_table (fun k _ _ => k) k1 u2 EXCEP_U_ECALL)).map
    (fun k2 => (ctx_pc (k2.thread_pool tid).ctx.ctx, ctx_arg (k2.thread_pool tid).ctx.ctx 0,
      ctx_arg (k2.thread_pool tid).ctx.ctx 1, ctx_arg (k2.thread_pool tid).ctx.ctx 7))

/-- What a run of three iterations of the scheduling loop leaves for thread
`tid` and slot `m` of the mutex table of process `p`: the thread's `a0`, the
ready queue, and the mutex's flag. -/
def three_traps (k : Kernel) (tid p m : Nat) (u1 u2 u3 : context_t) :
    Option (Nat × List Nat × Option Bool) :=
  (((sched_iter empty_table (fun k _ _ => k) k u1 EXCEP_U_ECALL).bind
    (fun k1 => sched_iter empty_table (fun k _ _ => k) k1 u2 EXCEP_U_ECALL)).bind
    (fun k2 => sched_iter empty_table (fun k _ _ => k) k2 u3 EXCEP_U_ECALL)).map
    (fun k3 => (ctx_arg (k3.thread_pool tid).ctx.ctx 0, ready_list k3,
      ((k3.process_pool p).mutexes m).map mutex_t.locked))

end Ch8

end Ucore

namespace Ucore

/-! ## `kernel-vm/elf.c` -/

/-- A load of a `uint16_t` (little-endian) at address `a`. -/
def read16 (mem : Mem) (a : Nat) : Nat := mem a % 256 + (mem (a + 1) % 256) * 256

/-- A load of a `uint32_t` (little-endian) at address `a`. -/
def read32 (mem : Mem) (a : Nat) : Nat :=
  mem a % 256 + (mem (a + 1) % 256) * 256 ^ 1 + (mem (a + 2) % 256) * 256 ^ 2
    + (mem (a + 3) % 256) * 256 ^ 3

/-- The constant `ET_EXEC`. -/
def ET_EXEC : Nat := 2

/-- The constant `EM_RISCV`. -/
def EM_RISCV : Nat := 243

/-- The constant `PT_LOAD`. -/
def PT_LOAD : Nat := 1

/-- The function `elf_check`; the header `elf64_ehdr_t` (64 bytes) is read at
`data`: `e_ident` at offset 0, `e_type` at 16, `e_machine` at 18, `e_entry`
at 24. -/
def elf_check (mem : Mem) (data len : Nat) : Nat :=
  if len < 64 then 0
  else if mem data % 256 ≠ 0x7f ∨ mem (data + 1) % 256 ≠ 0x45 ∨ mem (data + 2) % 256 ≠ 0x4c
      ∨ mem (data + 3) % 256 ≠ 0x46 then 0
  else if mem (data + 4) % 256 ≠ 2 then 0
  else if read16 mem (data + 16) ≠ ET_EXEC then 0
  else if read16 mem (data + 18) ≠ EM_RISCV then 0
  else read64 mem (data + 24)

/-- The loop of `elf_load` from index `i`, with `n` iterations remaining; the
program header `elf64_phdr_t` (56 bytes) number `i` is read at
`data + e_phoff + 56 * i`: `p_type` at offset 0, `p_flags` at 4, `p_offset` at
8, `p_vaddr` at 16, `p_filesz` at 32, `p_memsz` at 40. -/
def elf_load_loop (as : address_space_t) (data phoff : Nat) : Nat → Nat → Machine → Machine
  | 0, _, m => m
  | n + 1, i, m =>
    let phdr := (data + phoff + 56 * i) % 2 ^ 64
    if read32 m.mem phdr ≠ PT_LOAD then elf_load_loop as data phoff n (i + 1) m
    else
      let off_file := read64 m.mem (phdr + 8)
      let len_file := read64 m.mem (phdr + 32)
      let off_mem := read64 m.mem (phdr + 16)
      let end_mem := (off_mem + read64 m.mem (phdr + 40)) % 2 ^ 64
      let vpn_start := va_vpn off_mem
      let vpn_end := va_vpn ((end_mem + (2 ^ 64 - 1)) % 2 ^ 64) + 1
      let p_flags := read32 m.mem (phdr + 4)
      let flags := (PTE_V ||| PTE_U) ||| (if p_flags &&& 0x4 ≠ 0 then PTE_R else 0)
        ||| (if p_flags &&& 0x2 ≠ 0 then PTE_W else 0)
        ||| (if p_flags &&& 0x1 ≠ 0 then PTE_X else 0)
      let offset := off_mem &&& PAGE_MASK
      let src := (data + off_file) % 2 ^ 64
      elf_load_loop as data phoff n (i + 1)
        (as_map m as vpn_start vpn_end (if src = 0 then none else some (fun j => m.mem (src + j)))
          len_file offset flags)

/-- The function `elf_load`; returns the entry address (`0` on failure). -/
def elf_load (m : Machine) (as : address_space_t) (data len : Nat) : Nat × Machine :=
  let entry := elf_check m.mem data len
  if entry = 0 then (0, m)
  else (entry, elf_load_loop as data (read64 m.mem (data + 32)) (read16 m.mem (data + 56)) 0 m)

/-! ## `ch8/main.c`: `do_exec` -/

/-- The constant `SATP_MODE_SV39`. -/
def SATP_MODE_SV39 : Nat := 8 <<< 60

/-- The function `make_satp`. -/
def make_satp (root_ppn : Nat) : Nat := SATP_MODE_SV39 ||| root_ppn

/-- The function `as_root_ppn`. -/
def as_root_ppn (as : address_space_t) : Nat := pa_ppn as.root

/-- The constant `USER_STACK_TOP`. -/
def USER_STACK_TOP : Nat := 1 <<< 38

/-- The constant `USER_STACK_SIZE`. -/
def USER_STACK_SIZE : Nat := 2 * PAGE_SIZE

namespace Ch8

/-- The constant `VIRTIO_MMIO_BASE`. -/
def VIRTIO_MMIO_BASE : Nat := 0x10001000

/-- The constant `VIRTIO_MMIO_SIZE`. -/
def VIRTIO_MMIO_SIZE : Nat := 0x1000

/-- What `do_exec` uses of its surroundings: the globals `g_layout` (its
fields `text`, `rodata`, `data`) and `g_memory_end`, and the calls that go
through the file system, whose state is `F`; these act on the heap and on the
file system, and a pointer they return is `none` when it is `NULL`.
`read_all_file` returns the buffer and its length. -/
structure exec_env (F : Type) where
  text : Nat
  rodata : Nat
  data : Nat
  memory_end : Nat
  file_open : List Nat → Machine × F → Option Nat × (Machine × F)
  read_all_file : Nat → Machine × F → Option (Nat × Nat) × (Machine × F)
  file_close : Nat → Machine × F → Machine × F

/-- The state that `do_exec` acts on: the pools, the heap and physical
memory, and the file system. -/
structure World (F : Type) where
  kernel : Kernel
  machine : Machine
  fs : F

/-- The function `map_kernel_to_user`. -/
def map_kernel_to_user {F : Type} (env : exec_env F) (m : Machine) (user_as : address_space_t) :
    Machine :=
  let m1 := as_map_extern m user_as (va_vpn env.text) (va_vpn env.rodata) (pa_ppn env.text)
    (PTE_V ||| PTE_R ||| PTE_X)
  let m2 := as_map_extern m1 user_as (va_vpn env.rodata) (va_vpn env.data) (pa_ppn env.rodata)
    (PTE_V ||| PTE_R)
  let m3 := as_map_extern m2 user_as (va_vpn env.data) (va_vpn env.memory_end)
    (pa_ppn env.data) (PTE_V ||| PTE_R ||| PTE_W)
  as_map_extern m3 user_as (va_vpn VIRTIO_MMIO_BASE)
    (va_vpn (VIRTIO_MMIO_BASE + VIRTIO_MMIO_SIZE)) (pa_ppn VIRTIO_MMIO_BASE)
    (PTE_V ||| PTE_R ||| PTE_W)

/-- The bytes that `do_exec` copies into `name`: `len` bytes at `kpath`, at
most 31. -/
def exec_name (m : Machine) (kpath len : Nat) : List Nat :=
  (List.range (if len > 31 then 31 else len)).map (fun i => m.mem (kpath + i) % 256)

/-- The last part of `do_exec`, from `proc->as = new_as` on. -/
def exec_commit (k : Kernel) (new_as : address_space_t) (entry : Nat) : Kernel :=
  let pid := (k.thread_pool k.current_tid).pid
  let p := k.process_pool pid
  let p1 : process_t := { p with as := some new_as, signal := signal_clear p.signal }
  let t := k.thread_pool k.current_tid
  let c := ctx_set_sp (context_user entry) USER_STACK_TOP
  let t1 : thread_t := ⟨t.tid, t.pid,
    ⟨c, make_satp (as_root_ppn new_as), t.ctx.kernel_satp, t.ctx.kernel_stvec⟩,
    t.exit_code, t.exited⟩
  { k with process_pool := Function.update k.process_pool pid p1,
           thread_pool := Function.update k.thread_pool k.current_tid t1 }

/-- The function `do_exec` from `map_kernel_to_user(new_as)` on: `m3` is the
machine after `as_create`, `d` the buffer and length that `read_all_file`
returned, `fs` the file-system state.  The calls of `heap_free` and
`as_destroy` do not appear: `heap_free` does nothing. -/
def exec_load {F : Type} (env : exec_env F) (k : Kernel) (fs : F) (m3 : Machine)
    (new_as : address_space_t) (d : Nat × Nat) : Int × World F :=
  if (elf_load (map_kernel_to_user env m3 new_as) new_as d.1 d.2).1 = 0 then
    (-1, ⟨k, (elf_load (map_kernel_to_user env m3 new_as) new_as d.1 d.2).2, fs⟩)
  else
    (0, ⟨exec_commit k new_as (elf_load (map_kernel_to_user env m3 new_as) new_as d.1 d.2).1,
      as_map (elf_load (map_kernel_to_user env m3 new_as) new_as d.1 d.2).2 new_as
        (va_vpn USER_STACK_TOP - USER_STACK_SIZE / PAGE_SIZE) (va_vpn USER_STACK_TOP) none 0 0
        (PTE_V ||| PTE_R ||| PTE_W ||| PTE_U),
      fs⟩)

/-- The function `do_exec` from `as_create()` on: `c` is the state after
`file_close`.  A pointer is tested against `NULL` with `Option.elim`: the
first argument is the value for `NULL`. -/
def exec_image {F : Type} (env : exec_env F) (k : Kernel) (c : Machine × F) (d : Nat × Nat) :
    Int × World F :=
  (as_create c.1).1.elim (-1, ⟨k, (as_create c.1).2, c.2⟩)
    (fun new_as => exec_load env k c.2 (as_create c.1).2 new_as d)

/-- The function `do_exec` from `read_all_file(fh, &elf_len)` on: `s1` is
the state after `file_open`, which returned `fh`. -/
def exec_file {F : Type} (env : exec_env F) (k : Kernel) (fh : Nat) (s1 : Machine × F) :
    Int × World F :=
  (env.read_all_file fh s1).1.elim
    (-1, ⟨k, (env.file_close fh (env.read_all_file fh s1).2).1,
      (env.file_close fh (env.read_all_file fh s1).2).2⟩)
    (fun d => exec_image env k (env.file_close fh (env.read_all_file fh s1).2) d)

/-- The function `do_exec` from `if (!kpath)` on: `kpath` is the result of
`as_translate`. -/
def exec_path {F : Type} (env : exec_env F) (w : World F) (kpath len : Nat) : Int × World F :=
  if kpath = 0 then (-1, w)
  else
    (env.file_open (exec_name w.machine kpath len) (w.machine, w.fs)).1.elim
      (-1, ⟨w.kernel, (env.file_open (exec_name w.machine kpath len) (w.machine, w.fs)).2.1,
        (env.file_open (exec_name w.machine kpath len) (w.machine, w.fs)).2.2⟩)
      (fun fh => exec_file env w.kernel fh
        (env.file_open (exec_name w.machine kpath len) (w.machine, w.fs)).2)

/-- The function `do_exec`; its body continues in `exec_path`, `exec_file`,
`exec_image`, `exec_load` and `exec_commit`, in this order.  The result is
`none` when `proc->as` is `NULL`, which `as_translate` dereferences. -/
def do_exec {F : Type} (env : exec_env F) (path len : Nat) (w : World F) :
    Option (Int × World F) :=
  if !current_process w.kernel then some (-1, w)
  else
    (w.kernel.process_pool (w.kernel.thread_pool w.kernel.current_tid).pid).as.map
      (fun as => exec_path env w (as_translate w.machine as path (PTE_R ||| PTE_V)) len)

/-- A file system without files: `file_open` finds no name. -/
def demo_env : exec_env Unit :=
  ⟨0x80200000, 0x80210000, 0x80220000, 0x80200000 + 48 * 2 ^ 20,
    fun _ s => (none, s), fun _ s => (none, s), fun _ s => s⟩

/-- A world whose process 0 owns the space `demo_as` of the machine
`demo_user`, with virtual page 5 mapped; thread 0 is the current thread. -/
def demo_world : World Unit :=
  ⟨⟨fun tid => demo_thread tid 0,
      fun _ => ⟨0, some demo_as, signal_init, fun i => i, 1, fun _ => none, PID_INVALID, 0, false,
        PID_INVALID, TID_INVALID, fun _ => 0, fun _ => none, fun _ => none, 0⟩,
      fun _ => 0, 0, 0, 0, 0, 1, 1⟩,
    demo_user, ()⟩

end Ch8

end Ucore

namespace Ucore

/-! ## Wait queues as the specification sees them -/

/-- The thread ids in a wait queue, first to last. -/
def wq_list (wq : wait_queue_t) : List Nat :=
  (List.range wq.count).map (fun i => wq.queue ((wq.head + i) % WAIT_QUEUE_SIZE))

/-- The state of a wait queue is a ring: `head` is an index of the array,
`tail` is `count` places after `head`, and `count` does not exceed the size
of the array.  `wq_init` establishes this and `wq_push`, `wq_pop` keep it. -/
structure WqOk (wq : wait_queue_t) : Prop where
  head : wq.head < WAIT_QUEUE_SIZE
  tail : wq.tail = (wq.head + wq.count) % WAIT_QUEUE_SIZE
  count : wq.count ≤ WAIT_QUEUE_SIZE

/-- The state of a mutex that `mutex_init`, `mutex_lock` and `mutex_unlock`
keep when the callers are threads: the wait queue is a ring, the waiters are
thread ids (not `TID_INVALID`), and a mutex with a waiter is locked. -/
structure MutexOk (m : mutex_t) : Prop where
  wq : WqOk m.wait_queue
  ids : ∀ t ∈ wq_list m.wait_queue, t ≠ TID_INVALID
  held : m.wait_queue.count ≠ 0 → m.locked = true

/-- An operation on a queue of thread ids. -/
inductive queue_op where
  | push (tid : Nat)
  | pop
deriving DecidableEq, Repr

/-- The queue of the specification, a list of ids, oldest first, that holds
at most `cap` ids: what the pops of `ops` return, in order.  A pop returns
the oldest id and removes it, or returns `TID_INVALID` when no id is held; a
push on a queue that holds `cap` ids changes nothing. -/
def fifo_pops (cap : Nat) : List Nat → List queue_op → List Nat
  | _, [] => []
  | l, queue_op.push t :: ops => fifo_pops cap (if l.length < cap then l ++ [t] else l) ops
  | l, queue_op.pop :: ops => l.headD TID_INVALID :: fifo_pops cap l.tail ops

/-- What the calls of `wq_pop` return when `ops` is run on a wait queue with
`wq_push` and `wq_pop`. -/
def wq_pops : wait_queue_t → List queue_op → List Nat
  | _, [] => []
  | wq, queue_op.push t :: ops => wq_pops (wq_push wq t).2 ops
  | wq, queue_op.pop :: ops => (wq_pop wq).1 :: wq_pops (wq_pop wq).2 ops

/-- A wait queue that holds the ids `0, …, 15`, with `head = tail = 3`. -/
def demo_full_wq : wait_queue_t := ⟨fun i => (i + 13) % 16, 3, 3, 16⟩

/-- A locked mutex with the waiters `7, 8`. -/
def demo_held_mutex : mutex_t := ⟨true, ⟨fun i => if i = 15 then 7 else 8, 15, 1, 2⟩⟩

/-! ## `ch8/main.c`, continued -/

/-- The system call number `SYS_SCHED_YIELD`. -/
def SYS_SCHED_YIELD : Nat := 124

/-- The constant `MAX_FD`. -/
def MAX_FD : Nat := 16

/-- A store of an `int` (little-endian 32-bit word) at address `a`. -/
def write32 (mem : Mem) (a v : Nat) : Mem :=
  fun x => if a ≤ x ∧ x < a + 4 then v / 256 ^ (x - a) % 256 else mem x

namespace Ch8

/-- What the calls of `ready_dequeue` return when `ops` is run on the ready
queue with `ready_enqueue` and `ready_dequeue`. -/
def ready_pops : Kernel → List queue_op → List Nat
  | _, [] => []
  | k, queue_op.push t :: ops => ready_pops (ready_enqueue k t) ops
  | k, queue_op.pop :: ops => (ready_dequeue k).1 :: ready_pops (ready_dequeue k).2 ops

/-- Stores the semaphore `sem` into slot `i` of the process `pid`. -/
def set_semaphore (k : Kernel) (pid i : Nat) (sem : semaphore_t) : Kernel :=
  let p := k.process_pool pid
  let p1 : process_t := { p with semaphores := Function.update p.semaphores i (some sem) }
  { k with process_pool := Function.update k.process_pool pid p1 }

/-- Stores the condition variable `cv` into slot `i` of the process `pid`. -/
def set_condvar (k : Kernel) (pid i : Nat) (cv : condvar_t) : Kernel :=
  let p := k.process_pool pid
  let p1 : process_t := { p with condvars := Function.update p.condvars i (some cv) }
  { k with process_pool := Function.update k.process_pool pid p1 }

/-- The function `do_semaphore_up`. -/
def do_semaphore_up (args : Nat → Nat) (k : Kernel) : Int × Kernel :=
  let sem_id := to_i32 (args 0)
  if !current_process k ∨ sem_id < 0 ∨ sem_id ≥ (MAX_SYNC_OBJS : Int) then (-1, k)
  else
    let pid := (k.thread_pool k.current_tid).pid
    match (k.process_pool pid).semaphores sem_id.toNat with
    | none => (-1, k)
    | some sem =>
      let r := sem_up sem
      let k1 := set_semaphore k pid sem_id.toNat r.2
      (0, if r.1 ≠ TID_INVALID then ready_enqueue k1 r.1 else k1)

/-- The function `do_semaphore_down`. -/
def do_semaphore_down (args : Nat → Nat) (k : Kernel) : Int × Kernel :=
  let sem_id := to_i32 (args 0)
  if !current_process k ∨ sem_id < 0 ∨ sem_id ≥ (MAX_SYNC_OBJS : Int) then (-1, k)
  else
    let pid := (k.thread_pool k.current_tid).pid
    match (k.process_pool pid).semaphores sem_id.toNat with
    | none => (-1, k)
    | some sem =>
      let r := sem_down sem (k.thread_pool k.current_tid).tid
      (if r.1 then 0 else -1, set_semaphore k pid sem_id.toNat r.2)

/-- The function `do_condvar_signal`. -/
def do_condvar_signal (args : Nat → Nat) (k : Kernel) : Int × Kernel :=
  let condvar_id := to_i32 (args 0)
  if !current_process k ∨ condvar_id < 0 ∨ condvar_id ≥ (MAX_SYNC_OBJS : Int) then (-1, k)
  else
    let pid := (k.thread_pool k.current_tid).pid
    match (k.process_pool pid).condvars condvar_id.toNat with
    | none => (-1, k)
    | some cv =>
      let r := condvar_signal cv
      let k1 := set_condvar k pid condvar_id.toNat r.2
      (0, if r.1 ≠ TID_INVALID then ready_enqueue k1 r.1 else k1)

/-- The function `do_condvar_wait`. -/
def do_condvar_wait (args : Nat → Nat) (k : Kernel) : Int × Kernel :=
  let condvar_id := to_i32 (args 0)
  let mutex_id := to_i32 (args 1)
  if !current_process k ∨ condvar_id < 0 ∨ condvar_id ≥ (MAX_SYNC_OBJS : Int) then (-1, k)
  else
    let pid := (k.thread_pool k.current_tid).pid
    match (k.process_pool pid).condvars condvar_id.toNat with
    | none => (-1, k)
    | some cv =>
      if mutex_id < 0 ∨ mutex_id ≥ (MAX_SYNC_OBJS : Int) then (-1, k)
      else
        match (k.process_pool pid).mutexes mutex_id.toNat with
        | none => (-1, k)
        | some mtx =>
          let r := condvar_wait_with_mutex cv mtx (k.thread_pool k.current_tid).tid
          let k1 := set_mutex (set_condvar k pid condvar_id.toNat r.2.1) pid mutex_id.toNat r.2.2
          let k2 := if r.1.waking_tid ≠ TID_INVALID then ready_enqueue k1 r.1.waking_tid else k1
          (if r.1.need_block then -1 else 0, k2)

/-- The handlers of the semaphores and the condition variables that
`init_syscall` registers, as an argument for `ch8_table`. -/
def sync_table : syscall_table Kernel :=
  { empty_table with sys_semaphore_up := some do_semaphore_up,
                     sys_semaphore_down := some do_semaphore_down,
                     sys_condvar_signal := some do_condvar_signal,
                     sys_condvar_wait := some do_condvar_wait }

/-! ### `do_fork` -/

/-- What `memset(child, 0, sizeof(process_t))` leaves in a process. -/
def process_zero : process_t :=
  ⟨0, none, signal_init, fun _ => 0, 0, fun _ => none, 0, 0, false, 0, 0, fun _ => 0,
    fun _ => none, fun _ => none, 0⟩

/-- Stores the address `fd` into slot `i` of the descriptor table of the
process `pid`. -/
def set_fd (k : Kernel) (pid i fd : Nat) : Kernel :=
  let p := k.process_pool pid
  let p1 : process_t := { p with fd_table := Function.update p.fd_table i fd }
  { k with process_pool := Function.update k.process_pool pid p1 }

/-- The loop that tests whether every thread of the process `pid` has
exited. -/
def all_exited (k : Kernel) (pid : Nat) : Bool :=
  (List.range (k.process_pool pid).thread_count.toNat).all
    (fun i => !get_thread ((k.process_pool pid).threads i)
      || (k.thread_pool ((k.process_pool pid).threads i)).exited)

/-- The block of the scheduling loop that wakes the parent of the exited
process `pid`; `mem` is the memory, into which the exit code is written. -/
def wake_parent (k : Kernel) (mem : Mem) (pid : Nat) : Kernel × Mem :=
  let ppid := (k.process_pool pid).parent
  let wt := (k.process_pool ppid).waiting_tid
  if ppid = PID_INVALID then (k, mem)
  else if !get_process ppid then (k, mem)
  else if wt = TID_INVALID then (k, mem)
  else if (k.process_pool ppid).waiting_for = 2 ^ 32 - 1
      ∨ (k.process_pool ppid).waiting_for = (k.process_pool pid).pid then
    let k1 :=
      if get_thread wt then
        set_ctx k wt (ctx_set_arg (k.thread_pool wt).ctx.ctx 0 (k.process_pool pid).pid)
      else k
    let mem1 :=
      if get_thread wt ∧ (k.process_pool ppid).waiting_exit_code_ptr ≠ 0 then
        write32 mem (k.process_pool ppid).waiting_exit_code_ptr
          (to_u32 (k.process_pool pid).exit_code)
      else mem
    let k2 := ready_enqueue k1 wt
    let p1 : process_t :=
      { k2.process_pool ppid with waiting_tid := TID_INVALID, waiting_for := PID_INVALID,
                                  waiting_exit_code_ptr := 0 }
    let k3 : Kernel := { k2 with process_pool := Function.update k2.process_pool ppid p1 }
    let p2 : process_t := { k3.process_pool pid with parent := PID_INVALID }
    ({ k3 with process_pool := Function.update k3.process_pool pid p2 }, mem1)
  else (k, mem)

/-- The branch `if (id == SYS_EXIT)` of the scheduling loop for the thread
`tid`, whose first argument is `a0`. -/
def exit_branch (k : Kernel) (mem : Mem) (tid a0 : Nat) : Kernel × Mem :=
  let pid := (k.thread_pool tid).pid
  let t1 : thread_t := { k.thread_pool tid with exit_code := to_i32 a0, exited := true }
  let k1 : Kernel := { k with thread_pool := Function.update k.thread_pool tid t1 }
  let p1 : process_t :=
    { k1.process_pool pid with exited := true, exit_code := (k1.thread_pool tid).exit_code }
  if all_exited k1 pid then
    wake_parent { k1 with process_pool := Function.update k1.process_pool pid p1 } mem pid
  else (k1, mem)

/-- The kernel state that the branch of `SYS_EXIT` leaves, as an argument
for `handle_ecall` and `sched_iter`; `mem` is the memory at the trap. -/
def ch8_on_exit (mem : Mem) (k : Kernel) (tid a0 : Nat) : Kernel := (exit_branch k mem tid a0).1

/-- The kernel state at the tests of `id` in the scheduling loop: the system
call has been dispatched and `signal_handle` has run. -/
def at_branch (rest : syscall_table Kernel) (k : Kernel) (uctx : context_t) : Kernel :=
  let r := dispatched rest k uctx
  let tid := (ready_dequeue k).1
  let pid := (r.2.thread_pool tid).pid
  let s := signal_handle (r.2.process_pool pid).signal (r.2.thread_pool tid).ctx.ctx
  set_ctx (set_signal r.2 pid s.2.1) tid s.2.2

/-- The memory that an iteration of the scheduling loop leaves when the
thread at the head of the ready queue traps with the system call `exit`. -/
def exit_mem (rest : syscall_table Kernel) (k : Kernel) (mem : Mem) (uctx : context_t) : Mem :=
  (exit_branch (at_branch rest k uctx) mem (ready_dequeue k).1 (ctx_arg uctx 0)).2

/-! ### `do_waitpid` -/

/-- The test of the loop of `do_waitpid` for the slot `i`: the process is a
child of the caller `ppid` that the argument `pid` selects. -/
def waitpid_match (k : Kernel) (ppid : Nat) (pid : Int) (i : Nat) : Bool :=
  decide ((k.process_pool i).parent = (k.process_pool ppid).pid)
    && (decide (pid = -1) || decide (to_u32 pid = i))

/-- The lines of `do_waitpid` that record the pending wait of the process
`ppid` and its thread `tid`. -/
def waitpid_record (k : Kernel) (ppid tid : Nat) (pid : Int) (kcode : Nat) : Kernel :=
  let p1 : process_t :=
    { k.process_pool ppid with waiting_for := to_u32 pid,
                               waiting_tid := (k.thread_pool tid).tid,
                               waiting_exit_code_ptr := kcode }
  { k with process_pool := Function.update k.process_pool ppid p1 }

/-- The line `child->parent = PID_INVALID` of `do_waitpid` for the slot
`i`. -/
def waitpid_release (k : Kernel) (i : Nat) : Kernel :=
  let p1 : process_t := { k.process_pool i with parent := PID_INVALID }
  { k with process_pool := Function.update k.process_pool i p1 }

/-- The function `do_waitpid` after the translation of `exit_code` to the
kernel address `kcode`; `ppid` and `tid` are the calling process and
thread. -/
def waitpid_scan (k : Kernel) (mem : Mem) (ppid tid : Nat) (pid : Int) (kcode : Nat) :
    Int × Kernel × Mem :=
  ((List.range MAX_PROCS).find?
    (fun i => waitpid_match k ppid pid i && (k.process_pool i).exited)).elim
    (if (List.range MAX_PROCS).any (fun i => waitpid_match k ppid pid i) then
      (-2, waitpid_record k ppid tid pid kcode, mem)
    else (-1, k, mem))
    (fun i => ((i : Int), waitpid_release k i,
      if kcode ≠ 0 then write32 mem kcode (to_u32 (k.process_pool i).exit_code) else mem))

/-- The function `do_waitpid`.  The result is `none` when `exit_code` is not
`NULL` and `proc->as` is `NULL`, which `as_translate` dereferences. -/
def do_waitpid {F : Type} (args : Nat → Nat) (w : World F) : Option (Int × World F) :=
  if !current_process w.kernel || !get_thread w.kernel.current_tid then some (-1, w)
  else if args 1 = 0 then
    some ((waitpid_scan w.kernel w.machine.mem
        (w.kernel.thread_pool w.kernel.current_tid).pid w.kernel.current_tid
        (to_i64 (args 0)) 0).1,
      ⟨(waitpid_scan w.kernel w.machine.mem
        (w.kernel.thread_pool w.kernel.current_tid).pid w.kernel.current_tid
        (to_i64 (args 0)) 0).2.1, w.machine, w.fs⟩)
  else
    (w.kernel.process_pool (w.kernel.thread_pool w.kernel.current_tid).pid).as.map
      (fun as =>
        ((waitpid_scan w.kernel w.machine.mem
          (w.kernel.thread_pool w.kernel.current_tid).pid w.kernel.current_tid
          (to_i64 (args 0)) (as_translate w.machine as (args 1) (PTE_W ||| PTE_V))).1,
        ⟨(waitpid_scan w.kernel w.machine.mem
            (w.kernel.thread_pool w.kernel.current_tid).pid w.kernel.current_tid
            (to_i64 (args 0)) (as_translate w.machine as (args 1) (PTE_W ||| PTE_V))).2.1,
          { w.machine with
            mem := (waitpid_scan w.kernel w.machine.mem
              (w.kernel.thread_pool w.kernel.current_tid).pid w.kernel.current_tid
              (to_i64 (args 0)) (as_translate w.machine as (args 1) (PTE_W ||| PTE_V))).2.2 },
          w.fs⟩))

/-! ### Scenarios -/

/-- A process `pid` with the single thread `pid`, the parent `parent`, the
signal manager `sm` and the pending-wait record `waiting_tid`, `ptr` (for
any child). -/
def demo_proc (pid parent : Nat) (sm : signal_manager_t) (waiting_tid ptr : Nat) : process_t :=
  { process_zero with pid := pid, signal := sm, threads := fun _ => pid, thread_count := 1,
                      parent := parent, waiting_for := PID_INVALID,
                      waiting_tid := waiting_tid, waiting_exit_code_ptr := ptr }

/-- A kernel with three processes of one thread each (thread `i` belongs to
process `i`): process 0, its child process 1, and process 2, a child of
process 1 with the signal manager `sm`.  Process 1 has the pending-wait
record `waiting_tid`, `ptr`; the ready queue holds the thread ids `ready`. -/
def demo_family (sm : signal_manager_t) (waiting_tid ptr : Nat) (ready : List Nat) : Kernel :=
  ⟨fun tid => demo_thread tid tid,
    fun p =>
      if p = 0 then demo_proc 0 PID_INVALID signal_init TID_INVALID 0
      else if p = 1 then demo_proc 1 0 signal_init waiting_tid ptr
      else if p = 2 then demo_proc 2 1 sm TID_INVALID 0
      else process_zero,
    fun i => ready.getD i 0, 0, ready.length, ready.length, TID_INVALID, 3, 3⟩

end Ch8

end Ucore

namespace Ucore

/-! ### Scenarios on the process manager, continued -/

/-- A process manager with process 0, its child 1, and the children 2 and 3
of process 1. -/
def demo_tree : proc_manager_t :=
  pm_add (pm_add (pm_add (pm_add pm_init 0 1 PID_INVALID) 1 2 0) 2 3 1) 3 4 1

/-- The state of `demo_tree` after process 2 has exited with code 7, with
process 1 current. -/
def demo_orphans : proc_manager_t :=
  set_current (pm_exit_current (set_current demo_tree 2) 7) 1

namespace Ch8

/-! ### Scenarios on the scheduling loop, continued -/

/-- Two iterations of the scheduling loop: the thread that runs first traps
with `u1` and the cause `c1`, the next one with `u2` and `c2`. -/
def two_iters (rest : syscall_table Kernel) (on_exit : Kernel → Nat → Nat → Kernel)
    (k : Kernel) (u1 : context_t) (c1 : Nat) (u2 : context_t) (c2 : Nat) : Option Kernel :=
  (sched_iter rest on_exit k u1 c1).bind (fun k1 => sched_iter rest on_exit k1 u2 c2)

/-- What the scenarios on `demo_family` observe of a process: the flag
`exited`, the exit code and the pending-wait record. -/
structure proc_obs where
  exited : Bool
  exit_code : Int
  waiting_tid : Nat
  waiting_exit_code_ptr : Nat
deriving DecidableEq, Repr

/-- What the scenarios observe of a thread: the flag `exited` and `a0`. -/
structure thread_obs where
  exited : Bool
  a0 : Nat
deriving DecidableEq, Repr

/-- What the scenarios on `demo_family` observe of a kernel state: the ready
queue, the processes 1 and 2 and the threads 1 and 2. -/
structure family_obs where
  ready : List Nat
  proc1 : proc_obs
  proc2 : proc_obs
  thread1 : thread_obs
  thread2 : thread_obs
deriving DecidableEq, Repr

/-- The observation of the process `p`. -/
def proc_view (k : Kernel) (p : Nat) : proc_obs :=
  ⟨(k.process_pool p).exited, (k.process_pool p).exit_code, (k.process_pool p).waiting_tid,
    (k.process_pool p).waiting_exit_code_ptr⟩

/-- The observation of the thread `t`. -/
def thread_view (k : Kernel) (t : Nat) : thread_obs :=
  ⟨(k.thread_pool t).exited, ctx_arg (k.thread_pool t).ctx.ctx 0⟩

/-- The observation of a kernel state in the scenarios on `demo_family`. -/
def family_view (k : Kernel) : family_obs :=
  ⟨ready_list k, proc_view k 1, proc_view k 2, thread_view k 1, thread_view k 2⟩

/-- What the scenarios on `demo_mutex_kernel` observe of a kernel state: the
ready queue, the threads 0 and 1, the flag `exited` of process 0, and the
waiters of the mutex in slot 3 of process 0. -/
structure mutex_obs where
  ready : List Nat
  thread0 : thread_obs
  thread1 : thread_obs
  proc_exited : Bool
  waiters : Option (List Nat)
deriving DecidableEq, Repr

/-- The observation of a kernel state in the scenarios on
`demo_mutex_kernel`. -/
def mutex_view (k : Kernel) : mutex_obs :=
  ⟨ready_list k, thread_view k 0, thread_view k 1, (k.process_pool 0).exited,
    ((k.process_pool 0).mutexes 3).map (fun m => wq_list m.wait_queue)⟩

/-- The return value of `waitpid(-1, NULL)` that thread 1 of process 1 calls
in the iteration after the one that leaves the kernel state `k`. -/
def waitpid_after (k : Option Kernel) : Option Int :=
  k.bind (fun k1 =>
    (do_waitpid (fun i => ctx_arg (demo_trap 0x400200 SYS_WAITPID (2 ^ 64 - 1) 0) i)
      (⟨at_dispatch k1 (demo_trap 0x400200 SYS_WAITPID (2 ^ 64 - 1) 0), demo_machine, ()⟩ :
        World Unit)).map (fun r => r.1))

end Ch8

end Ucore

namespace Ucore

/-- The system call numbers of `syscall.h`, in the order of the header. -/
def defined_ids : List Nat :=
  [56, 57, 63, 64, 93, 124, 113, 172, 220, 221, 260, 129, 134, 135, 139, 1000, 1001, 1002,
    1010, 1011, 1012, 1020, 1021, 1022, 1030, 1031, 1032]

/-- The function pointer that the `case` of `syscall_dispatch` for the
number `id` tests and calls; `none` for a number without a `case`. -/
def handler_of {σ : Type} (tbl : syscall_table σ) (id : Nat) : handler_t σ :=
  if id = 56 then tbl.sys_open
  else if id = 57 then tbl.sys_close
  else if id = 63 then tbl.sys_read
  else if id = 64 then tbl.sys_write
  else if id = 93 then tbl.sys_exit
  else if id = 124 then tbl.sys_sched_yield
  else if id = 113 then tbl.sys_clock_gettime
  else if id = 172 then tbl.sys_getpid
  else if id = 220 then tbl.sys_fork
  else if id = 221 then tbl.sys_exec
  else if id = 260 then tbl.sys_waitpid
  else if id = 129 then tbl.sys_kill
  else if id = 134 then tbl.sys_sigaction
  else if id = 135 then tbl.sys_sigprocmask
  else if id = 139 then tbl.sys_sigreturn
  else if id = 1000 then tbl.sys_thread_create
  else if id = 1001 then tbl.sys_gettid
  else if id = 1002 then tbl.sys_waittid
  else if id = 1010 then tbl.sys_mutex_create
  else if id = 1011 then tbl.sys_mutex_lock
  else if id = 1012 then tbl.sys_mutex_unlock
  else if id = 1020 then tbl.sys_semaphore_create
  else if id = 1021 then tbl.sys_semaphore_up
  else if id = 1022 then tbl.sys_semaphore_down
  else if id = 1030 then tbl.sys_condvar_create
  else if id = 1031 then tbl.sys_condvar_signal
  else if id = 1032 then tbl.sys_condvar_wait
  else none

/-- A handler table over a call counter: only `getpid` and `exit` are set;
each registered handler counts its calls. -/
def demo_counting_table : syscall_table Nat :=
  { sys_open := none, sys_close := none, sys_read := none, sys_write := none,
    sys_exit := some (fun _ n => (7, n + 1)), sys_sched_yield := none,
    sys_clock_gettime := none, sys_getpid := some (fun _ n => (42, n + 1)),
    sys_fork := none, sys_exec := none, sys_waitpid := none, sys_kill := none,
    sys_sigaction := none, sys_sigprocmask := none, sys_sigreturn := none,
    sys_thread_create := none, sys_gettid := none, sys_waittid := none,
    sys_mutex_create := none, sys_mutex_lock := none, sys_mutex_unlock := none,
    sys_semaphore_create := none, sys_semaphore_up := none, sys_semaphore_down := none,
    sys_condvar_create := none, sys_condvar_signal := none, sys_condvar_wait := none }

/-! ## Inputs and specification predicates for the loader -/

/-- The conditions on a header that the description of `elf_check` lists: at
least 64 bytes, the magic bytes `0x7f 'E' 'L' 'F'`, the class byte `2`,
`e_type = ET_EXEC` and `e_machine = EM_RISCV`. -/
def elf_header_ok (mem : Mem) (data len : Nat) : Prop :=
  64 ≤ len ∧ mem data % 256 = 0x7f ∧ mem (data + 1) % 256 = 0x45 ∧ mem (data + 2) % 256 = 0x4c
    ∧ mem (data + 3) % 256 = 0x46 ∧ mem (data + 4) % 256 = 2
    ∧ read16 mem (data + 16) = 2 ∧ read16 mem (data + 18) = 243

/-- The bytes of an executable of 128 bytes: entry `0x10000`, one program
header at offset 64, of type `PT_LOAD`, flags `PF_R | PF_X`, file offset 120,
virtual address `0x10000`, 8 bytes in the file and in memory. -/
def demo_elf_image (i : Nat) : Nat :=
  if i = 0 then 0x7f else if i = 1 then 0x45 else if i = 2 then 0x4c else if i = 3 then 0x46
  else if i = 4 then 2 else if i = 16 then 2 else if i = 18 then 243 else if i = 26 then 1
  else if i = 32 then 64 else if i = 56 then 1 else if i = 64 then 1 else if i = 68 then 5
  else if i = 72 then 120 else if i = 82 then 1 else if i = 96 then 8 else if i = 104 then 8
  else if 120 ≤ i ∧ i < 128 then 0x13 else 0

/-- A machine whose heap `[0x100000, 0x102000)` is used up by an address
space (its root table is the zero page at `0x101000`), with the image
`demo_elf_image` at `0x200000`. -/
def demo_elf_machine : Machine :=
  ⟨fun a => if 0x200000 ≤ a then demo_elf_image (a - 0x200000) else 0,
    0x100000, 0x102000, 0x102000, false⟩

/-- The address space of `demo_elf_machine`. -/
def demo_elf_as : address_space_t := ⟨0x101000⟩

/-! ## Specification predicates for the signal tables -/

/-- The managers `sm` and `sm2` differ at most outside the `MAX_SIG + 1`
entries of the arrays `actions` and `action_set`. -/
def table_agree (sm sm2 : signal_manager_t) : Prop :=
  sm2.received = sm.received ∧ sm2.mask = sm.mask ∧ sm2.handling = sm.handling ∧
    ∀ i, i ≤ MAX_SIG → sm2.actions i = sm.actions i ∧ sm2.action_set i = sm.action_set i

/-- The pending set holds signals `1 .. MAX_SIG` only, as `do_kill` leaves
it. -/
def pending_in_range (sm : signal_manager_t) : Prop :=
  ∀ i, sigset_contains sm.received i = true → 1 ≤ i ∧ i ≤ MAX_SIG

/-- The manager `demo_handlers` with other values in the places that follow
the `MAX_SIG + 1` entries of its arrays. -/
def demo_handlers_beyond (bits : Nat) : signal_manager_t :=
  { demo_handlers bits with
    actions := fun i => if i ≤ MAX_SIG then ⟨0x1000, 0⟩ else ⟨0x2000, 5⟩,
    action_set := fun i => decide (i ≤ MAX_SIG) }

/-! ## Sequences of semaphore operations -/

/-- A call on a semaphore: `sem_down(sem, tid)` or `sem_up(sem)`. -/
inductive sem_op where
  | down (tid : Nat)
  | up
deriving DecidableEq, Repr

/-- Runs the calls `ops`, first to last, on a semaphore, and keeps the list
of the specification next to it: the callers that `sem_down` has told to
block (it returned `false`) and that no `sem_up` has returned since, in
blocking order. -/
def sem_trace : semaphore_t × List Nat → List sem_op → semaphore_t × List Nat
  | s, [] => s
  | s, sem_op.down t :: ops =>
    sem_trace ((sem_down s.1 t).2, if (sem_down s.1 t).1 then s.2 else s.2 ++ [t]) ops
  | s, sem_op.up :: ops => sem_trace ((sem_up s.1).2, s.2.erase (sem_up s.1).1) ops

/-- What the calls `ops` add to the counter of a semaphore: `-1` for each
`sem_down`, `+1` for each `sem_up`. -/
def sem_net : List sem_op → Int
  | [] => 0
  | sem_op.down _ :: ops => sem_net ops - 1
  | sem_op.up :: ops => sem_net ops + 1

/-- What the calls of `sem_up` in `ops` return, in order. -/
def sem_ups : semaphore_t → List sem_op → List Nat
  | _, [] => []
  | s, sem_op.down t :: ops => sem_ups (sem_down s t).2 ops
  | s, sem_op.up :: ops => (sem_up s).1 :: sem_ups (sem_up s).2 ops

/-- The calls `sem_down(sem, 0)`, …, `sem_down(sem, 16)`, by 17 threads. -/
def demo_downs : List sem_op := (List.range 17).map sem_op.down

end Ucore

namespace Ucore

namespace Ch8

/-! ### Scenarios on the process pool -/

/-- The kernel state after boot: process 0 (the init process, made by
`create_process_from_elf`) with its thread 0 running; the other slots of the
pools are as the zero-initialised arrays hold them. -/
def demo_boot : Kernel :=
  ⟨fun tid => demo_thread tid 0,
    fun p => if p = 0 then demo_proc 0 PID_INVALID signal_init TID_INVALID 0 else process_zero,
    fun _ => 0, 0, 0, 0, 0, 1, 1⟩

/-- What the scenarios observe of a call of `do_waitpid` or `do_fork`: the
return value and the pending-wait record of process `p`. -/
def call_view {F : Type} (p : Nat) (r : Option (Int × World F)) : Option (Int × proc_obs) :=
  r.map (fun x => (x.1, proc_view x.2.kernel p))

end Ch8

end Ucore

namespace Ucore

/-! ## `easy-fs/easy_fs.c`

The block device is a function from block numbers to blocks; `read_block`
copies a block of it and `write_block` stores one.  There is one device, so
the field `block_device` of a cache slot is not kept.  A pointer into the
array `cache` of a slot of `g_block_cache` is the index of the slot and a
byte offset: it keeps pointing at the slot when the slot is given to another
block. -/

namespace EasyFs

/-- The constant `BLOCK_SZ`. -/
def BLOCK_SZ : Nat := 512

/-- The constant `EFS_MAGIC`. -/
def EFS_MAGIC : Nat := 0x3b800001

/-- The constant `INODE_DIRECT_COUNT`. -/
def INODE_DIRECT_COUNT : Nat := 28

/-- The constant `NAME_LENGTH_LIMIT`. -/
def NAME_LENGTH_LIMIT : Nat := 27

/-- The constant `DIRENT_SZ`. -/
def DIRENT_SZ : Nat := 32

/-- The constant `BLOCK_BITS`. -/
def BLOCK_BITS : Nat := BLOCK_SZ * 8

/-- The constant `INODE_INDIRECT1_COUNT`. -/
def INODE_INDIRECT1_COUNT : Nat := BLOCK_SZ / 4

/-- The constant `BLOCK_CACHE_SIZE` of `easy_fs.h`. -/
def BLOCK_CACHE_SIZE : Nat := 16

/-- The value `INODE_FILE` of `inode_type_t`. -/
def INODE_FILE : Nat := 0

/-- The value `INODE_DIRECTORY` of `inode_type_t`. -/
def INODE_DIRECTORY : Nat := 1

/-- The flag `O_RDONLY`. -/
def O_RDONLY : Nat := 0

/-- The flag `O_WRONLY`. -/
def O_WRONLY : Nat := 1 <<< 0

/-- The flag `O_RDWR`. -/
def O_RDWR : Nat := 1 <<< 1

/-- The flag `O_CREATE`. -/
def O_CREATE : Nat := 1 <<< 9

/-- The flag `O_TRUNC`. -/
def O_TRUNC : Nat := 1 <<< 10

/-- The struct `block_cache_t`; `cache` gives the byte at each offset. -/
structure block_cache_t where
  cache : Nat → Nat
  block_id : Nat
  modified : Bool
  valid : Bool

/-- The state that the file system acts on: the blocks of the device, the
array `g_block_cache` and the heap of the kernel. -/
structure fs_state where
  disk : Nat → Nat → Nat
  block_cache : Nat → block_cache_t
  heap : Machine

/-- The struct `bitmap_t`. -/
structure bitmap_t where
  start_block_id : Nat
  blocks : Nat
deriving DecidableEq, Repr

/-- The struct `easy_fs_t`. -/
structure easy_fs_t where
  inode_bitmap : bitmap_t
  data_bitmap : bitmap_t
  inode_area_start_block : Nat
  data_area_start_block : Nat
deriving DecidableEq, Repr

/-- The struct `inode_t`; the file system it points to is passed along. -/
structure inode_t where
  block_id : Nat
  block_offset : Nat
deriving DecidableEq, Repr

/-- The struct `file_handle_t`; `inode` is `none` for `NULL`. -/
structure file_handle_t where
  inode : Option inode_t
  readable : Bool
  writable : Bool
  offset : Nat
deriving DecidableEq, Repr

/-- A pointer `disk_inode_t *` into the array `cache` of the slot `slot` of
`g_block_cache`, at the byte offset `off`. -/
structure di_ptr where
  slot : Nat
  off : Nat
deriving DecidableEq, Repr

/-- The function `block_cache_init`. -/
def block_cache_init (s : fs_state) : fs_state :=
  { s with block_cache := fun _ => ⟨fun _ => 0, 0, false, false⟩ }

/-- The function `block_cache_sync` for the slot `i`. -/
def block_cache_sync (s : fs_state) (i : Nat) : fs_state :=
  if (s.block_cache i).valid && (s.block_cache i).modified then
    { s with disk := (Function.update s.disk (s.block_cache i).block_id (s.block_cache i).cache),
             block_cache := (Function.update s.block_cache i
               { s.block_cache i with modified := false }) }
  else s

/-- The function `block_cache_sync_all`, over `cap` slots. -/
def block_cache_sync_all (cap : Nat) (s : fs_state) : fs_state :=
  (List.range cap).foldl block_cache_sync s

/-- The function `get_block_cache` over `cap` slots (`BLOCK_CACHE_SIZE`);
returns the index of the slot. -/
def get_block_cache (cap : Nat) (s : fs_state) (block_id : Nat) : Nat × fs_state :=
  match (List.range cap).find?
      (fun i => (s.block_cache i).valid && (s.block_cache i).block_id == block_id) with
  | some i => (i, s)
  | none =>
    match (List.range cap).find? (fun i => !(s.block_cache i).valid) with
    | some i =>
      (i, { s with block_cache := (Function.update s.block_cache i
              ⟨s.disk block_id, block_id, false, true⟩) })
    | none =>
      let s1 := block_cache_sync s 0
      (0, { s1 with block_cache := (Function.update s1.block_cache 0
              ⟨s1.disk block_id, block_id, false, (s1.block_cache 0).valid⟩) })

/-- A store into the array `cache` of the slot `i`: its bytes become `c`. -/
def set_cache (s : fs_state) (i : Nat) (c : Nat → Nat) : fs_state :=
  { s with block_cache := (Function.update s.block_cache i
      { s.block_cache i with cache := c }) }

/-- The assignment `cache->modified = true` for the slot `i`. -/
def set_modified (s : fs_state) (i : Nat) : fs_state :=
  { s with block_cache := (Function.update s.block_cache i
      { s.block_cache i with modified := true }) }

/-- The function `ctz64`. -/
def ctz64 (x : Nat) : Nat :=
  if x = 0 then 64
  else
    let st := find_first_step 2 0x3 (find_first_step 4 0xF (find_first_step 8 0xFF
      (find_first_step 16 0xFFFF (find_first_step 32 0xFFFFFFFF (0, x)))))
    if st.2 &&& 0x1 = 0 then st.1 + 1 else st.1

/-- The inner loop of `bitmap_alloc`: the first of the 64 words of the block
that is not `~0ULL`. -/
def bitmap_scan (cache : Nat → Nat) : Option Nat :=
  (List.range 64).find? (fun p => read64 cache (8 * p) != 2 ^ 64 - 1)

/-- The outer loop of `bitmap_alloc` from the block `block_id` of the bitmap,
with `n` blocks remaining; `ctz` counts the trailing zeros. -/
def bitmap_alloc_loop (cap : Nat) (ctz : Nat → Nat) (bm : bitmap_t) :
    Nat → Nat → fs_state → Int × fs_state
  | 0, _, s => (-1, s)
  | n + 1, block_id, s =>
    match get_block_cache cap s (block_id + bm.start_block_id) with
    | (i, s1) =>
      match bitmap_scan (s1.block_cache i).cache with
      | some p =>
        let w := read64 (s1.block_cache i).cache (8 * p)
        let inner_pos := ctz (not64 w)
        (((block_id * BLOCK_BITS + p * 64 + inner_pos : Nat) : Int),
          set_modified (set_cache s1 i
            (write64 (s1.block_cache i).cache (8 * p) (w ||| ((1 <<< inner_pos) % 2 ^ 64)))) i)
      | none => bitmap_alloc_loop cap ctz bm n (block_id + 1) s1

/-- The function `bitmap_alloc`. -/
def bitmap_alloc (cap : Nat) (ctz : Nat → Nat) (bm : bitmap_t) (s : fs_state) :
    Int × fs_state :=
  bitmap_alloc_loop cap ctz bm bm.blocks 0 s

/-- The function `bitmap_dealloc`. -/
def bitmap_dealloc (cap : Nat) (bm : bitmap_t) (s : fs_state) (bit : Nat) : fs_state :=
  match get_block_cache cap s ((bit / BLOCK_BITS + bm.start_block_id) % 2 ^ 64) with
  | (i, s1) =>
    set_modified (set_cache s1 i
      (write64 (s1.block_cache i).cache (8 * (bit % BLOCK_BITS / 64))
        (read64 (s1.block_cache i).cache (8 * (bit % BLOCK_BITS / 64))
          &&& not64 ((1 <<< (bit % 64)) % 2 ^ 64)))) i

/-- The function `disk_inode_data_blocks`, in `uint32_t`. -/
def disk_inode_data_blocks (size : Nat) : Nat := (size + BLOCK_SZ - 1) % 2 ^ 32 / BLOCK_SZ

/-- The field `size` of the `disk_inode_t` at `di`. -/
def di_size (s : fs_state) (di : di_ptr) : Nat := read32 (s.block_cache di.slot).cache di.off

/-- The field `direct[i]` of the `disk_inode_t` at `di`. -/
def di_direct (s : fs_state) (di : di_ptr) (i : Nat) : Nat :=
  read32 (s.block_cache di.slot).cache (di.off + 4 + 4 * i)

/-- The field `indirect1` of the `disk_inode_t` at `di`. -/
def di_indirect1 (s : fs_state) (di : di_ptr) : Nat :=
  read32 (s.block_cache di.slot).cache (di.off + 4 + 4 * INODE_DIRECT_COUNT)

/-- The field `indirect2` of the `disk_inode_t` at `di`. -/
def di_indirect2 (s : fs_state) (di : di_ptr) : Nat :=
  read32 (s.block_cache di.slot).cache (di.off + 8 + 4 * INODE_DIRECT_COUNT)

/-- The field `type_` of the `disk_inode_t` at `di`. -/
def di_type (s : fs_state) (di : di_ptr) : Nat :=
  read32 (s.block_cache di.slot).cache (di.off + 12 + 4 * INODE_DIRECT_COUNT)

/-- A store of a `uint32_t` at the offset `off` of the array `cache` of the
slot `slot`. -/
def store32 (s : fs_state) (slot off v : Nat) : fs_state :=
  set_cache s slot (write32 (s.block_cache slot).cache off v)

/-- The function `disk_inode_get_block_id`. -/
def disk_inode_get_block_id (cap : Nat) (s : fs_state) (di : di_ptr) (inner_id : Nat) :
    Nat × fs_state :=
  if inner_id < INODE_DIRECT_COUNT then (di_direct s di inner_id, s)
  else if inner_id < INODE_DIRECT_COUNT + INODE_INDIRECT1_COUNT then
    match get_block_cache cap s (di_indirect1 s di) with
    | (c, s1) => (read32 (s1.block_cache c).cache (4 * (inner_id - INODE_DIRECT_COUNT)), s1)
  else
    match get_block_cache cap s (di_indirect2 s di) with
    | (c2, s1) =>
      match get_block_cache cap s1
          (read32 (s1.block_cache c2).cache
            (4 * ((inner_id - INODE_DIRECT_COUNT - INODE_INDIRECT1_COUNT)
              / INODE_INDIRECT1_COUNT))) with
      | (c1, s2) =>
        (read32 (s2.block_cache c1).cache
          (4 * ((inner_id - INODE_DIRECT_COUNT - INODE_INDIRECT1_COUNT)
            % INODE_INDIRECT1_COUNT)), s2)

/-- The loop of `disk_inode_read_at`, with `n` iterations at most: `start`,
`start_block` and `read_size` are the loop variables, `buf` the buffer. -/
def read_at_loop (cap : Nat) (di : di_ptr) (end_ : Nat) :
    Nat → Nat → Nat → Nat → (Nat → Nat) → fs_state → Nat × (Nat → Nat) × fs_state
  | 0, _, _, read_size, buf, s => (read_size, buf, s)
  | n + 1, start, start_block, read_size, buf, s =>
    if start < end_ then
      let ecb := if (start / BLOCK_SZ + 1) * BLOCK_SZ > end_ then end_
        else (start / BLOCK_SZ + 1) * BLOCK_SZ
      match disk_inode_get_block_id cap s di start_block with
      | (block_id, s1) =>
        match get_block_cache cap s1 block_id with
        | (c, s2) =>
          let buf1 := memcpy buf read_size
            (fun j => (s2.block_cache c).cache (start % BLOCK_SZ + j)) (ecb - start)
          if ecb = end_ then (read_size + (ecb - start), buf1, s2)
          else read_at_loop cap di end_ n ecb (start_block + 1) (read_size + (ecb - start))
            buf1 s2
    else (read_size, buf, s)

/-- The function `disk_inode_read_at`; returns the count and the buffer. -/
def disk_inode_read_at (cap : Nat) (s : fs_state) (di : di_ptr) (offset : Nat)
    (buf : Nat → Nat) (len : Nat) : Nat × (Nat → Nat) × fs_state :=
  let end_ := if (offset + len) % 2 ^ 64 > di_size s di then di_size s di
    else (offset + len) % 2 ^ 64
  if offset ≥ end_ then (0, buf, s)
  else read_at_loop cap di end_ (len + 1) offset (offset / BLOCK_SZ) 0 buf s

/-- The loop of `disk_inode_write_at`, with `n` iterations at most. -/
def write_at_loop (cap : Nat) (di : di_ptr) (end_ : Nat) (buf : Nat → Nat) :
    Nat → Nat → Nat → Nat → fs_state → Nat × fs_state
  | 0, _, _, write_size, s => (write_size, s)
  | n + 1, start, start_block, write_size, s =>
    if start < end_ then
      let ecb := if (start / BLOCK_SZ + 1) * BLOCK_SZ > end_ then end_
        else (start / BLOCK_SZ + 1) * BLOCK_SZ
      match disk_inode_get_block_id cap s di start_block with
      | (block_id, s1) =>
        match get_block_cache cap s1 block_id with
        | (c, s2) =>
          let s3 := set_modified (set_cache s2 c
            (memcpy (s2.block_cache c).cache (start % BLOCK_SZ)
              (fun j => buf (write_size + j)) (ecb - start))) c
          if ecb = end_ then (write_size + (ecb - start), s3)
          else write_at_loop cap di end_ buf n ecb (start_block + 1)
            (write_size + (ecb - start)) s3
    else (write_size, s)

/-- The function `disk_inode_write_at`. -/
def disk_inode_write_at (cap : Nat) (s : fs_state) (di : di_ptr) (offset : Nat)
    (buf : Nat → Nat) (len : Nat) : Nat × fs_state :=
  let end_ := if (offset + len) % 2 ^ 64 > di_size s di then di_size s di
    else (offset + len) % 2 ^ 64
  if offset ≥ end_ then (0, s)
  else write_at_loop cap di end_ buf (len + 1) offset (offset / BLOCK_SZ) 0 s

/-- The function `efs_get_disk_inode_pos`; returns `block_id` and `offset`. -/
def efs_get_disk_inode_pos (fs : easy_fs_t) (inode_id : Nat) : Nat × Nat :=
  ((fs.inode_area_start_block + inode_id / (BLOCK_SZ / 128)) % 2 ^ 32,
    inode_id % (BLOCK_SZ / 128) * 128)

/-- The function `efs_alloc_inode`; the result is converted to `uint32_t`. -/
def efs_alloc_inode (cap : Nat) (ctz : Nat → Nat) (fs : easy_fs_t) (s : fs_state) :
    Nat × fs_state :=
  match bitmap_alloc cap ctz fs.inode_bitmap s with
  | (bit, s1) => (to_u32 bit, s1)

/-- The function `efs_alloc_data`. -/
def efs_alloc_data (cap : Nat) (ctz : Nat → Nat) (fs : easy_fs_t) (s : fs_state) :
    Nat × fs_state :=
  match bitmap_alloc cap ctz fs.data_bitmap s with
  | (bit, s1) => (to_u32 ((fs.data_area_start_block : Int) + bit), s1)

/-- The function `efs_dealloc_data`. -/
def efs_dealloc_data (cap : Nat) (fs : easy_fs_t) (s : fs_state) (block_id : Nat) : fs_state :=
  match get_block_cache cap s block_id with
  | (c, s1) =>
    bitmap_dealloc cap fs.data_bitmap
      (set_modified (set_cache s1 c (memset (s1.block_cache c).cache 0 0 BLOCK_SZ)) c)
      ((block_id + 2 ^ 32 - fs.data_area_start_block) % 2 ^ 32)

/-- The loop `while (current < new_blocks && current < INODE_DIRECT_COUNT)`
of `disk_inode_increase_size`, with `n` iterations at most; returns
`current`. -/
def fill_direct (cap : Nat) (ctz : Nat → Nat) (fs : easy_fs_t) (di : di_ptr) (new_blocks : Nat) :
    Nat → Nat → fs_state → Nat × fs_state
  | 0, current, s => (current, s)
  | n + 1, current, s =>
    if current < new_blocks ∧ current < INODE_DIRECT_COUNT then
      match efs_alloc_data cap ctz fs s with
      | (b, s1) =>
        fill_direct cap ctz fs di new_blocks n (current + 1)
          (store32 s1 di.slot (di.off + 4 + 4 * current) b)
    else (current, s)

/-- The loop that fills the block `indirect1` in `disk_inode_increase_size`,
with `n` iterations at most; `c` is the slot of the pointer `cache`. -/
def fill_indirect1 (cap : Nat) (ctz : Nat → Nat) (fs : easy_fs_t) (c new_blocks : Nat) :
    Nat → Nat → fs_state → Nat × fs_state
  | 0, current, s => (current, s)
  | n + 1, current, s =>
    if current < new_blocks ∧ current < INODE_DIRECT_COUNT + INODE_INDIRECT1_COUNT then
      match efs_alloc_data cap ctz fs s with
      | (b, s1) =>
        fill_indirect1 cap ctz fs c new_blocks n (current + 1)
          (set_modified (store32 s1 c (4 * (current - INODE_DIRECT_COUNT)) b) c)
    else (current, s)

/-- The function `disk_inode_increase_size` of `easy_fs.c`. -/
def disk_inode_increase_size (fs : easy_fs_t) (s : fs_state) (di : di_ptr) (new_size : Nat) :
    fs_state :=
  if new_size ≤ di_size s di then s
  else
    let old_blocks := disk_inode_data_blocks (di_size s di)
    let new_blocks := disk_inode_data_blocks new_size
    match fill_direct BLOCK_CACHE_SIZE ctz64 fs di new_blocks INODE_DIRECT_COUNT old_blocks
        (store32 s di.slot di.off new_size) with
    | (current, s1) =>
      if current ≥ new_blocks then s1
      else
        let s2 :=
          if old_blocks < INODE_DIRECT_COUNT ∧ new_blocks > INODE_DIRECT_COUNT then
            match efs_alloc_data BLOCK_CACHE_SIZE ctz64 fs s1 with
            | (b, s') => store32 s' di.slot (di.off + 4 + 4 * INODE_DIRECT_COUNT) b
          else s1
        if current < INODE_DIRECT_COUNT + INODE_INDIRECT1_COUNT then
          match get_block_cache BLOCK_CACHE_SIZE s2 (di_indirect1 s2 di) with
          | (c, s3) =>
            (fill_indirect1 BLOCK_CACHE_SIZE ctz64 fs c new_blocks INODE_INDIRECT1_COUNT
              current s3).2
        else s2

/-- The function `efs_open`; `none` is `NULL`.  An `easy_fs_t` takes 48
bytes. -/
def efs_open (s : fs_state) : Option easy_fs_t × fs_state :=
  match get_block_cache BLOCK_CACHE_SIZE s 0 with
  | (c, s1) =>
    let sb := (s1.block_cache c).cache
    if read32 sb 0 ≠ EFS_MAGIC then (none, s1)
    else
      match heap_alloc s1.heap 48 8 with
      | (p, h) =>
        if p = 0 then (none, { s1 with heap := h })
        else
          let inode_total_blocks := (read32 sb 8 + read32 sb 12) % 2 ^ 32
          (some ⟨⟨1, read32 sb 8⟩, ⟨(1 + inode_total_blocks) % 2 ^ 32, read32 sb 16⟩,
              (1 + read32 sb 8) % 2 ^ 32,
              (1 + inode_total_blocks + read32 sb 16) % 2 ^ 32⟩,
            { s1 with heap := h })

/-- The function `efs_root_inode`; an `inode_t` takes 24 bytes. -/
def efs_root_inode (fs : easy_fs_t) (s : fs_state) : Option inode_t × fs_state :=
  match heap_alloc s.heap 24 8 with
  | (p, h) =>
    if p = 0 then (none, { s with heap := h })
    else
      (some ⟨(efs_get_disk_inode_pos fs 0).1, (efs_get_disk_inode_pos fs 0).2⟩,
        { s with heap := h })

/-- The function `inode_get_disk_inode`. -/
def inode_get_disk_inode (cap : Nat) (s : fs_state) (inode : inode_t) : di_ptr × fs_state :=
  match get_block_cache cap s inode.block_id with
  | (c, s1) => (⟨c, inode.block_offset⟩, s1)

/-- The function `inode_mark_modified`. -/
def inode_mark_modified (cap : Nat) (s : fs_state) (inode : inode_t) : fs_state :=
  match get_block_cache cap s inode.block_id with
  | (c, s1) => set_modified s1 c

/-- The string that `strcmp` reads at the start of a `dir_entry_t`: the
bytes before the first `0` (of the 32 bytes of the entry). -/
def dirent_name (dirent : Nat → Nat) : List Nat :=
  ((List.range DIRENT_SZ).map (fun i => dirent i % 256)).takeWhile (fun b => b != 0)

/-- The loop of `inode_find_inode_id` from the entry `i`, with `n` entries
remaining; `name` holds the bytes of the string before its end and `dirent`
the bytes of the local variable `dirent`. -/
def find_loop (di : di_ptr) (name : List Nat) :
    Nat → Nat → (Nat → Nat) → fs_state → Int × fs_state
  | 0, _, _, s => (-1, s)
  | n + 1, i, dirent, s =>
    match disk_inode_read_at BLOCK_CACHE_SIZE s di (i * DIRENT_SZ) dirent DIRENT_SZ with
    | (_, dirent1, s1) =>
      if dirent_name dirent1 = name then (to_i32 (read32 dirent1 28), s1)
      else find_loop di name n (i + 1) dirent1 s1

/-- The function `inode_find_inode_id`; the local variable `dirent`, which
the code does not initialise, holds zeros at the start. -/
def inode_find_inode_id (s : fs_state) (name : List Nat) (di : di_ptr) : Int × fs_state :=
  if di_type s di ≠ INODE_DIRECTORY then (-1, s)
  else find_loop di name (di_size s di / DIRENT_SZ) 0 (fun _ => 0) s

/-- The function `inode_find`. -/
def inode_find (fs : easy_fs_t) (s : fs_state) (dir : inode_t) (name : List Nat) :
    Option inode_t × fs_state :=
  match inode_get_disk_inode BLOCK_CACHE_SIZE s dir with
  | (di, s1) =>
    match inode_find_inode_id s1 name di with
    | (inode_id, s2) =>
      if inode_id < 0 then (none, s2)
      else
        match heap_alloc s2.heap 24 8 with
        | (p, h) =>
          if p = 0 then (none, { s2 with heap := h })
          else
            (some ⟨(efs_get_disk_inode_pos fs (to_u32 inode_id)).1,
                (efs_get_disk_inode_pos fs (to_u32 inode_id)).2⟩,
              { s2 with heap := h })

/-- The `dir_entry_t` that `inode_create` builds with `memset`, `strncpy`
and the store of `inode_number`. -/
def make_dirent (name : List Nat) (inode_number : Nat) (i : Nat) : Nat :=
  if i < NAME_LENGTH_LIMIT then name.getD i 0
  else if i < NAME_LENGTH_LIMIT + 1 then 0
  else inode_number / 256 ^ (i - (NAME_LENGTH_LIMIT + 1)) % 256

/-- The function `inode_create`. -/
def inode_create (fs : easy_fs_t) (s : fs_state) (dir : inode_t) (name : List Nat) :
    Option inode_t × fs_state :=
  match efs_alloc_inode BLOCK_CACHE_SIZE ctz64 fs s with
  | (new_inode_id, s1) =>
    let pos := efs_get_disk_inode_pos fs new_inode_id
    match get_block_cache BLOCK_CACHE_SIZE s1 pos.1 with
    | (nc, s2) =>
      let s3 := set_modified
        (store32 (set_cache s2 nc (memset (s2.block_cache nc).cache pos.2 0 128)) nc
          (pos.2 + 12 + 4 * INODE_DIRECT_COUNT) INODE_FILE) nc
      match inode_get_disk_inode BLOCK_CACHE_SIZE s3 dir with
      | (dir_di, s4) =>
        let file_count := di_size s4 dir_di / DIRENT_SZ
        let new_size := (file_count + 1) * DIRENT_SZ % 2 ^ 32
        let s5 := disk_inode_increase_size fs s4 dir_di new_size
        let s6 := inode_mark_modified BLOCK_CACHE_SIZE s5 dir
        match disk_inode_write_at BLOCK_CACHE_SIZE s6 dir_di (file_count * DIRENT_SZ)
            (make_dirent name new_inode_id) DIRENT_SZ with
        | (_, s7) =>
          let s8 := block_cache_sync_all BLOCK_CACHE_SIZE s7
          match heap_alloc s8.heap 24 8 with
          | (p, h) =>
            if p = 0 then (none, { s8 with heap := h })
            else (some ⟨pos.1, pos.2⟩, { s8 with heap := h })

/-- The function `inode_read_at`. -/
def inode_read_at (s : fs_state) (inode : inode_t) (offset : Nat) (buf : Nat → Nat)
    (len : Nat) : Nat × (Nat → Nat) × fs_state :=
  match inode_get_disk_inode BLOCK_CACHE_SIZE s inode with
  | (di, s1) => disk_inode_read_at BLOCK_CACHE_SIZE s1 di offset buf len

/-- The function `inode_write_at` of `easy_fs.c`. -/
def inode_write_at (fs : easy_fs_t) (s : fs_state) (inode : inode_t) (offset : Nat)
    (buf : Nat → Nat) (len : Nat) : Nat × fs_state :=
  match inode_get_disk_inode BLOCK_CACHE_SIZE s inode with
  | (di, s1) =>
    let new_size := (offset + len) % 2 ^ 32
    let s2 :=
      if new_size > di_size s1 di then
        inode_mark_modified BLOCK_CACHE_SIZE (disk_inode_increase_size fs s1 di new_size) inode
      else s1
    match disk_inode_write_at BLOCK_CACHE_SIZE s2 di offset buf len with
    | (result, s3) => (result, block_cache_sync_all BLOCK_CACHE_SIZE s3)

/-- The first loop of `inode_clear`, over the direct blocks, from `i`. -/
def clear_direct (fs : easy_fs_t) (di : di_ptr) (data_blocks : Nat) :
    Nat → Nat → fs_state → fs_state
  | 0, _, s => s
  | n + 1, i, s =>
    if i < data_blocks ∧ i < INODE_DIRECT_COUNT then
      if di_direct s di i ≠ 0 then
        clear_direct fs di data_blocks n (i + 1)
          (store32 (efs_dealloc_data BLOCK_CACHE_SIZE fs s (di_direct s di i)) di.slot
            (di.off + 4 + 4 * i) 0)
      else clear_direct fs di data_blocks n (i + 1) s
    else s

/-- The loop of `inode_clear` over the entries of the block `indirect1`,
from `i`; `c` is the slot of the pointer `cache`. -/
def clear_indirect1 (fs : easy_fs_t) (c data_blocks : Nat) : Nat → Nat → fs_state → fs_state
  | 0, _, s => s
  | n + 1, i, s =>
    if i < (data_blocks + 2 ^ 32 - INODE_DIRECT_COUNT) % 2 ^ 32 ∧ i < INODE_INDIRECT1_COUNT then
      if read32 (s.block_cache c).cache (4 * i) ≠ 0 then
        clear_indirect1 fs c data_blocks n (i + 1)
          (efs_dealloc_data BLOCK_CACHE_SIZE fs s (read32 (s.block_cache c).cache (4 * i)))
      else clear_indirect1 fs c data_blocks n (i + 1) s
    else s

/-- The function `inode_clear`. -/
def inode_clear (fs : easy_fs_t) (s : fs_state) (inode : inode_t) : fs_state :=
  match inode_get_disk_inode BLOCK_CACHE_SIZE s inode with
  | (di, s1) =>
    let data_blocks := disk_inode_data_blocks (di_size s1 di)
    let s2 := clear_direct fs di data_blocks INODE_DIRECT_COUNT 0 s1
    let s3 :=
      if di_indirect1 s2 di ≠ 0 ∧ data_blocks > INODE_DIRECT_COUNT then
        match get_block_cache BLOCK_CACHE_SIZE s2 (di_indirect1 s2 di) with
        | (c, s') =>
          let s'' := clear_indirect1 fs c data_blocks INODE_INDIRECT1_COUNT 0 s'
          store32 (efs_dealloc_data BLOCK_CACHE_SIZE fs s'' (di_indirect1 s'' di)) di.slot
            (di.off + 4 + 4 * INODE_DIRECT_COUNT) 0
      else s2
    block_cache_sync_all BLOCK_CACHE_SIZE
      (inode_mark_modified BLOCK_CACHE_SIZE (store32 s3 di.slot di.off 0) inode)

/-- The function `inode_size`. -/
def inode_size (s : fs_state) (inode : inode_t) : Nat × fs_state :=
  match inode_get_disk_inode BLOCK_CACHE_SIZE s inode with
  | (di, s1) => (di_size s1 di, s1)

/-- The end of `file_open`, from `heap_free(root, ...)` on: the handle is
allocated; a `file_handle_t` takes 24 bytes. -/
def file_open_handle (s : fs_state) (inode : Option inode_t) (readable writable : Bool) :
    Option file_handle_t × fs_state :=
  match inode with
  | none => (none, s)
  | some ino =>
    match heap_alloc s.heap 24 8 with
    | (p, h) =>
      if p = 0 then (none, { s with heap := h })
      else (some ⟨some ino, readable, writable, 0⟩, { s with heap := h })

/-- The function `file_open`; `path` holds the bytes of the string before
its end. -/
def file_open (fs : easy_fs_t) (s : fs_state) (path : List Nat) (flags : Nat) :
    Option file_handle_t × fs_state :=
  match efs_root_inode fs s with
  | (none, s1) => (none, s1)
  | (some root, s1) =>
    let readable := decide (flags = O_RDONLY) || decide (flags &&& O_RDWR ≠ 0)
    let writable := decide (flags &&& O_WRONLY ≠ 0) || decide (flags &&& O_RDWR ≠ 0)
    match inode_find fs s1 root path with
    | (inode, s2) =>
      if flags &&& O_CREATE ≠ 0 then
        match inode with
        | some ino => file_open_handle (inode_clear fs s2 ino) (some ino) readable writable
        | none =>
          match inode_create fs s2 root path with
          | (created, s3) => file_open_handle s3 created readable writable
      else
        match inode with
        | none => (none, s2)
        | some ino =>
          if flags &&& O_TRUNC ≠ 0 then
            file_open_handle (inode_clear fs s2 ino) (some ino) readable writable
          else file_open_handle s2 (some ino) readable writable

/-- The function `file_close`: `heap_free` does nothing. -/
def file_close (s : fs_state) (_fh : Option file_handle_t) : fs_state := s

/-- The function `file_read`; returns the count (`-1` on failure), the
buffer and the handle. -/
def file_read (s : fs_state) (fh : Option file_handle_t) (buf : Nat → Nat) (count : Nat) :
    Int × (Nat → Nat) × Option file_handle_t × fs_state :=
  match fh with
  | none => (-1, buf, none, s)
  | some h =>
    match h.inode with
    | none => (-1, buf, fh, s)
    | some ino =>
      if !h.readable then (-1, buf, fh, s)
      else
        match inode_read_at s ino h.offset buf count with
        | (read, buf1, s1) =>
          (to_i64 read, buf1, some { h with offset := (h.offset + read) % 2 ^ 64 }, s1)

/-- The function `file_write`; returns the count (`-1` on failure) and the
handle. -/
def file_write (fs : easy_fs_t) (s : fs_state) (fh : Option file_handle_t) (buf : Nat → Nat)
    (count : Nat) : Int × Option file_handle_t × fs_state :=
  match fh with
  | none => (-1, none, s)
  | some h =>
    match h.inode with
    | none => (-1, fh, s)
    | some ino =>
      if !h.writable then (-1, fh, s)
      else
        match inode_write_at fs s ino h.offset buf count with
        | (written, s1) =>
          (to_i64 written, some { h with offset := (h.offset + written) % 2 ^ 64 }, s1)

end EasyFs

end Ucore

namespace Ucore

/-! ## `fs-pack/fs_pack.c`

The block cache, the bitmaps and `disk_inode_get_block_id` of the image
packer are those of `easy_fs.c`, over 256 cache slots and with
`__builtin_ctzll` for `ctz64`. -/

namespace FsPack

/-- The constant `BLOCK_CACHE_SIZE` of `fs_pack.c`. -/
def BLOCK_CACHE_SIZE : Nat := 256

/-- The builtin `__builtin_ctzll`: the number of trailing zero bits of a
word that is not zero. -/
def ctzll (x : Nat) : Nat := ((List.range 64).find? (fun i => x.testBit i)).getD 64

/-- The loop that fills the blocks below `indirect2` in
`disk_inode_increase_size`, with `n` iterations at most; `c2` is the slot of
the pointer `cache2`. -/
def fill_indirect2 (fs : EasyFs.easy_fs_t) (c2 new_blocks : Nat) :
    Nat → Nat → EasyFs.fs_state → EasyFs.fs_state
  | 0, _, s => s
  | n + 1, current, s =>
    if current < new_blocks then
      let idx := current - EasyFs.INODE_DIRECT_COUNT - EasyFs.INODE_INDIRECT1_COUNT
      let a := idx / EasyFs.INODE_INDIRECT1_COUNT
      let b := idx % EasyFs.INODE_INDIRECT1_COUNT
      let s1 :=
        if b = 0 then
          match EasyFs.efs_alloc_data BLOCK_CACHE_SIZE ctzll fs s with
          | (blk, s') => EasyFs.set_modified (EasyFs.store32 s' c2 (4 * a) blk) c2
        else s
      match EasyFs.get_block_cache BLOCK_CACHE_SIZE s1
          (read32 (s1.block_cache c2).cache (4 * a)) with
      | (c1, s2) =>
        match EasyFs.efs_alloc_data BLOCK_CACHE_SIZE ctzll fs s2 with
        | (blk, s3) =>
          fill_indirect2 fs c2 new_blocks n (current + 1)
            (EasyFs.set_modified (EasyFs.store32 s3 c1 (4 * b) blk) c1)
    else s

/-- The function `disk_inode_increase_size` of `fs_pack.c`. -/
def disk_inode_increase_size (fs : EasyFs.easy_fs_t) (s : EasyFs.fs_state)
    (di : EasyFs.di_ptr) (new_size : Nat) : EasyFs.fs_state :=
  if new_size ≤ EasyFs.di_size s di then s
  else
    let old_blocks := EasyFs.disk_inode_data_blocks (EasyFs.di_size s di)
    let new_blocks := EasyFs.disk_inode_data_blocks new_size
    match EasyFs.fill_direct BLOCK_CACHE_SIZE ctzll fs di new_blocks EasyFs.INODE_DIRECT_COUNT
        old_blocks (EasyFs.store32 s di.slot di.off new_size) with
    | (current, s1) =>
      if current ≥ new_blocks then s1
      else
        let s2 :=
          if old_blocks ≤ EasyFs.INODE_DIRECT_COUNT ∧ new_blocks > EasyFs.INODE_DIRECT_COUNT then
            match EasyFs.efs_alloc_data BLOCK_CACHE_SIZE ctzll fs s1 with
            | (b, s') =>
              EasyFs.store32 s' di.slot (di.off + 4 + 4 * EasyFs.INODE_DIRECT_COUNT) b
          else s1
        let r :=
          if current < EasyFs.INODE_DIRECT_COUNT + EasyFs.INODE_INDIRECT1_COUNT then
            match EasyFs.get_block_cache BLOCK_CACHE_SIZE s2 (EasyFs.di_indirect1 s2 di) with
            | (c, s3) =>
              EasyFs.fill_indirect1 BLOCK_CACHE_SIZE ctzll fs c new_blocks
                EasyFs.INODE_INDIRECT1_COUNT current s3
          else (current, s2)
        if r.1 ≥ new_blocks then r.2
        else
          let s4 :=
            if old_blocks ≤ EasyFs.INODE_DIRECT_COUNT + EasyFs.INODE_INDIRECT1_COUNT
                ∧ new_blocks > EasyFs.INODE_DIRECT_COUNT + EasyFs.INODE_INDIRECT1_COUNT then
              match EasyFs.efs_alloc_data BLOCK_CACHE_SIZE ctzll fs r.2 with
              | (b, s') =>
                EasyFs.store32 s' di.slot (di.off + 8 + 4 * EasyFs.INODE_DIRECT_COUNT) b
            else r.2
          match EasyFs.get_block_cache BLOCK_CACHE_SIZE s4 (EasyFs.di_indirect2 s4 di) with
          | (c2, s5) => fill_indirect2 fs c2 new_blocks new_blocks r.1 s5

end FsPack

namespace EasyFs

/-! ### Scenarios -/

/-- The byte `o` of a little-endian `uint32_t` that holds `v`. -/
def le32 (v o : Nat) : Nat := v / 256 ^ o % 256

/-- A disk image of 4096 blocks: the super block, one block of inode bitmap,
four blocks of inodes from block 2, one block of data bitmap (block 6), and
the data area from block 7.  The root directory (inode 0, one data block,
block 7) holds the files `a` (inode 1), `b` (inode 2) and `c` (inode 3); `a`
has 13 blocks (blocks 8 to 20), `b` and `c` are empty. -/
def demo_image (b o : Nat) : Nat :=
  if b = 0 then
    if o < 4 then le32 EFS_MAGIC o else if o < 8 then le32 4096 (o - 4)
    else if o < 12 then le32 1 (o - 8) else if o < 16 then le32 4 (o - 12)
    else if o < 20 then le32 1 (o - 16) else if o < 24 then le32 4089 (o - 20) else 0
  else if b = 1 then (if o = 0 then 0x0F else 0)
  else if b = 2 then
    if o = 0 then 96 else if o = 4 then 7 else if o = 124 then 1
    else if o = 129 then 0x1A
    else if 132 ≤ o ∧ o < 132 + 4 * 13 ∧ o % 4 = 0 then 8 + (o - 132) / 4
    else 0
  else if b = 6 then (if o = 0 then 0xFF else if o = 1 then 0x3F else 0)
  else if b = 7 then
    if o = 0 then 0x61 else if o = 28 then 1 else if o = 32 then 0x62 else if o = 60 then 2
    else if o = 64 then 0x63 else if o = 92 then 3 else 0
  else if 8 ≤ b ∧ b ≤ 20 then (b + o) % 251
  else 0

/-- The state at boot: the device holds `demo_image`, the block cache is
cleared and the heap is that of `demo_machine`. -/
def demo_boot_state : fs_state :=
  block_cache_init ⟨demo_image, fun _ => ⟨fun _ => 0, 0, false, false⟩, demo_machine⟩

/-- The calls `file_open(name, O_RDONLY)`, `file_read` of `count` bytes and
`file_close`; returns what `file_read` returns and the state. -/
def read_file (fs : easy_fs_t) (s : fs_state) (name : List Nat) (count : Nat) :
    Int × (Nat → Nat) × fs_state :=
  match file_open fs s name O_RDONLY with
  | (fh, s1) =>
    match file_read s1 fh (fun _ => 0) count with
    | (r, buf, fh1, s2) => (r, buf, file_close s2 fh1)

/-- The calls of `filetest_simple.c`: `file_open(name, O_CREATE | O_WRONLY)`,
`file_write` of the `n` bytes `data`, `file_close`, `file_open(name,
O_RDONLY)`, `file_read` with a buffer of `count` bytes and `file_close`.
Returns whether the two calls of `file_open` succeed, what `file_write` and
`file_read` return, and the bytes that `file_read` has put into the buffer. -/
def round_trip (fs : easy_fs_t) (s : fs_state) (name data : List Nat) (count : Nat) :
    Bool × Bool × Int × Int × List Nat :=
  match file_open fs s name (O_CREATE ||| O_WRONLY) with
  | (fh, s1) =>
    match file_write fs s1 fh (fun i => data.getD i 0) data.length with
    | (w, fh1, s2) =>
      match file_open fs (file_close s2 fh1) name O_RDONLY with
      | (fh2, s3) =>
        match file_read s3 fh2 (fun _ => 0) count with
        | (r, buf, _, _) =>
          (fh.isSome, fh2.isSome, w, r, (List.range r.toNat).map buf)

/-- The bytes of the string `Hello, world!`. -/
def demo_hello : List Nat := [72, 101, 108, 108, 111, 44, 32, 119, 111, 114, 108, 100, 33]

/-- The test of `filetest_simple.c` on the file `f`, right after `efs_open`
at boot. -/
def demo_fresh_trip : Option (Bool × Bool × Int × Int × List Nat) :=
  match efs_open demo_boot_state with
  | (none, _) => none
  | (some fs, s) => some (round_trip fs s [0x66] demo_hello 100)

/-- The test of `filetest_simple.c` on the file `f`, after `efs_open` at boot
and a read of the 13 blocks of the file `a`. -/
def demo_loaded_trip : Option (Bool × Bool × Int × Int × List Nat) :=
  match efs_open demo_boot_state with
  | (none, _) => none
  | (some fs, s) => some (round_trip fs (read_file fs s [0x61] (13 * 512)).2.2 [0x66] demo_hello 100)

/-- What the scenarios observe of the device after the write of the file
`f`: the field `size` of inode 4 (block 3, offset 0), its field `direct[0]`,
and the first two words of the data bitmap (block 6). -/
structure write_obs where
  written : Int
  size : Nat
  direct0 : Nat
  bitmap0 : Nat
  bitmap1 : Nat
deriving DecidableEq, Repr

/-- The calls `file_open(name, O_CREATE | O_WRONLY)`, `file_write` of the
bytes `data` and `file_close`, and what they leave on the device. -/
def write_file (fs : easy_fs_t) (s : fs_state) (name data : List Nat) : write_obs :=
  match file_open fs s name (O_CREATE ||| O_WRONLY) with
  | (fh, s1) =>
    match file_write fs s1 fh (fun i => data.getD i 0) data.length with
    | (w, _, s2) =>
      ⟨w, read32 (s2.disk 3) 0, read32 (s2.disk 3) 4, read64 (s2.disk 6) 0,
        read64 (s2.disk 6) 8⟩

/-- The write of the test on the file `f` right after `efs_open` at boot. -/
def demo_fresh_write : Option write_obs :=
  match efs_open demo_boot_state with
  | (none, _) => none
  | (some fs, s) => some (write_file fs s [0x66] demo_hello)

/-- The write of the test on the file `f`, after `efs_open` at boot and a
read of the 13 blocks of the file `a`. -/
def demo_loaded_write : Option write_obs :=
  match efs_open demo_boot_state with
  | (none, _) => none
  | (some fs, s) =>
    some (write_file fs (read_file fs s [0x61] (13 * 512)).2.2 [0x66] demo_hello)

/-- The blocks that the cache slots hold, for the valid slots. -/
def cached_blocks (s : fs_state) : List Nat :=
  ((List.range BLOCK_CACHE_SIZE).filter (fun i => (s.block_cache i).valid)).map
    (fun i => (s.block_cache i).block_id)

/-- The blocks in the cache after `efs_open` at boot and a read of the 13
blocks of the file `a`. -/
def demo_loaded_cache : List Nat :=
  match efs_open demo_boot_state with
  | (none, _) => []
  | (some fs, s) => cached_blocks (read_file fs s [0x61] (13 * 512)).2.2

/-- The file system that `efs_open` finds on `demo_image`. -/
def demo_fs : easy_fs_t := ⟨⟨1, 1⟩, ⟨6, 1⟩, 2, 7⟩

/-- The image `demo_image` with a file `a` of `n ≤ 28` blocks (blocks 8 to
`7 + n`, all in `direct`). -/
def demo_image_blocks (n b o : Nat) : Nat :=
  if b = 2 then
    if o = 0 then 96 else if o = 4 then 7 else if o = 124 then 1
    else if 128 ≤ o ∧ o < 132 then le32 (n * 512) (o - 128)
    else if 132 ≤ o ∧ o < 132 + 4 * n ∧ o % 4 = 0 then 8 + (o - 132) / 4
    else 0
  else if b = 6 then (if o < 8 then le32 (2 ^ (n + 1) - 1) o else 0)
  else demo_image b o

/-- What the scenarios observe of the device after the growth of the file
`a` (inode 1: block 2, offset 128): the fields `size` and `indirect1`, the
block that `disk_inode_get_block_id` finds for the index 28, the block that
the bit 29 of the data bitmap stands for when this bit is set, and the field
`magic` of the super block. -/
structure grow_obs where
  size : Nat
  indirect1 : Nat
  block28 : Nat
  bitmap : Nat
  magic : Nat
deriving DecidableEq, Repr

/-- The observation of a state after `block_cache_sync_all`; `cap` is the
number of cache slots. -/
def grow_view (cap : Nat) (s : fs_state) : grow_obs :=
  match inode_get_disk_inode cap (block_cache_sync_all cap s) ⟨2, 128⟩ with
  | (di, s1) =>
    ⟨di_size s1 di, di_indirect1 s1 di, (disk_inode_get_block_id cap s1 di 28).1,
      read64 (s1.disk 6) 0, read32 (s1.disk 0) 0⟩

/-- The growth of the file `a` of `n` blocks to `new_size` bytes by the
kernel: `inode_get_disk_inode`, `disk_inode_increase_size` of `easy_fs.c` and
`inode_mark_modified`, as in `inode_write_at`, from a cleared cache. -/
def kernel_grow (n new_size : Nat) : grow_obs :=
  match inode_get_disk_inode BLOCK_CACHE_SIZE
      (block_cache_init ⟨demo_image_blocks n, fun _ => ⟨fun _ => 0, 0, false, false⟩,
        demo_machine⟩) ⟨2, 128⟩ with
  | (di, s1) =>
    grow_view BLOCK_CACHE_SIZE
      (inode_mark_modified BLOCK_CACHE_SIZE (disk_inode_increase_size demo_fs s1 di new_size)
        ⟨2, 128⟩)

/-- The same growth by the image packer: `disk_inode_increase_size` of
`fs_pack.c`, over 256 cache slots. -/
def packer_grow (n new_size : Nat) : grow_obs :=
  match inode_get_disk_inode FsPack.BLOCK_CACHE_SIZE
      (block_cache_init ⟨demo_image_blocks n, fun _ => ⟨fun _ => 0, 0, false, false⟩,
        demo_machine⟩) ⟨2, 128⟩ with
  | (di, s1) =>
    grow_view FsPack.BLOCK_CACHE_SIZE
      (inode_mark_modified FsPack.BLOCK_CACHE_SIZE
        (FsPack.disk_inode_increase_size demo_fs s1 di new_size) ⟨2, 128⟩)

end EasyFs

end Ucore

namespace Ucore

/-! ## `ch8/main.c`: the handlers that act on memory and on the devices

These handlers are functions on a `World`: the pools, the machine (heap and
physical memory) and the devices.  A store through a pointer that
`as_translate` returned goes to the memory of the machine; the pools are
state apart from it.  The result is `none` where the code dereferences `NULL`
or indexes an array below `0`, and where a wait for the console does not
end. -/

namespace Ch8

/-- What the handlers of `ch8/main.c` use of the devices, whose state is `F`
(the file system with its block device, the console, the timer): the calls
`file_open(g_fs, kpath, flags)`, `file_close(fh)`, `file_read(fh, kbuf, count)`
and `file_write(fh, kbuf, count)` of the file system, which act on the heap
and on memory too and take the kernel addresses that the code passes (a
pointer they return is `none` when it is `NULL`); `console_putchar`; the loop
`while ((c = console_getchar()) < 0)` of `do_read`, which gives the character
that ends it (`none` when no character ever arrives); and `read_time`. -/
structure io_env (F : Type) where
  file_open : Nat → Nat → Machine × F → Option Nat × (Machine × F)
  file_close : Nat → Machine × F → Machine × F
  file_read : Nat → Nat → Nat → Machine × F → Int × (Machine × F)
  file_write : Nat → Nat → Nat → Machine × F → Int × (Machine × F)
  console_putchar : Nat → F → F
  console_wait : F → Option (Nat × F)
  read_time : F → Nat

/-- The index of the process that `current_process()` points to, when it is
not `NULL`. -/
def current_pid (k : Kernel) : Nat := (k.thread_pool k.current_tid).pid

/-! ### `do_open`, `do_close`, `do_write`, `do_read` -/

/-- The function `do_write` for a descriptor other than `FD_STDOUT` and
`FD_STDERR`; `writable` is the byte at offset 9 of a `file_handle_t`. -/
def write_file {F : Type} (io : io_env F) (w : World F) (fd : Int) (kbuf count : Nat) :
    Int × World F :=
  if fd < 0 ∨ fd ≥ (MAX_FD : Int)
      ∨ (w.kernel.process_pool (current_pid w.kernel)).fd_table fd.toNat = 0 then (-1, w)
  else if
    w.machine.mem ((w.kernel.process_pool (current_pid w.kernel)).fd_table fd.toNat + 9) % 256 = 0
  then (-1, w)
  else
    ((io.file_write ((w.kernel.process_pool (current_pid w.kernel)).fd_table fd.toNat)
        kbuf count (w.machine, w.fs)).1,
      ⟨w.kernel,
        (io.file_write ((w.kernel.process_pool (current_pid w.kernel)).fd_table fd.toNat)
          kbuf count (w.machine, w.fs)).2.1,
        (io.file_write ((w.kernel.process_pool (current_pid w.kernel)).fd_table fd.toNat)
          kbuf count (w.machine, w.fs)).2.2⟩)

/-- The function `do_read` for a descriptor other than `FD_STDIN`;
`readable` is the byte at offset 8 of a `file_handle_t`. -/
def read_file {F : Type} (io : io_env F) (w : World F) (fd : Int) (kbuf count : Nat) :
    Int × World F :=
  if fd < 0 ∨ fd ≥ (MAX_FD : Int)
      ∨ (w.kernel.process_pool (current_pid w.kernel)).fd_table fd.toNat = 0 then (-1, w)
  else if
    w.machine.mem ((w.kernel.process_pool (current_pid w.kernel)).fd_table fd.toNat + 8) % 256 = 0
  then (-1, w)
  else
    ((io.file_read ((w.kernel.process_pool (current_pid w.kernel)).fd_table fd.toNat)
        kbuf count (w.machine, w.fs)).1,
      ⟨w.kernel,
        (io.file_read ((w.kernel.process_pool (current_pid w.kernel)).fd_table fd.toNat)
          kbuf count (w.machine, w.fs)).2.1,
        (io.file_read ((w.kernel.process_pool (current_pid w.kernel)).fd_table fd.toNat)
          kbuf count (w.machine, w.fs)).2.2⟩)

end Ch8

end Ucore

namespace Ucore

theorem and_mask10 (x : Nat) : x &&& 0x3FF = x % 1024 := by
  have := Nat.and_pow_two_sub_one_eq_mod x 10
  simpa using this

theorem and_mask9 (x : Nat) : x &&& 511 = x % 512 := by
  have := Nat.and_pow_two_sub_one_eq_mod x 9
  simpa using this

theorem and_mask12 (x : Nat) : x &&& 4095 = x % 4096 := by
  have := Nat.and_pow_two_sub_one_eq_mod x 12
  simpa using this

theorem and_mask27 (x : Nat) : x &&& 134217727 = x % 134217728 := by
  have := Nat.and_pow_two_sub_one_eq_mod x 27
  simpa using this

theorem and_mask44 (x : Nat) : x &&& 17592186044415 = x % 17592186044416 := by
  have := Nat.and_pow_two_sub_one_eq_mod x 44
  simpa using this

theorem shl_or_eq_add (a b : Nat) (k : Nat) (h : b < 2 ^ k) : (a <<< k) ||| b = a * 2 ^ k + b := by
  rw [Nat.shiftLeft_eq, Nat.mul_comm, ← Nat.mul_add_lt_is_or h]

theorem or_mod_pow (a b k : Nat) : (a ||| b) % 2 ^ k = (a % 2 ^ k) ||| (b % 2 ^ k) := by
  apply Nat.eq_of_testBit_eq
  intro i
  simp only [Nat.testBit_mod_two_pow, Nat.testBit_or]
  by_cases h : i < k <;> simp [h]

theorem and_mod_pow (a b k : Nat) : (a &&& b) % 2 ^ k = (a % 2 ^ k) &&& (b % 2 ^ k) := by
  apply Nat.eq_of_testBit_eq
  intro i
  simp only [Nat.testBit_mod_two_pow, Nat.testBit_and]
  by_cases h : i < k <;> simp [h]

theorem vpn_index_eq (vpn level : Nat) :
    vpn_index vpn level = vpn / 2 ^ (9 * (2 - level)) % 512 := by
  unfold vpn_index VPN_BITS PTE_PER_PAGE
  rw [Nat.shiftRight_eq_div_pow]
  exact and_mask9 _

theorem vpn_index_lt (vpn level : Nat) : vpn_index vpn level < 512 := by
  rw [vpn_index_eq]; omega

theorem vpn_index_0 (vpn : Nat) : vpn_index vpn 0 = vpn / 262144 % 512 := by
  rw [vpn_index_eq]; norm_num
theorem vpn_index_1 (vpn : Nat) : vpn_index vpn 1 = vpn / 512 % 512 := by
  rw [vpn_index_eq]; norm_num
theorem vpn_index_2 (vpn : Nat) : vpn_index vpn 2 = vpn % 512 := by
  rw [vpn_index_eq]; simp

theorem vpn_index_inj (v w : Nat) (h0 : vpn_index v 0 = vpn_index w 0)
    (h1 : vpn_index v 1 = vpn_index w 1) (h2 : vpn_index v 2 = vpn_index w 2) :
    v % 2 ^ 27 = w % 2 ^ 27 := by
  simp only [vpn_index_0] at h0; simp only [vpn_index_1] at h1
  simp only [vpn_index_2] at h2
  omega

theorem vpn_index_congr (v w level : Nat) (h : v % 2 ^ 27 = w % 2 ^ 27) (hl : level ≤ 2) :
    vpn_index v level = vpn_index w level := by
  have : level = 0 ∨ level = 1 ∨ level = 2 := by omega
  rcases this with rfl | rfl | rfl
  · rw [vpn_index_0, vpn_index_0]; omega
  · rw [vpn_index_1, vpn_index_1]; omega
  · rw [vpn_index_2, vpn_index_2]; omega

theorem va_vpn_eq (va : Nat) : va_vpn va = va / 4096 % 2 ^ 27 := by
  unfold va_vpn PAGE_BITS
  rw [Nat.shiftRight_eq_div_pow]
  exact and_mask27 _

theorem va_offset_eq (va : Nat) : va_offset va = va % 4096 := by
  unfold va_offset PAGE_MASK PAGE_SIZE PAGE_BITS
  exact and_mask12 _

theorem pa_ppn_eq (pa : Nat) : pa_ppn pa = pa / 4096 := by
  unfold pa_ppn PAGE_BITS
  rw [Nat.shiftRight_eq_div_pow]

theorem ppn_to_pa_eq (ppn : Nat) : ppn_to_pa ppn = ppn * 4096 % 2 ^ 64 := by
  unfold ppn_to_pa PAGE_BITS
  rw [Nat.shiftLeft_eq]

theorem pte_ppn_eq (pte : Nat) : pte_ppn pte = pte / 1024 % 2 ^ 44 := by
  unfold pte_ppn PPN_BITS
  rw [Nat.shiftRight_eq_div_pow]
  exact and_mask44 _

theorem pte_flags_eq (pte : Nat) : pte_flags pte = pte % 1024 := by
  unfold pte_flags
  exact and_mask10 _

theorem pte_valid_eq (pte : Nat) : pte_valid pte = (pte % 2 != 0) := by
  unfold pte_valid PTE_V
  simp

theorem make_pte_eq (ppn flags : Nat) (hf : flags < 1024) :
    make_pte ppn flags = (ppn * 1024 + flags) % 2 ^ 64 := by
  unfold make_pte
  rw [shl_or_eq_add ppn flags 10 (by simpa using hf)]
  norm_num

theorem pte_flags_make_pte (ppn flags : Nat) :
    pte_flags (make_pte ppn flags) = flags % 1024 := by
  rw [pte_flags_eq]
  unfold make_pte
  have h1 : (ppn <<< 10 ||| flags) % 2 ^ 64 % 1024 = (ppn <<< 10 ||| flags) % 2 ^ 10 := by
    omega
  rw [h1, or_mod_pow, Nat.shiftLeft_eq]
  simp

theorem pte_valid_make_pte (ppn flags : Nat) :
    pte_valid (make_pte ppn flags) = (flags % 2 != 0) := by
  rw [pte_valid_eq]
  have h := pte_flags_make_pte ppn flags
  rw [pte_flags_eq] at h
  have : make_pte ppn flags % 2 = flags % 2 := by omega
  rw [this]

theorem pte_is_leaf_eq (pte : Nat) : pte_is_leaf pte = (pte % 16 / 2 != 0) := by
  unfold pte_is_leaf PTE_R PTE_W PTE_X
  have h : (1 <<< 1 ||| 1 <<< 2 ||| 1 <<< 3 : Nat) = 14 := by decide
  rw [h]
  have h2 : pte &&& 14 = (pte % 16) &&& 14 := by
    have := and_mod_pow pte 14 4
    simp at this
    have hle : pte &&& 14 ≤ 14 := Nat.and_le_right
    omega
  rw [h2]
  have : pte % 16 < 16 := by omega
  generalize pte % 16 = x at *
  interval_cases x <;> decide

theorem pte_is_leaf_make_pte (ppn flags : Nat) :
    pte_is_leaf (make_pte ppn flags) = (flags % 16 / 2 != 0) := by
  rw [pte_is_leaf_eq]
  have h := pte_flags_make_pte ppn flags
  rw [pte_flags_eq] at h
  have : make_pte ppn flags % 16 = flags % 16 := by omega
  rw [this]

theorem pte_ppn_make_pte (ppn flags : Nat) (hp : ppn < 2 ^ 44) (hf : flags < 1024) :
    pte_ppn (make_pte ppn flags) = ppn := by
  rw [pte_ppn_eq, make_pte_eq _ _ hf]
  omega

end Ucore

namespace Ucore

/-! ### Memory access lemmas -/

theorem read64_congr (m1 m2 : Mem) (a : Nat)
    (h : ∀ x, a ≤ x → x < a + 8 → m1 x = m2 x) : read64 m1 a = read64 m2 a := by
  unfold read64
  rw [h a (by omega) (by omega), h (a + 1) (by omega) (by omega),
    h (a + 2) (by omega) (by omega), h (a + 3) (by omega) (by omega),
    h (a + 4) (by omega) (by omega), h (a + 5) (by omega) (by omega),
    h (a + 6) (by omega) (by omega), h (a + 7) (by omega) (by omega)]

theorem read64_lt (m : Mem) (a : Nat) : read64 m a < 2 ^ 64 := by
  unfold read64
  omega

theorem read64_write64_same (m : Mem) (a v : Nat) (hv : v < 2 ^ 64) :
    read64 (write64 m a v) a = v := by
  unfold read64 write64
  have e0 : a - a = 0 := by omega
  have e1 : a + 1 - a = 1 := by omega
  have e2 : a + 2 - a = 2 := by omega
  have e3 : a + 3 - a = 3 := by omega
  have e4 : a + 4 - a = 4 := by omega
  have e5 : a + 5 - a = 5 := by omega
  have e6 : a + 6 - a = 6 := by omega
  have e7 : a + 7 - a = 7 := by omega
  simp only [e0, e1, e2, e3, e4, e5, e6, e7, le_refl, Nat.le_add_right, true_and,
    Nat.lt_add_right_iff_pos, Nat.add_lt_add_iff_left]
  norm_num
  omega

theorem read64_write64_other (m : Mem) (a b v : Nat) (h : b + 8 ≤ a ∨ a + 8 ≤ b) :
    read64 (write64 m a v) b = read64 m b := by
  apply read64_congr
  intro x h1 h2
  unfold write64
  have : ¬ (a ≤ x ∧ x < a + 8) := by omega
  simp [this]

theorem read64_memset_zero (m : Mem) (p n b : Nat) (h1 : p ≤ b) (h2 : b + 8 ≤ p + n) :
    read64 (memset m p 0 n) b = 0 := by
  unfold read64 memset
  have c0 : p ≤ b ∧ b < p + n := by omega
  have c1 : p ≤ b + 1 ∧ b + 1 < p + n := by omega
  have c2 : p ≤ b + 2 ∧ b + 2 < p + n := by omega
  have c3 : p ≤ b + 3 ∧ b + 3 < p + n := by omega
  have c4 : p ≤ b + 4 ∧ b + 4 < p + n := by omega
  have c5 : p ≤ b + 5 ∧ b + 5 < p + n := by omega
  have c6 : p ≤ b + 6 ∧ b + 6 < p + n := by omega
  have c7 : p ≤ b + 7 ∧ b + 7 < p + n := by omega
  simp [c0, c1, c2, c3, c4, c5, c6, c7]

theorem memset_other (m : Mem) (p v n x : Nat) (h : x < p ∨ p + n ≤ x) :
    memset m p v n x = m x := by
  unfold memset
  have : ¬ (p ≤ x ∧ x < p + n) := by omega
  simp [this]

theorem memset_in (m : Mem) (p v n x : Nat) (h1 : p ≤ x) (h2 : x < p + n) :
    memset m p v n x = v := by
  unfold memset
  simp [h1, h2]

theorem memcpy_other (m : Mem) (p : Nat) (s : Nat → Nat) (n x : Nat) (h : x < p ∨ p + n ≤ x) :
    memcpy m p s n x = m x := by
  unfold memcpy
  have : ¬ (p ≤ x ∧ x < p + n) := by omega
  simp [this]

theorem memcpy_in (m : Mem) (p : Nat) (s : Nat → Nat) (n x : Nat) (h1 : p ≤ x) (h2 : x < p + n) :
    memcpy m p s n x = s (x - p) := by
  unfold memcpy
  simp [h1, h2]

theorem write64_other (m : Mem) (a v x : Nat) (h : x < a ∨ a + 8 ≤ x) :
    write64 m a v x = m x := by
  unfold write64
  have : ¬ (a ≤ x ∧ x < a + 8) := by omega
  simp [this]

theorem write8_other (m : Mem) (a v x : Nat) (h : x ≠ a) : write8 m a v x = m x := by
  unfold write8
  simp [h]

theorem pte_valid_zero : pte_valid 0 = false := by decide
theorem make_pte_lt (ppn flags : Nat) : make_pte ppn flags < 2 ^ 64 := by
  unfold make_pte; omega

/-! ### Constants -/

theorem PAGE_SIZE_eq : PAGE_SIZE = 4096 := by decide
theorem PTE_V_eq : PTE_V = 1 := by decide
theorem PTE_U_eq : PTE_U = 16 := by decide
theorem LEVELS_eq : LEVELS = 3 := rfl
theorem PTE_PER_PAGE_eq : PTE_PER_PAGE = 512 := rfl

/-! ### Branch entries -/

theorem branch_valid (p : Nat) : pte_valid (make_pte (pa_ppn p) PTE_V) = true := by
  rw [pte_valid_make_pte, PTE_V_eq]; decide

theorem branch_not_leaf (p : Nat) : pte_is_leaf (make_pte (pa_ppn p) PTE_V) = false := by
  rw [pte_is_leaf_make_pte, PTE_V_eq]; decide

theorem branch_target (p : Nat) (hal : p % 4096 = 0) (hlt : p < 2 ^ 56) :
    ppn_to_pa (pte_ppn (make_pte (pa_ppn p) PTE_V)) = p := by
  rw [pte_ppn_make_pte _ _ (by rw [pa_ppn_eq]; omega) (by rw [PTE_V_eq]; omega),
    ppn_to_pa_eq, pa_ppn_eq]
  omega

theorem branch_flags (p : Nat) : pte_flags (make_pte (pa_ppn p) PTE_V) = PTE_V := by
  rw [pte_flags_make_pte, PTE_V_eq]

/-! ### The allocator -/

theorem and_not_4095 (x : Nat) (h : x < 2 ^ 64) :
    x &&& not64 ((4096 + (2 ^ 64 - 1)) % 2 ^ 64) = x / 4096 * 4096 := by
  have hc : not64 ((4096 + (2 ^ 64 - 1)) % 2 ^ 64) = (2 ^ 52 - 1) <<< 12 := by decide
  have hx : x / 4096 * 4096 = (x >>> 12) <<< 12 := by
    rw [Nat.shiftRight_eq_div_pow, Nat.shiftLeft_eq]
  rw [hc, hx]
  apply Nat.eq_of_testBit_eq
  intro i
  simp only [Nat.testBit_and, Nat.testBit_shiftLeft, Nat.testBit_shiftRight,
    Nat.testBit_two_pow_sub_one]
  by_cases hi : 12 ≤ i
  · have e : 12 + (i - 12) = i := by omega
    simp only [ge_iff_le, hi, decide_True, Bool.true_and, e]
    by_cases h2 : i - 12 < 52
    · simp [h2]
    · have : x.testBit i = false := by
        apply Nat.testBit_lt_two_pow
        calc x < 2 ^ 64 := h
          _ ≤ 2 ^ i := Nat.pow_le_pow_right (by omega) (by omega)
      simp [this]
  · simp [hi]

/-- Page allocation from a heap whose break is below `2 ^ 56`. -/
theorem heap_alloc_page_eq (m : Machine) (size : Nat) (hcur : m.heap_current ≤ 2 ^ 56)
    (hsize : size ≤ 2 ^ 60) :
    heap_alloc m size PAGE_SIZE =
      if (m.heap_current + 4095) / 4096 * 4096 + size > m.heap_end then
        (0, { m with alloc_failed := true })
      else
        ((m.heap_current + 4095) / 4096 * 4096,
          { m with heap_current := (m.heap_current + 4095) / 4096 * 4096 + size,
                   alloc_failed := m.alloc_failed ||
                     ((m.heap_current + 4095) / 4096 * 4096 == 0) }) := by
  unfold heap_alloc
  rw [PAGE_SIZE_eq]
  have h1 : (m.heap_current + 4096 + (2 ^ 64 - 1)) % 2 ^ 64 = m.heap_current + 4095 := by omega
  rw [h1, and_not_4095 _ (by omega)]
  have h2 : ((m.heap_current + 4095) / 4096 * 4096 + size) % 2 ^ 64
      = (m.heap_current + 4095) / 4096 * 4096 + size := by omega
  simp only [h2]

end Ucore

namespace Ucore

theorem alloc_page_cases (m : Machine) (h0 : 0 < m.heap_current)
    (hcur : m.heap_current ≤ 2 ^ 56) :
    alloc_page m = (0, ⟨m.mem, m.heap_start, m.heap_end, m.heap_current, true⟩) ∨
    ∃ p, p % 4096 = 0 ∧ m.heap_current ≤ p ∧ p + 4096 ≤ m.heap_end ∧
      alloc_page m = (p, ⟨memset m.mem p 0 4096, m.heap_start, m.heap_end, p + 4096,
        m.alloc_failed⟩) := by
  unfold alloc_page
  rw [heap_alloc_page_eq m PAGE_SIZE hcur (by rw [PAGE_SIZE_eq]; omega), PAGE_SIZE_eq]
  by_cases hc : (m.heap_current + 4095) / 4096 * 4096 + 4096 > m.heap_end
  · left
    simp [hc]
  · right
    refine ⟨(m.heap_current + 4095) / 4096 * 4096, by omega, by omega, by omega, ?_⟩
    have hne : (m.heap_current + 4095) / 4096 * 4096 ≠ 0 := by omega
    simp [hc, hne]

theorem alloc_pages_cases (m : Machine) (count : Nat) (h0 : 0 < m.heap_current)
    (hcur : m.heap_current ≤ 2 ^ 56) (hcount : count ≤ 2 ^ 27) :
    alloc_pages m count = (0, ⟨m.mem, m.heap_start, m.heap_end, m.heap_current, true⟩) ∨
    ∃ p, p % 4096 = 0 ∧ m.heap_current ≤ p ∧ p + count * 4096 ≤ m.heap_end ∧
      alloc_pages m count = (p, ⟨memset m.mem p 0 (count * 4096), m.heap_start, m.heap_end,
        p + count * 4096, m.alloc_failed⟩) := by
  unfold alloc_pages
  have hs : count * PAGE_SIZE % 2 ^ 64 = count * 4096 := by rw [PAGE_SIZE_eq]; omega
  rw [hs, heap_alloc_page_eq m (count * 4096) hcur (by omega)]
  by_cases hc : (m.heap_current + 4095) / 4096 * 4096 + count * 4096 > m.heap_end
  · left
    simp [hc]
  · right
    refine ⟨(m.heap_current + 4095) / 4096 * 4096, by omega, by omega, by omega, ?_⟩
    have hne : (m.heap_current + 4095) / 4096 * 4096 ≠ 0 := by omega
    simp [hc, hne]

end Ucore

namespace Ucore

theorem entry_congr (m1 m2 : Mem) (p i : Nat)
    (h : ∀ a, p + 8 * i ≤ a → a < p + 8 * i + 8 → m1 a = m2 a) :
    entry m1 p i = entry m2 p i := by
  unfold entry
  exact read64_congr _ _ _ h

theorem entry_lt (mem : Mem) (p i : Nat) : entry mem p i < 2 ^ 64 := read64_lt _ _

/-- Entries after a store of one table entry. -/
theorem entry_write64 (mem : Mem) (q k v p i : Nat) (hq : q % 4096 = 0) (hp : p % 4096 = 0)
    (hk : k < 512) (hi : i < 512) (hv : v < 2 ^ 64) :
    entry (write64 mem (q + 8 * k) v) p i = if p = q ∧ i = k then v else entry mem p i := by
  unfold entry
  by_cases h : p = q ∧ i = k
  · rw [if_pos h, h.1, h.2]
    exact read64_write64_same _ _ _ hv
  · rw [if_neg h]
    apply read64_write64_other
    omega

theorem entry_memset_zero (mem : Mem) (p i : Nat) (hi : i < 512) :
    entry (memset mem p 0 4096) p i = 0 := by
  unfold entry
  apply read64_memset_zero <;> omega

theorem PTInv.child_eq {owner m root} (h : PTInv owner m root) {p l x i : Nat}
    (ho : owner p = some (l, x)) (hl : l < 2) (hi : i < 512)
    (hv : pte_valid (entry m.mem p i) = true) :
    entry m.mem p i = make_pte (pa_ppn (child m.mem p i)) PTE_V ∧
      owner (child m.mem p i) = some (l + 1, x * 512 + i) := by
  obtain ⟨q, hq, hoq⟩ := h.branch p l x i ho hl hi hv
  have hqp := h.own_page q _ hoq
  have hc : child m.mem p i = q := by
    unfold child
    rw [hq]
    apply branch_target _ hqp.1
    have := h.cur_le; have := h.end_le
    omega
  rw [hc]
  exact ⟨hq, hoq⟩

/-- The invariant only reads memory below the break. -/
theorem PTInv.frame {owner m root} (h : PTInv owner m root) (m' : Machine)
    (hmem : ∀ a, a < m.heap_current → m'.mem a = m.mem a)
    (hcur : m.heap_current ≤ m'.heap_current) (hle : m'.heap_current ≤ m'.heap_end)
    (hend : m'.heap_end ≤ 2 ^ 56) : PTInv owner m' root := by
  refine ⟨hle, hend, h.own_root, ?_, ?_⟩
  · intro p t hp
    have := h.own_page p t hp
    omega
  · intro p l x i hp hl hi hv
    have hpp := h.own_page p _ hp
    have he : entry m'.mem p i = entry m.mem p i := by
      apply entry_congr
      intro a h1 h2
      apply hmem
      omega
    rw [he] at hv ⊢
    exact h.branch p l x i hp hl hi hv

theorem leaf_frame {owner m root} (h : PTInv owner m root) (mem' : Mem)
    (hmem : ∀ a, a < m.heap_current → mem' a = m.mem a) (v : Nat) :
    leaf mem' root v = leaf m.mem root v := by
  have key : ∀ p t i, owner p = some t → i < 512 → entry mem' p i = entry m.mem p i := by
    intro p t i hp hi
    have hpp := h.own_page p t hp
    apply entry_congr
    intro a h1 h2
    apply hmem
    omega
  unfold leaf
  have hi0 := vpn_index_lt v 0
  have hi1 := vpn_index_lt v 1
  have hi2 := vpn_index_lt v 2
  have e0 := key root _ _ h.own_root hi0
  have c0 : child mem' root (vpn_index v 0) = child m.mem root (vpn_index v 0) := by
    unfold child; rw [e0]
  rw [e0, c0]
  by_cases hv0 : pte_valid (entry m.mem root (vpn_index v 0)) = true
  · simp only [hv0, if_true]
    have ho1 := (h.child_eq h.own_root (by omega) hi0 hv0).2
    have e1 := key _ _ _ ho1 hi1
    have c1 : child mem' (child m.mem root (vpn_index v 0)) (vpn_index v 1)
        = child m.mem (child m.mem root (vpn_index v 0)) (vpn_index v 1) :=
      congrArg (fun e => ppn_to_pa (pte_ppn e)) e1
    rw [e1, c1]
    by_cases hv1 : pte_valid (entry m.mem (child m.mem root (vpn_index v 0)) (vpn_index v 1)) = true
    · simp only [hv1, if_true]
      have ho2 := (h.child_eq ho1 (by omega) hi1 hv1).2
      exact key _ _ _ ho2 hi2
    · simp [hv1]
  · simp [hv0]

theorem as_translate_loop_succ (mem : Mem) (vpn va req n level pt : Nat) :
    as_translate_loop mem vpn va req (n + 1) level pt =
      if pte_valid (entry mem pt (vpn_index vpn level)) = true then
        if pte_is_leaf (entry mem pt (vpn_index vpn level)) = true then
          leaf_result (entry mem pt (vpn_index vpn level)) va req
        else as_translate_loop mem vpn va req n (level + 1) (child mem pt (vpn_index vpn level))
      else 0 := by
  show (if (!pte_valid (entry mem pt (vpn_index vpn level))) = true then 0
    else if pte_is_leaf (entry mem pt (vpn_index vpn level)) = true then
      if (pte_flags (entry mem pt (vpn_index vpn level)) &&& req != req) = true then 0
      else (ppn_to_pa (pte_ppn (entry mem pt (vpn_index vpn level))) + va_offset va) % 2 ^ 64
    else as_translate_loop mem vpn va req n (level + 1)
      (child mem pt (vpn_index vpn level))) = _
  unfold leaf_result
  cases pte_valid (entry mem pt (vpn_index vpn level)) <;>
    cases pte_is_leaf (entry mem pt (vpn_index vpn level)) <;> simp

theorem leaf_result_not_leaf (pte va req : Nat) (h : pte_is_leaf pte = false) :
    leaf_result pte va req = 0 := by
  unfold leaf_result; simp [h]

theorem leaf_result_not_valid (pte va req : Nat) (h : pte_valid pte = false) :
    leaf_result pte va req = 0 := by
  unfold leaf_result; simp [h]

/-- Under the invariant, `as_translate` is decided by the last-level entry. -/
theorem translate_eq_leaf {owner m root} (h : PTInv owner m root) (va req : Nat) :
    as_translate m ⟨root⟩ va req = leaf_result (leaf m.mem root (va_vpn va)) va req := by
  have hi0 := vpn_index_lt (va_vpn va) 0
  have hi1 := vpn_index_lt (va_vpn va) 1
  unfold as_translate leaf
  simp only [LEVELS_eq]
  rw [as_translate_loop_succ]
  by_cases hv0 : pte_valid (entry m.mem root (vpn_index (va_vpn va) 0)) = true
  · obtain ⟨hb0, ho1⟩ := h.child_eq h.own_root (by omega) hi0 hv0
    have hl0 : pte_is_leaf (entry m.mem root (vpn_index (va_vpn va) 0)) = false := by
      rw [hb0]; exact branch_not_leaf _
    simp only [hv0, hl0, if_true, Bool.false_eq_true, if_false]
    rw [as_translate_loop_succ]
    by_cases hv1 : pte_valid (entry m.mem (child m.mem root (vpn_index (va_vpn va) 0))
        (vpn_index (va_vpn va) 1)) = true
    · obtain ⟨hb1, ho2⟩ := h.child_eq ho1 (by omega) hi1 hv1
      have hl1 : pte_is_leaf (entry m.mem (child m.mem root (vpn_index (va_vpn va) 0))
          (vpn_index (va_vpn va) 1)) = false := by
        rw [hb1]; exact branch_not_leaf _
      simp only [Nat.zero_add, hv1, hl1, if_true, Bool.false_eq_true, if_false]
      rw [as_translate_loop_succ]
      simp only [as_translate_loop]
      generalize entry m.mem (child m.mem (child m.mem root
        (vpn_index (va_vpn va) 0)) (vpn_index (va_vpn va) 1))
        (vpn_index (va_vpn va) (1 + 1)) = pte
      by_cases hpv : pte_valid pte = true
      · by_cases hpl : pte_is_leaf pte = true
        · simp [hpv, hpl]
        · simp only [Bool.not_eq_true] at hpl
          simp [hpv, hpl, leaf_result_not_leaf]
      · simp only [Bool.not_eq_true] at hpv
        simp [hpv, leaf_result_not_valid]
    · simp only [Bool.not_eq_true] at hv1
      simp [hv1, leaf_result_not_valid, pte_valid_zero]
  · simp only [Bool.not_eq_true] at hv0
    simp [hv0, leaf_result_not_valid, pte_valid_zero]

end Ucore

namespace Ucore

/-- A fresh zeroed page `p` is linked below entry `idx` of the table `pt`. -/
theorem install_branch {owner : Nat → Option (Nat × Nat)} {m : Machine} {root : Nat}
    (h : PTInv owner m root) {pt l x idx p : Nat}
    (ho : owner pt = some (l, x)) (hl : l < 2) (hidx : idx < 512)
    (hinv : pte_valid (entry m.mem pt idx) = false)
    (hal : p % 4096 = 0) (hge : m.heap_current ≤ p) (hle : p + 4096 ≤ m.heap_end)
    (fl : Bool) (m1 : Machine)
    (hm1 : m1 = ⟨write64 (memset m.mem p 0 4096) (pt + 8 * idx) (make_pte (pa_ppn p) PTE_V),
      m.heap_start, m.heap_end, p + 4096, fl⟩) :
    PTInv (Function.update owner p (some (l + 1, x * 512 + idx))) m1 root ∧
    (∀ v, leaf m1.mem root v = leaf m.mem root v) ∧
    pte_valid (entry m1.mem pt idx) = true ∧ child m1.mem pt idx = p ∧
    (∀ p' t i', owner p' = some t → i' < 512 →
      entry m1.mem p' i'
        = if p' = pt ∧ i' = idx then make_pte (pa_ppn p) PTE_V else entry m.mem p' i') := by
  subst hm1
  have hpt := h.own_page pt _ ho
  have hend := h.end_le
  have hcur := h.cur_le
  have hp56 : p < 2 ^ 56 := by omega
  -- entries of old tables
  have E : ∀ p' t i', owner p' = some t → i' < 512 →
      entry (write64 (memset m.mem p 0 4096) (pt + 8 * idx) (make_pte (pa_ppn p) PTE_V)) p' i'
        = if p' = pt ∧ i' = idx then make_pte (pa_ppn p) PTE_V else entry m.mem p' i' := by
    intro p' t i' hp' hi'
    have hpp := h.own_page p' t hp'
    rw [entry_write64 _ _ _ _ _ _ hpt.1 hpp.1 hidx hi' (make_pte_lt _ _)]
    have : entry (memset m.mem p 0 4096) p' i' = entry m.mem p' i' := by
      apply entry_congr
      intro a h1 h2
      apply memset_other
      omega
    rw [this]
  -- entries of the new table
  have Z : ∀ i', i' < 512 →
      entry (write64 (memset m.mem p 0 4096) (pt + 8 * idx) (make_pte (pa_ppn p) PTE_V)) p i'
        = 0 := by
    intro i' hi'
    rw [entry_write64 _ _ _ _ _ _ hpt.1 hal hidx hi' (make_pte_lt _ _)]
    have : ¬ (p = pt ∧ i' = idx) := by omega
    rw [if_neg this]
    exact entry_memset_zero _ _ _ hi'
  have hEpt := E pt _ idx ho hidx
  simp only [and_self, if_true] at hEpt
  have hchild : child (write64 (memset m.mem p 0 4096) (pt + 8 * idx)
      (make_pte (pa_ppn p) PTE_V)) pt idx = p := by
    unfold child
    rw [hEpt]
    exact branch_target p hal hp56
  have hinv' : PTInv (Function.update owner p (some (l + 1, x * 512 + idx)))
      ⟨write64 (memset m.mem p 0 4096) (pt + 8 * idx) (make_pte (pa_ppn p) PTE_V),
        m.heap_start, m.heap_end, p + 4096, fl⟩ root := by
    have hroot := h.own_page root _ h.own_root
    refine ⟨by show p + 4096 ≤ m.heap_end; exact hle, hend, ?_, ?_, ?_⟩
    · rw [Function.update_noteq (by omega)]; exact h.own_root
    · intro p' t hp'
      show p' % 4096 = 0 ∧ 0 < p' ∧ p' + 4096 ≤ p + 4096
      by_cases hpp : p' = p
      · subst hpp; omega
      · rw [Function.update_noteq hpp] at hp'
        have := h.own_page p' t hp'
        omega
    · intro p' l' x' i' hp' hl' hi' hv
      show ∃ q, entry (write64 (memset m.mem p 0 4096) (pt + 8 * idx)
        (make_pte (pa_ppn p) PTE_V)) p' i' = make_pte (pa_ppn q) PTE_V ∧ _
      change pte_valid (entry (write64 (memset m.mem p 0 4096) (pt + 8 * idx)
        (make_pte (pa_ppn p) PTE_V)) p' i') = true at hv
      by_cases hpp : p' = p
      · subst hpp
        rw [Z i' hi', pte_valid_zero] at hv
        exact absurd hv (by decide)
      · rw [Function.update_noteq hpp] at hp'
        rw [E p' _ i' hp' hi'] at hv ⊢
        by_cases hc : p' = pt ∧ i' = idx
        · rw [if_pos hc]
          refine ⟨p, rfl, ?_⟩
          rw [Function.update_same]
          obtain ⟨hc1, hc2⟩ := hc
          subst hc1; subst hc2
          rw [ho] at hp'
          simp only [Option.some.injEq, Prod.mk.injEq] at hp'
          rw [hp'.1, hp'.2]
        · rw [if_neg hc] at hv ⊢
          obtain ⟨q, hq, hoq⟩ := h.branch p' l' x' i' hp' hl' hi' hv
          refine ⟨q, hq, ?_⟩
          have := h.own_page q _ hoq
          rw [Function.update_noteq (by omega)]
          exact hoq
  refine ⟨hinv', ?_, ?_, hchild, E⟩
  · intro v
    show leaf (write64 (memset m.mem p 0 4096) (pt + 8 * idx) (make_pte (pa_ppn p) PTE_V))
      root v = leaf m.mem root v
    generalize hmem1 : write64 (memset m.mem p 0 4096) (pt + 8 * idx)
      (make_pte (pa_ppn p) PTE_V) = mem1 at E Z hchild
    have hi0 := vpn_index_lt v 0
    have hi1 := vpn_index_lt v 1
    have hi2 := vpn_index_lt v 2
    unfold leaf
    have e0 := E root _ (vpn_index v 0) h.own_root hi0
    by_cases c0 : root = pt ∧ vpn_index v 0 = idx
    · -- the new table hangs below the root on the path of `v`
      rw [if_pos c0] at e0
      obtain ⟨c01, c02⟩ := c0
      have hc : child mem1 root (vpn_index v 0) = p := by rw [c01, c02]; exact hchild
      have hold : pte_valid (entry m.mem root (vpn_index v 0)) = false := by
        rw [c01, c02]; exact hinv
      rw [e0, hc, Z _ hi1]
      simp [branch_valid, pte_valid_zero, hold]
    · rw [if_neg c0] at e0
      have hc0 : child mem1 root (vpn_index v 0) = child m.mem root (vpn_index v 0) :=
        congrArg (fun e => ppn_to_pa (pte_ppn e)) e0
      rw [e0, hc0]
      by_cases hv0 : pte_valid (entry m.mem root (vpn_index v 0)) = true
      · simp only [hv0, if_true]
        have ho1 := (h.child_eq h.own_root (by omega) hi0 hv0).2
        have e1 := E _ _ (vpn_index v 1) ho1 hi1
        by_cases c1 : child m.mem root (vpn_index v 0) = pt ∧ vpn_index v 1 = idx
        · rw [if_pos c1] at e1
          obtain ⟨c11, c12⟩ := c1
          have hc : child mem1 (child m.mem root (vpn_index v 0)) (vpn_index v 1) = p := by
            rw [c11, c12]; exact hchild
          have hold : pte_valid (entry m.mem (child m.mem root (vpn_index v 0))
              (vpn_index v 1)) = false := by
            rw [c11, c12]; exact hinv
          rw [e1, hc, Z _ hi2]
          simp [branch_valid, hold]
        · rw [if_neg c1] at e1
          have hc1 : child mem1 (child m.mem root (vpn_index v 0)) (vpn_index v 1)
              = child m.mem (child m.mem root (vpn_index v 0)) (vpn_index v 1) :=
            congrArg (fun e => ppn_to_pa (pte_ppn e)) e1
          rw [e1, hc1]
          by_cases hv1 : pte_valid (entry m.mem (child m.mem root (vpn_index v 0))
              (vpn_index v 1)) = true
          · simp only [hv1, if_true]
            have ho2 := (h.child_eq ho1 (by omega) hi1 hv1).2
            have e2 := E _ _ (vpn_index v 2) ho2 hi2
            have c2 : ¬ (child m.mem (child m.mem root (vpn_index v 0)) (vpn_index v 1) = pt
                ∧ vpn_index v 2 = idx) := by
              rintro ⟨c21, _⟩
              rw [c21, ho] at ho2
              simp only [Option.some.injEq, Prod.mk.injEq] at ho2
              omega
            rw [if_neg c2] at e2
            exact e2
          · simp [hv1]
      · simp [hv0]
  · show pte_valid (entry (write64 (memset m.mem p 0 4096) (pt + 8 * idx)
      (make_pte (pa_ppn p) PTE_V)) pt idx) = true
    rw [hEpt]
    exact branch_valid p

/-- A last-level entry is stored in the table `q`. -/
theorem write_leaf {owner : Nat → Option (Nat × Nat)} {m : Machine} {root : Nat}
    (h : PTInv owner m root) {q y k val : Nat}
    (ho : owner q = some (2, y)) (hk : k < 512) (hval : val < 2 ^ 64) (m1 : Machine)
    (hmem : m1.mem = write64 m.mem (q + 8 * k) val) (hc : m1.heap_current = m.heap_current)
    (he : m1.heap_end = m.heap_end) :
    PTInv owner m1 root ∧
    (∀ p' t i', owner p' = some t → i' < 512 →
      entry m1.mem p' i' = if p' = q ∧ i' = k then val else entry m.mem p' i') := by
  have hq := h.own_page q _ ho
  have E : ∀ p' t i', owner p' = some t → i' < 512 →
      entry m1.mem p' i' = if p' = q ∧ i' = k then val else entry m.mem p' i' := by
    intro p' t i' hp' hi'
    have hpp := h.own_page p' t hp'
    rw [hmem, entry_write64 _ _ _ _ _ _ hq.1 hpp.1 hk hi' hval]
  refine ⟨⟨by rw [hc, he]; exact h.cur_le, by rw [he]; exact h.end_le, h.own_root, ?_, ?_⟩, E⟩
  · intro p' t hp'
    rw [hc]
    exact h.own_page p' t hp'
  · intro p' l' x' i' hp' hl' hi' hv
    rw [E p' _ i' hp' hi'] at hv ⊢
    have hne : ¬ (p' = q ∧ i' = k) := by
      rintro ⟨c, _⟩
      rw [c, ho] at hp'
      simp only [Option.some.injEq, Prod.mk.injEq] at hp'
      omega
    rw [if_neg hne] at hv ⊢
    exact h.branch p' l' x' i' hp' hl' hi' hv

end Ucore

namespace Ucore

theorem Grows.refl {owner m root} (h : PTInv owner m root) : Grows root owner m owner m :=
  ⟨h, fun _ _ hp => hp, fun p t hp hn => (by rw [hn] at hp; cases hp), rfl, le_refl _,
    fun _ _ _ => rfl, fun hf => hf, fun _ _ _ _ _ _ _ _ => rfl⟩

theorem Grows.trans {root o m o1 m1 o2 m2}
    (g1 : Grows root o m o1 m1) (g2 : Grows root o1 m1 o2 m2) : Grows root o m o2 m2 := by
  refine ⟨g2.inv, fun p t hp => g2.ext p t (g1.ext p t hp), ?_, by rw [g2.hend, g1.hend],
    le_trans g1.hcur g2.hcur, ?_, fun hf => g2.flag (g1.flag hf), ?_⟩
  · intro p t hp hn
    cases h1 : o1 p with
    | none => exact le_trans g1.hcur (g2.fresh p t hp h1)
    | some t' => exact g1.fresh p t' h1 hn
  · intro a ha hn
    have hn1 : o1 (a / 4096 * 4096) = none := by
      cases h1 : o1 (a / 4096 * 4096) with
      | none => rfl
      | some t' =>
        have := g1.fresh _ t' h1 hn
        omega
    rw [g2.data a (lt_of_lt_of_le ha g1.hcur) hn1, g1.data a ha hn]
  · intro p l x i hp hl hi hv
    have e1 := g1.stable p l x i hp hl hi hv
    rw [g2.stable p l x i (g1.ext p _ hp) hl hi (by rw [e1]; exact hv), e1]

theorem reaches_grows {root o m o1 m1 vpn q} (h : PTInv o m root)
    (g : Grows root o m o1 m1) (hr : reaches m.mem root vpn q) :
    reaches m1.mem root vpn q := by
  obtain ⟨hv0, hv1, hq⟩ := hr
  have hi0 := vpn_index_lt vpn 0
  have hi1 := vpn_index_lt vpn 1
  have e0 := g.stable root 0 0 _ h.own_root (by omega) hi0 hv0
  have c0 : child m1.mem root (vpn_index vpn 0) = child m.mem root (vpn_index vpn 0) :=
    congrArg (fun e => ppn_to_pa (pte_ppn e)) e0
  have ho1 := (h.child_eq h.own_root (by omega) hi0 hv0).2
  have e1 := g.stable _ _ _ _ ho1 (by omega) hi1 hv1
  have c1 : child m1.mem (child m.mem root (vpn_index vpn 0)) (vpn_index vpn 1)
      = child m.mem (child m.mem root (vpn_index vpn 0)) (vpn_index vpn 1) :=
    congrArg (fun e => ppn_to_pa (pte_ppn e)) e1
  unfold reaches
  rw [e0, c0, e1, c1]
  exact ⟨hv0, hv1, hq⟩

/-- The growth step of `install_branch`. -/
theorem install_branch_grows {owner : Nat → Option (Nat × Nat)} {m : Machine} {root : Nat}
    (h : PTInv owner m root) {pt l x idx p : Nat}
    (ho : owner pt = some (l, x)) (hl : l < 2) (hidx : idx < 512)
    (hinv : pte_valid (entry m.mem pt idx) = false)
    (hal : p % 4096 = 0) (hge : m.heap_current ≤ p) (hle : p + 4096 ≤ m.heap_end)
    (m1 : Machine)
    (hm1 : m1 = ⟨write64 (memset m.mem p 0 4096) (pt + 8 * idx) (make_pte (pa_ppn p) PTE_V),
      m.heap_start, m.heap_end, p + 4096, m.alloc_failed⟩) :
    Grows root owner m (Function.update owner p (some (l + 1, x * 512 + idx))) m1 ∧
    (∀ v, leaf m1.mem root v = leaf m.mem root v) ∧
    pte_valid (entry m1.mem pt idx) = true ∧ child m1.mem pt idx = p := by
  obtain ⟨hi, hleaf, hv, hc, E⟩ := install_branch h ho hl hidx hinv hal hge hle _ m1 hm1
  have hpt := h.own_page pt _ ho
  have hnone : owner p = none := by
    cases hp : owner p with
    | none => rfl
    | some t => have := h.own_page p t hp; omega
  refine ⟨⟨hi, ?_, ?_, by rw [hm1], by rw [hm1]; show m.heap_current ≤ p + 4096; omega, ?_,
    by rw [hm1]; exact fun hf => hf, ?_⟩, hleaf, hv, hc⟩
  · intro p' t hp'
    by_cases hpp : p' = p
    · rw [hpp, hnone] at hp'; cases hp'
    · rw [Function.update_noteq hpp]; exact hp'
  · intro p' t hp' hn
    by_cases hpp : p' = p
    · rw [hpp]; exact hge
    · rw [Function.update_noteq hpp, hn] at hp'; cases hp'
  · intro a ha hn
    rw [hm1]
    show write64 (memset m.mem p 0 4096) (pt + 8 * idx) (make_pte (pa_ppn p) PTE_V) a = m.mem a
    have hne : a / 4096 * 4096 ≠ pt := by
      intro hc'; rw [hc', ho] at hn; cases hn
    rw [write64_other _ _ _ _ (by omega), memset_other _ _ _ _ _ (by omega)]
  · intro p' l' x' i' hp' hl' hi' hv'
    rw [E p' _ i' hp' hi']
    have : ¬ (p' = pt ∧ i' = idx) := by
      rintro ⟨c1, c2⟩
      rw [c1, c2, hinv] at hv'
      cases hv'
    rw [if_neg this]

end Ucore

namespace Ucore

theorem walk_loop_succ (vpn n l pt : Nat) (m : Machine) :
    walk_loop vpn true (n + 1) l pt m =
      if pte_valid (entry m.mem pt (vpn_index vpn l)) = true then
        walk_loop vpn true n (l + 1) (child m.mem pt (vpn_index vpn l)) m
      else if (alloc_page m).1 = 0 then (0, (alloc_page m).2)
      else walk_loop vpn true n (l + 1) (alloc_page m).1
        ⟨write64 (alloc_page m).2.mem (pt + 8 * vpn_index vpn l)
          (make_pte (pa_ppn (alloc_page m).1) PTE_V), (alloc_page m).2.heap_start,
          (alloc_page m).2.heap_end, (alloc_page m).2.heap_current,
          (alloc_page m).2.alloc_failed⟩ := by
  show (if pte_valid (entry m.mem pt (vpn_index vpn l)) = true then
      walk_loop vpn true n (l + 1) (child m.mem pt (vpn_index vpn l)) m
    else if true = true then
      if (alloc_page m).1 = 0 then (0, (alloc_page m).2)
      else walk_loop vpn true n (l + 1) (alloc_page m).1
        ⟨write64 (alloc_page m).2.mem (pt + 8 * vpn_index vpn l)
          (make_pte (pa_ppn (alloc_page m).1) PTE_V), (alloc_page m).2.heap_start,
          (alloc_page m).2.heap_end, (alloc_page m).2.heap_current,
          (alloc_page m).2.alloc_failed⟩
    else (0, m)) = _
  simp

/-- One level of `walk` with `create` set. -/
theorem walk_step {owner : Nat → Option (Nat × Nat)} {m : Machine} {root : Nat}
    (h : PTInv owner m root) {pt l x : Nat} (ho : owner pt = some (l, x)) (hl : l < 2)
    (vpn n : Nat) :
    (∃ owner' m' q, Grows root owner m owner' m' ∧
      (∀ v, leaf m'.mem root v = leaf m.mem root v) ∧
      owner' q = some (l + 1, x * 512 + vpn_index vpn l) ∧
      pte_valid (entry m'.mem pt (vpn_index vpn l)) = true ∧
      child m'.mem pt (vpn_index vpn l) = q ∧
      m'.alloc_failed = m.alloc_failed ∧
      walk_loop vpn true (n + 1) l pt m = walk_loop vpn true n (l + 1) q m') ∨
    (∃ m', walk_loop vpn true (n + 1) l pt m = (0, m') ∧ m'.alloc_failed = true ∧
      Grows root owner m owner m' ∧ (∀ v, leaf m'.mem root v = leaf m.mem root v)) := by
  have hidx := vpn_index_lt vpn l
  rw [walk_loop_succ]
  by_cases hv : pte_valid (entry m.mem pt (vpn_index vpn l)) = true
  · left
    refine ⟨owner, m, child m.mem pt (vpn_index vpn l), Grows.refl h, fun _ => rfl,
      (h.child_eq ho hl hidx hv).2, hv, rfl, rfl, ?_⟩
    rw [if_pos hv]
  · rw [if_neg hv]
    simp only [Bool.not_eq_true] at hv
    have hroot := h.own_page root _ h.own_root
    have hcur56 : m.heap_current ≤ 2 ^ 56 := le_trans h.cur_le h.end_le
    rcases alloc_page_cases m (by omega) hcur56 with hf | ⟨p, hal, hge, hle, hs⟩
    · right
      rw [hf]
      refine ⟨⟨m.mem, m.heap_start, m.heap_end, m.heap_current, true⟩, by simp, rfl, ?_,
        fun _ => rfl⟩
      have hi : PTInv owner ⟨m.mem, m.heap_start, m.heap_end, m.heap_current, true⟩ root :=
        h.frame _ (fun _ _ => rfl) (le_refl _) h.cur_le h.end_le
      exact ⟨hi, fun _ _ hp => hp, fun p t hp hn => (by rw [hn] at hp; cases hp), rfl,
        le_refl _, fun _ _ _ => rfl, fun _ => rfl, fun _ _ _ _ _ _ _ _ => rfl⟩
    · left
      rw [hs]
      have hp0 : p ≠ 0 := by omega
      simp only [hp0, if_false]
      obtain ⟨g, hleaf, hv', hc⟩ := install_branch_grows h ho hl hidx hv hal hge hle
        ⟨write64 (memset m.mem p 0 4096) (pt + 8 * vpn_index vpn l) (make_pte (pa_ppn p) PTE_V),
          m.heap_start, m.heap_end, p + 4096, m.alloc_failed⟩ rfl
      exact ⟨_, _, p, g, hleaf, Function.update_same _ _ _, hv', hc, rfl, rfl⟩

/-- The function `walk` with `create` set. -/
theorem walk_spec {owner : Nat → Option (Nat × Nat)} {m : Machine} {root : Nat}
    (h : PTInv owner m root) (vpn : Nat) :
    ∃ owner', Grows root owner m owner' (walk m ⟨root⟩ vpn true).2 ∧
      (∀ v, leaf (walk m ⟨root⟩ vpn true).2.mem root v = leaf m.mem root v) ∧
      (((walk m ⟨root⟩ vpn true).1 = 0 ∧ (walk m ⟨root⟩ vpn true).2.alloc_failed = true) ∨
       (∃ q, (walk m ⟨root⟩ vpn true).1 = q + 8 * vpn_index vpn 2 ∧
          owner' q = some (2, vpn_index vpn 0 * 512 + vpn_index vpn 1) ∧
          reaches (walk m ⟨root⟩ vpn true).2.mem root vpn q ∧
          (walk m ⟨root⟩ vpn true).2.alloc_failed = m.alloc_failed)) := by
  unfold walk
  simp only [LEVELS_eq]
  rcases walk_step h h.own_root (by omega) vpn 1 with
    ⟨o1, m1, t1, g1, hl1, ho1, hv1, hc1, hf1, hw1⟩ | ⟨m', hw, hf, g, hl⟩
  · rw [hw1]
    rcases walk_step g1.inv ho1 (by omega) vpn 0 with
      ⟨o2, m2, q, g2, hl2, ho2, hv2, hc2, hf2, hw2⟩ | ⟨m', hw, hf, g, hl⟩
    · rw [hw2]
      simp only [walk_loop]
      refine ⟨o2, g1.trans g2, fun v => by rw [hl2, hl1], Or.inr ⟨q, rfl, ?_, ?_, ?_⟩⟩
      · simpa using ho2
      · have e0 := g2.stable root 0 0 _ g1.inv.own_root (by omega) (vpn_index_lt vpn 0) hv1
        have c0 : child m2.mem root (vpn_index vpn 0) = t1 := by
          rw [← hc1]
          exact congrArg (fun e => ppn_to_pa (pte_ppn e)) e0
        refine ⟨by rw [e0]; exact hv1, ?_, ?_⟩
        · rw [c0]; exact hv2
        · rw [c0]; exact hc2
      · rw [hf2, hf1]
    · rw [hw]
      exact ⟨o1, g1.trans g, fun v => by rw [hl, hl1], Or.inl ⟨rfl, hf⟩⟩
  · rw [hw]
    exact ⟨owner, g, hl, Or.inl ⟨rfl, hf⟩⟩

theorem leaf_congr (mem : Mem) (root v w : Nat) (h : v % 2 ^ 27 = w % 2 ^ 27) :
    leaf mem root v = leaf mem root w := by
  unfold leaf
  rw [vpn_index_congr v w 0 h (by omega), vpn_index_congr v w 1 h (by omega),
    vpn_index_congr v w 2 h (by omega)]

/-- A store into the last-level entry of `vpn`. -/
theorem leaf_after_write {owner : Nat → Option (Nat × Nat)} {m : Machine} {root : Nat}
    (h : PTInv owner m root) {q vpn val : Nat}
    (ho : owner q = some (2, vpn_index vpn 0 * 512 + vpn_index vpn 1))
    (hr : reaches m.mem root vpn q) (hval : val < 2 ^ 64) (m1 : Machine)
    (hmem : m1.mem = write64 m.mem (q + 8 * vpn_index vpn 2) val)
    (hc : m1.heap_current = m.heap_current) (he : m1.heap_end = m.heap_end)
    (hfl : m1.alloc_failed = m.alloc_failed) :
    Grows root owner m owner m1 ∧ leaf m1.mem root vpn = val ∧
    (∀ v, v % 2 ^ 27 ≠ vpn % 2 ^ 27 → leaf m1.mem root v = leaf m.mem root v) := by
  obtain ⟨hi, E⟩ := write_leaf h ho (vpn_index_lt vpn 2) hval m1 hmem hc he
  have hq := h.own_page q _ ho
  have hroot_ne : root ≠ q := by
    intro c; have := h.own_root; rw [c, ho] at this; cases this
  have key : ∀ v, leaf m1.mem root v =
      if v % 2 ^ 27 = vpn % 2 ^ 27 then
        (if pte_valid (entry m.mem root (vpn_index v 0)) = true ∧
          pte_valid (entry m.mem (child m.mem root (vpn_index v 0)) (vpn_index v 1)) = true
         then val else 0)
      else leaf m.mem root v := by
    intro v
    have hi0 := vpn_index_lt v 0
    have hi1 := vpn_index_lt v 1
    have hi2 := vpn_index_lt v 2
    have e0 := E root _ (vpn_index v 0) h.own_root hi0
    rw [if_neg (by intro c; exact hroot_ne c.1)] at e0
    have c0 : child m1.mem root (vpn_index v 0) = child m.mem root (vpn_index v 0) :=
      congrArg (fun e => ppn_to_pa (pte_ppn e)) e0
    unfold leaf
    rw [e0, c0]
    by_cases hv0 : pte_valid (entry m.mem root (vpn_index v 0)) = true
    · have ho1 := (h.child_eq h.own_root (by omega) hi0 hv0).2
      have e1 := E _ _ (vpn_index v 1) ho1 hi1
      have hne1 : child m.mem root (vpn_index v 0) ≠ q := by
        intro c; rw [c, ho] at ho1; cases ho1
      rw [if_neg (by intro c; exact hne1 c.1)] at e1
      have c1 : child m1.mem (child m.mem root (vpn_index v 0)) (vpn_index v 1)
          = child m.mem (child m.mem root (vpn_index v 0)) (vpn_index v 1) :=
        congrArg (fun e => ppn_to_pa (pte_ppn e)) e1
      rw [e1, c1]
      by_cases hv1 : pte_valid (entry m.mem (child m.mem root (vpn_index v 0))
          (vpn_index v 1)) = true
      · have ho2 := (h.child_eq ho1 (by omega) hi1 hv1).2
        have e2 := E _ _ (vpn_index v 2) ho2 hi2
        rw [e2]
        simp only [hv0, hv1, if_true, and_self]
        by_cases hm : v % 2 ^ 27 = vpn % 2 ^ 27
        · have a0 := vpn_index_congr v vpn 0 hm (by omega)
          have a1 := vpn_index_congr v vpn 1 hm (by omega)
          have a2 := vpn_index_congr v vpn 2 hm (by omega)
          have hq' : child m.mem (child m.mem root (vpn_index v 0)) (vpn_index v 1) = q := by
            rw [a0, a1]; exact hr.2.2
          rw [if_pos ⟨hq', a2⟩, if_pos hm]
        · rw [if_neg hm]
          have : ¬ (child m.mem (child m.mem root (vpn_index v 0)) (vpn_index v 1) = q
              ∧ vpn_index v 2 = vpn_index vpn 2) := by
            rintro ⟨c1', c2'⟩
            rw [c1', ho] at ho2
            simp only [Option.some.injEq, Prod.mk.injEq, true_and, Nat.zero_add,
              Nat.zero_mul] at ho2
            have hj0 := vpn_index_lt vpn 0
            have hj1 := vpn_index_lt vpn 1
            apply hm
            apply vpn_index_inj
            · omega
            · omega
            · exact c2'
          rw [if_neg this]
      · simp only [hv1, hv0, and_false, if_false]
        simp
    · simp only [hv0, if_false, false_and]
      simp
  refine ⟨⟨hi, fun _ _ hp => hp, fun p t hp hn => (by rw [hn] at hp; cases hp), he,
    by rw [hc], ?_, by rw [hfl]; exact fun hf => hf, ?_⟩, ?_, ?_⟩
  · intro a ha hn
    rw [hmem]
    apply write64_other
    have hk := vpn_index_lt vpn 2
    have hne : a / 4096 * 4096 ≠ q := by
      intro c; rw [c, ho] at hn; cases hn
    omega
  · intro p l x i hp hl hi' hv
    rw [E p _ i hp hi']
    have : ¬ (p = q ∧ i = vpn_index vpn 2) := by
      rintro ⟨c, _⟩
      rw [c, ho] at hp
      simp only [Option.some.injEq, Prod.mk.injEq] at hp
      omega
    rw [if_neg this]
  · rw [key vpn]
    simp [hr.1, hr.2.1]
  · intro v hv
    rw [key v, if_neg hv]

end Ucore

namespace Ucore

/-- The body of the loop of `as_map_extern`. -/
theorem map_one_spec {owner : Nat → Option (Nat × Nat)} {m : Machine} {root : Nat}
    (h : PTInv owner m root) (vpn val : Nat) (hval : val < 2 ^ 64) (m1 : Machine)
    (hm1 : m1 = if (walk m ⟨root⟩ vpn true).1 ≠ 0 then
        ⟨write64 (walk m ⟨root⟩ vpn true).2.mem (walk m ⟨root⟩ vpn true).1 val,
          (walk m ⟨root⟩ vpn true).2.heap_start, (walk m ⟨root⟩ vpn true).2.heap_end,
          (walk m ⟨root⟩ vpn true).2.heap_current, (walk m ⟨root⟩ vpn true).2.alloc_failed⟩
      else (walk m ⟨root⟩ vpn true).2) :
    ∃ owner', Grows root owner m owner' m1 ∧
      (∀ v, v % 2 ^ 27 ≠ vpn % 2 ^ 27 → leaf m1.mem root v = leaf m.mem root v) ∧
      (m1.alloc_failed = false → leaf m1.mem root vpn = val) := by
  obtain ⟨o1, g1, hl1, hcase⟩ := walk_spec h vpn
  rcases hcase with ⟨h0, hf⟩ | ⟨q, hq, hoq, hr, hf⟩
  · rw [h0] at hm1
    simp only [ne_eq, not_true_eq_false, if_false] at hm1
    subst hm1
    exact ⟨o1, g1, fun v _ => hl1 v, fun hc => by rw [hf] at hc; cases hc⟩
  · have hqp := g1.inv.own_page q _ hoq
    have hne : (walk m ⟨root⟩ vpn true).1 ≠ 0 := by rw [hq]; omega
    rw [if_pos hne] at hm1
    obtain ⟨g2, hset, hfr⟩ := leaf_after_write g1.inv hoq hr hval m1
      (by rw [hm1, hq]) (by rw [hm1]) (by rw [hm1]) (by rw [hm1])
    exact ⟨o1, g1.trans g2, fun v hv => by rw [hfr v hv, hl1], fun _ => hset⟩

theorem as_map_extern_loop_succ (as : address_space_t) (vs ppn flags n vpn : Nat)
    (m : Machine) :
    as_map_extern_loop as vs ppn flags (n + 1) vpn m =
      as_map_extern_loop as vs ppn flags n (vpn + 1)
        (if (walk m as vpn true).1 ≠ 0 then
          ⟨write64 (walk m as vpn true).2.mem (walk m as vpn true).1
            (make_pte ((ppn + (vpn - vs)) % 2 ^ 64) (flags ||| PTE_V)),
            (walk m as vpn true).2.heap_start, (walk m as vpn true).2.heap_end,
            (walk m as vpn true).2.heap_current, (walk m as vpn true).2.alloc_failed⟩
        else (walk m as vpn true).2) := rfl

/-- The loop of `as_map_extern`. -/
theorem as_map_extern_loop_spec (root vs ppn flags : Nat) (n : Nat) :
    ∀ (owner : Nat → Option (Nat × Nat)) (m : Machine) (vpn : Nat), PTInv owner m root →
    ∃ owner', Grows root owner m owner' (as_map_extern_loop ⟨root⟩ vs ppn flags n vpn m) ∧
      (∀ v, (∀ k, k < n → v % 2 ^ 27 ≠ (vpn + k) % 2 ^ 27) →
        leaf (as_map_extern_loop ⟨root⟩ vs ppn flags n vpn m).mem root v = leaf m.mem root v) ∧
      ((as_map_extern_loop ⟨root⟩ vs ppn flags n vpn m).alloc_failed = false →
        vpn + n ≤ 2 ^ 27 → ∀ k, k < n →
        leaf (as_map_extern_loop ⟨root⟩ vs ppn flags n vpn m).mem root (vpn + k)
          = make_pte ((ppn + (vpn + k - vs)) % 2 ^ 64) (flags ||| PTE_V)) := by
  induction n with
  | zero =>
    intro owner m vpn h
    exact ⟨owner, Grows.refl h, fun _ _ => rfl, fun _ _ k hk => absurd hk (by omega)⟩
  | succ n ih =>
    intro owner m vpn h
    rw [as_map_extern_loop_succ]
    obtain ⟨o1, g1, hfr1, hset1⟩ := map_one_spec h vpn
      (make_pte ((ppn + (vpn - vs)) % 2 ^ 64) (flags ||| PTE_V)) (make_pte_lt _ _) _ rfl
    generalize (if (walk m ⟨root⟩ vpn true).1 ≠ 0 then
          (⟨write64 (walk m ⟨root⟩ vpn true).2.mem (walk m ⟨root⟩ vpn true).1
            (make_pte ((ppn + (vpn - vs)) % 2 ^ 64) (flags ||| PTE_V)),
            (walk m ⟨root⟩ vpn true).2.heap_start, (walk m ⟨root⟩ vpn true).2.heap_end,
            (walk m ⟨root⟩ vpn true).2.heap_current,
            (walk m ⟨root⟩ vpn true).2.alloc_failed⟩ : Machine)
        else (walk m ⟨root⟩ vpn true).2) = m1 at g1 hfr1 hset1 ⊢
    obtain ⟨o2, g2, hfr2, hset2⟩ := ih o1 m1 (vpn + 1) g1.inv
    refine ⟨o2, g1.trans g2, ?_, ?_⟩
    · intro v hv
      rw [hfr2 v (fun k hk => by have := hv (k + 1) (by omega); rwa [Nat.add_assoc, Nat.add_comm 1 k]),
        hfr1 v (by simpa using hv 0 (by omega))]
    · intro hok hle k hk
      have hok1 : m1.alloc_failed = false := by
        cases hc : m1.alloc_failed with
        | false => rfl
        | true => rw [g2.flag hc] at hok; cases hok
      rcases Nat.eq_zero_or_pos k with hk0 | hkpos
      · subst hk0
        simp only [Nat.add_zero]
        rw [hfr2 vpn (fun k hk => by omega)]
        exact hset1 hok1
      · have := hset2 hok (by omega) (k - 1) (by omega)
        have e : vpn + 1 + (k - 1) = vpn + k := by omega
        rw [e] at this
        exact this

/-- The function `as_map_extern` on a well-formed range. -/
theorem as_map_extern_spec {owner : Nat → Option (Nat × Nat)} {m : Machine} {root : Nat}
    (h : PTInv owner m root) (vs ve ppn flags : Nat) (hve : ve ≤ 2 ^ 27) :
    ∃ owner', Grows root owner m owner' ( as_map_extern m ⟨root⟩ vs ve ppn flags) ∧
      (∀ v, v < 2 ^ 27 → ¬ (vs ≤ v ∧ v < ve) →
        leaf ( as_map_extern m ⟨root⟩ vs ve ppn flags).mem root v = leaf m.mem root v) ∧
      (( as_map_extern m ⟨root⟩ vs ve ppn flags).alloc_failed = false →
        ∀ v, vs ≤ v → v < ve →
        leaf ( as_map_extern m ⟨root⟩ vs ve ppn flags).mem root v
          = make_pte ((ppn + (v - vs)) % 2 ^ 64) (flags ||| PTE_V)) := by
  unfold as_map_extern
  obtain ⟨o1, g, hfr, hset⟩ := as_map_extern_loop_spec root vs ppn flags (ve - vs) owner m vs h
  refine ⟨o1, g, ?_, ?_⟩
  · intro v hv hn
    apply hfr
    intro k hk
    omega
  · intro hok v h1 h2
    have := hset hok (by omega) (v - vs) (by omega)
    have e : vs + (v - vs) = v := by omega
    rw [e] at this
    exact this

end Ucore

namespace Ucore

/-- A step that leaves memory below the break alone. -/
theorem Grows.of_frame {owner : Nat → Option (Nat × Nat)} {m : Machine} {root : Nat}
    (h : PTInv owner m root) (m1 : Machine)
    (hmem : ∀ a, a < m.heap_current → m1.mem a = m.mem a)
    (hcur : m.heap_current ≤ m1.heap_current) (hle : m1.heap_current ≤ m1.heap_end)
    (hend : m1.heap_end = m.heap_end) (hfl : m.alloc_failed = true → m1.alloc_failed = true) :
    Grows root owner m owner m1 ∧ (∀ v, leaf m1.mem root v = leaf m.mem root v) := by
  refine ⟨⟨h.frame m1 hmem hcur hle (by rw [hend]; exact h.end_le), fun _ _ hp => hp,
    fun p t hp hn => (by rw [hn] at hp; cases hp), hend, hcur, fun a ha _ => hmem a ha, hfl, ?_⟩,
    fun v => leaf_frame h m1.mem hmem v⟩
  intro p l x i hp hl hi hv
  have := h.own_page p _ hp
  apply entry_congr
  intro a h1 h2
  apply hmem
  omega

theorem Grows.flag_false {root o m o1 m1} (g : Grows root o m o1 m1)
    (h : m1.alloc_failed = false) : m.alloc_failed = false := by
  cases hc : m.alloc_failed with
  | false => rfl
  | true => rw [g.flag hc] at h; cases h

/-- The mapping loop of `as_map`, run on the machine `m1` that holds the
freshly filled block at `p`. -/
theorem as_map_core {owner : Nat → Option (Nat × Nat)} {m : Machine} {root : Nat}
    (h : PTInv owner m root) (vs ve flags p : Nat) (h2 : ve ≤ 2 ^ 27)
    (hge : m.heap_current ≤ p) (hle : p + (ve - vs) * 4096 ≤ m.heap_end) (m1 : Machine)
    (hc1 : m1.heap_current = p + (ve - vs) * 4096) (he1 : m1.heap_end = m.heap_end)
    (hf1 : m1.alloc_failed = m.alloc_failed)
    (hbelow : ∀ a, a < m.heap_current → m1.mem a = m.mem a) :
    ∃ owner', Grows root owner m owner' ( as_map_extern m1 ⟨root⟩ vs ve (pa_ppn p) flags) ∧
      (∀ v, v < 2 ^ 27 → ¬ (vs ≤ v ∧ v < ve) →
        leaf ( as_map_extern m1 ⟨root⟩ vs ve (pa_ppn p) flags).mem root v = leaf m.mem root v) ∧
      (( as_map_extern m1 ⟨root⟩ vs ve (pa_ppn p) flags).alloc_failed = false →
          (∀ v, vs ≤ v → v < ve →
            leaf ( as_map_extern m1 ⟨root⟩ vs ve (pa_ppn p) flags).mem root v
              = make_pte ((pa_ppn p + (v - vs)) % 2 ^ 64) (flags ||| PTE_V)) ∧
          (∀ i, i < (ve - vs) * 4096 →
            ( as_map_extern m1 ⟨root⟩ vs ve (pa_ppn p) flags).mem (p + i) = m1.mem (p + i))) := by
  obtain ⟨g1, hl1⟩ := Grows.of_frame h m1 hbelow (by omega) (by omega) he1
    (by rw [hf1]; exact fun hf => hf)
  obtain ⟨o2, g2, hfr2, hset2⟩ := as_map_extern_spec g1.inv vs ve (pa_ppn p) flags h2
  refine ⟨o2, g1.trans g2, fun v hv hn => by rw [hfr2 v hv hn, hl1], ?_⟩
  intro hok
  refine ⟨hset2 hok, ?_⟩
  intro i hi
  have hnone : owner ((p + i) / 4096 * 4096) = none := by
    cases hp : owner ((p + i) / 4096 * 4096) with
    | none => rfl
    | some t => have := h.own_page _ t hp; omega
  exact g2.data (p + i) (by omega) hnone

theorem as_map_fail (m : Machine) (as : address_space_t) (vs ve : Nat)
    (data : Option (Nat → Nat)) (len offset flags : Nat) (m' : Machine)
    (h : alloc_pages m ((ve + 2 ^ 64 - vs) % 2 ^ 64) = (0, m')) :
    as_map m as vs ve data len offset flags = m' := by
  unfold as_map
  simp only [h, if_true]

theorem as_map_succ_none (m : Machine) (as : address_space_t) (vs ve : Nat)
    (len offset flags p : Nat) (m' : Machine) (hp : p ≠ 0)
    (h : alloc_pages m ((ve + 2 ^ 64 - vs) % 2 ^ 64) = (p, m')) :
    as_map m as vs ve none len offset flags = as_map_extern m' as vs ve (pa_ppn p) flags := by
  unfold as_map
  simp only [h, hp, if_false]

theorem as_map_succ_some (m : Machine) (as : address_space_t) (vs ve : Nat) (d : Nat → Nat)
    (len offset flags p : Nat) (m' : Machine) (hp : p ≠ 0)
    (h : alloc_pages m ((ve + 2 ^ 64 - vs) % 2 ^ 64) = (p, m')) :
    as_map m as vs ve (some d) len offset flags =
      as_map_extern (if len > 0 then
          ⟨memcpy m'.mem (p + offset) d len, m'.heap_start, m'.heap_end, m'.heap_current,
            m'.alloc_failed⟩
        else m') as vs ve (pa_ppn p) flags := by
  unfold as_map
  simp only [h, hp, if_false]

/-- The function `as_map` on a well-formed range. -/
theorem as_map_spec {owner : Nat → Option (Nat × Nat)} {m : Machine} {root : Nat}
    (h : PTInv owner m root) (vs ve : Nat) (data : Option (Nat → Nat))
    (len offset flags : Nat) (h1 : vs ≤ ve) (h2 : ve ≤ 2 ^ 27) :
    ∃ owner', Grows root owner m owner' (as_map m ⟨root⟩ vs ve data len offset flags) ∧
      (∀ v, v < 2 ^ 27 → ¬ (vs ≤ v ∧ v < ve) →
        leaf (as_map m ⟨root⟩ vs ve data len offset flags).mem root v = leaf m.mem root v) ∧
      ((as_map m ⟨root⟩ vs ve data len offset flags).alloc_failed = false →
        ∃ p, p % 4096 = 0 ∧ m.heap_current ≤ p ∧ p + (ve - vs) * 4096 ≤ m.heap_end ∧
          (∀ v, vs ≤ v → v < ve →
            leaf (as_map m ⟨root⟩ vs ve data len offset flags).mem root v
              = make_pte ((pa_ppn p + (v - vs)) % 2 ^ 64) (flags ||| PTE_V)) ∧
          (∀ i, i < (ve - vs) * 4096 →
            (as_map m ⟨root⟩ vs ve data len offset flags).mem (p + i)
              = as_map_byte data len offset i)) := by
  have hroot := h.own_page root _ h.own_root
  have hcur56 : m.heap_current ≤ 2 ^ 56 := le_trans h.cur_le h.end_le
  have hcount : (ve + 2 ^ 64 - vs) % 2 ^ 64 = ve - vs := by omega
  rcases alloc_pages_cases m (ve - vs) (by omega) hcur56 (by omega) with hf | ⟨p, hal, hge, hle, hs⟩
  · rw [as_map_fail m ⟨root⟩ vs ve data len offset flags _ (by rw [hcount]; exact hf)]
    obtain ⟨g, hl⟩ := Grows.of_frame h ⟨m.mem, m.heap_start, m.heap_end, m.heap_current, true⟩
      (fun _ _ => rfl) (le_refl _) h.cur_le rfl (fun _ => rfl)
    exact ⟨owner, g, fun v _ _ => hl v, fun hc => by cases hc⟩
  · have hp0 : p ≠ 0 := by omega
    have hs' : alloc_pages m ((ve + 2 ^ 64 - vs) % 2 ^ 64) =
        (p, ⟨memset m.mem p 0 ((ve - vs) * 4096), m.heap_start, m.heap_end,
          p + (ve - vs) * 4096, m.alloc_failed⟩) := by
      rw [hcount]; exact hs
    cases data with
    | none =>
      rw [as_map_succ_none m ⟨root⟩ vs ve len offset flags p _ hp0 hs']
      obtain ⟨o, g, hfr, hset⟩ := as_map_core h vs ve flags p h2 hge hle
        ⟨memset m.mem p 0 ((ve - vs) * 4096), m.heap_start, m.heap_end,
          p + (ve - vs) * 4096, m.alloc_failed⟩ rfl rfl rfl
        (fun a ha => memset_other _ _ _ _ _ (by omega))
      refine ⟨o, g, hfr, fun hok => ⟨p, hal, hge, hle, (hset hok).1, fun i hi => ?_⟩⟩
      rw [(hset hok).2 i hi]
      exact memset_in _ _ _ _ _ (by omega) (by omega)
    | some d =>
      rw [as_map_succ_some m ⟨root⟩ vs ve d len offset flags p _ hp0 hs']
      by_cases hlen : len > 0
      · simp only [hlen, if_true]
        obtain ⟨o, g, hfr, hset⟩ := as_map_core h vs ve flags p h2 hge hle
          ⟨memcpy (memset m.mem p 0 ((ve - vs) * 4096)) (p + offset) d len, m.heap_start,
            m.heap_end, p + (ve - vs) * 4096, m.alloc_failed⟩ rfl rfl rfl
          (fun a ha => by
            show memcpy _ _ _ _ a = _
            rw [memcpy_other _ _ _ _ _ (by omega), memset_other _ _ _ _ _ (by omega)])
        refine ⟨o, g, hfr, fun hok => ⟨p, hal, hge, hle, (hset hok).1, fun i hi => ?_⟩⟩
        rw [(hset hok).2 i hi]
        show memcpy _ _ _ _ (p + i) = _
        unfold as_map_byte
        by_cases hc : offset ≤ i ∧ i < offset + len
        · rw [memcpy_in _ _ _ _ _ (by omega) (by omega)]
          have e : p + i - (p + offset) = i - offset := by omega
          simp [hlen, hc, e]
        · rw [memcpy_other _ _ _ _ _ (by omega), memset_in _ _ _ _ _ (by omega) (by omega)]
          have : ¬ (0 < len ∧ offset ≤ i ∧ i < offset + len) := by omega
          simp only [this, if_false]
      · simp only [hlen, if_false]
        obtain ⟨o, g, hfr, hset⟩ := as_map_core h vs ve flags p h2 hge hle
          ⟨memset m.mem p 0 ((ve - vs) * 4096), m.heap_start, m.heap_end,
            p + (ve - vs) * 4096, m.alloc_failed⟩ rfl rfl rfl
          (fun a ha => memset_other _ _ _ _ _ (by omega))
        refine ⟨o, g, hfr, fun hok => ⟨p, hal, hge, hle, (hset hok).1, fun i hi => ?_⟩⟩
        rw [(hset hok).2 i hi]
        unfold as_map_byte
        have : ¬ (0 < len ∧ offset ≤ i ∧ i < offset + len) := by omega
        simp only [this, if_false]
        exact memset_in _ _ _ _ _ (by omega) (by omega)

end Ucore

namespace Ucore

theorem heap_alloc_succ (m : Machine) (size align : Nat)
    (h : (heap_alloc m size align).1 ≠ 0) :
    (heap_alloc m size align).2.heap_current ≤ m.heap_end ∧
    (heap_alloc m size align).2.heap_end = m.heap_end ∧
    (heap_alloc m size align).2.mem = m.mem := by
  unfold heap_alloc at h ⊢
  dsimp only at h ⊢
  split_ifs at h ⊢ with hgt
  · exact absurd rfl h
  · exact ⟨Nat.le_of_not_gt hgt, rfl, rfl⟩

theorem alloc_page_zero (m : Machine) (hz : m.heap_current = 0) : (alloc_page m).1 = 0 := by
  rw [alloc_page]
  rw [heap_alloc_page_eq m PAGE_SIZE (by omega) (by rw [PAGE_SIZE_eq]; omega), hz]
  have e : (0 + 4095) / 4096 * 4096 = 0 := by norm_num
  simp only [e]
  split_ifs <;> simp_all

theorem alloc_page_succ (m : Machine) (hcur : m.heap_current ≤ 2 ^ 56)
    (hne : (alloc_page m).1 ≠ 0) :
    ∃ p, p % 4096 = 0 ∧ 0 < p ∧ m.heap_current ≤ p ∧ p + 4096 ≤ m.heap_end ∧
      alloc_page m = (p, ⟨memset m.mem p 0 4096, m.heap_start, m.heap_end, p + 4096,
        m.alloc_failed⟩) := by
  by_cases h0 : 0 < m.heap_current
  · rcases alloc_page_cases m h0 hcur with hf | ⟨p, hal, hge, hle, hs⟩
    · rw [hf] at hne
      exact absurd rfl hne
    · exact ⟨p, hal, by omega, hge, hle, hs⟩
  · exact absurd (alloc_page_zero m (by omega)) hne

end Ucore

namespace Ucore

theorem as_create_eq (m0 : Machine) (a : Nat) (ma : Machine) (p : Nat) (mp : Machine)
    (hr : heap_alloc m0 8 8 = (a, ma)) (hp : alloc_page ma = (p, mp)) :
    as_create m0 = if a = 0 then (none, ma) else if p = 0 then (none, mp)
      else (some ⟨p⟩, mp) := by
  simp only [as_create, hr, hp]

/-- A zeroed page above nothing is an empty tree. -/
theorem empty_tree (m' : Machine) (p : Nat) (hal : p % 4096 = 0) (hpos : 0 < p)
    (hle : p + 4096 ≤ m'.heap_end) (hend : m'.heap_end ≤ 2 ^ 56) (m1 : Machine)
    (hmem : m1.mem = memset m'.mem p 0 4096) (hc : m1.heap_current = p + 4096)
    (he : m1.heap_end = m'.heap_end) :
    ∃ owner, PTInv owner m1 p ∧ (∀ v, leaf m1.mem p v = 0) := by
  have Z : ∀ i, i < 512 → entry m1.mem p i = 0 := by
    intro i hi
    rw [hmem]
    exact entry_memset_zero _ _ _ hi
  refine ⟨fun a => if a = p then some (0, 0) else none, ⟨?_, ?_, ?_, ?_, ?_⟩, ?_⟩
  · rw [hc, he]; exact hle
  · rw [he]; exact hend
  · exact if_pos rfl
  · intro q t hq
    rw [hc]
    by_cases hqp : q = p
    · subst hqp; omega
    · rw [if_neg hqp] at hq; cases hq
  · intro q l x i hq hl hi hv
    by_cases hqp : q = p
    · subst hqp
      rw [Z i hi, pte_valid_zero] at hv
      cases hv
    · rw [if_neg hqp] at hq; cases hq
  · intro v
    unfold leaf
    rw [Z _ (vpn_index_lt v 0), pte_valid_zero]
    rfl

/-- The function `as_create` yields an empty tree. -/
theorem as_create_spec (m0 : Machine) (as : address_space_t)
    (hend : m0.heap_end ≤ 2 ^ 56) (hc : (as_create m0).1 = some as) :
    ∃ owner, PTInv owner (as_create m0).2 as.root ∧
      (∀ v, leaf (as_create m0).2.mem as.root v = 0) := by
  rcases hr : heap_alloc m0 8 8 with ⟨a, ma⟩
  rcases hp : alloc_page ma with ⟨p, mp⟩
  rw [as_create_eq m0 a ma p mp hr hp] at hc ⊢
  split_ifs at hc ⊢ with h1 h2
  simp only [Option.some.injEq] at hc
  subst hc
  simp only
  have ha := heap_alloc_succ m0 8 8 (by rw [hr]; exact h1)
  rw [hr] at ha
  simp only at ha
  obtain ⟨hcur, hend', _⟩ := ha
  have h56 : ma.heap_current ≤ 2 ^ 56 := by omega
  obtain ⟨p', hal, hpos, hge, hle, hs⟩ := alloc_page_succ ma h56 (by rw [hp]; exact h2)
  rw [hp] at hs
  simp only [Prod.mk.injEq] at hs
  obtain ⟨hpp, hmp⟩ := hs
  subst hpp
  have h56' : ma.heap_end ≤ 2 ^ 56 := by omega
  exact empty_tree ma p hal hpos hle h56' mp (by rw [hmp]) (by rw [hmp]) (by rw [hmp])

theorem MapCall.run_spec {owner : Nat → Option (Nat × Nat)} {m : Machine} {root : Nat}
    (h : PTInv owner m root) (c : MapCall) (hwf : c.wf) :
    ∃ owner', Grows root owner m owner' (c.run ⟨root⟩ m) ∧
      (∀ v, v < 2 ^ 27 → ¬ c.maps v → leaf (c.run ⟨root⟩ m).mem root v = leaf m.mem root v) ∧
      ((c.run ⟨root⟩ m).alloc_failed = false → ∀ v, c.maps v →
        ∃ ppn, leaf (c.run ⟨root⟩ m).mem root v = make_pte ppn (c.flags ||| PTE_V)) := by
  cases c with
  | extern_call vs ve ppn f =>
    obtain ⟨o1, g, hfr, hset⟩ := as_map_extern_spec h vs ve ppn f hwf.2
    exact ⟨o1, g, hfr, fun hok v hv => ⟨_, hset hok v hv.1 hv.2⟩⟩
  | map vs ve data len offset f =>
    obtain ⟨o1, g, hfr, hset⟩ := as_map_spec h vs ve data len offset f hwf.1 hwf.2.1
    refine ⟨o1, g, hfr, fun hok v hv => ?_⟩
    obtain ⟨p, _, _, _, hl, _⟩ := hset hok
    exact ⟨_, hl v hv.1 hv.2⟩

theorem run_calls_spec (root : Nat) (cs : List MapCall) :
    ∀ (owner : Nat → Option (Nat × Nat)) (m : Machine), PTInv owner m root →
    (∀ c ∈ cs, c.wf) →
    ∃ owner', Grows root owner m owner' (run_calls ⟨root⟩ m cs) ∧
      (∀ v, v < 2 ^ 27 → (∀ c ∈ cs, ¬ c.maps v) →
        leaf (run_calls ⟨root⟩ m cs).mem root v = leaf m.mem root v) := by
  induction cs with
  | nil =>
    intro owner m h _
    exact ⟨owner, Grows.refl h, fun _ _ _ => rfl⟩
  | cons c cs ih =>
    intro owner m h hwf
    obtain ⟨o1, g1, hfr1, _⟩ := MapCall.run_spec h c (hwf c (List.mem_cons_self _ _))
    obtain ⟨o2, g2, hfr2⟩ := ih o1 (c.run ⟨root⟩ m) g1.inv
      (fun c' hc' => hwf c' (List.mem_cons_of_mem _ hc'))
    refine ⟨o2, g1.trans g2, fun v hv hn => ?_⟩
    show leaf (run_calls ⟨root⟩ (c.run ⟨root⟩ m) cs).mem root v = _
    rw [hfr2 v hv (fun c' hc' => hn c' (List.mem_cons_of_mem _ hc')),
      hfr1 v hv (hn c (List.mem_cons_self _ _))]

theorem run_calls_append (as : address_space_t) (m : Machine) (xs ys : List MapCall) :
    run_calls as m (xs ++ ys) = run_calls as (run_calls as m xs) ys := by
  unfold run_calls
  rw [List.foldl_append]

theorem run_calls_cons (as : address_space_t) (m : Machine) (c : MapCall) (cs : List MapCall) :
    run_calls as m (c :: cs) = run_calls as (c.run as m) cs := rfl

end Ucore

namespace Ucore

theorem or_one_eq (x : Nat) : x ||| 1 = x / 2 * 2 + 1 := by
  have h1 : (x ||| 1) / 2 = x / 2 := by
    rw [Nat.or_div_two]; simp
  have h2 : (x ||| 1) % 2 = 1 := by
    rw [Nat.or_mod_two_eq_one]; right; rfl
  omega

theorem pte_is_leaf_iff (x : Nat) :
    x &&& (PTE_R ||| PTE_W ||| PTE_X) ≠ 0 ↔ x % 16 / 2 ≠ 0 := by
  have h := pte_is_leaf_eq x
  unfold pte_is_leaf at h
  constructor
  · intro hx
    have : ((x &&& (PTE_R ||| PTE_W ||| PTE_X)) != 0) = true := by simpa using hx
    rw [h] at this
    simpa using this
  · intro hx
    have : ((x % 16 / 2) != 0) = true := by simpa using hx
    rw [← h] at this
    simpa using this

theorem leaf_result_zero (va req : Nat) : leaf_result 0 va req = 0 :=
  leaf_result_not_valid 0 va req pte_valid_zero

/-- Translation through a well-formed leaf entry. -/
theorem leaf_result_mapped (ppn flags va req : Nat) (hp : ppn < 2 ^ 44) (hf : flags < 2 ^ 10)
    (hl : flags &&& (PTE_R ||| PTE_W ||| PTE_X) ≠ 0)
    (hreq : req &&& (flags ||| PTE_V) = req) :
    leaf_result (make_pte ppn (flags ||| PTE_V)) va req = ppn * 4096 + va % 4096 := by
  have hl' := (pte_is_leaf_iff flags).1 hl
  have hreq' : (flags ||| PTE_V) &&& req = req := by rw [Nat.and_comm]; exact hreq
  rw [PTE_V_eq] at hreq' ⊢
  have hor := or_one_eq flags
  have hlt : flags ||| 1 < 1024 := by omega
  unfold leaf_result
  rw [pte_valid_make_pte, pte_is_leaf_make_pte, pte_flags_make_pte,
    pte_ppn_make_pte _ _ hp hlt, ppn_to_pa_eq, va_offset_eq]
  have e1 : (flags ||| 1) % 1024 = flags ||| 1 := Nat.mod_eq_of_lt hlt
  have e2 : ((flags ||| 1) % 2 != 0) = true := by
    have : (flags ||| 1) % 2 = 1 := by omega
    rw [this]; rfl
  have e3 : ((flags ||| 1) % 16 / 2 != 0) = true := by
    have : (flags ||| 1) % 16 / 2 = flags % 16 / 2 := by omega
    rw [this]
    simpa using hl'
  rw [e1, e2, e3, hreq']
  simp only [Bool.and_self, beq_self_eq_true, if_true]
  omega

/-- Translation is refused when a required flag is missing. -/
theorem leaf_result_denied (ppn f va req : Nat) (h : req &&& (f ||| PTE_V) ≠ req) :
    leaf_result (make_pte ppn (f ||| PTE_V)) va req = 0 := by
  unfold leaf_result
  rw [pte_flags_make_pte]
  have hne : (f ||| PTE_V) % 1024 &&& req ≠ req := by
    intro hc
    apply h
    apply Nat.eq_of_testBit_eq
    intro i
    have hb := congrArg (fun x => x.testBit i) hc
    have e : (1024 : Nat) = 2 ^ 10 := by norm_num
    simp only [e, Nat.testBit_and, Nat.testBit_mod_two_pow] at hb
    rw [Nat.testBit_and]
    cases hr : req.testBit i
    · simp
    · rw [hr] at hb
      simp only [Bool.and_true, Bool.and_eq_true, decide_eq_true_eq] at hb
      simp [hb.2]
  have : ((f ||| PTE_V) % 1024 &&& req == req) = false := by
    simpa using hne
  rw [this]
  simp

theorem va_vpn_page (vpn o : Nat) (hv : vpn < 2 ^ 27) (ho : o < 4096) :
    va_vpn (vpn * 4096 + o) = vpn := by
  rw [va_vpn_eq]; omega

theorem va_vpn_lt (va : Nat) : va_vpn va < 2 ^ 27 := by
  rw [va_vpn_eq]; omega

end Ucore

namespace Ucore

/-- The last-level entry of a page after a history `pre ++ c :: post` in which
no call of `post` maps the page again. -/
theorem history_leaf {owner : Nat → Option (Nat × Nat)} {m1 : Machine} {root : Nat}
    (h : PTInv owner m1 root) (pre post : List MapCall) (c : MapCall)
    (hpre : ∀ c' ∈ pre, c'.wf) (hc : c.wf) (hpost : ∀ c' ∈ post, c'.wf)
    (hok : (run_calls ⟨root⟩ m1 (pre ++ c :: post)).alloc_failed = false)
    (v : Nat) (hv : v < 2 ^ 27) (hrecent : ∀ c' ∈ post, ¬ c'.maps v) :
    ∃ oa, PTInv oa (run_calls ⟨root⟩ m1 pre) root ∧
      (c.run ⟨root⟩ (run_calls ⟨root⟩ m1 pre)).alloc_failed = false ∧
      leaf (run_calls ⟨root⟩ m1 (pre ++ c :: post)).mem root v
        = leaf (c.run ⟨root⟩ (run_calls ⟨root⟩ m1 pre)).mem root v ∧
      ∃ ofin, PTInv ofin (run_calls ⟨root⟩ m1 (pre ++ c :: post)) root := by
  obtain ⟨oa, ga, _⟩ := run_calls_spec root pre owner m1 h hpre
  obtain ⟨ob, gb, _, _⟩ := MapCall.run_spec ga.inv c hc
  obtain ⟨oc, gc, hfr⟩ := run_calls_spec root post ob _ gb.inv hpost
  rw [run_calls_append, run_calls_cons] at hok ⊢
  exact ⟨oa, ga.inv, gc.flag_false hok, hfr v hv hrecent, oc, gc.inv⟩

end Ucore

namespace Ucore

theorem clone_loop_invalid (child : Nat → Nat → Machine → Nat × Machine)
    (src dst level n i : Nat) (m : Machine) (h : pte_valid (entry m.mem src i) = false) :
    clone_loop child src dst level (n + 1) i m =
      clone_loop child src dst level n (i + 1)
        ⟨write64 m.mem (dst + 8 * i) 0, m.heap_start, m.heap_end, m.heap_current,
          m.alloc_failed⟩ := by
  unfold entry at h
  rw [clone_loop]
  simp only [h, Bool.not_false, if_true]

theorem clone_loop_shared (child : Nat → Nat → Machine → Nat × Machine)
    (src dst level n i : Nat) (m : Machine) (hv : pte_valid (entry m.mem src i) = true)
    (hl : pte_is_leaf (entry m.mem src i) = true)
    (hu : pte_flags (entry m.mem src i) &&& PTE_U = 0) :
    clone_loop child src dst level (n + 1) i m =
      clone_loop child src dst level n (i + 1)
        ⟨write64 m.mem (dst + 8 * i) (entry m.mem src i), m.heap_start, m.heap_end,
          m.heap_current, m.alloc_failed⟩ := by
  unfold entry at hv hl hu ⊢
  rw [clone_loop]
  simp [hv, hl, hu]

theorem clone_loop_user (child : Nat → Nat → Machine → Nat × Machine)
    (src dst level n i : Nat) (m : Machine) (hv : pte_valid (entry m.mem src i) = true)
    (hl : pte_is_leaf (entry m.mem src i) = true)
    (hu : pte_flags (entry m.mem src i) &&& PTE_U ≠ 0) (p : Nat) (mp : Machine)
    (ha : alloc_page m = (p, mp)) :
    clone_loop child src dst level (n + 1) i m =
      if p = 0 then (0, mp)
      else clone_loop child src dst level n (i + 1)
        ⟨write64 (memcpy mp.mem p
            (fun k => mp.mem (ppn_to_pa (pte_ppn (entry m.mem src i)) + k)) PAGE_SIZE)
          (dst + 8 * i) (make_pte (pa_ppn p) (pte_flags (entry m.mem src i))),
          mp.heap_start, mp.heap_end, mp.heap_current, mp.alloc_failed⟩ := by
  unfold entry at hv hl hu ⊢
  rw [clone_loop]
  simp [hv, hl, hu, ha]

theorem clone_loop_branch (child : Nat → Nat → Machine → Nat × Machine)
    (src dst level n i : Nat) (m : Machine) (hv : pte_valid (entry m.mem src i) = true)
    (hl : pte_is_leaf (entry m.mem src i) = false) (hlev : level < 2) (q : Nat)
    (mq : Machine)
    (hc : child (ppn_to_pa (pte_ppn (entry m.mem src i))) (level + 1) m = (q, mq)) :
    clone_loop child src dst level (n + 1) i m =
      if q = 0 then (0, mq)
      else clone_loop child src dst level n (i + 1)
        ⟨write64 mq.mem (dst + 8 * i) (make_pte (pa_ppn q) (pte_flags (entry m.mem src i))),
          mq.heap_start, mq.heap_end, mq.heap_current, mq.alloc_failed⟩ := by
  unfold entry at hv hl hc ⊢
  rw [clone_loop]
  simp [hv, hl, hc, LEVELS_eq, hlev]

theorem clone_loop_skip (child : Nat → Nat → Machine → Nat × Machine)
    (src dst level n i : Nat) (m : Machine) (hv : pte_valid (entry m.mem src i) = true)
    (hl : pte_is_leaf (entry m.mem src i) = false) (hlev : ¬ level < 2) :
    clone_loop child src dst level (n + 1) i m =
      clone_loop child src dst level n (i + 1) m := by
  unfold entry at hv hl
  rw [clone_loop]
  simp [hv, hl, LEVELS_eq, hlev]

theorem clone_page_table_succ (depth src level : Nat) (m : Machine) (p : Nat) (mp : Machine)
    (ha : alloc_page m = (p, mp)) :
    clone_page_table (depth + 1) src level m =
      if p = 0 then (0, mp)
      else clone_loop (clone_page_table depth) src p level 512 0 mp := by
  rw [clone_page_table]
  simp [ha, PTE_PER_PAGE_eq]

theorem as_clone_eq (m : Machine) (src : address_space_t) (a : Nat) (ma : Machine)
    (hr : heap_alloc m 8 8 = (a, ma)) (p : Nat) (mp : Machine)
    (hp : clone_page_table 3 src.root 0 ma = (p, mp)) :
    as_clone m src = if a = 0 then (none, ma) else if p = 0 then (none, mp)
      else (some ⟨p⟩, mp) := by
  unfold as_clone
  simp only [hr, LEVELS_eq, hp]

end Ucore

namespace Ucore

theorem CloneLeaf.mono_leaf {memS memD memD' : Mem} {c0 hi hi' lo lo' pte pte' : Nat}
    (h : CloneLeaf memS memD c0 hi lo pte pte') (hlo : lo' ≤ lo) (hhi : hi ≤ hi')
    (hmem : ∀ a, lo ≤ a → a < hi → memD' a = memD a) :
    CloneLeaf memS memD' c0 hi' lo' pte pte' := by
  obtain ⟨h1, h2, h3⟩ := h
  refine ⟨h1, h2, fun hv hl hu => ?_⟩
  obtain ⟨pg, hal, hge, hle, he, hc⟩ := h3 hv hl hu
  refine ⟨pg, hal, by omega, by omega, he, fun hs x hx => ?_⟩
  rw [hmem (pg + x) (by omega) (by omega)]
  exact hc hs x hx

theorem CloneEntry.mono_entry {memS memD memD' : Mem} {c0 hi hi' : Nat} (hhi : hi ≤ hi') :
    ∀ (d lo lo' pte pte' : Nat), CloneEntry memS memD c0 hi d lo pte pte' → lo' ≤ lo →
      (∀ a, lo ≤ a → a < hi → memD' a = memD a) →
      CloneEntry memS memD' c0 hi' d lo' pte pte' := by
  intro d
  induction d with
  | zero =>
    intro lo lo' pte pte' h hlo hmem
    rw [CloneEntry] at h ⊢
    exact ⟨h.1.mono_leaf hlo hhi hmem, h.2⟩
  | succ d ih =>
    intro lo lo' pte pte' h hlo hmem
    rw [CloneEntry] at h ⊢
    refine ⟨h.1.mono_leaf hlo hhi hmem, fun hv hl => ?_⟩
    obtain ⟨q, hal, hge, hle, he, hsub⟩ := h.2 hv hl
    refine ⟨q, hal, by omega, by omega, he, fun k hk => ?_⟩
    have e : entry memD' q k = entry memD q k := by
      apply entry_congr
      intro a h1 h2
      apply hmem <;> omega
    rw [e]
    exact ih (q + 4096) (q + 4096) _ _ (hsub k hk) (le_refl _)
      (fun a h1 h2 => hmem a (by omega) h2)

theorem CloneEntry.of_leaf {memS memD : Mem} {c0 hi lo pte pte' : Nat} (d : Nat)
    (h : CloneLeaf memS memD c0 hi lo pte pte')
    (hleaf : pte_valid pte = true → pte_is_leaf pte = true) :
    CloneEntry memS memD c0 hi d lo pte pte' := by
  cases d with
  | zero =>
    rw [CloneEntry]
    refine ⟨h, fun hv hl => ?_⟩
    rw [hleaf hv] at hl
    cases hl
  | succ d =>
    rw [CloneEntry]
    refine ⟨h, fun hv hl => ?_⟩
    rw [hleaf hv] at hl
    cases hl

theorem CloneLeaf.of_branch {memS memD : Mem} {c0 hi lo pte pte' : Nat}
    (hv : pte_valid pte = true) (hl : pte_is_leaf pte = false) :
    CloneLeaf memS memD c0 hi lo pte pte' := by
  refine ⟨fun h => ?_, fun _ h => ?_, fun _ h => ?_⟩
  · rw [hv] at h; cases h
  · rw [hl] at h; cases h
  · rw [hl] at h; cases h

/-- One iteration of the loop keeps the loop invariant. -/
theorem CloneLoop.step {ms : Machine} {d src dst i : Nat} {m : Machine}
    (h : CloneLoop ms d src dst i m) (hdst : dst % 4096 = 0) (hi : i < 512) (m1 : Machine)
    (hmem : ∀ a, a < m.heap_current → (a < dst + 8 * i ∨ dst + 8 * i + 8 ≤ a) →
      m1.mem a = m.mem a)
    (hge : ms.heap_current ≤ dst)
    (hcur : m.heap_current ≤ m1.heap_current) (hle : m1.heap_current ≤ m1.heap_end)
    (hend : m1.heap_end = m.heap_end)
    (hent : CloneEntry ms.mem m1.mem ms.heap_current m1.heap_current d (dst + 4096)
      (entry ms.mem src i) (entry m1.mem dst i)) :
    CloneLoop ms d src dst (i + 1) m1 := by
  have hfr := h.fr
  have hd := h.dst_hi
  have hcg := hfr.cur_ge
  refine ⟨⟨by omega, hle, by rw [hend]; exact hfr.end_le, fun a ha => ?_⟩, by omega,
    fun k hk1 hk2 => ?_, fun k hk => ?_⟩
  · rw [hmem a (by omega) (by omega)]
    exact hfr.frame a ha
  · have e : entry m1.mem dst k = entry m.mem dst k := by
      apply entry_congr
      intro a h1 h2
      apply hmem <;> omega
    rw [e]
    exact h.zero k (by omega) hk2
  · by_cases hki : k = i
    · rw [hki]; exact hent
    · have e : entry m1.mem dst k = entry m.mem dst k := by
        apply entry_congr
        intro a h1 h2
        apply hmem <;> omega
      rw [e]
      exact CloneEntry.mono_entry hcur _ _ _ _ _ (h.done k (by omega)) (le_refl _)
        (fun a h1 h2 => hmem a h2 (by omega))

end Ucore

namespace Ucore

/-- The loop of `clone_page_table`, when it does not give up. -/
theorem clone_loop_spec {owner : Nat → Option (Nat × Nat)} {ms : Machine} {root : Nat}
    (hinv : PTInv owner ms root) (d level : Nat) (hld : level + d = 2)
    (child : Nat → Nat → Machine → Nat × Machine)
    (hchild : ∀ d', d = d' + 1 → ∀ src' x' m q mq, owner src' = some (level + 1, x') →
      CloneFrame ms m → child src' (level + 1) m = (q, mq) → q ≠ 0 →
      CloneTable ms d' src' m q mq)
    (src x : Nat) (hsrc : owner src = some (level, x)) (dst : Nat) (hdst : dst % 4096 = 0)
    (hge : ms.heap_current ≤ dst) :
    ∀ (n i : Nat) (m : Machine) (t : Nat) (m' : Machine), i + n = 512 →
      CloneLoop ms d src dst i m →
      clone_loop child src dst level n i m = (t, m') → t ≠ 0 →
      t = dst ∧ CloneLoop ms d src dst 512 m' ∧ m.heap_current ≤ m'.heap_current ∧
        m'.heap_end = m.heap_end ∧
        ∀ a, a < m.heap_current → (a < dst + 8 * i ∨ dst + 4096 ≤ a) →
          m'.mem a = m.mem a := by
  have hsp := hinv.own_page src _ hsrc
  have hroot := hinv.own_page root _ hinv.own_root
  intro n
  induction n with
  | zero =>
    intro i m t m' hin hL hr _
    rw [clone_loop] at hr
    have h1 : dst = t := congrArg Prod.fst hr
    have h2 : m = m' := congrArg Prod.snd hr
    subst h2
    have hi : i = 512 := by omega
    subst hi
    exact ⟨h1.symm, hL, le_refl _, rfl, fun _ _ _ => rfl⟩
  | succ n ih =>
    intro i m t m' hin hL hr ht
    have hi : i < 512 := by omega
    have hfr := hL.fr
    have hdh := hL.dst_hi
    have hcg := hfr.cur_ge
    have hcl := hfr.cur_le
    have hel := hfr.end_le
    -- the entry of the source table
    have he : entry m.mem src i = entry ms.mem src i := by
      apply entry_congr
      intro a h1 h2
      apply hfr.frame
      omega
    -- finishing an iteration
    have fin : ∀ m1 : Machine,
        (∀ a, a < m.heap_current → (a < dst + 8 * i ∨ dst + 8 * i + 8 ≤ a) →
          m1.mem a = m.mem a) →
        m.heap_current ≤ m1.heap_current → m1.heap_current ≤ m1.heap_end →
        m1.heap_end = m.heap_end →
        CloneEntry ms.mem m1.mem ms.heap_current m1.heap_current d (dst + 4096)
          (entry ms.mem src i) (entry m1.mem dst i) →
        clone_loop child src dst level n (i + 1) m1 = (t, m') →
        t = dst ∧ CloneLoop ms d src dst 512 m' ∧ m.heap_current ≤ m'.heap_current ∧
          m'.heap_end = m.heap_end ∧
          ∀ a, a < m.heap_current → (a < dst + 8 * i ∨ dst + 4096 ≤ a) →
            m'.mem a = m.mem a := by
      intro m1 hmem hcur hle hend hent hr1
      have hL1 := hL.step hdst hi m1 hmem hge hcur hle hend hent
      obtain ⟨e1, e2, e3, e4, e5⟩ := ih (i + 1) m1 t m' (by omega) hL1 hr1 ht
      refine ⟨e1, e2, by omega, by rw [e4, hend], fun a ha hout => ?_⟩
      rw [e5 a (by omega) (by omega)]
      exact hmem a ha (by omega)
    by_cases hv : pte_valid (entry m.mem src i) = true
    · by_cases hl : pte_is_leaf (entry m.mem src i) = true
      · by_cases hu : pte_flags (entry m.mem src i) &&& PTE_U = 0
        · -- a shared leaf
          rw [clone_loop_shared child src dst level n i m hv hl hu] at hr
          refine fin ⟨write64 m.mem (dst + 8 * i) (entry m.mem src i), m.heap_start, m.heap_end,
            m.heap_current, m.alloc_failed⟩
            (fun a _ ho => write64_other _ _ _ _ (by omega)) (le_refl _) hcl rfl ?_ hr
          have e : entry (write64 m.mem (dst + 8 * i) (entry m.mem src i)) dst i =
              entry m.mem src i := read64_write64_same _ _ _ (entry_lt _ _ _)
          show CloneEntry ms.mem (write64 _ _ _) ms.heap_current m.heap_current d (dst + 4096)
            (entry ms.mem src i) (entry (write64 _ _ _) dst i)
          rw [e]
          rw [he] at hv hl hu ⊢
          apply CloneEntry.of_leaf d _ (fun _ => hl)
          refine ⟨fun h => ?_, fun _ _ _ => rfl, fun _ _ h => absurd hu h⟩
          rw [hv] at h; cases h
        · -- a user leaf: a new page
          rcases alloc_page_cases m (by omega) (by omega) with hf | ⟨p, hal, hpge, hple, hs⟩
          · rw [clone_loop_user child src dst level n i m hv hl hu _ _ hf] at hr
            simp only [if_true] at hr
            exact absurd (congrArg Prod.fst hr).symm ht
          · rw [clone_loop_user child src dst level n i m hv hl hu _ _ hs] at hr
            have hp0 : p ≠ 0 := by omega
            rw [if_neg hp0, PAGE_SIZE_eq] at hr
            dsimp only at hr
            refine fin ⟨write64 (memcpy (memset m.mem p 0 4096) p
                (fun k => memset m.mem p 0 4096
                  (ppn_to_pa (pte_ppn (entry m.mem src i)) + k)) 4096)
                (dst + 8 * i) (make_pte (pa_ppn p) (pte_flags (entry m.mem src i))),
                m.heap_start, m.heap_end, p + 4096, m.alloc_failed⟩
              (fun a ha ho => ?_) (by show m.heap_current ≤ p + 4096; omega)
              (by show p + 4096 ≤ m.heap_end; omega) rfl ?_ hr
            · show write64 _ _ _ a = _
              rw [write64_other _ _ _ _ (by omega), memcpy_other _ _ _ _ _ (by omega)]
              exact memset_other _ _ _ _ _ (by omega)
            · have e : entry (write64 (memcpy (memset m.mem p 0 4096) p
                  (fun k => memset m.mem p 0 4096
                    (ppn_to_pa (pte_ppn (entry m.mem src i)) + k)) 4096)
                  (dst + 8 * i) (make_pte (pa_ppn p) (pte_flags (entry m.mem src i)))) dst i =
                  make_pte (pa_ppn p) (pte_flags (entry m.mem src i)) :=
                read64_write64_same _ _ _ (make_pte_lt _ _)
              show CloneEntry ms.mem (write64 _ _ _) ms.heap_current (p + 4096) d (dst + 4096)
                (entry ms.mem src i) (entry (write64 _ _ _) dst i)
              rw [e]
              rw [he] at hv hl hu ⊢
              apply CloneEntry.of_leaf d _ (fun _ => hl)
              refine ⟨fun h => ?_, fun _ _ h => absurd h hu, fun _ _ _ => ?_⟩
              · rw [hv] at h; cases h
              · refine ⟨p, hal, by omega, le_refl _, rfl, fun hs x hx => ?_⟩
                rw [write64_other _ _ _ _ (by omega), memcpy_in _ _ _ _ _ (by omega) (by omega),
                  Nat.add_sub_cancel_left, memset_other _ _ _ _ _ (by omega)]
                exact hfr.frame _ (by omega)
      · simp only [Bool.not_eq_true] at hl
        by_cases hlev : level < 2
        · -- a link: the table below is cloned
          obtain ⟨d', hd'⟩ : ∃ d', d = d' + 1 := ⟨d - 1, by omega⟩
          have hv' := hv
          rw [he] at hv'
          have hc := (hinv.child_eq hsrc hlev hi hv').2
          rcases hq : child (ppn_to_pa (pte_ppn (entry m.mem src i))) (level + 1) m with ⟨q, mq⟩
          rw [clone_loop_branch child src dst level n i m hv hl hlev q mq hq] at hr
          by_cases hq0 : q = 0
          · rw [if_pos hq0] at hr
            exact absurd (congrArg Prod.fst hr).symm ht
          · rw [if_neg hq0] at hr
            have hq' := hq
            rw [he] at hq'
            have T := hchild d' hd' _ _ m q mq hc hfr hq' hq0
            have hTlo := T.lo
            have hThi := T.hi
            refine fin ⟨write64 mq.mem (dst + 8 * i)
                (make_pte (pa_ppn q) (pte_flags (entry m.mem src i))),
                mq.heap_start, mq.heap_end, mq.heap_current, mq.alloc_failed⟩
              (fun a ha ho => ?_) (by show m.heap_current ≤ mq.heap_current; omega)
              T.cur_le T.hend ?_ hr
            · show write64 _ _ _ a = _
              rw [write64_other _ _ _ _ (by omega)]
              exact T.frame a ha
            · have e : entry (write64 mq.mem (dst + 8 * i)
                  (make_pte (pa_ppn q) (pte_flags (entry m.mem src i)))) dst i =
                  make_pte (pa_ppn q) (pte_flags (entry m.mem src i)) :=
                read64_write64_same _ _ _ (make_pte_lt _ _)
              show CloneEntry ms.mem (write64 _ _ _) ms.heap_current mq.heap_current d
                (dst + 4096) (entry ms.mem src i) (entry (write64 _ _ _) dst i)
              rw [e, hd']
              rw [he] at hv hl ⊢
              rw [CloneEntry]
              refine ⟨CloneLeaf.of_branch hv hl, fun _ _ => ⟨q, T.aligned, by omega, hThi, rfl,
                fun k hk => ?_⟩⟩
              have e2 : entry (write64 mq.mem (dst + 8 * i)
                  (make_pte (pa_ppn q) (pte_flags (entry ms.mem src i)))) q k =
                  entry mq.mem q k := by
                apply entry_congr
                intro a h1 h2
                exact write64_other _ _ _ _ (by omega)
              rw [e2]
              exact CloneEntry.mono_entry (le_refl _) _ _ _ _ _ (T.entries k hk) (le_refl _)
                (fun a h1 h2 => write64_other _ _ _ _ (by omega))
        · -- the last level holds no link: the entry stays zero
          rw [clone_loop_skip child src dst level n i m hv hl hlev] at hr
          refine fin m (fun _ _ _ => rfl) (le_refl _) hcl rfl ?_ hr
          have hd0 : d = 0 := by omega
          rw [hL.zero i (le_refl _) hi, hd0, CloneEntry]
          rw [he] at hv hl
          exact ⟨CloneLeaf.of_branch hv hl, fun _ _ => rfl⟩
    · -- an invalid entry
      simp only [Bool.not_eq_true] at hv
      rw [clone_loop_invalid child src dst level n i m hv] at hr
      refine fin ⟨write64 m.mem (dst + 8 * i) 0, m.heap_start, m.heap_end, m.heap_current,
        m.alloc_failed⟩
        (fun a _ ho => write64_other _ _ _ _ (by omega)) (le_refl _) hcl rfl ?_ hr
      have e : entry (write64 m.mem (dst + 8 * i) 0) dst i = 0 :=
        read64_write64_same _ _ _ (by norm_num)
      show CloneEntry ms.mem (write64 _ _ _) ms.heap_current m.heap_current d (dst + 4096)
        (entry ms.mem src i) (entry (write64 _ _ _) dst i)
      rw [e]
      rw [he] at hv
      apply CloneEntry.of_leaf d _ (fun h => by rw [hv] at h; cases h)
      refine ⟨fun _ => rfl, fun h => ?_, fun h => ?_⟩ <;> (rw [hv] at h; cases h)

end Ucore

namespace Ucore

theorem and_not_7 (x : Nat) (h : x < 2 ^ 64) :
    x &&& not64 ((8 + (2 ^ 64 - 1)) % 2 ^ 64) = x / 8 * 8 := by
  have hc : not64 ((8 + (2 ^ 64 - 1)) % 2 ^ 64) = (2 ^ 61 - 1) <<< 3 := by decide
  have hx : x / 8 * 8 = (x >>> 3) <<< 3 := by
    rw [Nat.shiftRight_eq_div_pow, Nat.shiftLeft_eq]
  rw [hc, hx]
  apply Nat.eq_of_testBit_eq
  intro i
  simp only [Nat.testBit_and, Nat.testBit_shiftLeft, Nat.testBit_shiftRight,
    Nat.testBit_two_pow_sub_one]
  by_cases hi : 3 ≤ i
  · have e : 3 + (i - 3) = i := by omega
    simp only [ge_iff_le, hi, decide_True, Bool.true_and, e]
    by_cases h2 : i - 3 < 61
    · simp [h2]
    · have : x.testBit i = false := by
        apply Nat.testBit_lt_two_pow
        calc x < 2 ^ 64 := h
          _ ≤ 2 ^ i := Nat.pow_le_pow_right (by omega) (by omega)
      simp [this]
  · simp [hi]

/-- Allocation of the eight bytes of an `address_space_t`. -/
theorem heap_alloc_8_eq (m : Machine) (hcur : m.heap_current ≤ 2 ^ 56) :
    heap_alloc m 8 8 =
      if (m.heap_current + 7) / 8 * 8 + 8 > m.heap_end then
        (0, ⟨m.mem, m.heap_start, m.heap_end, m.heap_current, true⟩)
      else
        ((m.heap_current + 7) / 8 * 8,
          ⟨m.mem, m.heap_start, m.heap_end, (m.heap_current + 7) / 8 * 8 + 8,
            m.alloc_failed || ((m.heap_current + 7) / 8 * 8 == 0)⟩) := by
  unfold heap_alloc
  have h1 : (m.heap_current + 8 + (2 ^ 64 - 1)) % 2 ^ 64 = m.heap_current + 7 := by omega
  rw [h1, and_not_7 _ (by omega)]
  have h2 : ((m.heap_current + 7) / 8 * 8 + 8) % 2 ^ 64
      = (m.heap_current + 7) / 8 * 8 + 8 := by omega
  simp only [h2]

/-- The function `alloc_page` on a heap whose break is positive and below
`2 ^ 56`. -/
theorem alloc_page_exact (m : Machine) (h0 : 0 < m.heap_current)
    (hcur : m.heap_current ≤ 2 ^ 56) :
    alloc_page m =
      if (m.heap_current + 4095) / 4096 * 4096 + 4096 > m.heap_end then
        (0, ⟨m.mem, m.heap_start, m.heap_end, m.heap_current, true⟩)
      else
        ((m.heap_current + 4095) / 4096 * 4096,
          ⟨memset m.mem ((m.heap_current + 4095) / 4096 * 4096) 0 4096, m.heap_start,
            m.heap_end, (m.heap_current + 4095) / 4096 * 4096 + 4096, m.alloc_failed⟩) := by
  unfold alloc_page
  rw [heap_alloc_page_eq m PAGE_SIZE hcur (by rw [PAGE_SIZE_eq]; omega), PAGE_SIZE_eq]
  by_cases hc : (m.heap_current + 4095) / 4096 * 4096 + 4096 > m.heap_end
  · simp [hc]
  · have hne : (m.heap_current + 4095) / 4096 * 4096 ≠ 0 := by omega
    simp [hc, hne]

/-- The function `clone_page_table`, when it does not give up. -/
theorem clone_page_table_spec {owner : Nat → Option (Nat × Nat)} {ms : Machine} {root : Nat}
    (hinv : PTInv owner ms root) :
    ∀ (d level : Nat), level + d = 2 → ∀ (src x : Nat) (m : Machine) (t : Nat) (m' : Machine),
      owner src = some (level, x) → CloneFrame ms m →
      clone_page_table (d + 1) src level m = (t, m') → t ≠ 0 →
      CloneTable ms d src m t m' := by
  have hroot := hinv.own_page root _ hinv.own_root
  intro d
  induction d with
  | zero =>
    intro level hld src x m t m' hsrc hfr hr ht
    have hcg := hfr.cur_ge
    have hcl := hfr.cur_le
    have hel := hfr.end_le
    rcases alloc_page_cases m (by omega) (by omega) with hf | ⟨p, hal, hpge, hple, hs⟩
    · rw [clone_page_table_succ 0 src level m _ _ hf, if_pos rfl] at hr
      exact absurd (congrArg Prod.fst hr).symm ht
    · have hp0 : p ≠ 0 := by omega
      rw [clone_page_table_succ 0 src level m _ _ hs, if_neg hp0] at hr
      have hL : CloneLoop ms 0 src p 0
          ⟨memset m.mem p 0 4096, m.heap_start, m.heap_end, p + 4096, m.alloc_failed⟩ := by
        refine ⟨⟨by show ms.heap_current ≤ p + 4096; omega, hple, hel, fun a ha => ?_⟩,
          le_refl _, fun k _ hk => entry_memset_zero _ _ _ hk, fun k hk => absurd hk (by omega)⟩
        show memset m.mem p 0 4096 a = _
        rw [memset_other _ _ _ _ _ (by omega)]
        exact hfr.frame a ha
      obtain ⟨e1, e2, e3, e4, e5⟩ := clone_loop_spec hinv 0 level hld (clone_page_table 0)
        (fun d' hd' => absurd hd' (by omega)) src x hsrc p hal (by omega) 512 0 _ t m'
        (by omega) hL hr ht
      rw [e1]
      have e3' : p + 4096 ≤ m'.heap_current := e3
      refine ⟨hal, hpge, e3', e2.fr.cur_le, e4, fun a ha => ?_, e2.done⟩
      rw [e5 a (by show a < p + 4096; omega) (by omega)]
      exact memset_other _ _ _ _ _ (by omega)
  | succ d ih =>
    intro level hld src x m t m' hsrc hfr hr ht
    have hcg := hfr.cur_ge
    have hcl := hfr.cur_le
    have hel := hfr.end_le
    rcases alloc_page_cases m (by omega) (by omega) with hf | ⟨p, hal, hpge, hple, hs⟩
    · rw [clone_page_table_succ (d + 1) src level m _ _ hf, if_pos rfl] at hr
      exact absurd (congrArg Prod.fst hr).symm ht
    · have hp0 : p ≠ 0 := by omega
      rw [clone_page_table_succ (d + 1) src level m _ _ hs, if_neg hp0] at hr
      have hL : CloneLoop ms (d + 1) src p 0
          ⟨memset m.mem p 0 4096, m.heap_start, m.heap_end, p + 4096, m.alloc_failed⟩ := by
        refine ⟨⟨by show ms.heap_current ≤ p + 4096; omega, hple, hel, fun a ha => ?_⟩,
          le_refl _, fun k _ hk => entry_memset_zero _ _ _ hk, fun k hk => absurd hk (by omega)⟩
        show memset m.mem p 0 4096 a = _
        rw [memset_other _ _ _ _ _ (by omega)]
        exact hfr.frame a ha
      obtain ⟨e1, e2, e3, e4, e5⟩ := clone_loop_spec hinv (d + 1) level hld
        (clone_page_table (d + 1))
        (fun d' hd' src' x' m1 q mq ho hf1 hq hq0 => by
          have hdd : d = d' := by omega
          subst hdd
          exact ih (level + 1) (by omega) src' x' m1 q mq ho hf1 hq hq0)
        src x hsrc p hal (by omega) 512 0 _ t m' (by omega) hL hr ht
      rw [e1]
      have e3' : p + 4096 ≤ m'.heap_current := e3
      refine ⟨hal, hpge, e3', e2.fr.cur_le, e4, fun a ha => ?_, e2.done⟩
      rw [e5 a (by show a < p + 4096; omega) (by omega)]
      exact memset_other _ _ _ _ _ (by omega)

end Ucore

namespace Ucore

theorem clone_quota_pos (d : Nat) : 1 ≤ clone_quota d := by
  cases d <;> simp [clone_quota]

theorem clone_quota_succ (d : Nat) : clone_quota (d + 1) = 1 + 512 * clone_quota d := rfl

/-- With enough room in the heap the loop of `clone_page_table` runs to its
end. -/
theorem clone_loop_room (d level : Nat) (hld : level + d = 2)
    (child : Nat → Nat → Machine → Nat × Machine)
    (hchild : ∀ d', d = d' + 1 → ∀ (src' : Nat) (m : Machine), 0 < m.heap_current →
      m.heap_current % 4096 = 0 →
      m.heap_current + 4096 * clone_quota d ≤ m.heap_end → m.heap_end ≤ 2 ^ 56 →
      ∃ q mq, child src' (level + 1) m = (q, mq) ∧ q ≠ 0 ∧ mq.heap_current % 4096 = 0 ∧
        m.heap_current ≤ mq.heap_current ∧
        mq.heap_current ≤ m.heap_current + 4096 * clone_quota d ∧ mq.heap_end = m.heap_end)
    (src dst : Nat) :
    ∀ (n i : Nat) (m : Machine), 0 < m.heap_current → m.heap_current % 4096 = 0 →
      m.heap_current + 4096 * (n * clone_quota d) ≤ m.heap_end → m.heap_end ≤ 2 ^ 56 →
      ∃ m', clone_loop child src dst level n i m = (dst, m') ∧ m'.heap_current % 4096 = 0 ∧
        m.heap_current ≤ m'.heap_current ∧
        m'.heap_current ≤ m.heap_current + 4096 * (n * clone_quota d) ∧
        m'.heap_end = m.heap_end := by
  have hQ := clone_quota_pos d
  intro n
  induction n with
  | zero =>
    intro i m h0 hal hroom hend
    exact ⟨m, by rw [clone_loop], hal, le_refl _, by omega, rfl⟩
  | succ n ih =>
    intro i m h0 hal hroom hend
    have hsm : (n + 1) * clone_quota d = n * clone_quota d + clone_quota d :=
      Nat.succ_mul n _
    rw [hsm] at hroom ⊢
    have fin : ∀ m1 : Machine,
        clone_loop child src dst level (n + 1) i m =
          clone_loop child src dst level n (i + 1) m1 →
        m1.heap_current % 4096 = 0 →
        m.heap_current ≤ m1.heap_current →
        m1.heap_current ≤ m.heap_current + 4096 * clone_quota d → m1.heap_end = m.heap_end →
        ∃ m', clone_loop child src dst level (n + 1) i m = (dst, m') ∧
          m'.heap_current % 4096 = 0 ∧ m.heap_current ≤ m'.heap_current ∧
          m'.heap_current ≤ m.heap_current + 4096 * (n * clone_quota d + clone_quota d) ∧
          m'.heap_end = m.heap_end := by
      intro m1 heq hal1 hge1 hle1 hend1
      obtain ⟨m', e1, e2, e3, e4, e5⟩ := ih (i + 1) m1 (by omega) hal1 (by omega) (by omega)
      exact ⟨m', by rw [heq, e1], e2, by omega, by omega, by omega⟩
    by_cases hv : pte_valid (entry m.mem src i) = true
    · by_cases hl : pte_is_leaf (entry m.mem src i) = true
      · by_cases hu : pte_flags (entry m.mem src i) &&& PTE_U = 0
        · exact fin _ (clone_loop_shared child src dst level n i m hv hl hu) hal (le_refl _)
            (by show m.heap_current ≤ _; omega) rfl
        · have ha := alloc_page_exact m h0 (by omega)
          have hr : (m.heap_current + 4095) / 4096 * 4096 = m.heap_current := by omega
          rw [hr, if_neg (by omega)] at ha
          have hs := clone_loop_user child src dst level n i m hv hl hu _ _ ha
          rw [if_neg (by omega)] at hs
          exact fin _ hs (by show (m.heap_current + 4096) % 4096 = 0; omega)
            (by show m.heap_current ≤ m.heap_current + 4096; omega)
            (by show m.heap_current + 4096 ≤ _; omega) rfl
      · simp only [Bool.not_eq_true] at hl
        by_cases hlev : level < 2
        · obtain ⟨d', hd'⟩ : ∃ d', d = d' + 1 := ⟨d - 1, by omega⟩
          obtain ⟨q, mq, hq, hq0, c1, c2, c3, c4⟩ :=
            hchild d' hd' (ppn_to_pa (pte_ppn (entry m.mem src i))) m h0 hal (by omega) hend
          have hs := clone_loop_branch child src dst level n i m hv hl hlev q mq hq
          rw [if_neg hq0] at hs
          exact fin _ hs c1 c2 c3 c4
        · exact fin m (clone_loop_skip child src dst level n i m hv hl hlev) hal (le_refl _)
            (by omega) rfl
    · simp only [Bool.not_eq_true] at hv
      exact fin _ (clone_loop_invalid child src dst level n i m hv) hal (le_refl _)
        (by show m.heap_current ≤ _; omega) rfl

/-- With enough room in the heap `clone_page_table` returns a table. -/
theorem clone_page_table_room :
    ∀ (d level : Nat), level + d = 2 → ∀ (src : Nat) (m : Machine), 0 < m.heap_current →
      (m.heap_current + 4095) / 4096 * 4096 + 4096 * clone_quota (d + 1) ≤ m.heap_end →
      m.heap_end ≤ 2 ^ 56 →
      ∃ q mq, clone_page_table (d + 1) src level m = (q, mq) ∧ q ≠ 0 ∧
        mq.heap_current % 4096 = 0 ∧ m.heap_current ≤ mq.heap_current ∧
        mq.heap_current ≤ (m.heap_current + 4095) / 4096 * 4096 + 4096 * clone_quota (d + 1) ∧
        mq.heap_end = m.heap_end := by
  intro d
  induction d with
  | zero =>
    intro level hld src m h0 hroom hend
    have hQ := clone_quota_pos 0
    rw [clone_quota_succ] at hroom ⊢
    have ha := alloc_page_exact m h0 (by omega)
    rw [if_neg (by omega)] at ha
    have hs := clone_page_table_succ 0 src level m _ _ ha
    rw [if_neg (by omega)] at hs
    obtain ⟨m', e1, e2, e3, e4, e5⟩ := clone_loop_room 0 level hld (clone_page_table 0)
      (fun d' hd' => absurd hd' (by omega)) src ((m.heap_current + 4095) / 4096 * 4096) 512 0
      ⟨memset m.mem ((m.heap_current + 4095) / 4096 * 4096) 0 4096, m.heap_start,
        m.heap_end, (m.heap_current + 4095) / 4096 * 4096 + 4096, m.alloc_failed⟩
      (by show 0 < (m.heap_current + 4095) / 4096 * 4096 + 4096; omega)
      (by show ((m.heap_current + 4095) / 4096 * 4096 + 4096) % 4096 = 0; omega)
      (by show (m.heap_current + 4095) / 4096 * 4096 + 4096 + _ ≤ m.heap_end; omega) hend
    have e3' : (m.heap_current + 4095) / 4096 * 4096 + 4096 ≤ m'.heap_current := e3
    have e4' : m'.heap_current ≤ (m.heap_current + 4095) / 4096 * 4096 + 4096 +
      4096 * (512 * clone_quota 0) := e4
    exact ⟨_, m', by rw [hs, e1], by omega, e2, by omega, by omega, e5⟩
  | succ d ih =>
    intro level hld src m h0 hroom hend
    have hQ := clone_quota_pos (d + 1)
    rw [clone_quota_succ] at hroom ⊢
    have ha := alloc_page_exact m h0 (by omega)
    rw [if_neg (by omega)] at ha
    have hs := clone_page_table_succ (d + 1) src level m _ _ ha
    rw [if_neg (by omega)] at hs
    obtain ⟨m', e1, e2, e3, e4, e5⟩ := clone_loop_room (d + 1) level hld
      (clone_page_table (d + 1))
      (fun d' hd' src' m1 h1 h2 h3 h4 => by
        have hdd : d = d' := by omega
        subst hdd
        have hr : (m1.heap_current + 4095) / 4096 * 4096 = m1.heap_current := by omega
        have := ih (level + 1) (by omega) src' m1 h1 (by rw [hr]; exact h3) h4
        rw [hr] at this
        exact this)
      src ((m.heap_current + 4095) / 4096 * 4096) 512 0
      ⟨memset m.mem ((m.heap_current + 4095) / 4096 * 4096) 0 4096, m.heap_start,
        m.heap_end, (m.heap_current + 4095) / 4096 * 4096 + 4096, m.alloc_failed⟩
      (by show 0 < (m.heap_current + 4095) / 4096 * 4096 + 4096; omega)
      (by show ((m.heap_current + 4095) / 4096 * 4096 + 4096) % 4096 = 0; omega)
      (by show (m.heap_current + 4095) / 4096 * 4096 + 4096 + _ ≤ m.heap_end; omega) hend
    have e3' : (m.heap_current + 4095) / 4096 * 4096 + 4096 ≤ m'.heap_current := e3
    have e4' : m'.heap_current ≤ (m.heap_current + 4095) / 4096 * 4096 + 4096 +
      4096 * (512 * clone_quota (d + 1)) := e4
    exact ⟨_, m', by rw [hs, e1], by omega, e2, by omega, by omega, e5⟩

end Ucore

namespace Ucore

theorem translate_down (mem : Mem) (vpn va req n level pt q : Nat)
    (he : entry mem pt (vpn_index vpn level) = make_pte (pa_ppn q) PTE_V)
    (hal : q % 4096 = 0) (hlt : q < 2 ^ 56) :
    as_translate_loop mem vpn va req (n + 1) level pt =
      as_translate_loop mem vpn va req n (level + 1) q := by
  rw [as_translate_loop_succ]
  have hc : child mem pt (vpn_index vpn level) = q := by
    unfold child
    rw [he]
    exact branch_target _ hal hlt
  rw [hc, he, branch_valid, branch_not_leaf]
  simp

theorem translate_zero (mem : Mem) (vpn va req n level pt : Nat)
    (he : entry mem pt (vpn_index vpn level) = 0) :
    as_translate_loop mem vpn va req (n + 1) level pt = 0 := by
  rw [as_translate_loop_succ, he, pte_valid_zero]
  simp

theorem translate_last (mem : Mem) (vpn va req level pt : Nat) :
    as_translate_loop mem vpn va req 1 level pt =
      leaf_result (entry mem pt (vpn_index vpn level)) va req := by
  rw [as_translate_loop_succ]
  simp only [as_translate_loop]
  generalize entry mem pt (vpn_index vpn level) = pte
  by_cases hpv : pte_valid pte = true
  · by_cases hpl : pte_is_leaf pte = true
    · simp [hpv, hpl]
    · simp only [Bool.not_eq_true] at hpl
      simp [hpv, hpl, leaf_result_not_leaf]
  · simp only [Bool.not_eq_true] at hpv
    simp [hpv, leaf_result_not_valid]

theorem CloneEntry.zero (memS memD : Mem) (c0 hi lo : Nat) :
    CloneEntry memS memD c0 hi 0 lo 0 0 := by
  apply CloneEntry.of_leaf 0 _ (fun h => by rw [pte_valid_zero] at h; cases h)
  refine ⟨fun _ => rfl, fun h => ?_, fun h => ?_⟩ <;> (rw [pte_valid_zero] at h; cases h)

theorem leaf_branch0 (mem : Mem) (root vpn q : Nat)
    (he : entry mem root (vpn_index vpn 0) = make_pte (pa_ppn q) PTE_V)
    (hal : q % 4096 = 0) (hlt : q < 2 ^ 56) :
    leaf mem root vpn =
      if pte_valid (entry mem q (vpn_index vpn 1)) = true then
        entry mem (child mem q (vpn_index vpn 1)) (vpn_index vpn 2)
      else 0 := by
  have hc : child mem root (vpn_index vpn 0) = q := by
    unfold child
    rw [he]
    exact branch_target _ hal hlt
  unfold leaf
  rw [hc, he, branch_valid, if_pos rfl]

theorem leaf_zero0 (mem : Mem) (root vpn : Nat) (he : entry mem root (vpn_index vpn 0) = 0) :
    leaf mem root vpn = 0 := by
  unfold leaf
  rw [he, pte_valid_zero]
  rfl

theorem as_translate_mem (m1 m2 : Machine) (as : address_space_t) (va req : Nat)
    (h : m1.mem = m2.mem) : as_translate m1 as va req = as_translate m2 as va req := by
  unfold as_translate
  rw [h]

/-- The last-level entries of a cloned tree are the clones of the last-level
entries of the source, and they decide translation, also in a memory `mem2`
that differs from the memory after the clone only outside the pages of the
clone. -/
theorem clone_leaf {owner : Nat → Option (Nat × Nat)} {ms : Machine} {root : Nat}
    (hinv : PTInv owner ms root) {m : Machine} {t : Nat} {m' : Machine}
    (T : CloneTable ms 2 root m t m') (h56 : m'.heap_end ≤ 2 ^ 56) (m2 : Machine)
    (hag : ∀ a, t ≤ a → a < m'.heap_current → m2.mem a = m'.mem a) (vpn : Nat) :
    (∃ lo, t + 4096 ≤ lo ∧
      CloneEntry ms.mem m'.mem ms.heap_current m'.heap_current 0 lo
        (leaf ms.mem root vpn) (leaf m'.mem t vpn)) ∧
    ∀ va req, va_vpn va = vpn →
      as_translate m2 ⟨t⟩ va req = leaf_result (leaf m'.mem t vpn) va req := by
  have hi0 := vpn_index_lt vpn 0
  have hi1 := vpn_index_lt vpn 1
  have hi2 := vpn_index_lt vpn 2
  have hcl := T.cur_le
  have hTh := T.hi
  have key : ∀ p k, t ≤ p → p + 4096 ≤ m'.heap_current → k < 512 →
      entry m2.mem p k = entry m'.mem p k := by
    intro p k h1 h2 hk
    apply entry_congr
    intro a h3 h4
    apply hag <;> omega
  have E0 := T.entries _ hi0
  rw [CloneEntry] at E0
  by_cases hv0 : pte_valid (entry ms.mem root (vpn_index vpn 0)) = true
  · obtain ⟨hb0, ho1⟩ := hinv.child_eq hinv.own_root (by omega) hi0 hv0
    have hp1 := hinv.own_page _ _ ho1
    have hl0 : pte_is_leaf (entry ms.mem root (vpn_index vpn 0)) = false := by
      rw [hb0]; exact branch_not_leaf _
    have hf0 : pte_flags (entry ms.mem root (vpn_index vpn 0)) = PTE_V := by
      rw [hb0]; exact branch_flags _
    obtain ⟨q1, hal1, hge1, hle1, he1, E1⟩ := E0.2 hv0 hl0
    rw [hf0] at he1
    have he1' : entry m2.mem t (vpn_index vpn 0) = make_pte (pa_ppn q1) PTE_V := by
      rw [key t _ (le_refl _) hTh hi0]; exact he1
    have hcS := hinv.cur_le
    have hcE := hinv.end_le
    have hS := leaf_branch0 ms.mem root vpn _ hb0 hp1.1 (by omega)
    have hD := leaf_branch0 m'.mem t vpn q1 he1 hal1 (by omega)
    have E1' := E1 _ hi1
    rw [CloneEntry] at E1'
    change CloneLeaf _ _ _ _ _
      (entry ms.mem (child ms.mem root (vpn_index vpn 0)) (vpn_index vpn 1)) _ ∧
      (pte_valid (entry ms.mem (child ms.mem root (vpn_index vpn 0))
        (vpn_index vpn 1)) = true →
      pte_is_leaf (entry ms.mem (child ms.mem root (vpn_index vpn 0))
        (vpn_index vpn 1)) = false →
      ∃ q, q % 4096 = 0 ∧ q1 + 4096 ≤ q ∧ q + 4096 ≤ m'.heap_current ∧
        entry m'.mem q1 (vpn_index vpn 1) = make_pte (pa_ppn q)
          (pte_flags (entry ms.mem (child ms.mem root (vpn_index vpn 0))
            (vpn_index vpn 1))) ∧
        ∀ k, k < 512 → CloneEntry ms.mem m'.mem ms.heap_current m'.heap_current 0 (q + 4096)
          (entry ms.mem (child ms.mem (child ms.mem root (vpn_index vpn 0))
            (vpn_index vpn 1)) k) (entry m'.mem q k)) at E1'
    by_cases hv1 : pte_valid (entry ms.mem (child ms.mem root (vpn_index vpn 0))
        (vpn_index vpn 1)) = true
    · obtain ⟨hb1, ho2⟩ := hinv.child_eq ho1 (by omega) hi1 hv1
      have hl1 : pte_is_leaf (entry ms.mem (child ms.mem root (vpn_index vpn 0))
          (vpn_index vpn 1)) = false := by
        rw [hb1]; exact branch_not_leaf _
      have hf1 : pte_flags (entry ms.mem (child ms.mem root (vpn_index vpn 0))
          (vpn_index vpn 1)) = PTE_V := by
        rw [hb1]; exact branch_flags _
      obtain ⟨q2, hal2, hge2, hle2, he2, E2⟩ := E1'.2 hv1 hl1
      rw [hf1] at he2
      have he2' : entry m2.mem q1 (vpn_index vpn 1) = make_pte (pa_ppn q2) PTE_V := by
        rw [key q1 _ (by omega) hle1 hi1]; exact he2
      have hc2 : child m'.mem q1 (vpn_index vpn 1) = q2 := by
        unfold child
        rw [he2]
        exact branch_target _ hal2 (by omega)
      rw [if_pos hv1] at hS
      rw [he2, branch_valid, if_pos rfl, hc2] at hD
      rw [hS, hD]
      refine ⟨⟨q2 + 4096, by omega, E2 _ hi2⟩, fun va req hva => ?_⟩
      subst hva
      unfold as_translate
      simp only [LEVELS_eq]
      rw [translate_down _ _ _ _ _ _ _ q1 he1' hal1 (by omega),
        translate_down _ _ _ _ _ _ _ q2 he2' hal2 (by omega), translate_last,
        key q2 _ (by omega) hle2 hi2]
    · simp only [Bool.not_eq_true] at hv1
      have hz := E1'.1.1 hv1
      have hz' : entry m2.mem q1 (vpn_index vpn 1) = 0 := by
        rw [key q1 _ (by omega) hle1 hi1]; exact hz
      rw [if_neg (by rw [hv1]; simp)] at hS
      rw [hz, pte_valid_zero, if_neg (by simp)] at hD
      rw [hS, hD]
      refine ⟨⟨t + 4096, le_refl _, CloneEntry.zero _ _ _ _ _⟩, fun va req hva => ?_⟩
      subst hva
      unfold as_translate
      simp only [LEVELS_eq]
      rw [translate_down _ _ _ _ _ _ _ q1 he1' hal1 (by omega),
        translate_zero _ _ _ _ _ _ _ hz', leaf_result_zero]
  · simp only [Bool.not_eq_true] at hv0
    have hz := E0.1.1 hv0
    have hz' : entry m2.mem t (vpn_index vpn 0) = 0 := by
      rw [key t _ (le_refl _) hTh hi0]; exact hz
    have hS : leaf ms.mem root vpn = 0 := by
      unfold leaf
      rw [hv0]
      rfl
    rw [hS, leaf_zero0 _ _ _ hz]
    refine ⟨⟨t + 4096, le_refl _, CloneEntry.zero _ _ _ _ _⟩, fun va req hva => ?_⟩
    subst hva
    unfold as_translate
    simp only [LEVELS_eq]
    rw [translate_zero _ _ _ _ _ _ _ hz', leaf_result_zero]

end Ucore

namespace Ucore

theorem ppn_to_pa_pte (pte : Nat) :
    ppn_to_pa (pte_ppn pte) % 4096 = 0 ∧ ppn_to_pa (pte_ppn pte) + 4096 ≤ 2 ^ 56 := by
  rw [ppn_to_pa_eq, pte_ppn_eq]
  omega

theorem leaf_result_leaf (pte va req : Nat) (hv : pte_valid pte = true)
    (hl : pte_is_leaf pte = true) :
    leaf_result pte va req =
      if pte_flags pte &&& req = req then ppn_to_pa (pte_ppn pte) + va % 4096 else 0 := by
  have h := ppn_to_pa_pte pte
  unfold leaf_result
  rw [hv, hl, va_offset_eq]
  have e : (ppn_to_pa (pte_ppn pte) + va % 4096) % 2 ^ 64 =
      ppn_to_pa (pte_ppn pte) + va % 4096 := by omega
  rw [e]
  by_cases hr : pte_flags pte &&& req = req
  · simp [hr]
  · simp [hr]

theorem leaf_result_user (pte pg va req : Nat) (hv : pte_valid pte = true)
    (hl : pte_is_leaf pte = true) (hal : pg % 4096 = 0) (hlt : pg + 4096 ≤ 2 ^ 56) :
    leaf_result (make_pte (pa_ppn pg) (pte_flags pte)) va req =
      if pte_flags pte &&& req = req then pg + va % 4096 else 0 := by
  have hf : pte_flags pte < 1024 := by rw [pte_flags_eq]; omega
  have hv' : pte_valid (make_pte (pa_ppn pg) (pte_flags pte)) = true := by
    rw [pte_valid_make_pte]
    rw [pte_valid_eq] at hv
    rw [pte_flags_eq]
    have e : pte % 1024 % 2 = pte % 2 := by omega
    rw [e]; exact hv
  have hl' : pte_is_leaf (make_pte (pa_ppn pg) (pte_flags pte)) = true := by
    rw [pte_is_leaf_make_pte]
    rw [pte_is_leaf_eq] at hl
    rw [pte_flags_eq]
    have e : pte % 1024 % 16 = pte % 16 := by omega
    rw [e]; exact hl
  have hp : pa_ppn pg < 2 ^ 44 := by rw [pa_ppn_eq]; omega
  rw [leaf_result_leaf _ _ _ hv' hl', pte_flags_make_pte, Nat.mod_eq_of_lt hf,
    pte_ppn_make_pte _ _ hp hf, ppn_to_pa_eq, pa_ppn_eq]
  have e : pg / 4096 * 4096 % 2 ^ 64 = pg := by omega
  rw [e]

theorem CloneEntry.weaken {memS memD : Mem} {c0 c0' hi lo pte pte' : Nat}
    (h : CloneEntry memS memD c0 hi 0 lo pte pte') (hc : c0' ≤ c0) :
    CloneEntry memS memD c0' hi 0 lo pte pte' := by
  rw [CloneEntry] at h ⊢
  obtain ⟨⟨h1, h2, h3⟩, h4⟩ := h
  refine ⟨⟨h1, h2, fun hv hl hu => ?_⟩, h4⟩
  obtain ⟨pg, a1, a2, a3, a4, a5⟩ := h3 hv hl hu
  exact ⟨pg, a1, a2, a3, a4, fun hs => a5 (by omega)⟩

/-- The function `as_clone`, when it returns a space. -/
theorem as_clone_spec {owner : Nat → Option (Nat × Nat)} {m : Machine} {root : Nat}
    (hinv : PTInv owner m root) (dst : address_space_t) (m' : Machine)
    (hc : as_clone m ⟨root⟩ = (some dst, m')) :
    m.heap_current ≤ m'.heap_current ∧ m'.heap_current ≤ m'.heap_end ∧
    m'.heap_end = m.heap_end ∧ (∀ a, a < m.heap_current → m'.mem a = m.mem a) ∧
    ∀ vpn, (∃ lo, m.heap_current ≤ lo ∧
        CloneEntry m.mem m'.mem m.heap_current m'.heap_current 0 lo
          (leaf m.mem root vpn) (leaf m'.mem dst.root vpn)) ∧
      ∀ m2 : Machine, (∀ a, m.heap_current ≤ a → a < m'.heap_current → m2.mem a = m'.mem a) →
        ∀ va req, va_vpn va = vpn →
          as_translate m2 dst va req = leaf_result (leaf m'.mem dst.root vpn) va req := by
  have hroot := hinv.own_page root _ hinv.own_root
  have hcl := hinv.cur_le
  have hel := hinv.end_le
  have ha := heap_alloc_8_eq m (by omega)
  by_cases hfail : (m.heap_current + 7) / 8 * 8 + 8 > m.heap_end
  · rw [if_pos hfail] at ha
    rcases hp : clone_page_table 3 root 0
      ⟨m.mem, m.heap_start, m.heap_end, m.heap_current, true⟩ with ⟨p, mp⟩
    rw [as_clone_eq m ⟨root⟩ _ _ ha p mp hp, if_pos rfl] at hc
    cases hc
  · rw [if_neg hfail] at ha
    rcases hp : clone_page_table 3 root 0
      ⟨m.mem, m.heap_start, m.heap_end, (m.heap_current + 7) / 8 * 8 + 8,
        m.alloc_failed || ((m.heap_current + 7) / 8 * 8 == 0)⟩ with ⟨p, mp⟩
    rw [as_clone_eq m ⟨root⟩ _ _ ha p mp hp, if_neg (by omega)] at hc
    by_cases hp0 : p = 0
    · rw [if_pos hp0] at hc
      cases hc
    · rw [if_neg hp0] at hc
      have h1 : dst = ⟨p⟩ := by
        have := congrArg Prod.fst hc
        simp only [Option.some.injEq] at this
        exact this.symm
      have h2 : mp = m' := congrArg Prod.snd hc
      subst h1 h2
      have hinv' : PTInv owner ⟨m.mem, m.heap_start, m.heap_end,
          (m.heap_current + 7) / 8 * 8 + 8,
          m.alloc_failed || ((m.heap_current + 7) / 8 * 8 == 0)⟩ root :=
        hinv.frame _ (fun _ _ => rfl) (by show m.heap_current ≤ (m.heap_current + 7) / 8 * 8 + 8; omega)
          (by show (m.heap_current + 7) / 8 * 8 + 8 ≤ m.heap_end; omega) hel
      have T := clone_page_table_spec hinv' 2 0 rfl root 0 _ p mp hinv.own_root
        ⟨le_refl _, by show (m.heap_current + 7) / 8 * 8 + 8 ≤ m.heap_end; omega, hel, fun _ _ => rfl⟩ hp hp0
      have hTlo : (m.heap_current + 7) / 8 * 8 + 8 ≤ p := T.lo
      have hThi := T.hi
      have hTe : mp.heap_end = m.heap_end := T.hend
      have hTf : ∀ a, a < (m.heap_current + 7) / 8 * 8 + 8 → mp.mem a = m.mem a := T.frame
      refine ⟨by omega, T.cur_le, hTe, fun a ha => hTf a (by omega), fun vpn => ?_⟩
      obtain ⟨⟨lo, hlo, hE⟩, _⟩ := clone_leaf hinv' T (by rw [hTe]; exact hel) mp
        (fun _ _ _ => rfl) vpn
      refine ⟨⟨lo, by omega, CloneEntry.weaken hE
        (by show m.heap_current ≤ (m.heap_current + 7) / 8 * 8 + 8; omega)⟩,
        fun m2 hag => ?_⟩
      exact (clone_leaf hinv' T (by rw [hTe]; exact hel) m2
        (fun a h1 h2 => hag a (by omega) h2) vpn).2

end Ucore

namespace Ucore

theorem pair_of_fst {α β : Type} (p : α × β) (a : α) (h : p.1 = a) : p = (a, p.2) := by
  cases p
  cases h
  rfl

theorem clone_quota_3 : clone_quota 3 = 134480385 := by decide

/-- With enough room in the heap `as_clone` returns a space. -/
theorem as_clone_room (m : Machine) (src : address_space_t) (h0 : 0 < m.heap_current)
    (hroom : m.heap_current + 4096 * 134480387 ≤ m.heap_end) (hend : m.heap_end ≤ 2 ^ 56) :
    ∃ dst, (as_clone m src).1 = some dst := by
  have ha := heap_alloc_8_eq m (by omega)
  rw [if_neg (by omega)] at ha
  obtain ⟨q, mq, hq, hq0, _⟩ := clone_page_table_room 2 0 rfl src.root
    ⟨m.mem, m.heap_start, m.heap_end, (m.heap_current + 7) / 8 * 8 + 8,
      m.alloc_failed || ((m.heap_current + 7) / 8 * 8 == 0)⟩
    (by show 0 < (m.heap_current + 7) / 8 * 8 + 8; omega)
    (by
      show ((m.heap_current + 7) / 8 * 8 + 8 + 4095) / 4096 * 4096 + 4096 * clone_quota 3
        ≤ m.heap_end
      rw [clone_quota_3]
      omega)
    hend
  refine ⟨⟨q⟩, ?_⟩
  rw [as_clone_eq m src _ _ ha q mq hq, if_neg (by omega), if_neg hq0]

/-- What `as_clone` does for one virtual address, in terms of the last-level
entry `pte` of the source. -/
theorem as_clone_translate {owner : Nat → Option (Nat × Nat)} {m : Machine} {root : Nat}
    (hinv : PTInv owner m root) (dst : address_space_t) (m' : Machine)
    (hc : as_clone m ⟨root⟩ = (some dst, m')) (va : Nat) :
    (∀ req, as_translate m' ⟨root⟩ va req = as_translate m ⟨root⟩ va req) ∧
    (∀ req, as_translate m ⟨root⟩ va req = leaf_result (leaf m.mem root (va_vpn va)) va req) ∧
    (∀ m2 : Machine, (∀ a, m.heap_current ≤ a → a < m'.heap_current → m2.mem a = m'.mem a) →
      ∀ req, as_translate m2 dst va req = as_translate m' dst va req) ∧
    ((pte_valid (leaf m.mem root (va_vpn va)) = false ∨
        pte_is_leaf (leaf m.mem root (va_vpn va)) = false) →
      ∀ req, as_translate m' dst va req = 0) ∧
    (pte_valid (leaf m.mem root (va_vpn va)) = true →
      pte_is_leaf (leaf m.mem root (va_vpn va)) = true →
      pte_flags (leaf m.mem root (va_vpn va)) &&& PTE_U = 0 →
      ∀ req, as_translate m' dst va req = as_translate m ⟨root⟩ va req) ∧
    (pte_valid (leaf m.mem root (va_vpn va)) = true →
      pte_is_leaf (leaf m.mem root (va_vpn va)) = true →
      pte_flags (leaf m.mem root (va_vpn va)) &&& PTE_U ≠ 0 →
      ∃ pg, pg % 4096 = 0 ∧ m.heap_current ≤ pg ∧ pg + 4096 ≤ m'.heap_current ∧
        (∀ req, as_translate m' dst va req =
          if pte_flags (leaf m.mem root (va_vpn va)) &&& req = req then pg + va % 4096
          else 0) ∧
        (ppn_to_pa (pte_ppn (leaf m.mem root (va_vpn va))) + 4096 ≤ m.heap_current →
          ∀ x, x < 4096 →
            m'.mem (pg + x) = m.mem (ppn_to_pa (pte_ppn (leaf m.mem root (va_vpn va))) + x))) := by
  obtain ⟨c1, c2, c3, c4, c5⟩ := as_clone_spec hinv dst m' hc
  obtain ⟨⟨lo, hlo, hE⟩, htr2⟩ := c5 (va_vpn va)
  have htr := htr2 m' (fun _ _ _ => rfl)
  rw [CloneEntry] at hE
  obtain ⟨⟨e1, e2, e3⟩, e4⟩ := hE
  have hel := hinv.end_le
  have hinv' : PTInv owner m' root := hinv.frame m' c4 c1 c2 (by rw [c3]; exact hel)
  have hS : ∀ req, as_translate m ⟨root⟩ va req =
      leaf_result (leaf m.mem root (va_vpn va)) va req := fun req => translate_eq_leaf hinv va req
  refine ⟨fun req => ?_, hS, fun m2 hag req => ?_, fun h req => ?_, fun hv hl hu req => ?_,
    fun hv hl hu => ?_⟩
  · rw [translate_eq_leaf hinv', hS, leaf_frame hinv m'.mem c4]
  · rw [htr2 m2 hag va req rfl, htr va req rfl]
  · rw [htr va req rfl]
    rcases h with h | h
    · rw [e1 h, leaf_result_zero]
    · by_cases hv : pte_valid (leaf m.mem root (va_vpn va)) = true
      · rw [e4 hv h, leaf_result_zero]
      · simp only [Bool.not_eq_true] at hv
        rw [e1 hv, leaf_result_zero]
  · rw [htr va req rfl, e2 hv hl hu, hS]
  · obtain ⟨pg, a1, a2, a3, a4, a5⟩ := e3 hv hl hu
    refine ⟨pg, a1, by omega, a3, fun req => ?_, a5⟩
    rw [htr va req rfl, a4, leaf_result_user _ _ _ _ hv hl a1 (by omega)]

end Ucore

namespace Ucore

/-- C1 (amended). On a space from `as_create`, after a history of `as_map` /
`as_map_extern` calls in which no allocation failed and every call is
well-formed (`MapCall.wf`: `vpn_start <= vpn_end <= 2^27`, and for `as_map`
`len = 0` or `offset + len <= (vpn_end - vpn_start) * 4096`), a page whose
most recent mapping was `as_map_extern(vpn_start, vpn_end, ppn_base, flags)`
(range within 27 bits, physical pages within 44 bits, flags within 10 bits and
holding one of R/W/X) translates, for every offset below 4096 and every
`required_flags` contained in `flags | PTE_V`, to
`(ppn_base + (vpn - vpn_start)) * 4096 + o`. -/
theorem C1_translate_after_map_extern (m0 : Machine) (as : address_space_t)
    (pre post : List MapCall)
    (vpn_start vpn_end ppn_base flags vpn o required_flags : Nat)
    (hheap : m0.heap_end ≤ 2 ^ 56)
    (hcreate : (as_create m0).1 = some as)
    (hwf : ∀ c ∈ pre ++ post, c.wf)
    (hok : (run_calls as (as_create m0).2
      (pre ++ MapCall.extern_call vpn_start vpn_end ppn_base flags :: post)).alloc_failed = false)
    (hrecent : ∀ c ∈ post, ¬ c.maps vpn)
    (hlo : vpn_start ≤ vpn) (hhi : vpn < vpn_end) (hend : vpn_end ≤ 2 ^ 27)
    (hppn : ppn_base + (vpn_end - vpn_start) ≤ 2 ^ 44) (hflags : flags < 2 ^ 10)
    (hrwx : flags &&& (PTE_R ||| PTE_W ||| PTE_X) ≠ 0)
    (ho : o < 4096) (hreq : required_flags &&& (flags ||| PTE_V) = required_flags) :
    as_translate (run_calls as (as_create m0).2
        (pre ++ MapCall.extern_call vpn_start vpn_end ppn_base flags :: post)) as
        (vpn * 4096 + o) required_flags
      = (ppn_base + (vpn - vpn_start)) * 4096 + o := by
  obtain ⟨o0, h0, _⟩ := as_create_spec m0 as hheap hcreate
  generalize (as_create m0).2 = m1 at hok h0 ⊢
  obtain ⟨root⟩ := as
  obtain ⟨oa, ha, hoka, hleaf, ofin, hfin⟩ := history_leaf h0 pre post
    (MapCall.extern_call vpn_start vpn_end ppn_base flags)
    (fun c hc => hwf c (List.mem_append_left _ hc)) ⟨by omega, hend⟩
    (fun c hc => hwf c (List.mem_append_right _ hc)) hok vpn (by omega) hrecent
  obtain ⟨_, _, _, hset⟩ := as_map_extern_spec ha vpn_start vpn_end ppn_base flags hend
  have hl := hset hoka vpn hlo hhi
  rw [translate_eq_leaf hfin, va_vpn_page vpn o (by omega) ho, hleaf]
  show leaf_result (leaf ( as_map_extern _ _ _ _ _ _).mem root vpn) _ _ = _
  rw [hl]
  have e : (ppn_base + (vpn - vpn_start)) % 2 ^ 64 = ppn_base + (vpn - vpn_start) := by omega
  rw [e, leaf_result_mapped _ _ _ _ (by omega) hflags hrwx hreq]
  omega

/-- C2 (amended). On a space from `as_create` followed by `as_map` /
`as_map_extern` calls every one of which is well-formed (`MapCall.wf`:
`vpn_start <= vpn_end <= 2^27`, and for `as_map` `len = 0` or
`offset + len <= (vpn_end - vpn_start) * 4096`), `as_translate` returns `NULL`
for every address whose page no call has mapped (so for every address of a
fresh space), and, when no allocation failed, for every address whose page
was last mapped with flags `f` while `required_flags` holds a bit outside
`f | PTE_V`. -/
theorem C2_translate_fails (m0 : Machine) (as : address_space_t) (calls : List MapCall)
    (va required_flags : Nat)
    (hheap : m0.heap_end ≤ 2 ^ 56)
    (hcreate : (as_create m0).1 = some as)
    (hwf : ∀ c ∈ calls, c.wf) :
    ((∀ c ∈ calls, ¬ c.maps (va_vpn va)) →
      as_translate (run_calls as (as_create m0).2 calls) as va required_flags = 0) ∧
    (∀ pre c post, calls = pre ++ c :: post → c.maps (va_vpn va) →
      (∀ c' ∈ post, ¬ c'.maps (va_vpn va)) →
      (run_calls as (as_create m0).2 calls).alloc_failed = false →
      required_flags &&& (c.flags ||| PTE_V) ≠ required_flags →
      as_translate (run_calls as (as_create m0).2 calls) as va required_flags = 0) := by
  obtain ⟨o0, h0, hzero⟩ := as_create_spec m0 as hheap hcreate
  generalize (as_create m0).2 = m1 at h0 hzero ⊢
  obtain ⟨root⟩ := as
  constructor
  · intro hnone
    obtain ⟨ofin, g, hfr⟩ := run_calls_spec root calls o0 m1 h0 hwf
    rw [translate_eq_leaf g.inv, hfr _ (va_vpn_lt va) hnone, hzero, leaf_result_zero]
  · intro pre c post hcalls hmaps hrecent hok hreq
    subst hcalls
    obtain ⟨oa, ha, hoka, hleaf, ofin, hfin⟩ := history_leaf h0 pre post c
      (fun c' hc => hwf c' (List.mem_append_left _ hc))
      (hwf c (List.mem_append_right _ (List.mem_cons_self _ _)))
      (fun c' hc => hwf c' (List.mem_append_right _ (List.mem_cons_of_mem _ hc)))
      hok (va_vpn va) (va_vpn_lt va) hrecent
    obtain ⟨_, _, _, hset⟩ := MapCall.run_spec ha c
      (hwf c (List.mem_append_right _ (List.mem_cons_self _ _)))
    obtain ⟨ppn, hl⟩ := hset hoka (va_vpn va) hmaps
    rw [translate_eq_leaf hfin, hleaf, hl, leaf_result_denied _ _ _ _ hreq]

/-- C3 (amended). After `as_map(as, vpn_start, vpn_end, data, len, offset,
flags)` on a space from `as_create` (possibly already holding well-formed
mappings) with no allocation failure, `vpn_start < vpn_end <= 2^27`,
`offset + len <= (vpn_end - vpn_start) * 4096`, `flags < 2^10` and one of
R/W/X in `flags`: for every `i` below `(vpn_end - vpn_start) * 4096`,
`as_translate` of `vpn_start * 4096 + i` succeeds and the byte at the address
it returns is `data[i - offset]` when `offset <= i < offset + len` and `0`
otherwise. -/
theorem C3_as_map_contents (m0 : Machine) (as : address_space_t) (pre : List MapCall)
    (vpn_start vpn_end : Nat) (data : Nat → Nat) (len offset flags i required_flags : Nat)
    (hheap : m0.heap_end ≤ 2 ^ 56)
    (hcreate : (as_create m0).1 = some as)
    (hwf : ∀ c ∈ pre, c.wf)
    (hok : (run_calls as (as_create m0).2
      (pre ++ [MapCall.map vpn_start vpn_end (some data) len offset flags])).alloc_failed
        = false)
    (hlt : vpn_start < vpn_end) (hend : vpn_end ≤ 2 ^ 27)
    (hlen : offset + len ≤ (vpn_end - vpn_start) * 4096)
    (hflags : flags < 2 ^ 10)
    (hrwx : flags &&& (PTE_R ||| PTE_W ||| PTE_X) ≠ 0)
    (hi : i < (vpn_end - vpn_start) * 4096)
    (hreq : required_flags &&& (flags ||| PTE_V) = required_flags) :
    as_translate (run_calls as (as_create m0).2
        (pre ++ [MapCall.map vpn_start vpn_end (some data) len offset flags])) as
        (vpn_start * 4096 + i) required_flags ≠ 0 ∧
    (run_calls as (as_create m0).2
        (pre ++ [MapCall.map vpn_start vpn_end (some data) len offset flags])).mem
      (as_translate (run_calls as (as_create m0).2
        (pre ++ [MapCall.map vpn_start vpn_end (some data) len offset flags])) as
        (vpn_start * 4096 + i) required_flags)
      = if offset ≤ i ∧ i < offset + len then data (i - offset) else 0 := by
  obtain ⟨o0, h0, _⟩ := as_create_spec m0 as hheap hcreate
  generalize (as_create m0).2 = m1 at hok h0 ⊢
  obtain ⟨root⟩ := as
  have hcwf : (MapCall.map vpn_start vpn_end (some data) len offset flags).wf :=
    ⟨by omega, hend, Or.inr (by rw [PAGE_SIZE_eq]; exact hlen)⟩
  have hva : vpn_start * 4096 + i = (vpn_start + i / 4096) * 4096 + i % 4096 := by omega
  have hvlt : vpn_start + i / 4096 < vpn_end := by
    have : i / 4096 < vpn_end - vpn_start := by
      apply Nat.div_lt_of_lt_mul
      rw [Nat.mul_comm]; exact hi
    omega
  obtain ⟨oa, ha, hoka, hleaf, ofin, hfin⟩ := history_leaf h0 pre []
    (MapCall.map vpn_start vpn_end (some data) len offset flags) hwf hcwf
    (fun c hc => absurd hc (List.not_mem_nil c)) hok (vpn_start + i / 4096) (by omega)
    (fun c hc => absurd hc (List.not_mem_nil c))
  have hrun : run_calls ⟨root⟩ m1
      (pre ++ [MapCall.map vpn_start vpn_end (some data) len offset flags])
      = as_map (run_calls ⟨root⟩ m1 pre) ⟨root⟩ vpn_start vpn_end (some data) len offset
          flags := by
    rw [run_calls_append]; rfl
  obtain ⟨_, _, _, hset⟩ := as_map_spec ha vpn_start vpn_end (some data) len offset flags
    (by omega) hend
  obtain ⟨p, hal, hge, hle, hl, hbytes⟩ := hset hoka
  have hroot := ha.own_page root _ ha.own_root
  have hend56 := ha.end_le
  have htr : as_translate (run_calls ⟨root⟩ m1
      (pre ++ [MapCall.map vpn_start vpn_end (some data) len offset flags])) ⟨root⟩
      (vpn_start * 4096 + i) required_flags = p + i := by
    rw [translate_eq_leaf hfin, hva, va_vpn_page _ _ (by omega) (by omega), hleaf]
    show leaf_result (leaf (as_map _ _ _ _ _ _ _ _).mem root _) _ _ = _
    rw [hl _ (by omega) hvlt, pa_ppn_eq]
    have e : (p / 4096 + (vpn_start + i / 4096 - vpn_start)) % 2 ^ 64
        = p / 4096 + i / 4096 := by omega
    rw [e, leaf_result_mapped _ _ _ _ (by omega) hflags hrwx hreq]
    omega
  rw [htr]
  refine ⟨by omega, ?_⟩
  rw [hrun, hbytes i hi]
  show (if 0 < len ∧ offset ≤ i ∧ i < offset + len then data (i - offset) else 0) = _
  by_cases hc : offset ≤ i ∧ i < offset + len
  · have : 0 < len ∧ offset ≤ i ∧ i < offset + len := by omega
    rw [if_pos this, if_pos hc]
  · have : ¬ (0 < len ∧ offset ≤ i ∧ i < offset + len) := by omega
    rw [if_neg this, if_neg hc]

end Ucore

namespace Ucore

/-- C4 (amended). Let `ms` be the state after `as_create` and well-formed
`as_map` / `as_map_extern` calls on `as`, and let `as_clone(as)` return `dst`
in state `mc` (all allocations of the clone succeeded).  For every `va` and
`required_flags` such that, if the last-level entry of `va` in the source has
`PTE_U`, its physical page is not page 0 and lies below the heap break at the
moment of the clone: the translation of the source is not changed by the
clone; `as_translate(dst, va, required_flags)` succeeds exactly when
`as_translate(src, va, required_flags)` succeeds; without `PTE_U` on the leaf
both return the same physical address; with `PTE_U` on the leaf and the
source translation succeeding, `dst` returns the address at the same offset
in a page allocated by the clone, different from the source page, holding the
4096 bytes that the source page held at the moment of the clone. -/
theorem C4_clone_translate (m0 ms mc : Machine) (as dst : address_space_t)
    (calls : List MapCall) (va required_flags : Nat)
    (hheap : m0.heap_end ≤ 2 ^ 56)
    (hcreate : (as_create m0).1 = some as)
    (hwf : ∀ c ∈ calls, c.wf)
    (hms : ms = run_calls as (as_create m0).2 calls)
    (hclone : as_clone ms as = (some dst, mc))
    (huser : pte_flags (leaf ms.mem as.root (va_vpn va)) &&& PTE_U ≠ 0 →
      4096 ≤ ppn_to_pa (pte_ppn (leaf ms.mem as.root (va_vpn va))) ∧
      ppn_to_pa (pte_ppn (leaf ms.mem as.root (va_vpn va))) + 4096 ≤ ms.heap_current) :
    as_translate mc as va required_flags = as_translate ms as va required_flags ∧
    (as_translate mc dst va required_flags ≠ 0 ↔ as_translate mc as va required_flags ≠ 0) ∧
    (pte_flags (leaf ms.mem as.root (va_vpn va)) &&& PTE_U = 0 →
      as_translate mc dst va required_flags = as_translate mc as va required_flags) ∧
    (pte_flags (leaf ms.mem as.root (va_vpn va)) &&& PTE_U ≠ 0 →
      as_translate mc as va required_flags ≠ 0 →
      ∃ pg, pg % 4096 = 0 ∧ ms.heap_current ≤ pg ∧ pg + 4096 ≤ mc.heap_current ∧
        pg ≠ ppn_to_pa (pte_ppn (leaf ms.mem as.root (va_vpn va))) ∧
        as_translate mc dst va required_flags = pg + va % 4096 ∧
        ∀ x, x < 4096 →
          mc.mem (pg + x)
            = ms.mem (ppn_to_pa (pte_ppn (leaf ms.mem as.root (va_vpn va))) + x)) := by
  obtain ⟨o0, h0, _⟩ := as_create_spec m0 as hheap hcreate
  generalize (as_create m0).2 = m1 at hms h0
  obtain ⟨root⟩ := as
  obtain ⟨ofin, g, _⟩ := run_calls_spec root calls o0 m1 h0 hwf
  have hinv : PTInv ofin ms root := by rw [hms]; exact g.inv
  clear hms g
  obtain ⟨s1, s2, _, s3, s4, s5⟩ := as_clone_translate hinv dst mc hclone va
  have hroot := hinv.own_page root _ hinv.own_root
  show as_translate mc ⟨root⟩ va required_flags = as_translate ms ⟨root⟩ va required_flags ∧
    (as_translate mc dst va required_flags ≠ 0 ↔
      as_translate mc ⟨root⟩ va required_flags ≠ 0) ∧
    (pte_flags (leaf ms.mem root (va_vpn va)) &&& PTE_U = 0 →
      as_translate mc dst va required_flags = as_translate mc ⟨root⟩ va required_flags) ∧
    (pte_flags (leaf ms.mem root (va_vpn va)) &&& PTE_U ≠ 0 →
      as_translate mc ⟨root⟩ va required_flags ≠ 0 →
      ∃ pg, pg % 4096 = 0 ∧ ms.heap_current ≤ pg ∧ pg + 4096 ≤ mc.heap_current ∧
        pg ≠ ppn_to_pa (pte_ppn (leaf ms.mem root (va_vpn va))) ∧
        as_translate mc dst va required_flags = pg + va % 4096 ∧
        ∀ x, x < 4096 →
          mc.mem (pg + x) = ms.mem (ppn_to_pa (pte_ppn (leaf ms.mem root (va_vpn va))) + x))
  have huser' : pte_flags (leaf ms.mem root (va_vpn va)) &&& PTE_U ≠ 0 →
      4096 ≤ ppn_to_pa (pte_ppn (leaf ms.mem root (va_vpn va))) ∧
      ppn_to_pa (pte_ppn (leaf ms.mem root (va_vpn va))) + 4096 ≤ ms.heap_current := huser
  clear huser
  generalize leaf ms.mem root (va_vpn va) = pte at huser' s2 s3 s4 s5 ⊢
  rw [s1 required_flags, s2 required_flags]
  refine ⟨rfl, ?_, ?_, ?_⟩
  · by_cases hv : pte_valid pte = true
    · by_cases hl : pte_is_leaf pte = true
      · by_cases hu : pte_flags pte &&& PTE_U = 0
        · rw [s4 hv hl hu, s2]
        · obtain ⟨pg, a1, a2, a3, a4, _⟩ := s5 hv hl hu
          have hs := huser' hu
          rw [a4, leaf_result_leaf _ _ _ hv hl]
          by_cases hr : pte_flags pte &&& required_flags = required_flags
          · rw [if_pos hr, if_pos hr]
            constructor <;> intro <;> omega
          · rw [if_neg hr, if_neg hr]
      · simp only [Bool.not_eq_true] at hl
        rw [s3 (Or.inr hl), leaf_result_not_leaf _ _ _ hl]
    · simp only [Bool.not_eq_true] at hv
      rw [s3 (Or.inl hv), leaf_result_not_valid _ _ _ hv]
  · intro hu
    by_cases hv : pte_valid pte = true
    · by_cases hl : pte_is_leaf pte = true
      · rw [s4 hv hl hu, s2]
      · simp only [Bool.not_eq_true] at hl
        rw [s3 (Or.inr hl), leaf_result_not_leaf _ _ _ hl]
    · simp only [Bool.not_eq_true] at hv
      rw [s3 (Or.inl hv), leaf_result_not_valid _ _ _ hv]
  · intro hu hne
    have hv : pte_valid pte = true := by
      by_contra hv
      simp only [Bool.not_eq_true] at hv
      exact hne (leaf_result_not_valid _ _ _ hv)
    have hl : pte_is_leaf pte = true := by
      by_contra hl
      simp only [Bool.not_eq_true] at hl
      exact hne (leaf_result_not_leaf _ _ _ hl)
    obtain ⟨pg, a1, a2, a3, a4, a5⟩ := s5 hv hl hu
    have hs := huser' hu
    rw [leaf_result_leaf _ _ _ hv hl] at hne
    have hr : pte_flags pte &&& required_flags = required_flags := by
      by_contra hr
      rw [if_neg hr] at hne
      exact hne rfl
    refine ⟨pg, a1, a2, a3, by omega, ?_, a5 hs.2⟩
    rw [a4, if_pos hr]

end Ucore

namespace Ucore

/-- A space built from `as_create` by well-formed calls is a tree. -/
theorem built_inv (m0 : Machine) (as : address_space_t) (calls : List MapCall)
    (hheap : m0.heap_end ≤ 2 ^ 56) (hcreate : (as_create m0).1 = some as)
    (hwf : ∀ c ∈ calls, c.wf) :
    ∃ owner, PTInv owner (run_calls as (as_create m0).2 calls) as.root := by
  obtain ⟨o0, h0, _⟩ := as_create_spec m0 as hheap hcreate
  generalize (as_create m0).2 = m1 at h0 ⊢
  obtain ⟨root⟩ := as
  obtain ⟨ofin, g, _⟩ := run_calls_spec root calls o0 m1 h0 hwf
  exact ⟨ofin, g.inv⟩

theorem leaf_result_ne_zero (pte va req : Nat) (h : leaf_result pte va req ≠ 0) :
    pte_valid pte = true ∧ pte_is_leaf pte = true ∧
      leaf_result pte va req = ppn_to_pa (pte_ppn pte) + va % 4096 := by
  have hv : pte_valid pte = true := by
    by_contra hv
    simp only [Bool.not_eq_true] at hv
    exact h (leaf_result_not_valid _ _ _ hv)
  have hl : pte_is_leaf pte = true := by
    by_contra hl
    simp only [Bool.not_eq_true] at hl
    exact h (leaf_result_not_leaf _ _ _ hl)
  refine ⟨hv, hl, ?_⟩
  rw [leaf_result_leaf _ _ _ hv hl] at h ⊢
  by_cases hr : pte_flags pte &&& req = req
  · rw [if_pos hr]
  · rw [if_neg hr] at h
    exact absurd rfl h

/-- C5 (amended). Let `ms` be the state after `as_create` and well-formed
`as_map` / `as_map_extern` calls on `as`, and let `as_clone(as)` return `dst`
in state `mc`.  Let `va` be an address whose leaf in the source has `PTE_U`
and `va'` any address, the physical pages of both leaves lying below the heap
break at the moment of the clone, and the page of `va'`, when its leaf has no
`PTE_U`, being another page than the user page of `va`.  Then (a) a byte
stored at `as_translate(dst, va, PTE_W)` changes neither the translation of
`va'` through the source nor the byte at the translated address; (b) a byte
stored at `as_translate(src, va, PTE_W)` changes neither the translation of
`va'` through `dst` nor the byte at the translated address; (c) when the leaf
of `va'` has no `PTE_U`, both spaces translate `va'` to the same address, and
a byte stored there is read back through `dst`. -/
theorem C5_clone_writes (m0 ms mc : Machine) (as dst : address_space_t)
    (calls : List MapCall) (va va' req' b : Nat)
    (hheap : m0.heap_end ≤ 2 ^ 56)
    (hcreate : (as_create m0).1 = some as)
    (hwf : ∀ c ∈ calls, c.wf)
    (hms : ms = run_calls as (as_create m0).2 calls)
    (hclone : as_clone ms as = (some dst, mc))
    (huser : pte_flags (leaf ms.mem as.root (va_vpn va)) &&& PTE_U ≠ 0)
    (hpage : ppn_to_pa (pte_ppn (leaf ms.mem as.root (va_vpn va))) + 4096 ≤ ms.heap_current)
    (hpage' : ppn_to_pa (pte_ppn (leaf ms.mem as.root (va_vpn va'))) + 4096
      ≤ ms.heap_current)
    (halias : pte_flags (leaf ms.mem as.root (va_vpn va')) &&& PTE_U = 0 →
      ppn_to_pa (pte_ppn (leaf ms.mem as.root (va_vpn va')))
        ≠ ppn_to_pa (pte_ppn (leaf ms.mem as.root (va_vpn va)))) :
    (as_translate mc dst va PTE_W ≠ 0 →
      as_translate (store8 mc (as_translate mc dst va PTE_W) b) as va' req'
        = as_translate mc as va' req' ∧
      (as_translate mc as va' req' ≠ 0 →
        (store8 mc (as_translate mc dst va PTE_W) b).mem (as_translate mc as va' req')
          = mc.mem (as_translate mc as va' req'))) ∧
    (as_translate mc as va PTE_W ≠ 0 →
      as_translate (store8 mc (as_translate mc as va PTE_W) b) dst va' req'
        = as_translate mc dst va' req' ∧
      (as_translate mc dst va' req' ≠ 0 →
        (store8 mc (as_translate mc as va PTE_W) b).mem (as_translate mc dst va' req')
          = mc.mem (as_translate mc dst va' req'))) ∧
    (pte_flags (leaf ms.mem as.root (va_vpn va')) &&& PTE_U = 0 →
      as_translate mc as va' req' ≠ 0 →
      as_translate mc dst va' req' = as_translate mc as va' req' ∧
      (store8 mc (as_translate mc as va' req') b).mem
        (as_translate (store8 mc (as_translate mc as va' req') b) dst va' req') = b % 256) := by
  obtain ⟨owner, hinv0⟩ := built_inv m0 as calls hheap hcreate hwf
  rw [← hms] at hinv0
  clear hms
  obtain ⟨root⟩ := as
  have hinv : PTInv owner ms root := hinv0
  obtain ⟨s1, s2, s3, s4, s5, s6⟩ := as_clone_translate hinv dst mc hclone va
  obtain ⟨t1, t2, t3, t4, t5, t6⟩ := as_clone_translate hinv dst mc hclone va'
  obtain ⟨c1, c2, c3, c4, _⟩ := as_clone_spec hinv dst mc hclone
  have hroot := hinv.own_page root _ hinv.own_root
  have hel := hinv.end_le
  show (as_translate mc dst va PTE_W ≠ 0 →
      as_translate (store8 mc (as_translate mc dst va PTE_W) b) ⟨root⟩ va' req'
        = as_translate mc ⟨root⟩ va' req' ∧
      (as_translate mc ⟨root⟩ va' req' ≠ 0 →
        (store8 mc (as_translate mc dst va PTE_W) b).mem (as_translate mc ⟨root⟩ va' req')
          = mc.mem (as_translate mc ⟨root⟩ va' req'))) ∧
    (as_translate mc ⟨root⟩ va PTE_W ≠ 0 →
      as_translate (store8 mc (as_translate mc ⟨root⟩ va PTE_W) b) dst va' req'
        = as_translate mc dst va' req' ∧
      (as_translate mc dst va' req' ≠ 0 →
        (store8 mc (as_translate mc ⟨root⟩ va PTE_W) b).mem (as_translate mc dst va' req')
          = mc.mem (as_translate mc dst va' req'))) ∧
    (pte_flags (leaf ms.mem root (va_vpn va')) &&& PTE_U = 0 →
      as_translate mc ⟨root⟩ va' req' ≠ 0 →
      as_translate mc dst va' req' = as_translate mc ⟨root⟩ va' req' ∧
      (store8 mc (as_translate mc ⟨root⟩ va' req') b).mem
        (as_translate (store8 mc (as_translate mc ⟨root⟩ va' req') b) dst va' req')
          = b % 256)
  have huser' : pte_flags (leaf ms.mem root (va_vpn va)) &&& PTE_U ≠ 0 := huser
  have hpg : ppn_to_pa (pte_ppn (leaf ms.mem root (va_vpn va))) + 4096 ≤ ms.heap_current :=
    hpage
  have hpg' : ppn_to_pa (pte_ppn (leaf ms.mem root (va_vpn va'))) + 4096 ≤ ms.heap_current :=
    hpage'
  have hal' : pte_flags (leaf ms.mem root (va_vpn va')) &&& PTE_U = 0 →
      ppn_to_pa (pte_ppn (leaf ms.mem root (va_vpn va')))
        ≠ ppn_to_pa (pte_ppn (leaf ms.mem root (va_vpn va))) := halias
  clear huser hpage hpage' halias
  generalize leaf ms.mem root (va_vpn va) = pte at huser' hpg hal' s2 s4 s5 s6
  generalize leaf ms.mem root (va_vpn va') = pte' at hpg' hal' t2 t4 t5 t6 ⊢
  have ha := ppn_to_pa_pte pte
  have ha' := ppn_to_pa_pte pte'
  -- the source translation of `va'` lies below the old break
  have hsrc : as_translate mc ⟨root⟩ va' req' ≠ 0 →
      pte_valid pte' = true ∧ pte_is_leaf pte' = true ∧
      as_translate mc ⟨root⟩ va' req' = ppn_to_pa (pte_ppn pte') + va' % 4096 := by
    intro h
    rw [t1, t2] at h ⊢
    exact leaf_result_ne_zero _ _ _ h
  refine ⟨fun hne => ?_, fun hne => ?_, fun hu hne => ?_⟩
  · -- (a) the store goes to the page of the clone
    have hv : pte_valid pte = true ∧ pte_is_leaf pte = true := by
      by_contra hc
      have : pte_valid pte = false ∨ pte_is_leaf pte = false := by
        by_cases hv : pte_valid pte = true
        · right
          by_contra hl
          simp only [Bool.not_eq_false] at hl
          exact hc ⟨hv, hl⟩
        · left; simpa using hv
      exact hne (s4 this PTE_W)
    obtain ⟨pg, a1, a2, a3, a4, _⟩ := s6 hv.1 hv.2 huser'
    have hA : ms.heap_current ≤ as_translate mc dst va PTE_W := by
      rw [a4] at hne ⊢
      by_cases hr : pte_flags pte &&& PTE_W = PTE_W
      · rw [if_pos hr]; omega
      · rw [if_neg hr] at hne; exact absurd rfl hne
    generalize as_translate mc dst va PTE_W = A at hA
    have hfr : ∀ a, a < ms.heap_current → (store8 mc A b).mem a = ms.mem a := by
      intro a ha
      show write8 mc.mem A b a = _
      rw [write8_other _ _ _ _ (by omega)]
      exact c4 a ha
    have hinv2 : PTInv owner (store8 mc A b) root :=
      hinv.frame _ hfr c1 c2 (by show mc.heap_end ≤ _; rw [c3]; exact hel)
    refine ⟨?_, fun h => ?_⟩
    · rw [translate_eq_leaf hinv2, leaf_frame hinv _ hfr, t1, translate_eq_leaf hinv]
    · obtain ⟨_, _, e⟩ := hsrc h
      rw [e]
      exact write8_other _ _ _ _ (by omega)
  · -- (b) the store goes to the page of the source
    have hne' := hne
    rw [s1, s2] at hne'
    obtain ⟨hv, hl, e⟩ := leaf_result_ne_zero _ _ _ hne'
    have hA : as_translate mc ⟨root⟩ va PTE_W = ppn_to_pa (pte_ppn pte) + va % 4096 := by
      rw [s1, s2]; exact e
    rw [hA]
    have hag : ∀ a, ms.heap_current ≤ a → a < mc.heap_current →
        (store8 mc (ppn_to_pa (pte_ppn pte) + va % 4096) b).mem a = mc.mem a := by
      intro a h1 _
      exact write8_other _ _ _ _ (by omega)
    refine ⟨t3 _ hag req', fun h => ?_⟩
    apply write8_other
    by_cases hv' : pte_valid pte' = true
    · by_cases hl' : pte_is_leaf pte' = true
      · by_cases hu' : pte_flags pte' &&& PTE_U = 0
        · have hd := hal' hu'
          rw [t5 hv' hl' hu', t2, leaf_result_leaf _ _ _ hv' hl'] at h ⊢
          by_cases hr : pte_flags pte' &&& req' = req'
          · rw [if_pos hr]; omega
          · rw [if_neg hr] at h; exact absurd rfl h
        · obtain ⟨pg, a1, a2, a3, a4, _⟩ := t6 hv' hl' hu'
          rw [a4] at h ⊢
          by_cases hr : pte_flags pte' &&& req' = req'
          · rw [if_pos hr]; omega
          · rw [if_neg hr] at h; exact absurd rfl h
      · simp only [Bool.not_eq_true] at hl'
        exact absurd (t4 (Or.inr hl') req') h
    · simp only [Bool.not_eq_true] at hv'
      exact absurd (t4 (Or.inl hv') req') h
  · -- (c) a shared page
    obtain ⟨hv', hl', e⟩ := hsrc hne
    have hsame : as_translate mc dst va' req' = as_translate mc ⟨root⟩ va' req' := by
      rw [t5 hv' hl' hu, t1]
    refine ⟨hsame, ?_⟩
    have hag : ∀ a, ms.heap_current ≤ a → a < mc.heap_current →
        (store8 mc (as_translate mc ⟨root⟩ va' req') b).mem a = mc.mem a := by
      intro a h1 _
      exact write8_other _ _ _ _ (by omega)
    rw [t3 _ hag req', hsame]
    show write8 mc.mem _ b _ = _
    unfold write8
    rw [if_pos rfl]

end Ucore

namespace Ucore

theorem demo_create : (as_create demo_machine).1 = some demo_as := by decide

theorem demo_heap : demo_machine.heap_end ≤ 2 ^ 56 := by decide

set_option maxRecDepth 100000 in
/-- C1 (amended), at a concrete history: page 8 is mapped onto physical page
`0x99`, then pages 7 and 8 onto `0x55` and `0x56` with `PTE_R`, then page 20
gets a fresh page.  The hypotheses of the theorem hold there and
`as_translate` returns the address in physical page `0x56`. -/
theorem C1_translate_after_map_extern_witness :
    (run_calls demo_as (as_create demo_machine).2
      ([MapCall.extern_call 8 9 0x99 (PTE_R ||| PTE_W)]
        ++ MapCall.extern_call 7 9 0x55 PTE_R
          :: [MapCall.map 20 21 none 0 0 (PTE_R ||| PTE_U)])).alloc_failed = false ∧
    as_translate (run_calls demo_as (as_create demo_machine).2
      ([MapCall.extern_call 8 9 0x99 (PTE_R ||| PTE_W)]
        ++ MapCall.extern_call 7 9 0x55 PTE_R
          :: [MapCall.map 20 21 none 0 0 (PTE_R ||| PTE_U)])) demo_as (8 * 4096 + 5) PTE_R
      = (0x55 + (8 - 7)) * 4096 + 5 :=
  ⟨by decide,
   C1_translate_after_map_extern demo_machine demo_as
    [MapCall.extern_call 8 9 0x99 (PTE_R ||| PTE_W)]
    [MapCall.map 20 21 none 0 0 (PTE_R ||| PTE_U)] 7 9 0x55 PTE_R 8 5 PTE_R
    demo_heap demo_create
    (fun c hc => by
      rcases List.mem_append.mp hc with h | h
      · rw [List.mem_singleton.mp h]
        exact ⟨by decide, by decide⟩
      · rw [List.mem_singleton.mp h]
        exact ⟨by decide, by decide, Or.inl rfl⟩)
    (by decide)
    (fun c hc => by
      rw [List.mem_singleton.mp hc]
      exact fun h => absurd h.1 (by decide))
    (by decide) (by decide) (by decide) (by decide) (by decide)
    (by decide) (by decide) (by decide)⟩

set_option maxRecDepth 100000 in
/-- C1, the claim as stated fails.  On the space from `as_create`, the call
`as_map_extern(as, 5, 6, 0x55, PTE_R)` is followed by
`as_map_extern(as, 2^27 + 5, 2^27 + 6, 0x77, PTE_R)`.  No allocation fails,
the first call is the only one whose range holds page 5 and it satisfies the
bounds of the claim, yet `as_translate(as, 5 * 4096 + 3, PTE_R)` returns
`0x77003`, in the page of the second call, not `0x55003`: `vpn_index` keeps
nine bits of the page number per level. -/
theorem C1_counterexample :
    (run_calls demo_as (as_create demo_machine).2
      [MapCall.extern_call 5 6 0x55 PTE_R,
       MapCall.extern_call (2 ^ 27 + 5) (2 ^ 27 + 6) 0x77 PTE_R]).alloc_failed = false ∧
    (MapCall.extern_call 5 6 0x55 PTE_R).maps 5 ∧
    ¬ (MapCall.extern_call (2 ^ 27 + 5) (2 ^ 27 + 6) 0x77 PTE_R).maps 5 ∧
    as_translate (run_calls demo_as (as_create demo_machine).2
      [MapCall.extern_call 5 6 0x55 PTE_R,
       MapCall.extern_call (2 ^ 27 + 5) (2 ^ 27 + 6) 0x77 PTE_R]) demo_as (5 * 4096 + 3) PTE_R
      = 0x77003 ∧
    as_translate (run_calls demo_as (as_create demo_machine).2
      [MapCall.extern_call 5 6 0x55 PTE_R,
       MapCall.extern_call (2 ^ 27 + 5) (2 ^ 27 + 6) 0x77 PTE_R]) demo_as (5 * 4096 + 3) PTE_R
      ≠ (0x55 + (5 - 5)) * 4096 + 3 :=
  ⟨by decide, ⟨by decide, by decide⟩, fun h => absurd h.1 (by decide), by decide, by decide⟩

set_option maxRecDepth 100000 in
/-- C2 (amended), at a concrete history: pages 7 and 8 are mapped with
`PTE_R`, then page 20 gets a fresh page.  The address `0x1234` lies in page 1,
which no call has mapped, and its translation fails; the address
`8 * 4096 + 5` lies in a page mapped with `PTE_R`, and its translation with
`PTE_W` required fails. -/
theorem C2_translate_fails_witness :
    as_translate (run_calls demo_as (as_create demo_machine).2
      [MapCall.extern_call 7 9 0x55 PTE_R, MapCall.map 20 21 none 0 0 (PTE_R ||| PTE_U)])
      demo_as 0x1234 PTE_R = 0 ∧
    as_translate (run_calls demo_as (as_create demo_machine).2
      [MapCall.extern_call 7 9 0x55 PTE_R, MapCall.map 20 21 none 0 0 (PTE_R ||| PTE_U)])
      demo_as (8 * 4096 + 5) PTE_W = 0 :=
  have hwf : ∀ c ∈ [MapCall.extern_call 7 9 0x55 PTE_R,
      MapCall.map 20 21 none 0 0 (PTE_R ||| PTE_U)], c.wf := fun c hc => by
    rcases List.mem_cons.mp hc with h | h
    · rw [h]
      exact ⟨by decide, by decide⟩
    · rw [List.mem_singleton.mp h]
      exact ⟨by decide, by decide, Or.inl rfl⟩
  ⟨(C2_translate_fails demo_machine demo_as
      [MapCall.extern_call 7 9 0x55 PTE_R, MapCall.map 20 21 none 0 0 (PTE_R ||| PTE_U)]
      0x1234 PTE_R demo_heap demo_create hwf).1
      (fun c hc => by
        rcases List.mem_cons.mp hc with h | h
        · rw [h]
          exact fun h1 => absurd h1.1 (by decide)
        · rw [List.mem_singleton.mp h]
          exact fun h1 => absurd h1.1 (by decide)),
   (C2_translate_fails demo_machine demo_as
      [MapCall.extern_call 7 9 0x55 PTE_R, MapCall.map 20 21 none 0 0 (PTE_R ||| PTE_U)]
      (8 * 4096 + 5) PTE_W demo_heap demo_create hwf).2
      [] (MapCall.extern_call 7 9 0x55 PTE_R) [MapCall.map 20 21 none 0 0 (PTE_R ||| PTE_U)]
      rfl ⟨by decide, by decide⟩
      (fun c hc => by
        rw [List.mem_singleton.mp hc]
        exact fun h1 => absurd h1.1 (by decide))
      (by decide) (by decide)⟩

set_option maxRecDepth 100000 in
/-- C2, the claim as stated fails.  On the space from `as_create`, after the
single call `as_map_extern(as, 2^27 + 5, 2^27 + 6, 0x77, PTE_R)` no call has
mapped page 5, yet `as_translate(as, 5 * 4096 + 3, PTE_R)` returns `0x77003`,
not `NULL`: `vpn_index` keeps nine bits of the page number per level, so the
call has written the entry of page 5. -/
theorem C2_counterexample :
    (run_calls demo_as (as_create demo_machine).2
      [MapCall.extern_call (2 ^ 27 + 5) (2 ^ 27 + 6) 0x77 PTE_R]).alloc_failed = false ∧
    va_vpn (5 * 4096 + 3) = 5 ∧
    ¬ (MapCall.extern_call (2 ^ 27 + 5) (2 ^ 27 + 6) 0x77 PTE_R).maps 5 ∧
    as_translate (run_calls demo_as (as_create demo_machine).2
      [MapCall.extern_call (2 ^ 27 + 5) (2 ^ 27 + 6) 0x77 PTE_R]) demo_as (5 * 4096 + 3) PTE_R
      = 0x77003 :=
  ⟨by decide, by decide, fun h => absurd h.1 (by decide), by decide⟩

set_option maxRecDepth 100000 in
/-- C3, with the flags bounded, at a concrete call of `as_map`. -/
theorem C3_as_map_contents_witness :
    (run_calls demo_as (as_create demo_machine).2
      ([] ++ [MapCall.map 3 5 (some (fun k => k % 7 + 1)) 10 4090 (PTE_R ||| PTE_U)])).mem
      (as_translate (run_calls demo_as (as_create demo_machine).2
        ([] ++ [MapCall.map 3 5 (some (fun k => k % 7 + 1)) 10 4090 (PTE_R ||| PTE_U)]))
        demo_as (3 * 4096 + 4097) PTE_R)
      = if 4090 ≤ 4097 ∧ 4097 < 4090 + 10 then (fun k => k % 7 + 1) (4097 - 4090) else 0 :=
  (C3_as_map_contents demo_machine demo_as [] 3 5 (fun k => k % 7 + 1) 10 4090
    (PTE_R ||| PTE_U) 4097 PTE_R demo_heap demo_create (fun c hc => by simp at hc)
    (by decide) (by decide) (by decide) (by decide) (by decide) (by decide) (by decide)
    (by decide)).2

set_option maxRecDepth 100000 in
/-- C3, the claim as stated fails: with `flags = PTE_R | 0x400` (a bit above
the ten flag bits) every hypothesis of the claim holds, and the byte at the
address that `as_translate` returns for `vpn_start * 4096 + 0` is not
`data[0]`. -/
theorem C3_counterexample :
    (run_calls demo_as (as_create demo_machine).2
      [MapCall.map 0 1 (some (fun _ => 0xAA)) 1 0 (PTE_R ||| 1024)]).alloc_failed = false ∧
    (PTE_R ||| 1024) &&& (PTE_R ||| PTE_W ||| PTE_X) ≠ 0 ∧
    as_translate (run_calls demo_as (as_create demo_machine).2
      [MapCall.map 0 1 (some (fun _ => 0xAA)) 1 0 (PTE_R ||| 1024)]) demo_as 0 PTE_R ≠ 0 ∧
    (run_calls demo_as (as_create demo_machine).2
      [MapCall.map 0 1 (some (fun _ => 0xAA)) 1 0 (PTE_R ||| 1024)]).mem
      (as_translate (run_calls demo_as (as_create demo_machine).2
        [MapCall.map 0 1 (some (fun _ => 0xAA)) 1 0 (PTE_R ||| 1024)]) demo_as 0 PTE_R)
      ≠ (fun _ => 0xAA) (0 - 0) := by
  decide

end Ucore

namespace Ucore

/-- The spaces built on `demo_machine` are trees. -/
theorem demo_inv (calls : List MapCall) (hwf : ∀ c ∈ calls, c.wf) :
    ∃ owner, PTInv owner (run_calls demo_as (as_create demo_machine).2 calls) demo_as.root :=
  built_inv demo_machine demo_as calls demo_heap demo_create hwf

theorem demo_user_call_wf : ∀ c ∈ [demo_user_call], c.wf := by
  intro c hc
  simp only [List.mem_singleton] at hc
  subst hc
  exact ⟨by decide, by decide, Or.inr (by decide)⟩

theorem demo_two_wf : ∀ c ∈ [demo_user_call,
    MapCall.map 6 7 (some (fun _ => 0xBB)) 4096 0 (PTE_R ||| PTE_W)], c.wf := by
  intro c hc
  simp only [List.mem_cons, List.mem_singleton, List.not_mem_nil, or_false] at hc
  rcases hc with hc | hc <;> subst hc <;> exact ⟨by decide, by decide, Or.inr (by decide)⟩

theorem demo_page0_wf :
    ∀ c ∈ [MapCall.extern_call 5 6 0 (PTE_R ||| PTE_W ||| PTE_U)], c.wf := by
  intro c hc
  simp only [List.mem_singleton] at hc
  subst hc
  exact ⟨by decide, by decide⟩

theorem demo_alias_wf :
    ∀ c ∈ [MapCall.extern_call 1 2 0x50 (PTE_R ||| PTE_W ||| PTE_U),
      MapCall.extern_call 2 3 0x50 (PTE_R ||| PTE_W)], c.wf := by
  intro c hc
  simp only [List.mem_cons, List.mem_singleton, List.not_mem_nil, or_false] at hc
  rcases hc with hc | hc <;> subst hc <;> exact ⟨by decide, by decide⟩

set_option maxRecDepth 100000 in
/-- C4, with user leaves inside allocated memory, at the clone of a space with
one user page filled with `0xAA`. -/
theorem C4_clone_translate_witness :
    ∃ dst, (as_clone demo_user demo_as).1 = some dst ∧
      as_translate (as_clone demo_user demo_as).2 demo_as 0x5000 PTE_R = 0x102000 ∧
      ∃ pg, demo_user.heap_current ≤ pg ∧
        as_translate (as_clone demo_user demo_as).2 dst 0x5000 PTE_R = pg ∧
        (as_clone demo_user demo_as).2.mem pg = 0xAA := by
  obtain ⟨dst, hd⟩ := as_clone_room demo_user demo_as (by decide) (by decide) (by decide)
  obtain ⟨h1, _, _, h4⟩ :=
    C4_clone_translate demo_machine demo_user (as_clone demo_user demo_as).2 demo_as dst
      [demo_user_call] 0x5000 PTE_R demo_heap demo_create demo_user_call_wf
      rfl (pair_of_fst _ _ hd) (by decide)
  have hs : as_translate demo_user demo_as 0x5000 PTE_R = 0x102000 := by decide
  rw [hs] at h1
  obtain ⟨pg, _, a2, _, _, a5, a6⟩ := h4 (by decide) (by rw [h1]; decide)
  refine ⟨dst, hd, h1, pg, a2, a5, ?_⟩
  rw [← Nat.add_zero pg, a6 0 (by decide)]
  decide

set_option maxRecDepth 100000 in
/-- C4, the claim as stated fails: the source maps virtual page 5 with
`PTE_U` onto physical page 0 (by `as_map_extern`), the clone succeeds, the
source translation of `0x5000` returns `NULL` (failure), and the translation
through the clone succeeds. -/
theorem C4_counterexample :
    ∃ dst, (as_clone demo_page0 demo_as).1 = some dst ∧
      as_translate (as_clone demo_page0 demo_as).2 demo_as 0x5000 PTE_R = 0 ∧
      as_translate (as_clone demo_page0 demo_as).2 dst 0x5000 PTE_R ≠ 0 := by
  obtain ⟨dst, hd⟩ := as_clone_room demo_page0 demo_as (by decide) (by decide) (by decide)
  obtain ⟨owner, hinv⟩ := demo_inv _ demo_page0_wf
  have hinv' : PTInv owner demo_page0 demo_as.root := hinv
  obtain ⟨s1, _, _, _, _, s6⟩ := as_clone_translate hinv' dst (as_clone demo_page0 demo_as).2
    (pair_of_fst _ _ hd) 0x5000
  obtain ⟨pg, _, a2, _, a4, _⟩ := s6 (by decide) (by decide) (by decide)
  have hpos : 0 < demo_page0.heap_current := by decide
  refine ⟨dst, hd, ?_, ?_⟩
  · have := s1 PTE_R
    rw [show as_translate (as_clone demo_page0 demo_as).2 demo_as 0x5000 PTE_R
      = as_translate demo_page0 demo_as 0x5000 PTE_R from this]
    decide
  · rw [a4 PTE_R, if_pos (by decide)]
    omega

set_option maxRecDepth 100000 in
/-- C5, without aliasing between user and non-user leaves, at the clone of a
space with one user page and one page without `PTE_U`. -/
theorem C5_clone_writes_witness :
    ∃ dst, (as_clone demo_two demo_as).1 = some dst ∧
      as_translate (as_clone demo_two demo_as).2 dst 0x6000 PTE_R
        = as_translate (as_clone demo_two demo_as).2 demo_as 0x6000 PTE_R ∧
      (store8 (as_clone demo_two demo_as).2
          (as_translate (as_clone demo_two demo_as).2 demo_as 0x6000 PTE_R) 0x11).mem
        (as_translate (store8 (as_clone demo_two demo_as).2
          (as_translate (as_clone demo_two demo_as).2 demo_as 0x6000 PTE_R) 0x11)
          dst 0x6000 PTE_R) = 0x11 % 256 := by
  obtain ⟨dst, hd⟩ := as_clone_room demo_two demo_as (by decide) (by decide) (by decide)
  obtain ⟨owner, hinv⟩ := demo_inv _ demo_two_wf
  have hinv' : PTInv owner demo_two demo_as.root := hinv
  obtain ⟨s1, _⟩ := as_clone_translate hinv' dst (as_clone demo_two demo_as).2
    (pair_of_fst _ _ hd) 0x6000
  have hne : as_translate (as_clone demo_two demo_as).2 demo_as 0x6000 PTE_R ≠ 0 := by
    rw [show as_translate (as_clone demo_two demo_as).2 demo_as 0x6000 PTE_R
      = as_translate demo_two demo_as 0x6000 PTE_R from s1 PTE_R]
    decide
  exact ⟨dst, hd,
    (C5_clone_writes demo_machine demo_two (as_clone demo_two demo_as).2 demo_as dst
      [demo_user_call, MapCall.map 6 7 (some (fun _ => 0xBB)) 4096 0 (PTE_R ||| PTE_W)]
      0x5000 0x6000 PTE_R 0x11 demo_heap demo_create demo_two_wf rfl (pair_of_fst _ _ hd)
      (by decide) (by decide) (by decide) (by decide)).2.2 (by decide) hne⟩

set_option maxRecDepth 100000 in
/-- C5, the claim as stated fails: the source maps the physical page `0x50`
at virtual page 1 with `PTE_U` and at virtual page 2 without; after the
clone, a byte stored through the source translation of the user page at
`0x1000` changes the byte that the clone reaches at `0x2000`. -/
theorem C5_counterexample :
    ∃ dst, (as_clone demo_alias demo_as).1 = some dst ∧
      pte_flags (leaf demo_alias.mem demo_as.root (va_vpn 0x1000)) &&& PTE_U ≠ 0 ∧
      as_translate (as_clone demo_alias demo_as).2 demo_as 0x1000 PTE_W = 0x50000 ∧
      as_translate (as_clone demo_alias demo_as).2 dst 0x2000 PTE_R = 0x50000 ∧
      (store8 (as_clone demo_alias demo_as).2 0x50000 1).mem 0x50000
        ≠ (as_clone demo_alias demo_as).2.mem 0x50000 := by
  obtain ⟨dst, hd⟩ := as_clone_room demo_alias demo_as (by decide) (by decide) (by decide)
  obtain ⟨owner, hinv⟩ := demo_inv _ demo_alias_wf
  have hinv' : PTInv owner demo_alias demo_as.root := hinv
  have hc := pair_of_fst _ _ hd
  obtain ⟨s1, _⟩ := as_clone_translate hinv' dst (as_clone demo_alias demo_as).2 hc 0x1000
  obtain ⟨_, _, _, _, t5, _⟩ :=
    as_clone_translate hinv' dst (as_clone demo_alias demo_as).2 hc 0x2000
  obtain ⟨_, _, _, c4, _⟩ := as_clone_spec hinv' dst (as_clone demo_alias demo_as).2 hc
  refine ⟨dst, hd, by decide, ?_, ?_, ?_⟩
  · rw [show as_translate (as_clone demo_alias demo_as).2 demo_as 0x1000 PTE_W
      = as_translate demo_alias demo_as 0x1000 PTE_W from s1 PTE_W]
    decide
  · rw [show as_translate (as_clone demo_alias demo_as).2 dst 0x2000 PTE_R
      = as_translate demo_alias demo_as 0x2000 PTE_R from
        t5 (by decide) (by decide) (by decide) PTE_R]
    decide
  · rw [c4 0x50000 (by decide)]
    decide

end Ucore

namespace Ucore

theorem pm_add_relations (pm : proc_manager_t) (pid proc parent : Nat) (hpid : pid < 64)
    (hpar : parent < 64) (hlen : (pm.relations parent).children.length < 32)
    (hne : pid ≠ parent) :
    (pm_add pm pid proc parent).relations =
      Function.update (Function.update pm.relations pid ⟨parent, [], []⟩) parent
        ⟨(pm.relations parent).parent, (pm.relations parent).children ++ [pid],
          (pm.relations parent).dead_children⟩ := by
  have h1 : ¬ pid ≥ MAX_PROCS := by unfold MAX_PROCS; omega
  have h2 : parent ≠ PID_INVALID ∧ parent < MAX_PROCS := by
    unfold PID_INVALID MAX_PROCS; omega
  have h3 : Function.update pm.relations pid ⟨parent, [], []⟩ parent = pm.relations parent :=
    Function.update_noteq (Ne.symm hne) _ _
  unfold pm_add queue_push
  simp only [h1, if_false]
  rw [if_pos h2]
  simp only [h3, MAX_CHILDREN, hlen, if_true]

theorem pm_add_relations_full (pm : proc_manager_t) (pid proc parent : Nat) (hpid : pid < 64)
    (hlen : 32 ≤ (pm.relations parent).children.length) (hne : pid ≠ parent) :
    (pm_add pm pid proc parent).relations =
      Function.update pm.relations pid ⟨parent, [], []⟩ := by
  have h1 : ¬ pid ≥ MAX_PROCS := by unfold MAX_PROCS; omega
  have h3 : Function.update pm.relations pid ⟨parent, [], []⟩ parent = pm.relations parent :=
    Function.update_noteq (Ne.symm hne) _ _
  have h4 : ¬ (pm.relations parent).children.length < 32 := by omega
  unfold pm_add queue_push
  simp only [h1, if_false, h3, MAX_CHILDREN, h4]
  split_ifs <;> rfl

/-- Registration of the children `cs` of `parent`. -/
theorem add_children_spec (parent : Nat) (proc : Nat → Nat) (hpar : parent < 64) :
    ∀ (cs : List Nat) (pm : proc_manager_t), (∀ c ∈ cs, c < 64 ∧ c ≠ parent) → cs.Nodup →
      (pm.relations parent).children.length + cs.length ≤ 32 →
      (add_children pm parent proc cs).relations parent =
        ⟨(pm.relations parent).parent, (pm.relations parent).children ++ cs,
          (pm.relations parent).dead_children⟩ ∧
      (∀ c ∈ cs, (add_children pm parent proc cs).relations c = ⟨parent, [], []⟩) ∧
      (∀ q, q ≠ parent → q ∉ cs →
        (add_children pm parent proc cs).relations q = pm.relations q) := by
  intro cs
  induction cs with
  | nil =>
    intro pm _ _ _
    refine ⟨?_, fun c hc => absurd hc (List.not_mem_nil c), fun _ _ _ => rfl⟩
    show pm.relations parent = _
    rw [List.append_nil]
  | cons c cs ih =>
    intro pm hcs hnd hlen
    have hc := hcs c (List.mem_cons_self _ _)
    rw [List.length_cons] at hlen
    have hrel := pm_add_relations pm c (proc c) parent hc.1 hpar (by omega) hc.2
    have hP : (pm_add pm c (proc c) parent).relations parent =
        ⟨(pm.relations parent).parent, (pm.relations parent).children ++ [c],
          (pm.relations parent).dead_children⟩ := by
      rw [hrel, Function.update_same]
    have hC : (pm_add pm c (proc c) parent).relations c = ⟨parent, [], []⟩ := by
      rw [hrel, Function.update_noteq hc.2, Function.update_same]
    have hnd' := List.nodup_cons.1 hnd
    obtain ⟨i1, i2, i3⟩ := ih (pm_add pm c (proc c) parent)
      (fun c' hc' => hcs c' (List.mem_cons_of_mem _ hc')) hnd'.2
      (by rw [hP]; simp only [List.length_append, List.length_singleton]; omega)
    show (add_children (pm_add pm c (proc c) parent) parent proc cs).relations parent = _ ∧
      (∀ c' ∈ c :: cs,
        (add_children (pm_add pm c (proc c) parent) parent proc cs).relations c'
          = ⟨parent, [], []⟩) ∧
      (∀ q, q ≠ parent → q ∉ c :: cs →
        (add_children (pm_add pm c (proc c) parent) parent proc cs).relations q
          = pm.relations q)
    refine ⟨?_, fun c' hc' => ?_, fun q hq hn => ?_⟩
    · rw [i1, hP]
      simp
    · rcases List.mem_cons.1 hc' with h | h
      · rw [h, i3 c hc.2 hnd'.1, hC]
      · exact i2 c' h
    · have hq1 : q ≠ c := fun h => hn (h ▸ List.mem_cons_self _ _)
      have hq2 : q ∉ cs := fun h => hn (List.mem_cons_of_mem _ h)
      rw [i3 q hq hq2, hrel, Function.update_noteq hq, Function.update_noteq hq1]

theorem adopt_loop_none (pid fuel i : Nat) (pm : proc_manager_t)
    (h : (pm.relations pid).children = []) : adopt_loop pid fuel i pm = pm := by
  cases fuel with
  | zero => rfl
  | succ n =>
    rw [adopt_loop, h]
    simp

/-- The exit of a childless child `c` of `parent`. -/
theorem pm_exit_relations (pm : proc_manager_t) (c parent : Nat) (code : Int)
    (hc : c < 64) (hpar : parent < 64) (hne : c ≠ parent)
    (hrel : pm.relations c = ⟨parent, [], []⟩)
    (hmem : c ∈ (pm.relations parent).children)
    (hlen : (pm.relations parent).dead_children.length < 32) :
    (pm_exit_current (set_current pm c) code).relations =
      Function.update (Function.update pm.relations parent
        ⟨(pm.relations parent).parent, (pm.relations parent).children.erase c,
          (pm.relations parent).dead_children ++ [⟨c, code⟩]⟩) c rel_zero := by
  have h1 : c ≠ PID_INVALID := by unfold PID_INVALID; omega
  have h2 : parent ≠ PID_INVALID ∧ parent < MAX_PROCS := by
    unfold PID_INVALID MAX_PROCS; omega
  unfold pm_exit_current set_current
  simp only [h1, if_false, hrel]
  rw [if_pos h2]
  simp only [hmem, MAX_CHILDREN, hlen, if_true]
  rw [adopt_loop_none]
  simp only [Function.update_noteq hne, hrel]

/-- The exit of a childless process that its parent does not list. -/
theorem pm_exit_relations_unlisted (pm : proc_manager_t) (c parent : Nat) (code : Int)
    (hc : c < 64) (hrel : pm.relations c = ⟨parent, [], []⟩)
    (hmem : c ∉ (pm.relations parent).children) :
    (pm_exit_current (set_current pm c) code).relations =
      Function.update pm.relations c rel_zero := by
  have h1 : c ≠ PID_INVALID := by unfold PID_INVALID; omega
  unfold pm_exit_current set_current
  simp only [h1, if_false, hrel, hmem]
  rw [adopt_loop_none]
  · split_ifs <;> rfl
  · split_ifs <;> exact congrArg proc_rel_t.children hrel

/-- Successive `pm_wait(PID_INVALID)` of a process without live children. -/
theorem wait_any_spec (parent : Nat) (hpar : parent < 64) :
    ∀ (ds : List dead_child_t) (pm : proc_manager_t), pm.current = parent →
      (pm.relations parent).children = [] → (pm.relations parent).dead_children = ds →
      wait_any (ds.length + 1) pm =
        ds.reverse.map (fun d => ⟨d.pid, d.exit_code, true⟩) ++ [⟨PID_INVALID, -1, false⟩] := by
  have h1 : parent ≠ PID_INVALID := by unfold PID_INVALID; omega
  intro ds
  induction ds using List.reverseRecOn with
  | nil =>
    intro pm hcur hch hd
    simp only [List.length_nil, Nat.zero_add, wait_any, List.reverse_nil, List.map_nil,
      List.nil_append, List.cons.injEq, and_true]
    unfold pm_wait
    simp [hcur, h1, hd, hch]
  | append_singleton ds d ih =>
    intro pm hcur hch hd
    have hw : pm_wait pm PID_INVALID =
        (⟨d.pid, d.exit_code, true⟩,
          ⟨pm.procs, Function.update pm.relations parent
              ⟨(pm.relations parent).parent, (pm.relations parent).children, ds⟩,
            pm.ready_queue, pm.queue_head, pm.queue_tail, pm.current⟩) := by
      unfold pm_wait
      simp [hcur, h1, hd]
    rw [List.length_append, List.length_singleton, wait_any, hw]
    simp only [List.reverse_append, List.reverse_singleton, List.singleton_append,
      List.map_cons, List.cons_append, List.cons.injEq, true_and]
    apply ih
    · exact hcur
    · show (Function.update pm.relations parent _ parent).children = []
      rw [Function.update_same]
      exact hch
    · show (Function.update pm.relations parent _ parent).dead_children = ds
      rw [Function.update_same]

end Ucore

namespace Ucore

/-- The exits of the children `es` of `parent`, in any order. -/
theorem exit_children_spec (parent : Nat) (hpar : parent < 64) :
    ∀ (es : List dead_child_t) (pm : proc_manager_t) (rem : List Nat),
      (es.map dead_child_t.pid).Perm rem → rem.Nodup → (∀ c ∈ rem, c < 64 ∧ c ≠ parent) →
      (pm.relations parent).children.Perm rem →
      (∀ c ∈ rem, pm.relations c = ⟨parent, [], []⟩) →
      (pm.relations parent).dead_children.length + rem.length ≤ 32 →
      ((exit_children pm es).relations parent).children = [] ∧
      ((exit_children pm es).relations parent).dead_children =
        (pm.relations parent).dead_children ++ es ∧
      (∀ q, q ≠ parent → q ∉ rem → (exit_children pm es).relations q = pm.relations q) := by
  intro es
  induction es with
  | nil =>
    intro pm rem hp _ _ hch _ _
    have hrem : rem = [] := List.Perm.eq_nil hp.symm
    rw [hrem] at hch
    exact ⟨List.Perm.eq_nil hch, (List.append_nil _).symm, fun _ _ _ => rfl⟩
  | cons e es ih =>
    intro pm rem hp hnd hrem hch hrel hlen
    have hp' : (e.pid :: es.map dead_child_t.pid).Perm rem := hp
    have hmem : e.pid ∈ rem := hp'.subset (List.mem_cons_self _ _)
    have hc := hrem _ hmem
    have hpos : 0 < rem.length := List.length_pos_of_mem hmem
    have hx := pm_exit_relations pm e.pid parent e.exit_code hc.1 hpar hc.2 (hrel _ hmem)
      (hch.symm.subset hmem) (by omega)
    have hP : (pm_exit_current (set_current pm e.pid) e.exit_code).relations parent =
        ⟨(pm.relations parent).parent, (pm.relations parent).children.erase e.pid,
          (pm.relations parent).dead_children ++ [e]⟩ := by
      rw [hx, Function.update_noteq (Ne.symm hc.2), Function.update_same]
    have hperm : (es.map dead_child_t.pid).Perm (rem.erase e.pid) := by
      have := hp'.erase e.pid
      rwa [List.erase_cons_head] at this
    obtain ⟨i1, i2, i3⟩ := ih (pm_exit_current (set_current pm e.pid) e.exit_code)
      (rem.erase e.pid) hperm (hnd.erase _)
      (fun c hc' => hrem c (List.mem_of_mem_erase hc'))
      (by rw [hP]; exact hch.erase _)
      (fun c hc' => by
        have h1 := (List.Nodup.mem_erase_iff hnd).1 hc'
        rw [hx, Function.update_noteq h1.1, Function.update_noteq (hrem c h1.2).2]
        exact hrel c h1.2)
      (by
        rw [hP, List.length_erase_of_mem hmem]
        simp only [List.length_append, List.length_singleton]
        omega)
    show ((exit_children (pm_exit_current (set_current pm e.pid) e.exit_code) es).relations
        parent).children = [] ∧
      ((exit_children (pm_exit_current (set_current pm e.pid) e.exit_code) es).relations
        parent).dead_children = (pm.relations parent).dead_children ++ e :: es ∧
      (∀ q, q ≠ parent → q ∉ rem →
        (exit_children (pm_exit_current (set_current pm e.pid) e.exit_code) es).relations q
          = pm.relations q)
    refine ⟨i1, ?_, fun q hq hn => ?_⟩
    · rw [i2, hP]
      simp
    · have hqe : q ≠ e.pid := fun h => hn (h ▸ hmem)
      rw [i3 q hq (fun h => hn (List.mem_of_mem_erase h)), hx, Function.update_noteq hqe,
        Function.update_noteq hq]

/-- C6 (amended). For a process `parent` that has no live and no dead
children: after at most `MAX_CHILDREN = 32` pairwise distinct children (pids
below `MAX_PROCS`, none the parent itself) are registered with
`pm_add(child, parent)` and each of them, in any order, is made current and
calls `pm_exit_current` with its exit code, the successive
`pm_wait(PID_INVALID)` calls with `parent` current return every child exactly
once with `found = true` and the exit code the child passed (last exited
first), and the next `pm_wait` returns `found = false`. -/
theorem C6_wait_returns_children (pm : proc_manager_t) (parent : Nat) (proc : Nat → Nat)
    (cs : List Nat) (es : List dead_child_t)
    (hpar : parent < 64)
    (hch : (pm.relations parent).children = [])
    (hdead : (pm.relations parent).dead_children = [])
    (hcs : ∀ c ∈ cs, c < 64 ∧ c ≠ parent) (hnd : cs.Nodup) (hlen : cs.length ≤ 32)
    (hperm : (es.map dead_child_t.pid).Perm cs) :
    wait_any (cs.length + 1)
        (set_current (exit_children (add_children pm parent proc cs) es) parent)
      = es.reverse.map (fun e => ⟨e.pid, e.exit_code, true⟩)
          ++ [⟨PID_INVALID, -1, false⟩] := by
  obtain ⟨a1, a2, _⟩ := add_children_spec parent proc hpar cs pm hcs hnd
    (by rw [hch]; simp only [List.length_nil]; omega)
  rw [hch, hdead, List.nil_append] at a1
  obtain ⟨e1, e2, _⟩ := exit_children_spec parent hpar es (add_children pm parent proc cs) cs
    hperm hnd hcs (by rw [a1]) a2 (by rw [a1]; simp only [List.length_nil]; omega)
  rw [a1, List.nil_append] at e2
  have hl : cs.length = es.length := by
    rw [← hperm.length_eq, List.length_map]
  rw [hl]
  exact wait_any_spec parent hpar es _ rfl e1 e2

end Ucore

namespace Ucore

/-- C6, at ten children that exit with code 0 (the shipped fork test). -/
theorem C6_wait_returns_children_witness :
    wait_any ((demo_children 10).length + 1)
        (set_current (exit_children (add_children demo_pm 0 (fun c => c + 1)
          (demo_children 10)) (demo_exits 10)) 0)
      = (demo_exits 10).reverse.map (fun e => ⟨e.pid, e.exit_code, true⟩)
          ++ [⟨PID_INVALID, -1, false⟩] :=
  C6_wait_returns_children demo_pm 0 (fun c => c + 1) (demo_children 10) (demo_exits 10)
    (by decide) (by decide) (by decide) (by decide) (by decide) (by decide) (by decide)

theorem add_children_append (pm : proc_manager_t) (parent : Nat) (proc : Nat → Nat)
    (cs : List Nat) (c : Nat) :
    add_children pm parent proc (cs ++ [c]) =
      pm_add (add_children pm parent proc cs) c (proc c) parent := by
  unfold add_children
  rw [List.foldl_append]
  rfl

theorem exit_children_append (pm : proc_manager_t) (es : List dead_child_t)
    (e : dead_child_t) :
    exit_children pm (es ++ [e]) =
      pm_exit_current (set_current (exit_children pm es) e.pid) e.exit_code := by
  unfold exit_children
  rw [List.foldl_append]
  rfl

/-- The 33 children scenario: what the parent's 33 `pm_wait` calls return. -/
theorem demo_overflow :
    wait_any 33
        (set_current (exit_children (add_children demo_pm 0 (fun c => c + 1)
          (demo_children 33)) (demo_exits 33)) 0)
      = (demo_exits 32).reverse.map (fun e => ⟨e.pid, e.exit_code, true⟩)
          ++ [⟨PID_INVALID, -1, false⟩] := by
  have hc : demo_children 33 = demo_children 32 ++ [33] := by decide
  have he : demo_exits 33 = demo_exits 32 ++ [⟨33, 0⟩] := by decide
  have h0 : demo_pm.relations 0 = ⟨PID_INVALID, [], []⟩ := by decide
  rw [hc, he, add_children_append, exit_children_append]
  obtain ⟨a1, a2, _⟩ := add_children_spec 0 (fun c => c + 1) (by decide) (demo_children 32)
    demo_pm (by decide) (by decide) (by rw [h0]; decide)
  rw [h0, List.nil_append] at a1
  generalize add_children demo_pm 0 (fun c => c + 1) (demo_children 32) = pmA at a1 a2 ⊢
  have hB := pm_add_relations_full pmA 33 ((fun c => c + 1) 33) 0 (by decide)
    (by rw [a1]; decide) (by decide)
  generalize pm_add pmA 33 ((fun c => c + 1) 33) 0 = pmB at hB ⊢
  have hB0 : pmB.relations 0 = ⟨PID_INVALID, demo_children 32, []⟩ := by
    rw [hB, Function.update_noteq (by decide), a1]
  have hne : ∀ c ∈ demo_children 32, c ≠ 33 := by decide
  obtain ⟨e1, e2, e3⟩ := exit_children_spec 0 (by decide) (demo_exits 32) pmB
    (demo_children 32) (by decide) (by decide) (by decide) (by rw [hB0])
    (fun c hc' => by rw [hB, Function.update_noteq (hne c hc')]; exact a2 c hc')
    (by rw [hB0]; decide)
  rw [hB0, List.nil_append] at e2
  have e33 := e3 33 (by decide) (by decide)
  rw [hB, Function.update_same] at e33
  generalize exit_children pmB (demo_exits 32) = pmC at e1 e2 e33 ⊢
  have hD := pm_exit_relations_unlisted pmC 33 0 0 (by decide) e33
    (by rw [e1]; exact List.not_mem_nil _)
  have hw := wait_any_spec 0 (by decide) (demo_exits 32)
    (set_current (pm_exit_current (set_current pmC 33) 0) 0) rfl
    (by
      show ((pm_exit_current (set_current pmC 33) 0).relations 0).children = []
      rw [hD, Function.update_noteq (by decide)]
      exact e1)
    (by
      show ((pm_exit_current (set_current pmC 33) 0).relations 0).dead_children = _
      rw [hD, Function.update_noteq (by decide)]
      exact e2)
  have hlen : (demo_exits 32).length + 1 = 33 := by decide
  rw [hlen] at hw
  exact hw

/-- C6, the general sentence of the claim fails: 33 children of one parent
are registered and exit with code 0; the parent's first 32 `pm_wait` calls
succeed, the 33rd returns `found = false`, and child 33 is returned by none
of them. -/
theorem C6_counterexample :
    (wait_any 33
        (set_current (exit_children (add_children demo_pm 0 (fun c => c + 1)
          (demo_children 33)) (demo_exits 33)) 0)).map wait_result_t.found
      = List.replicate 32 true ++ [false] ∧
    33 ∉ (wait_any 33
        (set_current (exit_children (add_children demo_pm 0 (fun c => c + 1)
          (demo_children 33)) (demo_exits 33)) 0)).map wait_result_t.pid := by
  rw [demo_overflow]
  decide

end Ucore

namespace Ucore

theorem and_mask_eq_zero_iff (p w : Nat) :
    p &&& (2 ^ w - 1) = 0 ↔ ∀ i, i < w → p.testBit i = false := by
  rw [Nat.and_pow_two_sub_one_eq_mod]
  constructor
  · intro h i hi
    have := congrArg (fun x => x.testBit i) h
    simp only [Nat.testBit_mod_two_pow, hi, decide_True, Bool.true_and, Nat.zero_testBit] at this
    exact this
  · intro h
    apply Nat.eq_of_testBit_eq
    intro i
    rw [Nat.testBit_mod_two_pow, Nat.zero_testBit]
    by_cases hi : i < w
    · simp [h i hi]
    · simp [hi]

/-- One halving step of `sigset_find_first`: `r` is the lowest set bit of
`st.2` and lies below `2 * w`. -/
theorem find_step (w m : Nat) (hm : m = 2 ^ w - 1) (st : Nat × Nat) (r s : Nat)
    (h1 : st.2.testBit r = true)
    (h2 : ∀ i, i < r → st.2.testBit i = false) (hsum : st.1 + r = s) (hr : r < 2 * w) :
    ∃ r', (find_first_step w m st).2.testBit r' = true ∧
      (∀ i, i < r' → (find_first_step w m st).2.testBit i = false) ∧
      (find_first_step w m st).1 + r' = s ∧ r' < w := by
  unfold find_first_step
  rw [hm]
  by_cases hc : st.2 &&& (2 ^ w - 1) = 0
  · rw [if_pos hc]
    have hz := (and_mask_eq_zero_iff st.2 w).1 hc
    have hwr : w ≤ r := by
      by_contra hlt
      have := hz r (by omega)
      rw [h1] at this
      cases this
    refine ⟨r - w, ?_, fun i hi => ?_, by simp only; omega, by omega⟩
    · simp only [Nat.testBit_shiftRight]
      have e : w + (r - w) = r := by omega
      rw [e]; exact h1
    · simp only [Nat.testBit_shiftRight]
      exact h2 _ (by omega)
  · rw [if_neg hc]
    have hrw : r < w := by
      by_contra hge
      apply hc
      exact (and_mask_eq_zero_iff st.2 w).2 (fun i hi => h2 i (by omega))
    exact ⟨r, h1, h2, hsum, hrw⟩

/-- The function `sigset_find_first` returns the lowest set bit of
`received & ~mask`. -/
theorem sigset_find_first_eq (set mask : signal_set_t) (s : Nat) (hs : s < 64)
    (h1 : (set.bits &&& not64 mask.bits).testBit s = true)
    (h2 : ∀ i, i < s → (set.bits &&& not64 mask.bits).testBit i = false) :
    sigset_find_first set mask = (s : Int) := by
  unfold sigset_find_first
  generalize set.bits &&& not64 mask.bits = p at h1 h2
  have hp : p ≠ 0 := by
    intro h
    rw [h, Nat.zero_testBit] at h1
    cases h1
  simp only [hp, if_false]
  obtain ⟨r1, a1, b1, c1, d1⟩ := find_step 32 0xFFFFFFFF (by norm_num) (0, p) s s h1 h2
    (by simp) (by omega)
  generalize find_first_step 32 0xFFFFFFFF (0, p) = st1 at a1 b1 c1 ⊢
  obtain ⟨r2, a2, b2, c2, d2⟩ := find_step 16 0xFFFF (by norm_num) st1 r1 s a1 b1 c1 (by omega)
  generalize find_first_step 16 0xFFFF st1 = st2 at a2 b2 c2 ⊢
  obtain ⟨r3, a3, b3, c3, d3⟩ := find_step 8 0xFF (by norm_num) st2 r2 s a2 b2 c2 (by omega)
  generalize find_first_step 8 0xFF st2 = st3 at a3 b3 c3 ⊢
  obtain ⟨r4, a4, b4, c4, d4⟩ := find_step 4 0xF (by norm_num) st3 r3 s a3 b3 c3 (by omega)
  generalize find_first_step 4 0xF st3 = st4 at a4 b4 c4 ⊢
  obtain ⟨r5, a5, b5, c5, d5⟩ := find_step 2 0x3 (by norm_num) st4 r4 s a4 b4 c4 (by omega)
  generalize find_first_step 2 0x3 st4 = st5 at a5 b5 c5 ⊢
  obtain ⟨r6, a6, b6, c6, d6⟩ := find_step 1 0x1 (by norm_num) st5 r5 s a5 b5 c5 (by omega)
  have hr6 : r6 = 0 := by omega
  rw [hr6, Nat.add_zero] at c6
  unfold find_first_step at c6
  by_cases hc : st5.2 &&& 0x1 = 0
  · rw [if_pos hc] at c6
    rw [if_pos hc]
    exact congrArg Int.ofNat c6
  · rw [if_neg hc] at c6
    rw [if_neg hc]
    exact congrArg Int.ofNat c6

end Ucore

namespace Ucore

theorem sigset_contains_eq (set : signal_set_t) (i : Nat) :
    sigset_contains set i = set.bits.testBit i := by
  unfold sigset_contains Nat.testBit
  rw [Nat.and_comm]

theorem testBit_not64 (b i : Nat) (hi : i < 64) : (not64 b).testBit i = !b.testBit i := by
  unfold not64
  have h : b % 2 ^ 64 < 2 ^ 64 := Nat.mod_lt _ (by norm_num)
  have e : 2 ^ 64 - 1 - b % 2 ^ 64 = 2 ^ 64 - (b % 2 ^ 64 + 1) := by omega
  rw [e, Nat.testBit_two_pow_sub_succ h, Nat.testBit_mod_two_pow]
  simp [hi]

theorem pending_testBit (a b i : Nat) (hi : i < 64) :
    (a &&& not64 b).testBit i = (a.testBit i && !b.testBit i) := by
  rw [Nat.testBit_and, testBit_not64 b i hi]

/-- The lowest-numbered pending unmasked signal is what `sigset_find_first`
returns. -/
theorem sigset_find_first_lowest (received mask : signal_set_t) (s : Nat) (hs : s < 64)
    (hrecv : sigset_contains received s = true) (hmask : sigset_contains mask s = false)
    (hlow : ∀ i, i < s → sigset_contains received i = true → sigset_contains mask i = true) :
    sigset_find_first received mask = (s : Int) := by
  rw [sigset_contains_eq] at hrecv hmask
  apply sigset_find_first_eq received mask s hs
  · rw [pending_testBit _ _ _ hs, hrecv, hmask]
    rfl
  · intro i hi
    have h := hlow i hi
    rw [sigset_contains_eq, sigset_contains_eq] at h
    rw [pending_testBit _ _ _ (by omega)]
    cases hr : received.bits.testBit i
    · rfl
    · rw [h hr]
      rfl

/-- What `signal_handle` does when it enters a user handler. -/
theorem signal_handle_user (sm : signal_manager_t) (ctx : context_t) (s : Nat)
    (hnone : sm.handling.type = handling_type_t.HANDLING_NONE)
    (hfirst : sigset_find_first sm.received sm.mask = (s : Int))
    (hkill : s ≠ SIGKILL) (hstop : s ≠ SIGSTOP)
    (hset : sm.action_set s = true) (hh0 : (sm.actions s).handler ≠ 0) :
    signal_handle sm ctx =
      (⟨signal_result_type_t.SIGNAL_HANDLED, 0⟩,
        ⟨sigset_remove sm.received s, sm.mask, ⟨handling_type_t.HANDLING_USER_SIGNAL, ctx⟩,
          sm.actions, sm.action_set⟩,
        ⟨ctx.sctx, Function.update ctx.x 9 s, (sm.actions s).handler, ctx.supervisor,
          ctx.interrupt⟩) := by
  unfold signal_handle signal_is_handling
  rw [hnone, hfirst]
  have hneg : ¬ ((s : Int) < 0) := by omega
  simp only [bne_self_eq_false, Bool.false_eq_true, if_false, hneg, Int.toNat_ofNat, hkill,
    hstop, hset, Bool.true_and, bne_iff_ne, ne_eq, hh0, not_false_eq_true, if_true]
  unfold ctx_set_arg ctx_set_reg ctx_set_pc
  simp

/-- C9. For a signal manager with handling state none whose
lowest-numbered pending unmasked signal `s` (a signal number, at most
`MAX_SIG`) is neither `SIGKILL` nor `SIGSTOP` and has a registered action
with handler `h != 0`, and for every context `ctx`: `signal_handle` returns
`SIGNAL_HANDLED`, leaves the context with program counter `h` and `a0 = s`,
every other general register, the privilege and interrupt flags (and the
scheduling pointer) unchanged, stores the context it was called with as the
saved context, and sets the handling state to `HANDLING_USER_SIGNAL`. -/
theorem C9_signal_handle_user_handler (sm : signal_manager_t) (ctx : context_t) (s h : Nat)
    (hnone : sm.handling.type = handling_type_t.HANDLING_NONE)
    (hs : s ≤ MAX_SIG)
    (hrecv : sigset_contains sm.received s = true)
    (hmask : sigset_contains sm.mask s = false)
    (hlow : ∀ i, i < s → sigset_contains sm.received i = true →
      sigset_contains sm.mask i = true)
    (hkill : s ≠ SIGKILL) (hstop : s ≠ SIGSTOP)
    (hset : sm.action_set s = true) (hh : (sm.actions s).handler = h) (hh0 : h ≠ 0) :
    (signal_handle sm ctx).1.type = signal_result_type_t.SIGNAL_HANDLED ∧
    ctx_pc (signal_handle sm ctx).2.2 = h ∧
    ctx_arg (signal_handle sm ctx).2.2 0 = s ∧
    (∀ n, n ≠ 10 → ctx_reg (signal_handle sm ctx).2.2 n = ctx_reg ctx n) ∧
    (signal_handle sm ctx).2.2.supervisor = ctx.supervisor ∧
    (signal_handle sm ctx).2.2.interrupt = ctx.interrupt ∧
    (signal_handle sm ctx).2.2.sctx = ctx.sctx ∧
    (signal_handle sm ctx).2.1.handling.saved_ctx = ctx ∧
    (signal_handle sm ctx).2.1.handling.type = handling_type_t.HANDLING_USER_SIGNAL := by
  have hs' : s < 64 := by unfold MAX_SIG at hs; omega
  have hfirst := sigset_find_first_lowest sm.received sm.mask s hs' hrecv hmask hlow
  rw [signal_handle_user sm ctx s hnone hfirst hkill hstop hset (by rw [hh]; exact hh0), hh]
  refine ⟨rfl, rfl, ?_, fun n hn => ?_, rfl, rfl, rfl, rfl, rfl⟩
  · unfold ctx_arg ctx_reg
    simp
  · unfold ctx_reg
    by_cases h0 : n = 0 ∨ n > 31
    · rw [if_pos h0, if_pos h0]
    · rw [if_neg h0, if_neg h0]
      exact Function.update_noteq (by omega) _ _

/-- Entering a user handler saves the context `signal_handle` was called
with. -/
theorem signal_handle_saved (sm : signal_manager_t) (ctx : context_t)
    (hr : (signal_handle sm ctx).1.type = signal_result_type_t.SIGNAL_HANDLED)
    (ht : (signal_handle sm ctx).2.1.handling.type = handling_type_t.HANDLING_USER_SIGNAL) :
    (signal_handle sm ctx).2.1.handling.saved_ctx = ctx := by
  unfold signal_handle at hr ht ⊢
  by_cases h1 : signal_is_handling sm = true
  · simp only [h1, if_true] at hr ht
    by_cases h2 : sm.handling.type = handling_type_t.HANDLING_FROZEN
    · simp only [h2, if_true] at hr ht
      by_cases h3 : (sigset_contains sm.received SIGCONT && !sigset_contains sm.mask SIGCONT)
          = true
      · simp only [h3, if_true] at ht
        cases ht
      · simp only [h3, if_false] at hr
        cases hr
    · simp only [h2, if_false] at hr
      cases hr
  · simp only [h1, Bool.false_eq_true, if_false] at hr ht ⊢
    by_cases h4 : sigset_find_first sm.received sm.mask < 0
    · simp only [h4, if_true] at hr
      cases hr
    · simp only [h4, if_false] at hr ht ⊢
      by_cases h5 : (sigset_find_first sm.received sm.mask).toNat = SIGKILL
      · simp only [h5, if_true] at hr
        cases hr
      · simp only [h5, if_false] at hr ht ⊢
        by_cases h6 : (sigset_find_first sm.received sm.mask).toNat = SIGSTOP
        · simp only [h6, if_true] at hr
          cases hr
        · simp only [h6, if_false] at hr ht ⊢
          by_cases h7 : (sm.action_set (sigset_find_first sm.received sm.mask).toNat &&
              (sm.actions (sigset_find_first sm.received sm.mask).toNat).handler != 0) = true
          · simp only [h7, if_true]
          · simp only [h7, if_false] at hr
            unfold default_action at hr
            split_ifs at hr <;> contradiction

/-- C8. When `signal_handle`, called with the context `c0`, returns
`SIGNAL_HANDLED` and enters a user handler (the handling state becomes
`HANDLING_USER_SIGNAL`), then for every later state `sm2` of the manager with
the same handling state and every later context `ctx2`, `signal_return`
returns `true`, sets the context to exactly `c0` and resets the handling
state to `HANDLING_NONE`.  On a manager that is not inside a user handler,
`signal_return` returns `false` and changes neither the context nor the
manager. -/
theorem C8_signal_return_restores (sm sm2 : signal_manager_t) (c0 ctx2 : context_t)
    (hres : (signal_handle sm c0).1.type = signal_result_type_t.SIGNAL_HANDLED)
    (henter : (signal_handle sm c0).2.1.handling.type = handling_type_t.HANDLING_USER_SIGNAL)
    (hsame : sm2.handling = (signal_handle sm c0).2.1.handling) :
    ((signal_return sm2 ctx2).1 = true ∧ (signal_return sm2 ctx2).2.2 = c0 ∧
      (signal_return sm2 ctx2).2.1.handling.type = handling_type_t.HANDLING_NONE) ∧
    (∀ (sm3 : signal_manager_t) (ctx3 : context_t),
      sm3.handling.type ≠ handling_type_t.HANDLING_USER_SIGNAL →
      signal_return sm3 ctx3 = (false, sm3, ctx3)) := by
  constructor
  · have hsaved : (signal_handle sm c0).2.1.handling.saved_ctx = c0 :=
      signal_handle_saved sm c0 hres henter
    have ht : sm2.handling.type = handling_type_t.HANDLING_USER_SIGNAL := by
      rw [hsame]; exact henter
    have hc : sm2.handling.saved_ctx = c0 := by rw [hsame]; exact hsaved
    unfold signal_return
    rw [if_pos ht, hc]
    exact ⟨rfl, rfl, rfl⟩
  · intro sm3 ctx3 h3
    unfold signal_return
    rw [if_neg h3]

end Ucore

namespace Ucore

/-- C9, at a manager with the handler `0x1000` registered for `SIGUSR1` and
`SIGUSR1` pending. -/
theorem C9_signal_handle_user_handler_witness :
    ctx_pc (signal_handle demo_sm demo_ctx).2.2 = 0x1000 ∧
    ctx_arg (signal_handle demo_sm demo_ctx).2.2 0 = SIGUSR1 :=
  have h := C9_signal_handle_user_handler demo_sm demo_ctx SIGUSR1 0x1000 (by decide)
    (by decide) (by decide) (by decide) (by decide) (by decide) (by decide) (by decide)
    (by decide) (by decide)
  ⟨h.2.1, h.2.2.1⟩

/-- C8, at the same manager: after the handler is entered and the context has
changed, `signal_return` restores the context. -/
theorem C8_signal_return_restores_witness :
    (signal_return (signal_handle demo_sm demo_ctx).2.1 (ctx_set_pc demo_ctx 0)).1 = true ∧
    (signal_return (signal_handle demo_sm demo_ctx).2.1 (ctx_set_pc demo_ctx 0)).2.2
      = demo_ctx :=
  have h := (C8_signal_return_restores demo_sm (signal_handle demo_sm demo_ctx).2.1 demo_ctx
    (ctx_set_pc demo_ctx 0) (by decide) (by decide) rfl).1
  ⟨h.1, h.2.1⟩

end Ucore

namespace Ucore

namespace Ch8

set_option maxRecDepth 100000 in
/-- C10, evaluated: process 0 has registered the handler `0x1000` for
`SIGUSR1` (10); its thread 0 traps with `kill(0, SIGUSR1)`.  After the trap is
processed the thread's context has program counter `0x1000` and `a0 = 0`, the
return value of `kill`, not the signal number. -/
theorem C10_kill_handler_a0 :
    (sched_iter empty_table (fun k _ _ => k) demo_signal_kernel
        (demo_trap 0x400100 SYS_KILL 0 SIGUSR1) EXCEP_U_ECALL).map
      (fun k => (ctx_pc (k.thread_pool 0).ctx.ctx, ctx_arg (k.thread_pool 0).ctx.ctx 0,
        ready_list k, (k.process_pool 0).signal.handling.type))
      = some (0x1000, 0, [0], handling_type_t.HANDLING_USER_SIGNAL) := by
  decide

end Ch8

end Ucore

namespace Ucore

theorem pending_lt (a b : Nat) : a &&& not64 b < 2 ^ 64 := by
  have h1 : a &&& not64 b ≤ not64 b := Nat.and_le_right
  have h2 : not64 b < 2 ^ 64 := by unfold not64; omega
  omega

theorem one_shl_testBit (s i : Nat) (hs : s < 64) :
    ((1 <<< s) % 2 ^ 64).testBit i = decide (s = i) := by
  have h : 2 ^ s < 2 ^ 64 := Nat.pow_lt_pow_right (by norm_num) hs
  rw [Nat.one_shiftLeft, Nat.mod_eq_of_lt h, Nat.testBit_two_pow]

/-- Removing the signal `s` clears bit `s` and keeps every other bit. -/
theorem sigset_contains_remove (set : signal_set_t) (s i : Nat) (hs : s < 64) (hi : i < 64) :
    sigset_contains (sigset_remove set s) i = (sigset_contains set i && decide (i ≠ s)) := by
  rw [sigset_contains_eq, sigset_contains_eq]
  unfold sigset_remove
  rw [pending_testBit _ _ _ hi, one_shl_testBit s i hs]
  by_cases h : s = i
  · subst h; simp
  · have h' : i ≠ s := fun e => h e.symm
    simp [h, h']

theorem sigset_find_first_none (set mask : signal_set_t)
    (h : set.bits &&& not64 mask.bits = 0) : sigset_find_first set mask = -1 := by
  unfold sigset_find_first
  simp only [h, if_true]

/-- When a signal is pending and not masked, `sigset_find_first` returns the
index of the lowest set bit of `received & ~mask`. -/
theorem sigset_find_first_some (set mask : signal_set_t)
    (h : set.bits &&& not64 mask.bits ≠ 0) :
    ∃ s : Nat, s < 64 ∧ sigset_find_first set mask = (s : Int) ∧
      (set.bits &&& not64 mask.bits).testBit s = true ∧
      ∀ i : Nat, i < s → (set.bits &&& not64 mask.bits).testBit i = false := by
  have hex : ∃ i, (set.bits &&& not64 mask.bits).testBit i = true :=
    Nat.ne_zero_implies_bit_true h
  classical
  have hlt : Nat.find hex < 64 := by
    by_contra hge
    have hlt : set.bits &&& not64 mask.bits < 2 ^ Nat.find hex :=
      lt_of_lt_of_le (pending_lt _ _) (Nat.pow_le_pow_right (by norm_num) (by omega))
    have := Nat.testBit_lt_two_pow hlt
    rw [Nat.find_spec hex] at this
    cases this
  have hmin : ∀ i : Nat, i < Nat.find hex →
      (set.bits &&& not64 mask.bits).testBit i = false := by
    intro i hi
    have := Nat.find_min hex hi
    simpa using this
  exact ⟨Nat.find hex, hlt, sigset_find_first_eq set mask _ hlt (Nat.find_spec hex) hmin,
    Nat.find_spec hex, hmin⟩

/-- With handling state none and `s` the signal that `sigset_find_first`
selects, `signal_handle` removes `s` from the pending set and dispatches on
`s`. -/
theorem signal_handle_select (sm : signal_manager_t) (ctx : context_t) (s : Nat)
    (hnone : sm.handling.type = handling_type_t.HANDLING_NONE)
    (hfirst : sigset_find_first sm.received sm.mask = (s : Int)) :
    signal_handle sm ctx =
      if s = SIGKILL then
        (⟨signal_result_type_t.SIGNAL_PROCESS_KILLED, -(SIGKILL : Int)⟩,
          ⟨sigset_remove sm.received s, sm.mask, sm.handling, sm.actions, sm.action_set⟩, ctx)
      else if s = SIGSTOP then
        (⟨signal_result_type_t.SIGNAL_PROCESS_SUSPENDED, 0⟩,
          ⟨sigset_remove sm.received s, sm.mask,
            ⟨handling_type_t.HANDLING_FROZEN, sm.handling.saved_ctx⟩, sm.actions,
            sm.action_set⟩, ctx)
      else if sm.action_set s = true ∧ (sm.actions s).handler ≠ 0 then
        (⟨signal_result_type_t.SIGNAL_HANDLED, 0⟩,
          ⟨sigset_remove sm.received s, sm.mask, ⟨handling_type_t.HANDLING_USER_SIGNAL, ctx⟩,
            sm.actions, sm.action_set⟩,
          ctx_set_arg (ctx_set_pc ctx (sm.actions s).handler) 0 s)
      else
        (default_action s,
          ⟨sigset_remove sm.received s, sm.mask, sm.handling, sm.actions, sm.action_set⟩, ctx)
    := by
  unfold signal_handle signal_is_handling
  rw [hnone, hfirst]
  have hneg : ¬ ((s : Int) < 0) := by omega
  simp only [bne_self_eq_false, Bool.false_eq_true, if_false, hneg, Int.toNat_ofNat]
  by_cases h1 : s = SIGKILL
  · simp only [h1, if_true]
  · simp only [h1, if_false]
    by_cases h2 : s = SIGSTOP
    · simp only [h2, if_true]
    · simp only [h2, if_false]
      by_cases h3 : sm.action_set s = true ∧ (sm.actions s).handler ≠ 0
      · rw [if_pos h3]
        simp [h3.1, h3.2]
      · rw [if_neg h3]
        have : (sm.action_set s && (sm.actions s).handler != 0) = false := by
          by_cases ha : sm.action_set s = true
          · have hz : (sm.actions s).handler = 0 := by
              by_contra hz
              exact h3 ⟨ha, hz⟩
            simp [hz]
          · simp [ha]
        simp [this]

/-- With handling state none and nothing pending and unmasked,
`signal_handle` changes nothing. -/
theorem signal_handle_nothing (sm : signal_manager_t) (ctx : context_t)
    (hnone : sm.handling.type = handling_type_t.HANDLING_NONE)
    (h : sm.received.bits &&& not64 sm.mask.bits = 0) :
    signal_handle sm ctx = (⟨signal_result_type_t.SIGNAL_NO_SIGNAL, 0⟩, sm, ctx) := by
  unfold signal_handle signal_is_handling
  rw [hnone, sigset_find_first_none _ _ h]
  simp

/-- Inside a user handler `signal_handle` changes nothing. -/
theorem signal_handle_in_handler (sm : signal_manager_t) (ctx : context_t)
    (h : sm.handling.type = handling_type_t.HANDLING_USER_SIGNAL) :
    signal_handle sm ctx = (⟨signal_result_type_t.SIGNAL_IS_HANDLING, 0⟩, sm, ctx) := by
  unfold signal_handle signal_is_handling
  rw [h]
  simp

end Ucore

namespace Ucore

/-- C12. For every signal manager with handling state none in which
`SIGKILL` (9) is the signal that `sigset_find_first` selects, for every action
table and every context, `signal_handle` returns `SIGNAL_PROCESS_KILLED` with
exit code `-9`, leaves the context unchanged, removes `SIGKILL` from the
pending set and changes nothing else of the manager. -/
theorem C12_sigkill_kills (sm : signal_manager_t) (ctx : context_t)
    (hnone : sm.handling.type = handling_type_t.HANDLING_NONE)
    (hsel : sigset_find_first sm.received sm.mask = ((SIGKILL : Nat) : Int)) :
    (signal_handle sm ctx).1 = ⟨signal_result_type_t.SIGNAL_PROCESS_KILLED, -9⟩ ∧
    (signal_handle sm ctx).2.2 = ctx ∧
    sigset_contains (signal_handle sm ctx).2.1.received SIGKILL = false ∧
    (∀ i, i < 64 → i ≠ SIGKILL →
      sigset_contains (signal_handle sm ctx).2.1.received i = sigset_contains sm.received i) ∧
    (signal_handle sm ctx).2.1.mask = sm.mask ∧
    (signal_handle sm ctx).2.1.handling = sm.handling ∧
    (signal_handle sm ctx).2.1.actions = sm.actions ∧
    (signal_handle sm ctx).2.1.action_set = sm.action_set := by
  rw [signal_handle_select sm ctx SIGKILL hnone hsel, if_pos rfl]
  refine ⟨rfl, rfl, ?_, fun i hi hne => ?_, rfl, rfl, rfl, rfl⟩
  · rw [sigset_contains_remove _ _ _ (by decide) (by decide)]
    simp
  · rw [sigset_contains_remove _ _ _ (by decide) hi]
    simp [hne]

theorem kill_pending (b s : Nat) (hs : s < 64) (hb : b.testBit s = false) :
    sigset_find_first ⟨1 <<< s⟩ ⟨b⟩ = (s : Int) := by
  apply sigset_find_first_eq _ _ s hs
  · show ((1 <<< s) &&& not64 b).testBit s = true
    rw [pending_testBit _ _ _ hs, hb, Nat.one_shiftLeft, Nat.testBit_two_pow]
    simp
  · intro i hi
    show ((1 <<< s) &&& not64 b).testBit i = false
    rw [pending_testBit _ _ _ (by omega), Nat.one_shiftLeft, Nat.testBit_two_pow]
    have : ¬ s = i := by omega
    simp [this]

theorem kill_masked (b s : Nat) (hs : s < 64) (hb : b.testBit s = true) :
    (1 <<< s) &&& not64 b = 0 := by
  apply Nat.eq_of_testBit_eq
  intro i
  rw [Nat.zero_testBit, Nat.testBit_and, Nat.one_shiftLeft, Nat.testBit_two_pow]
  by_cases h : s = i
  · subst h
    rw [testBit_not64 _ _ hs, hb]
    simp
  · simp [h]

/-- C15, as the code has it. `signal_update_mask` installs every mask value
as it is, and `sigset_find_first` skips every signal whose mask bit is set,
`SIGKILL` and `SIGSTOP` included.  For a manager with handling state none
whose only pending signal is `SIGKILL` (respectively `SIGSTOP`): when the
installed mask has bit 9 (respectively 19) clear, the next `signal_handle`
returns `SIGNAL_PROCESS_KILLED` with exit code `-9` (respectively
`SIGNAL_PROCESS_SUSPENDED`); when the bit is set, it returns
`SIGNAL_NO_SIGNAL` and changes nothing, so the signal stays pending. -/
theorem C15_kill_stop_mask (sm : signal_manager_t) (new_mask : Nat) (ctx : context_t)
    (hnone : sm.handling.type = handling_type_t.HANDLING_NONE) :
    (sm.received.bits = 1 <<< SIGKILL →
      (new_mask.testBit SIGKILL = false →
        (signal_handle (signal_update_mask sm new_mask).2 ctx).1
          = ⟨signal_result_type_t.SIGNAL_PROCESS_KILLED, -9⟩) ∧
      (new_mask.testBit SIGKILL = true →
        signal_handle (signal_update_mask sm new_mask).2 ctx
          = (⟨signal_result_type_t.SIGNAL_NO_SIGNAL, 0⟩, (signal_update_mask sm new_mask).2,
              ctx))) ∧
    (sm.received.bits = 1 <<< SIGSTOP →
      (new_mask.testBit SIGSTOP = false →
        (signal_handle (signal_update_mask sm new_mask).2 ctx).1
          = ⟨signal_result_type_t.SIGNAL_PROCESS_SUSPENDED, 0⟩) ∧
      (new_mask.testBit SIGSTOP = true →
        signal_handle (signal_update_mask sm new_mask).2 ctx
          = (⟨signal_result_type_t.SIGNAL_NO_SIGNAL, 0⟩, (signal_update_mask sm new_mask).2,
              ctx))) := by
  have hn : (signal_update_mask sm new_mask).2.handling.type
      = handling_type_t.HANDLING_NONE := hnone
  have key : ∀ s : Nat, s < 64 → sm.received.bits = 1 <<< s →
      (new_mask.testBit s = false →
        sigset_find_first (signal_update_mask sm new_mask).2.received
          (signal_update_mask sm new_mask).2.mask = (s : Int)) ∧
      (new_mask.testBit s = true →
        signal_handle (signal_update_mask sm new_mask).2 ctx
          = (⟨signal_result_type_t.SIGNAL_NO_SIGNAL, 0⟩, (signal_update_mask sm new_mask).2,
              ctx)) := by
    intro s hs hb
    have hr : (signal_update_mask sm new_mask).2.received = ⟨1 <<< s⟩ := by
      show sm.received = _
      rw [← hb]
    have hm : (signal_update_mask sm new_mask).2.mask = ⟨new_mask⟩ := rfl
    constructor
    · intro h
      rw [hr, hm]
      exact kill_pending new_mask s hs h
    · intro h
      apply signal_handle_nothing _ _ hn
      rw [hr, hm]
      exact kill_masked new_mask s hs h
  constructor
  · intro hb
    refine ⟨fun h => ?_, (key SIGKILL (by decide) hb).2⟩
    rw [signal_handle_select _ ctx SIGKILL hn ((key SIGKILL (by decide) hb).1 h)]
    rfl
  · intro hb
    refine ⟨fun h => ?_, (key SIGSTOP (by decide) hb).2⟩
    rw [signal_handle_select _ ctx SIGSTOP hn ((key SIGSTOP (by decide) hb).1 h)]
    rfl

/-- C16. For every pending set and mask, `sigset_find_first` returns `-1`
when `pending & ~mask` is `0` and otherwise the index of its least significant
set bit; and with handling state none `signal_handle` then changes nothing
(nothing selected), respectively keeps the mask, clears exactly the selected
bit `s` of the pending set and acts on the signal `s`: it kills for
`SIGKILL`, freezes for `SIGSTOP`, and for every other signal number
(`s <= MAX_SIG`) enters the registered handler with `a0 = s`, or takes the
default action of `s` when no handler is registered. -/
theorem C16_find_first_and_delivery (sm : signal_manager_t) (ctx : context_t) :
    (sm.received.bits &&& not64 sm.mask.bits = 0 →
      sigset_find_first sm.received sm.mask = -1 ∧
      (sm.handling.type = handling_type_t.HANDLING_NONE →
        signal_handle sm ctx = (⟨signal_result_type_t.SIGNAL_NO_SIGNAL, 0⟩, sm, ctx))) ∧
    (sm.received.bits &&& not64 sm.mask.bits ≠ 0 →
      ∃ s : Nat, s < 64 ∧ sigset_find_first sm.received sm.mask = (s : Int) ∧
        (sm.received.bits &&& not64 sm.mask.bits).testBit s = true ∧
        (∀ i : Nat, i < s → (sm.received.bits &&& not64 sm.mask.bits).testBit i = false) ∧
        (sm.handling.type = handling_type_t.HANDLING_NONE →
          (signal_handle sm ctx).2.1.mask = sm.mask ∧
          (signal_handle sm ctx).2.1.received = sigset_remove sm.received s ∧
          (∀ i : Nat, i < 64 → sigset_contains (signal_handle sm ctx).2.1.received i
            = (sigset_contains sm.received i && decide (i ≠ s))) ∧
          (s = SIGKILL → (signal_handle sm ctx).1
            = ⟨signal_result_type_t.SIGNAL_PROCESS_KILLED, -9⟩) ∧
          (s = SIGSTOP →
            (signal_handle sm ctx).1 = ⟨signal_result_type_t.SIGNAL_PROCESS_SUSPENDED, 0⟩ ∧
            (signal_handle sm ctx).2.1.handling.type = handling_type_t.HANDLING_FROZEN) ∧
          (s ≤ MAX_SIG → s ≠ SIGKILL → s ≠ SIGSTOP → sm.action_set s = true →
            (sm.actions s).handler ≠ 0 →
            (signal_handle sm ctx).1 = ⟨signal_result_type_t.SIGNAL_HANDLED, 0⟩ ∧
            ctx_pc (signal_handle sm ctx).2.2 = (sm.actions s).handler ∧
            ctx_arg (signal_handle sm ctx).2.2 0 = s) ∧
          (s ≤ MAX_SIG → s ≠ SIGKILL → s ≠ SIGSTOP →
            (sm.action_set s = false ∨ (sm.actions s).handler = 0) →
            (signal_handle sm ctx).1 = default_action s ∧
            (signal_handle sm ctx).2.2 = ctx))) := by
  constructor
  · intro h
    exact ⟨sigset_find_first_none _ _ h, fun hnone => signal_handle_nothing sm ctx hnone h⟩
  · intro h
    obtain ⟨s, hs, hfirst, hbit, hlow⟩ := sigset_find_first_some sm.received sm.mask h
    refine ⟨s, hs, hfirst, hbit, hlow, fun hnone => ?_⟩
    rw [signal_handle_select sm ctx s hnone hfirst]
    by_cases h1 : s = SIGKILL
    · subst h1
      rw [if_pos rfl]
      refine ⟨rfl, rfl, fun i hi => sigset_contains_remove _ _ _ (by decide) hi,
        fun _ => rfl, fun h2 => ?_, fun _ h2 => ?_, fun _ h2 => ?_⟩
      · exact absurd h2 (by decide)
      · exact absurd rfl h2
      · exact absurd rfl h2
    · rw [if_neg h1]
      by_cases h2 : s = SIGSTOP
      · subst h2
        rw [if_pos rfl]
        refine ⟨rfl, rfl, fun i hi => sigset_contains_remove _ _ _ (by decide) hi,
          fun h3 => ?_, fun _ => ⟨rfl, rfl⟩, fun _ _ h3 => ?_, fun _ _ h3 => ?_⟩
        · exact absurd h3 (by decide)
        · exact absurd rfl h3
        · exact absurd rfl h3
      · rw [if_neg h2]
        by_cases h3 : sm.action_set s = true ∧ (sm.actions s).handler ≠ 0
        · rw [if_pos h3]
          refine ⟨rfl, rfl, fun i hi => sigset_contains_remove _ _ _ hs hi,
            fun h4 => absurd h4 h1, fun h4 => absurd h4 h2, fun _ _ _ _ _ => ⟨rfl, rfl, ?_⟩,
            fun _ _ _ h4 => ?_⟩
          · unfold ctx_arg ctx_reg ctx_set_arg ctx_set_reg ctx_set_pc
            simp
          · rcases h4 with h4 | h4
            · rw [h3.1] at h4
              cases h4
            · exact absurd h4 h3.2
        · rw [if_neg h3]
          exact ⟨rfl, rfl, fun i hi => sigset_contains_remove _ _ _ hs hi,
            fun h4 => absurd h4 h1, fun h4 => absurd h4 h2,
            fun _ _ _ h4 h5 => absurd ⟨h4, h5⟩ h3, fun _ _ _ _ => ⟨rfl, rfl⟩⟩

/-- C17. For every signal `s` in `0..31` other than `SIGKILL` and `SIGSTOP`
that `signal_handle` delivers (handling state none, `s` selected by
`sigset_find_first`) while no non-null handler is registered for `s`: the
result is `SIGNAL_IGNORED` if `s` is `SIGCHLD` (17) or `SIGURG` (23) and
`SIGNAL_PROCESS_KILLED` with exit code `-s` for every other `s`; the context
and the handling state are unchanged. -/
theorem C17_default_actions (sm : signal_manager_t) (ctx : context_t) (s : Nat)
    (hnone : sm.handling.type = handling_type_t.HANDLING_NONE)
    (_hs : s ≤ MAX_SIG) (hkill : s ≠ SIGKILL) (hstop : s ≠ SIGSTOP)
    (hsel : sigset_find_first sm.received sm.mask = (s : Int))
    (hno : sm.action_set s = false ∨ (sm.actions s).handler = 0) :
    ((s = SIGCHLD ∨ s = SIGURG) →
      (signal_handle sm ctx).1 = ⟨signal_result_type_t.SIGNAL_IGNORED, 0⟩) ∧
    (s ≠ SIGCHLD → s ≠ SIGURG →
      (signal_handle sm ctx).1 = ⟨signal_result_type_t.SIGNAL_PROCESS_KILLED, -(s : Int)⟩) ∧
    (signal_handle sm ctx).2.2 = ctx ∧
    (signal_handle sm ctx).2.1.handling = sm.handling := by
  have h3 : ¬ (sm.action_set s = true ∧ (sm.actions s).handler ≠ 0) := by
    rintro ⟨a, b⟩
    rcases hno with h | h
    · rw [a] at h
      cases h
    · exact b h
  rw [signal_handle_select sm ctx s hnone hsel, if_neg hkill, if_neg hstop, if_neg h3]
  refine ⟨fun h => ?_, fun h4 h5 => ?_, rfl, rfl⟩
  · unfold default_action
    rw [if_pos h]
  · unfold default_action
    rw [if_neg (by rintro (h | h); exact h4 h; exact h5 h)]

/-- C19. For every signal manager that is inside a user handler, and for
every pending set, mask and context, `signal_handle` returns
`SIGNAL_IS_HANDLING` and changes neither the manager (pending set, mask, saved
context, handling state, actions) nor the context. -/
theorem C19_no_reentry (sm : signal_manager_t) (ctx : context_t)
    (h : sm.handling.type = handling_type_t.HANDLING_USER_SIGNAL) :
    signal_handle sm ctx = (⟨signal_result_type_t.SIGNAL_IS_HANDLING, 0⟩, sm, ctx) :=
  signal_handle_in_handler sm ctx h

end Ucore

namespace Ucore

/-- From a state that is not frozen, `signal_handle` reaches the frozen state
only by delivering `SIGSTOP`. -/
theorem signal_handle_frozen_iff (sm : signal_manager_t) (ctx : context_t)
    (hnf : sm.handling.type ≠ handling_type_t.HANDLING_FROZEN) :
    ((signal_handle sm ctx).2.1.handling.type = handling_type_t.HANDLING_FROZEN ↔
      (sm.handling.type = handling_type_t.HANDLING_NONE ∧
        sigset_find_first sm.received sm.mask = ((SIGSTOP : Nat) : Int))) ∧
    ((signal_handle sm ctx).1.type = signal_result_type_t.SIGNAL_PROCESS_SUSPENDED ↔
      (signal_handle sm ctx).2.1.handling.type = handling_type_t.HANDLING_FROZEN) := by
  by_cases hnone : sm.handling.type = handling_type_t.HANDLING_NONE
  · by_cases hp : sm.received.bits &&& not64 sm.mask.bits = 0
    · rw [signal_handle_nothing sm ctx hnone hp, sigset_find_first_none _ _ hp]
      simp only [hnone]
      constructor
      · constructor
        · intro h
          cases h
        · rintro ⟨_, h⟩
          have : ((SIGSTOP : Nat) : Int) = 19 := rfl
          omega
      · constructor
        · intro h
          cases h
        · intro h
          cases h
    · obtain ⟨s, _, hfirst, _, _⟩ := sigset_find_first_some sm.received sm.mask hp
      rw [signal_handle_select sm ctx s hnone hfirst, hfirst]
      by_cases h1 : s = SIGKILL
      · subst h1
        rw [if_pos rfl]
        simp only [hnone]
        constructor
        · constructor
          · intro h
            cases h
          · rintro ⟨_, h⟩
            have h' : (SIGKILL : Nat) = SIGSTOP := by exact_mod_cast h
            exact absurd h' (by decide)
        · constructor
          · intro h
            cases h
          · intro h
            cases h
      · rw [if_neg h1]
        by_cases h2 : s = SIGSTOP
        · subst h2
          rw [if_pos rfl]
          exact ⟨⟨fun _ => ⟨hnone, rfl⟩, fun _ => rfl⟩, ⟨fun _ => rfl, fun _ => rfl⟩⟩
        · rw [if_neg h2]
          have hne : ¬ ((s : Int) = ((SIGSTOP : Nat) : Int)) := by
            intro h
            exact h2 (by exact_mod_cast h)
          by_cases h3 : sm.action_set s = true ∧ (sm.actions s).handler ≠ 0
          · rw [if_pos h3]
            constructor
            · constructor
              · intro h
                cases h
              · rintro ⟨_, h⟩
                exact absurd h hne
            · constructor
              · intro h
                cases h
              · intro h
                cases h
          · rw [if_neg h3]
            simp only [hnone]
            constructor
            · constructor
              · intro h
                cases h
              · rintro ⟨_, h⟩
                exact absurd h hne
            · constructor
              · intro h
                unfold default_action at h
                split_ifs at h
              · intro h
                cases h
  · have hu : sm.handling.type = handling_type_t.HANDLING_USER_SIGNAL := by
      cases ht : sm.handling.type
      · exact absurd ht hnone
      · exact absurd ht hnf
      · rfl
    rw [signal_handle_in_handler sm ctx hu]
    simp only [hu]
    constructor
    · constructor
      · intro h
        cases h
      · rintro ⟨h, _⟩
        cases h
    · constructor
      · intro h
        cases h
      · intro h
        cases h

end Ucore

namespace Ucore

/-- C18. A signal manager enters the frozen state exactly when
`signal_handle` delivers `SIGSTOP`: from a state that is not frozen,
`signal_handle` leaves the manager frozen if and only if the handling state
was none and `SIGSTOP` was the signal selected, and this is exactly when its
result is `SIGNAL_PROCESS_SUSPENDED`; `signal_init`, `signal_add`,
`signal_set_action`, `signal_update_mask`, `signal_clear`, `signal_fork` and
`signal_return` never produce the frozen state from another one.  In the
frozen state `signal_handle` returns `SIGNAL_PROCESS_SUSPENDED` and changes
neither the manager nor the context, unless `SIGCONT` is pending and not
masked: then it returns `SIGNAL_HANDLED`, removes `SIGCONT` from the pending
set, sets the handling state to none and changes nothing else. -/
theorem C18_frozen_state (sm : signal_manager_t) (ctx : context_t) :
    (sm.handling.type ≠ handling_type_t.HANDLING_FROZEN →
      ((signal_handle sm ctx).2.1.handling.type = handling_type_t.HANDLING_FROZEN ↔
        (sm.handling.type = handling_type_t.HANDLING_NONE ∧
          sigset_find_first sm.received sm.mask = ((SIGSTOP : Nat) : Int))) ∧
      ((signal_handle sm ctx).1.type = signal_result_type_t.SIGNAL_PROCESS_SUSPENDED ↔
        (signal_handle sm ctx).2.1.handling.type = handling_type_t.HANDLING_FROZEN) ∧
      (signal_return sm ctx).2.1.handling.type ≠ handling_type_t.HANDLING_FROZEN) ∧
    (signal_init.handling.type = handling_type_t.HANDLING_NONE ∧
      (∀ n, (signal_add sm n).handling = sm.handling) ∧
      (∀ n a, (signal_set_action sm n a).2.handling = sm.handling) ∧
      (∀ m, (signal_update_mask sm m).2.handling = sm.handling) ∧
      (signal_clear sm).handling = sm.handling ∧
      (∀ dst, (signal_fork dst sm).handling.type = handling_type_t.HANDLING_NONE)) ∧
    (sm.handling.type = handling_type_t.HANDLING_FROZEN →
      ((sigset_contains sm.received SIGCONT = true ∧ sigset_contains sm.mask SIGCONT = false) →
        signal_handle sm ctx =
          (⟨signal_result_type_t.SIGNAL_HANDLED, 0⟩,
            ⟨sigset_remove sm.received SIGCONT, sm.mask,
              ⟨handling_type_t.HANDLING_NONE, sm.handling.saved_ctx⟩, sm.actions,
              sm.action_set⟩, ctx) ∧
        sigset_contains (sigset_remove sm.received SIGCONT) SIGCONT = false) ∧
      (¬ (sigset_contains sm.received SIGCONT = true ∧
          sigset_contains sm.mask SIGCONT = false) →
        signal_handle sm ctx
          = (⟨signal_result_type_t.SIGNAL_PROCESS_SUSPENDED, 0⟩, sm, ctx))) := by
  refine ⟨fun hnf => ⟨(signal_handle_frozen_iff sm ctx hnf).1,
    (signal_handle_frozen_iff sm ctx hnf).2, ?_⟩, ⟨rfl, fun _ => rfl, fun n a => ?_,
    fun _ => rfl, rfl, fun _ => rfl⟩, fun hf => ⟨fun hc => ⟨?_, ?_⟩, fun hc => ?_⟩⟩
  · unfold signal_return
    by_cases hu : sm.handling.type = handling_type_t.HANDLING_USER_SIGNAL
    · rw [if_pos hu]
      intro h
      cases h
    · rw [if_neg hu]
      exact hnf
  · unfold signal_set_action
    split_ifs <;> rfl
  · unfold signal_handle signal_is_handling
    rw [hf, hc.1, hc.2]
    simp
  · rw [sigset_contains_remove _ _ _ (by decide) (by decide)]
    simp
  · unfold signal_handle signal_is_handling
    rw [hf]
    have : (sigset_contains sm.received SIGCONT && !sigset_contains sm.mask SIGCONT) = false := by
      cases h1 : sigset_contains sm.received SIGCONT
      · rfl
      · cases h2 : sigset_contains sm.mask SIGCONT
        · exact absurd ⟨h1, h2⟩ hc
        · rfl
    rw [this]
    simp

/-- The action table after a list of `signal_set_action` calls. -/
theorem set_actions_other (calls : List (Nat × signal_action_t)) (s : Nat)
    (h : ∀ c ∈ calls, c.1 ≠ s) (sm : signal_manager_t) :
    (calls.foldl (fun m c => (signal_set_action m c.1 c.2).2) sm).action_set s
      = sm.action_set s := by
  induction calls generalizing sm with
  | nil => rfl
  | cons c cs ih =>
    rw [List.foldl_cons, ih (fun c' hc' => h c' (List.mem_cons_of_mem _ hc'))]
    have hc : c.1 ≠ s := h c (List.mem_cons_self _ _)
    unfold signal_set_action
    split_ifs
    · rfl
    · rfl
    · exact Function.update_noteq (fun e => hc e.symm) _ _

/-- C20. `signal_set_action` returns `false` and leaves the whole signal
manager unchanged when `signum` is `SIGKILL`, `SIGSTOP` or greater than 31,
and `signal_get_action` returns `false` for the same signums (leaving
`*action` as it was).  For every other signum `signal_set_action` returns
`true`, changes only the entry of `signum`, and a following
`signal_get_action` for that signum returns `true` with exactly the action
stored; `signal_get_action` for a signum not set since `signal_init` or
`signal_clear` (whatever other signums have been set in between) returns
`true` with handler 0 and mask 0. -/
theorem C20_set_get_action (sm : signal_manager_t) (signum : Nat)
    (action out : signal_action_t) :
    ((signum = SIGKILL ∨ signum = SIGSTOP ∨ signum > MAX_SIG) →
      signal_set_action sm signum action = (false, sm) ∧
      signal_get_action sm signum out = (false, out)) ∧
    (¬ (signum = SIGKILL ∨ signum = SIGSTOP ∨ signum > MAX_SIG) →
      (signal_set_action sm signum action).1 = true ∧
      signal_get_action (signal_set_action sm signum action).2 signum out = (true, action) ∧
      (∀ n, n ≠ signum →
        signal_get_action (signal_set_action sm signum action).2 n out
          = signal_get_action sm n out) ∧
      (signal_set_action sm signum action).2.received = sm.received ∧
      (signal_set_action sm signum action).2.mask = sm.mask ∧
      (signal_set_action sm signum action).2.handling = sm.handling ∧
      (∀ calls : List (Nat × signal_action_t), (∀ c ∈ calls, c.1 ≠ signum) →
        signal_get_action
            (calls.foldl (fun m c => (signal_set_action m c.1 c.2).2) signal_init) signum out
          = (true, ⟨0, 0⟩) ∧
        signal_get_action
            (calls.foldl (fun m c => (signal_set_action m c.1 c.2).2) (signal_clear sm))
            signum out
          = (true, ⟨0, 0⟩))) := by
  constructor
  · intro h
    have h1 : signum = SIGKILL ∨ signum = SIGSTOP ∨ ¬ (signum = SIGKILL ∨ signum = SIGSTOP) ∧
        signum > MAX_SIG := by
      rcases h with h | h | h
      · exact Or.inl h
      · exact Or.inr (Or.inl h)
      · by_cases h' : signum = SIGKILL ∨ signum = SIGSTOP
        · rcases h' with h' | h'
          · exact Or.inl h'
          · exact Or.inr (Or.inl h')
        · exact Or.inr (Or.inr ⟨h', h⟩)
    unfold signal_set_action signal_get_action
    rcases h1 with h1 | h1 | ⟨h1, h2⟩
    · rw [if_pos (Or.inl h1), if_pos (Or.inl h1)]
      exact ⟨rfl, rfl⟩
    · rw [if_pos (Or.inr h1), if_pos (Or.inr h1)]
      exact ⟨rfl, rfl⟩
    · rw [if_neg h1, if_neg h1, if_pos h2, if_pos h2]
      exact ⟨rfl, rfl⟩
  · intro h
    have h1 : ¬ (signum = SIGKILL ∨ signum = SIGSTOP) := fun h' =>
      h (h'.elim Or.inl (fun x => Or.inr (Or.inl x)))
    have h2 : ¬ signum > MAX_SIG := fun h' => h (Or.inr (Or.inr h'))
    have hset : signal_set_action sm signum action
        = (true, { sm with actions := Function.update sm.actions signum action,
                           action_set := Function.update sm.action_set signum true }) := by
      unfold signal_set_action
      rw [if_neg h1, if_neg h2]
    rw [hset]
    refine ⟨rfl, ?_, fun n hn => ?_, rfl, rfl, rfl, fun calls hc => ⟨?_, ?_⟩⟩
    · unfold signal_get_action
      rw [if_neg h1, if_neg h2]
      simp
    · unfold signal_get_action
      simp only [Function.update_noteq hn]
    · unfold signal_get_action
      rw [if_neg h1, if_neg h2, set_actions_other calls signum hc]
      rfl
    · unfold signal_get_action
      rw [if_neg h1, if_neg h2, set_actions_other calls signum hc]
      rfl

/-- C12, at a manager that holds a handler in slot 9 and has only `SIGKILL`
pending. -/
theorem C12_sigkill_kills_witness :
    ((demo_handlers (1 <<< SIGKILL)).actions SIGKILL).handler = 0x1000 ∧
    (signal_handle (demo_handlers (1 <<< SIGKILL)) demo_ctx).1
      = ⟨signal_result_type_t.SIGNAL_PROCESS_KILLED, -9⟩ ∧
    (signal_handle (demo_handlers (1 <<< SIGKILL)) demo_ctx).2.2 = demo_ctx :=
  have h := C12_sigkill_kills (demo_handlers (1 <<< SIGKILL)) demo_ctx rfl (by decide)
  ⟨rfl, h.1, h.2.1⟩

/-- C15, literal claim refuted: with bit 9 set in the installed mask, a
pending `SIGKILL` is not delivered; `signal_handle` returns
`SIGNAL_NO_SIGNAL` and `SIGKILL` stays pending. -/
theorem C15_counterexample :
    (signal_handle (signal_update_mask (signal_add signal_init SIGKILL) (1 <<< SIGKILL)).2
        demo_ctx).1.type = signal_result_type_t.SIGNAL_NO_SIGNAL ∧
    sigset_contains
      (signal_handle (signal_update_mask (signal_add signal_init SIGKILL) (1 <<< SIGKILL)).2
        demo_ctx).2.1.received SIGKILL = true := by
  decide

/-- C15, as the code has it, at the mask `1 << 19` with only `SIGKILL`
pending, and at the mask `1 << 9` with only `SIGSTOP` pending. -/
theorem C15_kill_stop_mask_witness :
    (signal_handle (signal_update_mask (signal_add signal_init SIGKILL) (1 <<< SIGSTOP)).2
        demo_ctx).1 = ⟨signal_result_type_t.SIGNAL_PROCESS_KILLED, -9⟩ ∧
    (signal_handle (signal_update_mask (signal_add signal_init SIGSTOP) (1 <<< SIGKILL)).2
        demo_ctx).1 = ⟨signal_result_type_t.SIGNAL_PROCESS_SUSPENDED, 0⟩ :=
  ⟨((C15_kill_stop_mask (signal_add signal_init SIGKILL) (1 <<< SIGSTOP) demo_ctx rfl).1
      (by decide)).1 (by decide),
    ((C15_kill_stop_mask (signal_add signal_init SIGSTOP) (1 <<< SIGKILL) demo_ctx rfl).2
      (by decide)).1 (by decide)⟩

/-- C17, at `SIGCHLD` (ignored) and at `SIGUSR1` (the process is killed with
exit code `-10`), with no action set. -/
theorem C17_default_actions_witness :
    (signal_handle (demo_state handling_type_t.HANDLING_NONE (1 <<< SIGCHLD) 0) demo_ctx).1
      = ⟨signal_result_type_t.SIGNAL_IGNORED, 0⟩ ∧
    (signal_handle (demo_state handling_type_t.HANDLING_NONE (1 <<< SIGUSR1) 0) demo_ctx).1
      = ⟨signal_result_type_t.SIGNAL_PROCESS_KILLED, -10⟩ :=
  ⟨(C17_default_actions (demo_state handling_type_t.HANDLING_NONE (1 <<< SIGCHLD) 0) demo_ctx
      SIGCHLD rfl (by decide) (by decide) (by decide) (by decide) (Or.inl rfl)).1 (Or.inl rfl),
    (C17_default_actions (demo_state handling_type_t.HANDLING_NONE (1 <<< SIGUSR1) 0) demo_ctx
      SIGUSR1 rfl (by decide) (by decide) (by decide) (by decide) (Or.inl rfl)).2.1
      (by decide) (by decide)⟩

/-- C19, at a manager inside a user handler with `SIGUSR1` and `SIGKILL`
pending and nothing masked. -/
theorem C19_no_reentry_witness :
    (signal_handle
        (demo_state handling_type_t.HANDLING_USER_SIGNAL ((1 <<< SIGUSR1) ||| (1 <<< SIGKILL)) 0)
        demo_ctx).1 = ⟨signal_result_type_t.SIGNAL_IS_HANDLING, 0⟩ :=
  congrArg Prod.fst (C19_no_reentry
    (demo_state handling_type_t.HANDLING_USER_SIGNAL ((1 <<< SIGUSR1) ||| (1 <<< SIGKILL)) 0)
    demo_ctx rfl)

end Ucore

namespace Ucore

namespace Ch8

theorem ctx_arg_move_next (c : context_t) (i : Nat) :
    ctx_arg (ctx_move_next c) i = ctx_arg c i := rfl

theorem set_ctx_ctx (k : Kernel) (tid : Nat) (c : context_t) :
    ((set_ctx k tid c).thread_pool tid).ctx.ctx = c := by
  unfold set_ctx
  simp

/-- An iteration of the scheduling loop on a thread that trapped with an
environment call runs `handle_ecall` on it. -/
theorem sched_iter_ecall (rest : syscall_table Kernel) (on_exit : Kernel → Nat → Nat → Kernel)
    (k : Kernel) (uctx : context_t) (scause : Nat)
    (hcount : k.ready_count ≠ 0)
    (hlt : k.ready_queue k.ready_head < MAX_PROCS * MAX_THREADS)
    (hlive : (k.thread_pool (k.ready_queue k.ready_head)).exited = false)
    (hexc : is_exception scause = true) (hcode : cause_code scause = EXCEP_U_ECALL) :
    sched_iter rest on_exit k uctx scause
      = handle_ecall rest on_exit
          (set_ctx { (ready_dequeue k).2 with current_tid := (ready_dequeue k).1 }
            (ready_dequeue k).1 uctx) (ready_dequeue k).1 := by
  have hd : ready_dequeue k = (k.ready_queue k.ready_head,
      { k with ready_head := (k.ready_head + 1) % READY_QUEUE_SIZE,
               ready_count := k.ready_count - 1 }) := by
    unfold ready_dequeue
    rw [if_neg hcount]
  unfold sched_iter
  rw [hd]
  have h1 : ¬ (k.ready_queue k.ready_head = TID_INVALID) := by
    intro h
    rw [h] at hlt
    exact absurd hlt (by decide)
  have h2 : get_thread (k.ready_queue k.ready_head) = true := by
    unfold get_thread
    exact decide_eq_true hlt
  simp only [h1, if_false, h2, hlive, Bool.not_true, Bool.or_false, Bool.false_eq_true,
    hexc, hcode, beq_self_eq_true, Bool.and_self, if_true]

/-- The body of the environment-call branch, in terms of the result of
`syscall_dispatch`. -/
theorem handle_ecall_dispatched (rest : syscall_table Kernel)
    (on_exit : Kernel → Nat → Nat → Kernel) (k : Kernel) (uctx : context_t) :
    handle_ecall rest on_exit
        (set_ctx { (ready_dequeue k).2 with current_tid := (ready_dequeue k).1 }
          (ready_dequeue k).1 uctx) (ready_dequeue k).1
      = (let r := dispatched rest k uctx
         let tid := (ready_dequeue k).1
         let id := ctx_arg uctx 7
         let pid := (r.2.thread_pool tid).pid
         if !get_process pid then none
         else
           let s := signal_handle (r.2.process_pool pid).signal (r.2.thread_pool tid).ctx.ctx
           let k3 := set_ctx (set_signal r.2 pid s.2.1) tid s.2.2
           if s.1.type = signal_result_type_t.SIGNAL_PROCESS_KILLED then
             let p := k3.process_pool pid
             let p1 : process_t := { p with exited := true, exit_code := s.1.exit_code }
             let k4 : Kernel := { k3 with process_pool := Function.update k3.process_pool pid p1 }
             some (set_thread_exited k4 tid)
           else if id = SYS_EXIT then
             some { on_exit k3 tid (ctx_arg uctx 0) with current_tid := TID_INVALID }
           else if id = SYS_WAITPID then
             if r.1.value = -2 then some { k3 with current_tid := TID_INVALID }
             else some (after_trap rest k uctx true)
           else if r.1.status = syscall_ret_t.SYSCALL_OK then
             some (after_trap rest k uctx (!need_block id r.1))
           else some { set_thread_exited k3 tid with current_tid := TID_INVALID }) := by
  have hc : ((set_ctx { (ready_dequeue k).2 with current_tid := (ready_dequeue k).1 }
      (ready_dequeue k).1 uctx).thread_pool (ready_dequeue k).1).ctx.ctx = uctx :=
    set_ctx_ctx _ _ _
  have hd : dispatched rest k uctx
      = syscall_dispatch (ch8_table rest) (ctx_arg uctx 7) (fun i => ctx_arg uctx i)
          (set_ctx (set_ctx { (ready_dequeue k).2 with current_tid := (ready_dequeue k).1 }
            (ready_dequeue k).1 uctx) (ready_dequeue k).1 (ctx_move_next uctx)) := by
    unfold dispatched at_dispatch
    simp only [hc]
  unfold handle_ecall after_trap need_block
  simp only [hc, ctx_arg_move_next, ← hd]
  generalize dispatched rest k uctx = r
  generalize (ready_dequeue k).1 = tid
  by_cases h1 : get_process (r.2.thread_pool tid).pid = true
  · simp only [h1, Bool.not_true, Bool.false_eq_true, if_false]
    by_cases h2 : (signal_handle (r.2.process_pool (r.2.thread_pool tid).pid).signal
        (r.2.thread_pool tid).ctx.ctx).1.type = signal_result_type_t.SIGNAL_PROCESS_KILLED
    · simp only [h2, if_true]
    · simp only [h2, if_false]
      by_cases h3 : ctx_arg uctx 7 = SYS_EXIT
      · simp only [h3, if_true]
      · simp only [h3, if_false]
        by_cases h4 : ctx_arg uctx 7 = SYS_WAITPID
        · simp only [h4, if_true]
          by_cases h5 : r.1.value = -2
          · simp only [h5, if_true]
          · simp only [h5, if_false, if_true]
        · simp only [h4, if_false]
          by_cases h5 : r.1.status = syscall_ret_t.SYSCALL_OK
          · simp only [h5, if_true]
          · simp only [h5, if_false]
  · simp only [h1, Bool.not_false, if_true]

end Ch8

end Ucore

namespace Ucore

namespace Ch8

theorem ready_dequeue_fst (k : Kernel) (h : k.ready_count ≠ 0) :
    (ready_dequeue k).1 = k.ready_queue k.ready_head := by
  unfold ready_dequeue
  rw [if_neg h]

theorem thread_pool_ready_enqueue (k : Kernel) (t : Nat) :
    (ready_enqueue k t).thread_pool = k.thread_pool := by
  unfold ready_enqueue
  split_ifs <;> rfl

theorem process_pool_ready_enqueue (k : Kernel) (t : Nat) :
    (ready_enqueue k t).process_pool = k.process_pool := by
  unfold ready_enqueue
  split_ifs <;> rfl

/-- The other fields of the thread at the end of an iteration that resumes
it. -/
theorem after_trap_thread (rest : syscall_table Kernel) (k : Kernel) (uctx : context_t)
    (enq : Bool) :
    ((after_trap rest k uctx enq).thread_pool (ready_dequeue k).1).exited
        = ((dispatched rest k uctx).2.thread_pool (ready_dequeue k).1).exited ∧
    ((after_trap rest k uctx enq).thread_pool (ready_dequeue k).1).tid
        = ((dispatched rest k uctx).2.thread_pool (ready_dequeue k).1).tid ∧
    ((after_trap rest k uctx enq).thread_pool (ready_dequeue k).1).pid
        = ((dispatched rest k uctx).2.thread_pool (ready_dequeue k).1).pid := by
  unfold after_trap
  cases enq
  · simp [set_ctx, set_signal]
  · simp [thread_pool_ready_enqueue, set_ctx, set_signal]

end Ch8

end Ucore

namespace Ucore

namespace Ch8

theorem do_kill_thread_pool (args : Nat → Nat) (k : Kernel) :
    (do_kill args k).2.thread_pool = k.thread_pool := by
  unfold do_kill
  simp only
  split_ifs <;> rfl

theorem do_getpid_thread_pool (args : Nat → Nat) (k : Kernel) :
    (do_getpid args k).2.thread_pool = k.thread_pool := by
  unfold do_getpid
  split_ifs <;> rfl

theorem do_gettid_thread_pool (args : Nat → Nat) (k : Kernel) :
    (do_gettid args k).2.thread_pool = k.thread_pool := by
  unfold do_gettid
  split_ifs <;> rfl

theorem do_sigprocmask_thread_pool (args : Nat → Nat) (k : Kernel) :
    (do_sigprocmask args k).2.thread_pool = k.thread_pool := by
  unfold do_sigprocmask
  split_ifs <;> rfl

theorem do_mutex_lock_thread_pool (args : Nat → Nat) (k : Kernel) :
    (do_mutex_lock args k).2.thread_pool = k.thread_pool := by
  unfold do_mutex_lock
  simp only
  split_ifs
  · rfl
  · split <;> rfl

theorem do_mutex_unlock_thread_pool (args : Nat → Nat) (k : Kernel) :
    (do_mutex_unlock args k).2.thread_pool = k.thread_pool := by
  unfold do_mutex_unlock
  simp only
  split_ifs
  · rfl
  · split
    · rfl
    · simp only
      split_ifs
      · rw [thread_pool_ready_enqueue]
        rfl
      · rfl

/-- The handlers of `ch8_table` other than `do_sigreturn` leave every thread
as it is, and `syscall_dispatch` reports `SYSCALL_OK` for them. -/
theorem dispatch_thread_pool (rest : syscall_table Kernel) (id : Nat) (args : Nat → Nat)
    (k : Kernel)
    (hid : id = 124 ∨ id = SYS_GETPID ∨ id = SYS_KILL ∨ id = 135 ∨ id = SYS_GETTID ∨
      id = SYS_MUTEX_LOCK ∨ id = SYS_MUTEX_UNLOCK) :
    (syscall_dispatch (ch8_table rest) id args k).2.thread_pool = k.thread_pool ∧
    (syscall_dispatch (ch8_table rest) id args k).1.status = syscall_ret_t.SYSCALL_OK := by
  rcases hid with h | h | h | h | h | h | h <;> subst h
  · simp [syscall_dispatch, ch8_table, call_handler, SYS_EXIT, do_sched_yield]
  · simp [syscall_dispatch, ch8_table, call_handler, SYS_EXIT, SYS_GETPID, do_getpid_thread_pool]
  · simp [syscall_dispatch, ch8_table, call_handler, SYS_EXIT, SYS_KILL, SYS_WAITPID,
      do_kill_thread_pool]
  · simp [syscall_dispatch, ch8_table, call_handler, SYS_EXIT, SYS_KILL, SYS_WAITPID,
      do_sigprocmask_thread_pool]
  · simp [syscall_dispatch, ch8_table, call_handler, SYS_EXIT, SYS_KILL, SYS_WAITPID,
      SYS_GETTID, do_gettid_thread_pool]
  · simp [syscall_dispatch, ch8_table, call_handler, SYS_EXIT, SYS_KILL, SYS_WAITPID,
      SYS_MUTEX_LOCK, do_mutex_lock_thread_pool]
  · simp [syscall_dispatch, ch8_table, call_handler, SYS_EXIT, SYS_KILL, SYS_WAITPID,
      SYS_MUTEX_LOCK, SYS_MUTEX_UNLOCK, do_mutex_unlock_thread_pool]

end Ch8

end Ucore

namespace Ucore

namespace Ch8

theorem at_dispatch_thread (k : Kernel) (uctx : context_t) :
    ((at_dispatch k uctx).thread_pool (ready_dequeue k).1).ctx.ctx = ctx_move_next uctx := by
  unfold at_dispatch
  simp only [set_ctx_ctx]

/-- The outcome of an iteration of the scheduling loop in which the thread
is resumed. -/
theorem sched_iter_resume (rest : syscall_table Kernel)
    (on_exit : Kernel → Nat → Nat → Kernel) (k : Kernel) (uctx : context_t) (scause : Nat)
    (hcount : k.ready_count ≠ 0)
    (hlt : k.ready_queue k.ready_head < MAX_PROCS * MAX_THREADS)
    (hlive : (k.thread_pool (k.ready_queue k.ready_head)).exited = false)
    (hexc : is_exception scause = true) (hcode : cause_code scause = EXCEP_U_ECALL)
    (hpid : get_process
      ((dispatched rest k uctx).2.thread_pool (ready_dequeue k).1).pid = true)
    (hkilled : (signal_handle
      ((dispatched rest k uctx).2.process_pool
        ((dispatched rest k uctx).2.thread_pool (ready_dequeue k).1).pid).signal
      ((dispatched rest k uctx).2.thread_pool (ready_dequeue k).1).ctx.ctx).1.type
        ≠ signal_result_type_t.SIGNAL_PROCESS_KILLED)
    (hexit : ctx_arg uctx 7 ≠ SYS_EXIT)
    (hwait : ctx_arg uctx 7 = SYS_WAITPID → (dispatched rest k uctx).1.value ≠ -2)
    (hok : ctx_arg uctx 7 ≠ SYS_WAITPID →
      (dispatched rest k uctx).1.status = syscall_ret_t.SYSCALL_OK) :
    sched_iter rest on_exit k uctx scause
      = some (after_trap rest k uctx
          (decide (ctx_arg uctx 7 = SYS_WAITPID)
            || !need_block (ctx_arg uctx 7) (dispatched rest k uctx).1)) := by
  rw [sched_iter_ecall rest on_exit k uctx scause hcount hlt hlive hexc hcode,
    handle_ecall_dispatched]
  simp only [hpid, Bool.not_true, Bool.false_eq_true, if_false, hkilled, hexit]
  by_cases h4 : ctx_arg uctx 7 = SYS_WAITPID
  · simp only [h4, if_true, hwait h4, if_false, decide_True, Bool.true_or]
  · simp only [h4, if_false, hok h4, if_true, decide_False, Bool.false_or]

end Ch8

end Ucore

namespace Ucore

namespace Ch8

set_option maxRecDepth 100000 in
/-- C11, evaluated.  Process 0 has the handler `0x1000` registered for
`SIGUSR1`, and `SIGUSR1` is pending.  Its thread 1 traps at `0x400100` with
the call `gettid` (`a1 = 8`), at which the signal is delivered, and then traps
in the handler with the call `sigreturn`.  It is resumed at `0x400104` with
`a1` and `a7` as at the first trap, but with `a0 = 0`, the return value of
`sigreturn`; with no signal pending the same `gettid` resumes it with
`a0 = 1`, the return value of `gettid`. -/
theorem C11_sigreturn_a0 :
    two_traps (demo_pending_kernel (1 <<< SIGUSR1)) 1 (demo_trap 0x400100 SYS_GETTID 7 8)
        (demo_trap 0x1020 SYS_SIGRETURN 0 0)
      = some (0x400104, 0, 8, SYS_GETTID) ∧
    (sched_iter empty_table (fun k _ _ => k) (demo_pending_kernel 0)
        (demo_trap 0x400100 SYS_GETTID 7 8) EXCEP_U_ECALL).map
      (fun k => (ctx_pc (k.thread_pool 1).ctx.ctx, ctx_arg (k.thread_pool 1).ctx.ctx 0,
        ctx_arg (k.thread_pool 1).ctx.ctx 1, ctx_arg (k.thread_pool 1).ctx.ctx 7))
      = some (0x400104, 1, 8, SYS_GETTID) := by
  decide

end Ch8

end Ucore

namespace Ucore

namespace Ch8

/-- The state of the ready queue as a ring: `tail` is `count` places after
`head`. -/
theorem ready_list_enqueue (k : Kernel) (t : Nat)
    (hcount : k.ready_count < READY_QUEUE_SIZE)
    (htail : k.ready_tail = (k.ready_head + k.ready_count) % READY_QUEUE_SIZE) :
    ready_list (ready_enqueue k t) = ready_list k ++ [t] ∧
    (ready_enqueue k t).ready_head = k.ready_head ∧
    (ready_enqueue k t).ready_count = k.ready_count + 1 ∧
    (ready_enqueue k t).ready_tail
      = ((ready_enqueue k t).ready_head + (ready_enqueue k t).ready_count)
          % READY_QUEUE_SIZE := by
  unfold ready_enqueue
  rw [if_pos hcount]
  unfold READY_QUEUE_SIZE at *
  refine ⟨?_, rfl, rfl, ?_⟩
  · unfold ready_list READY_QUEUE_SIZE
    simp only
    rw [List.range_succ, List.map_append, List.map_singleton]
    congr 1
    · apply List.map_congr_left
      intro i hi
      rw [List.mem_range] at hi
      apply Function.update_noteq
      rw [htail]
      omega
    · rw [htail, Function.update_same]
  · simp only
    rw [htail]
    omega

theorem ready_list_dequeue (k : Kernel) (hcount : k.ready_count ≠ 0)
    (hhead : k.ready_head < READY_QUEUE_SIZE)
    (htail : k.ready_tail = (k.ready_head + k.ready_count) % READY_QUEUE_SIZE) :
    ready_list k = (ready_dequeue k).1 :: ready_list (ready_dequeue k).2 ∧
    (ready_dequeue k).2.ready_head < READY_QUEUE_SIZE ∧
    (ready_dequeue k).2.ready_count = k.ready_count - 1 ∧
    (ready_dequeue k).2.ready_tail
      = ((ready_dequeue k).2.ready_head + (ready_dequeue k).2.ready_count)
          % READY_QUEUE_SIZE := by
  unfold ready_dequeue
  rw [if_neg hcount]
  unfold READY_QUEUE_SIZE at *
  refine ⟨?_, ?_, rfl, ?_⟩
  · unfold ready_list READY_QUEUE_SIZE
    simp only
    obtain ⟨n, hn⟩ : ∃ n, k.ready_count = n + 1 := ⟨k.ready_count - 1, by omega⟩
    rw [hn, List.range_succ_eq_map, List.map_cons, List.map_map, Nat.add_sub_cancel]
    congr 1
    · rw [Nat.add_zero, Nat.mod_eq_of_lt hhead]
    · apply List.map_congr_left
      intro i _
      simp only [Function.comp]
      congr 1
      omega
  · simp only
    omega
  · simp only
    rw [htail]
    omega

end Ch8

end Ucore

namespace Ucore

namespace Ch8

theorem at_dispatch_fields (k : Kernel) (uctx : context_t) :
    (at_dispatch k uctx).process_pool = k.process_pool ∧
    (at_dispatch k uctx).current_tid = (ready_dequeue k).1 ∧
    (at_dispatch k uctx).ready_queue = (ready_dequeue k).2.ready_queue ∧
    (at_dispatch k uctx).ready_head = (ready_dequeue k).2.ready_head ∧
    (at_dispatch k uctx).ready_tail = (ready_dequeue k).2.ready_tail ∧
    (at_dispatch k uctx).ready_count = (ready_dequeue k).2.ready_count ∧
    (∀ t, ((at_dispatch k uctx).thread_pool t).tid = (k.thread_pool t).tid ∧
      ((at_dispatch k uctx).thread_pool t).pid = (k.thread_pool t).pid ∧
      ((at_dispatch k uctx).thread_pool t).exited = (k.thread_pool t).exited) ∧
    (∀ t, t ≠ (ready_dequeue k).1 → (at_dispatch k uctx).thread_pool t = k.thread_pool t) := by
  have hp : (ready_dequeue k).2.process_pool = k.process_pool := by
    unfold ready_dequeue
    split_ifs <;> rfl
  have ht : (ready_dequeue k).2.thread_pool = k.thread_pool := by
    unfold ready_dequeue
    split_ifs <;> rfl
  unfold at_dispatch set_ctx
  refine ⟨hp, rfl, rfl, rfl, rfl, rfl, fun t => ?_, fun t h => ?_⟩
  · by_cases h : t = (ready_dequeue k).1
    · subst h
      simp [ht]
    · simp [Function.update_noteq h, ht]
  · simp [Function.update_noteq h, ht]

end Ch8

end Ucore

namespace Ucore

namespace Ch8

theorem current_process_at_dispatch (k : Kernel) (uctx : context_t) (p t : Nat)
    (hdeq : (ready_dequeue k).1 = t) (T : LiveThread k p t) (hp : p < MAX_PROCS) :
    current_process (at_dispatch k uctx) = true ∧
    ((at_dispatch k uctx).thread_pool (at_dispatch k uctx).current_tid).pid = p ∧
    ((at_dispatch k uctx).thread_pool (at_dispatch k uctx).current_tid).tid = t := by
  obtain ⟨_, hcur, _, _, _, _, hth, _⟩ := at_dispatch_fields k uctx
  unfold current_process get_thread get_process
  rw [hcur, hdeq, (hth t).1, (hth t).2.1, T.tid, T.pid]
  exact ⟨by simp [T.lt, hp], rfl, rfl⟩

theorem dispatched_mutex_lock (rest : syscall_table Kernel) (k : Kernel) (uctx : context_t)
    (p m t : Nat) (mtx : mutex_t)
    (hdeq : (ready_dequeue k).1 = t) (T : LiveThread k p t) (hp : p < MAX_PROCS)
    (hm : m < MAX_SYNC_OBJS) (hmtx : (k.process_pool p).mutexes m = some mtx)
    (ha7 : ctx_arg uctx 7 = SYS_MUTEX_LOCK) (ha0 : to_i32 (ctx_arg uctx 0) = (m : Int)) :
    dispatched rest k uctx
      = (⟨syscall_ret_t.SYSCALL_OK, if (mutex_lock mtx t).1 then 0 else -1⟩,
          set_mutex (at_dispatch k uctx) p m (mutex_lock mtx t).2) := by
  obtain ⟨hc, hpid, htid⟩ := current_process_at_dispatch k uctx p t hdeq T hp
  have hpp := (at_dispatch_fields k uctx).1
  unfold dispatched
  rw [ha7]
  have hd : syscall_dispatch (ch8_table rest) SYS_MUTEX_LOCK (fun i => ctx_arg uctx i)
      (at_dispatch k uctx)
      = (⟨syscall_ret_t.SYSCALL_OK,
            (do_mutex_lock (fun i => ctx_arg uctx i) (at_dispatch k uctx)).1⟩,
          (do_mutex_lock (fun i => ctx_arg uctx i) (at_dispatch k uctx)).2) := by
    simp [syscall_dispatch, ch8_table, call_handler, SYS_EXIT, SYS_KILL, SYS_WAITPID,
      SYS_MUTEX_LOCK]
  rw [hd]
  have hl : do_mutex_lock (fun i => ctx_arg uctx i) (at_dispatch k uctx)
      = (if (mutex_lock mtx t).1 then 0 else -1,
          set_mutex (at_dispatch k uctx) p m (mutex_lock mtx t).2) := by
    unfold do_mutex_lock
    have hm' : ¬ ((m : Int) ≥ ((MAX_SYNC_OBJS : Nat) : Int)) := by
      have : (m : Int) < ((MAX_SYNC_OBJS : Nat) : Int) := by exact_mod_cast hm
      omega
    have hm0 : ¬ ((m : Int) < 0) := by omega
    simp only [ha0, hc, Bool.not_true, Bool.false_eq_true, hm0, hm', or_self, if_false,
      Int.toNat_ofNat, hpid, hpp, hmtx, htid]
  rw [hl]

theorem dispatched_mutex_unlock (rest : syscall_table Kernel) (k : Kernel) (uctx : context_t)
    (p m t : Nat) (mtx : mutex_t)
    (hdeq : (ready_dequeue k).1 = t) (T : LiveThread k p t) (hp : p < MAX_PROCS)
    (hm : m < MAX_SYNC_OBJS) (hmtx : (k.process_pool p).mutexes m = some mtx)
    (ha7 : ctx_arg uctx 7 = SYS_MUTEX_UNLOCK) (ha0 : to_i32 (ctx_arg uctx 0) = (m : Int)) :
    dispatched rest k uctx
      = (⟨syscall_ret_t.SYSCALL_OK, 0⟩,
          if (mutex_unlock mtx).1 ≠ TID_INVALID then
            ready_enqueue (set_mutex (at_dispatch k uctx) p m (mutex_unlock mtx).2)
              (mutex_unlock mtx).1
          else set_mutex (at_dispatch k uctx) p m (mutex_unlock mtx).2) := by
  obtain ⟨hc, hpid, _⟩ := current_process_at_dispatch k uctx p t hdeq T hp
  have hpp := (at_dispatch_fields k uctx).1
  unfold dispatched
  rw [ha7]
  have hd : syscall_dispatch (ch8_table rest) SYS_MUTEX_UNLOCK (fun i => ctx_arg uctx i)
      (at_dispatch k uctx)
      = (⟨syscall_ret_t.SYSCALL_OK,
            (do_mutex_unlock (fun i => ctx_arg uctx i) (at_dispatch k uctx)).1⟩,
          (do_mutex_unlock (fun i => ctx_arg uctx i) (at_dispatch k uctx)).2) := by
    simp [syscall_dispatch, ch8_table, call_handler, SYS_EXIT, SYS_KILL, SYS_WAITPID,
      SYS_MUTEX_LOCK, SYS_MUTEX_UNLOCK]
  rw [hd]
  have hl : do_mutex_unlock (fun i => ctx_arg uctx i) (at_dispatch k uctx)
      = (0, if (mutex_unlock mtx).1 ≠ TID_INVALID then
            ready_enqueue (set_mutex (at_dispatch k uctx) p m (mutex_unlock mtx).2)
              (mutex_unlock mtx).1
          else set_mutex (at_dispatch k uctx) p m (mutex_unlock mtx).2) := by
    unfold do_mutex_unlock
    have hm' : ¬ ((m : Int) ≥ ((MAX_SYNC_OBJS : Nat) : Int)) := by
      have : (m : Int) < ((MAX_SYNC_OBJS : Nat) : Int) := by exact_mod_cast hm
      omega
    have hm0 : ¬ ((m : Int) < 0) := by omega
    simp only [ha0, hc, Bool.not_true, Bool.false_eq_true, hm0, hm', or_self, if_false,
      Int.toNat_ofNat, hpid, hpp, hmtx]
  rw [hl]

end Ch8

end Ucore

namespace Ucore

namespace Ch8

theorem set_signal_self (k : Kernel) (p : Nat) :
    set_signal k p (k.process_pool p).signal = k := by
  unfold set_signal
  simp

/-- The end of an iteration in which the handler leaves the threads as they
are and the process of the trapping thread has no signal to handle. -/
theorem after_trap_quiet (rest : syscall_table Kernel) (k : Kernel) (uctx : context_t)
    (enq : Bool) (p t : Nat)
    (hdeq : (ready_dequeue k).1 = t) (hpid : (k.thread_pool t).pid = p)
    (hpool : (dispatched rest k uctx).2.thread_pool = (at_dispatch k uctx).thread_pool)
    (hnone : ((dispatched rest k uctx).2.process_pool p).signal.handling.type
      = handling_type_t.HANDLING_NONE)
    (hquiet : ((dispatched rest k uctx).2.process_pool p).signal.received.bits
      &&& not64 ((dispatched rest k uctx).2.process_pool p).signal.mask.bits = 0) :
    (after_trap rest k uctx enq).process_pool = (dispatched rest k uctx).2.process_pool ∧
    ((after_trap rest k uctx enq).thread_pool t).ctx.ctx
      = ctx_set_arg (ctx_move_next uctx) 0 (to_u64 (dispatched rest k uctx).1.value) ∧
    (∀ t', ((after_trap rest k uctx enq).thread_pool t').tid = (k.thread_pool t').tid ∧
      ((after_trap rest k uctx enq).thread_pool t').pid = (k.thread_pool t').pid ∧
      ((after_trap rest k uctx enq).thread_pool t').exited = (k.thread_pool t').exited) ∧
    (∀ t', t' ≠ t → (after_trap rest k uctx enq).thread_pool t' = k.thread_pool t') ∧
    (after_trap rest k uctx enq).ready_queue
      = (if enq then ready_enqueue (dispatched rest k uctx).2 t
          else (dispatched rest k uctx).2).ready_queue ∧
    (after_trap rest k uctx enq).ready_head
      = (if enq then ready_enqueue (dispatched rest k uctx).2 t
          else (dispatched rest k uctx).2).ready_head ∧
    (after_trap rest k uctx enq).ready_tail
      = (if enq then ready_enqueue (dispatched rest k uctx).2 t
          else (dispatched rest k uctx).2).ready_tail ∧
    (after_trap rest k uctx enq).ready_count
      = (if enq then ready_enqueue (dispatched rest k uctx).2 t
          else (dispatched rest k uctx).2).ready_count := by
  obtain ⟨_, _, _, _, _, _, hth, hoth⟩ := at_dispatch_fields k uctx
  have hctx0 := at_dispatch_thread k uctx
  rw [hdeq] at hctx0 hoth
  have hp' : ((dispatched rest k uctx).2.thread_pool t).pid = p := by
    rw [hpool, (hth t).2.1, hpid]
  have hsig := signal_handle_nothing _ (ctx_move_next uctx) hnone hquiet
  have hc' : ((dispatched rest k uctx).2.thread_pool t).ctx.ctx = ctx_move_next uctx := by
    rw [hpool, hctx0]
  unfold after_trap
  simp only [hdeq, hp', hc', hsig, set_signal_self, set_ctx_ctx]
  generalize (dispatched rest k uctx).2 = kd at hpool hnone hquiet hp' hc' hsig ⊢
  generalize (dispatched rest k uctx).1.value = v
  have hkt : ∀ t', (kd.thread_pool t').tid = (k.thread_pool t').tid ∧
      (kd.thread_pool t').pid = (k.thread_pool t').pid ∧
      (kd.thread_pool t').exited = (k.thread_pool t').exited := by
    intro t'
    rw [hpool]
    exact hth t'
  have hko : ∀ t', t' ≠ t → kd.thread_pool t' = k.thread_pool t' := by
    intro t' h
    rw [hpool]
    exact hoth t' h
  cases enq
  · simp only [Bool.false_eq_true, if_false]
    refine ⟨rfl, ?_, fun t' => ?_, fun t' h => ?_, rfl, rfl, rfl, rfl⟩
    · simp [set_ctx]
    · by_cases h : t' = t
      · subst h
        simp [set_ctx, hkt]
      · simp [set_ctx, Function.update_noteq h, hkt]
    · simp [set_ctx, Function.update_noteq h, hko t' h]
  · simp only [if_true]
    refine ⟨?_, ?_, fun t' => ?_, fun t' h => ?_, ?_, ?_, ?_, ?_⟩
    · rw [process_pool_ready_enqueue]
      rfl
    · rw [thread_pool_ready_enqueue]
      simp [set_ctx]
    · rw [thread_pool_ready_enqueue]
      by_cases h : t' = t
      · subst h
        simp [set_ctx, hkt]
      · simp [set_ctx, Function.update_noteq h, hkt]
    · rw [thread_pool_ready_enqueue]
      simp [set_ctx, Function.update_noteq h, hko t' h]
    · unfold ready_enqueue set_ctx
      simp only
      split_ifs <;> rfl
    · unfold ready_enqueue set_ctx
      simp only
      split_ifs <;> rfl
    · unfold ready_enqueue set_ctx
      simp only
      split_ifs <;> rfl
    · unfold ready_enqueue set_ctx
      simp only
      split_ifs <;> rfl

theorem ready_list_congr (k k' : Kernel) (hq : k'.ready_queue = k.ready_queue)
    (hh : k'.ready_head = k.ready_head) (hc : k'.ready_count = k.ready_count) :
    ready_list k' = ready_list k := by
  unfold ready_list
  rw [hq, hh, hc]

end Ch8

end Ucore

namespace Ucore

namespace Ch8

theorem ready_list_length (k : Kernel) : (ready_list k).length = k.ready_count := by
  unfold ready_list
  simp

theorem set_mutex_fields (k : Kernel) (p m : Nat) (mtx : mutex_t) :
    (set_mutex k p m mtx).thread_pool = k.thread_pool ∧
    (set_mutex k p m mtx).ready_queue = k.ready_queue ∧
    (set_mutex k p m mtx).ready_head = k.ready_head ∧
    (set_mutex k p m mtx).ready_tail = k.ready_tail ∧
    (set_mutex k p m mtx).ready_count = k.ready_count ∧
    ((set_mutex k p m mtx).process_pool p).signal = (k.process_pool p).signal ∧
    ((set_mutex k p m mtx).process_pool p).mutexes m = some mtx := by
  unfold set_mutex
  simp

/-- An iteration of the scheduling loop on a mutex call, given what the
handler returns and how it leaves the kernel. -/
theorem quiet_step (rest : syscall_table Kernel) (on_exit : Kernel → Nat → Nat → Kernel)
    (k kd : Kernel) (uctx : context_t) (scause : Nat) (p m t : Nat) (mtx mtx' : mutex_t)
    (l : List Nat) (v : Int) (enq : Bool)
    (S : MutexScene k p m mtx (t :: l)) (T : LiveThread k p t)
    (hexc : is_exception scause = true) (hcode : cause_code scause = EXCEP_U_ECALL)
    (hd : dispatched rest k uctx = (⟨syscall_ret_t.SYSCALL_OK, v⟩, kd))
    (hpool : kd.thread_pool = (at_dispatch k uctx).thread_pool)
    (hsig : (kd.process_pool p).signal = (k.process_pool p).signal)
    (hmtx : (kd.process_pool p).mutexes m = some mtx')
    (hhead : kd.ready_head < READY_QUEUE_SIZE)
    (htail : kd.ready_tail = (kd.ready_head + kd.ready_count) % READY_QUEUE_SIZE)
    (hroom : enq = true → kd.ready_count < READY_QUEUE_SIZE)
    (hexit : ctx_arg uctx 7 ≠ SYS_EXIT) (hwait : ctx_arg uctx 7 ≠ SYS_WAITPID)
    (henq : (!need_block (ctx_arg uctx 7) ⟨syscall_ret_t.SYSCALL_OK, v⟩) = enq) :
    ∃ k', sched_iter rest on_exit k uctx scause = some k' ∧
      MutexScene k' p m mtx' (ready_list kd ++ if enq then [t] else []) ∧
      (k'.thread_pool t).ctx.ctx = ctx_set_arg (ctx_move_next uctx) 0 (to_u64 v) ∧
      (∀ t', LiveThread k p t' → LiveThread k' p t') ∧
      (∀ t', t' ≠ t → k'.thread_pool t' = k.thread_pool t') := by
  have hcount : k.ready_count ≠ 0 := by
    have := ready_list_length k
    rw [S.list] at this
    simp at this
    omega
  obtain ⟨hl, _, _, _⟩ := ready_list_dequeue k hcount S.head S.tail
  rw [S.list] at hl
  have hdeq : (ready_dequeue k).1 = t := (List.cons.inj hl).1.symm
  have hq := ready_dequeue_fst k hcount
  rw [hdeq] at hq
  have hd1 : (dispatched rest k uctx).1 = ⟨syscall_ret_t.SYSCALL_OK, v⟩ := by rw [hd]
  have hd2 : (dispatched rest k uctx).2 = kd := by rw [hd]
  obtain ⟨_, _, _, _, _, _, hth, _⟩ := at_dispatch_fields k uctx
  have hnone : (kd.process_pool p).signal.handling.type = handling_type_t.HANDLING_NONE := by
    rw [hsig]
    exact S.sig_none
  have hquiet : (kd.process_pool p).signal.received.bits
      &&& not64 (kd.process_pool p).signal.mask.bits = 0 := by
    rw [hsig]
    exact S.sig_quiet
  have hpid : ((dispatched rest k uctx).2.thread_pool (ready_dequeue k).1).pid = p := by
    rw [hd2, hdeq, hpool, (hth t).2.1, T.pid]
  have hctx : ((dispatched rest k uctx).2.thread_pool (ready_dequeue k).1).ctx.ctx
      = ctx_move_next uctx := by
    rw [hd2, hpool]
    exact at_dispatch_thread k uctx
  have hrun := sched_iter_resume rest on_exit k uctx scause hcount (by rw [← hq]; exact T.lt)
    (by rw [← hq]; exact T.live) hexc hcode
    (by rw [hpid]; unfold get_process; exact decide_eq_true S.hp)
    (by
      rw [hpid, hctx, hd2, signal_handle_nothing _ _ hnone hquiet]
      intro h
      cases h)
    hexit (fun h => absurd h hwait) (fun _ => by rw [hd1])
  have he : (decide (ctx_arg uctx 7 = SYS_WAITPID)
      || !need_block (ctx_arg uctx 7) (dispatched rest k uctx).1) = enq := by
    rw [hd1, henq]
    simp [hwait]
  rw [he] at hrun
  obtain ⟨a, b, c, d, e1, e2, e3, e4⟩ := after_trap_quiet rest k uctx enq p t hdeq T.pid
    (by rw [hd2]; exact hpool) (by rw [hd2]; exact hnone) (by rw [hd2]; exact hquiet)
  rw [hd2] at a e1 e2 e3 e4
  rw [hd1] at b
  refine ⟨after_trap rest k uctx enq, hrun, ?_, b, fun t' T' => ?_, d⟩
  · cases enq
    · simp only [Bool.false_eq_true, if_false] at e1 e2 e3 e4 ⊢
      refine ⟨S.hp, S.hm, by rw [a]; exact hnone, by rw [a]; exact hquiet, by rw [a]; exact hmtx,
        by rw [e2]; exact hhead, by rw [e2, e3, e4]; exact htail, ?_⟩
      rw [List.append_nil]
      exact ready_list_congr _ _ e1 e2 e4
    · simp only [if_true] at e1 e2 e3 e4 ⊢
      obtain ⟨q1, q2, q3, q4⟩ := ready_list_enqueue kd t (hroom rfl) htail
      refine ⟨S.hp, S.hm, by rw [a]; exact hnone, by rw [a]; exact hquiet, by rw [a]; exact hmtx,
        by rw [e2, q2]; exact hhead, by rw [e2, e3, e4]; exact q4, ?_⟩
      rw [← q1]
      exact ready_list_congr _ _ e1 e2 e4
  · exact ⟨T'.lt, by rw [(c t').1]; exact T'.tid, by rw [(c t').2.1]; exact T'.pid,
      by rw [(c t').2.2]; exact T'.live⟩

end Ch8

end Ucore

namespace Ucore

namespace Ch8

theorem scene_dequeue (k : Kernel) (p m t : Nat) (mtx : mutex_t) (l : List Nat)
    (S : MutexScene k p m mtx (t :: l)) :
    (ready_dequeue k).1 = t ∧ ready_list (ready_dequeue k).2 = l ∧
    (ready_dequeue k).2.ready_head < READY_QUEUE_SIZE ∧
    (ready_dequeue k).2.ready_count = k.ready_count - 1 ∧
    (ready_dequeue k).2.ready_tail
      = ((ready_dequeue k).2.ready_head + (ready_dequeue k).2.ready_count)
          % READY_QUEUE_SIZE ∧
    k.ready_count = l.length + 1 := by
  have hlen := ready_list_length k
  rw [S.list] at hlen
  simp at hlen
  have hcount : k.ready_count ≠ 0 := by omega
  obtain ⟨hl, h2, h3, h4⟩ := ready_list_dequeue k hcount S.head S.tail
  rw [S.list] at hl
  exact ⟨(List.cons.inj hl).1.symm, (List.cons.inj hl).2.symm, h2, h3, h4, hlen.symm⟩

/-- An iteration of the scheduling loop on a `mutex_lock` call. -/
theorem mutex_lock_step (rest : syscall_table Kernel) (on_exit : Kernel → Nat → Nat → Kernel)
    (k : Kernel) (uctx : context_t) (scause : Nat) (p m t : Nat) (mtx : mutex_t)
    (l : List Nat)
    (S : MutexScene k p m mtx (t :: l)) (T : LiveThread k p t)
    (hlen : l.length < READY_QUEUE_SIZE)
    (hexc : is_exception scause = true) (hcode : cause_code scause = EXCEP_U_ECALL)
    (ha7 : ctx_arg uctx 7 = SYS_MUTEX_LOCK) (ha0 : to_i32 (ctx_arg uctx 0) = (m : Int)) :
    ∃ k', sched_iter rest on_exit k uctx scause = some k' ∧
      MutexScene k' p m (mutex_lock mtx t).2 (l ++ if (mutex_lock mtx t).1 then [t] else []) ∧
      (k'.thread_pool t).ctx.ctx
        = ctx_set_arg (ctx_move_next uctx) 0 (if (mutex_lock mtx t).1 then 0 else 2 ^ 64 - 1) ∧
      (∀ t', LiveThread k p t' → LiveThread k' p t') ∧
      (∀ t', t' ≠ t → k'.thread_pool t' = k.thread_pool t') := by
  obtain ⟨hdeq, hl, hh, hc, ht, hn⟩ := scene_dequeue k p m t mtx l S
  obtain ⟨f1, _, f3, f4, f5, f6, _, _⟩ := at_dispatch_fields k uctx
  obtain ⟨g1, g2, g3, g4, g5, g6, g7⟩ :=
    set_mutex_fields (at_dispatch k uctx) p m (mutex_lock mtx t).2
  have hd := dispatched_mutex_lock rest k uctx p m t mtx hdeq T S.hp S.hm S.mutex ha7 ha0
  have hlist : ready_list (set_mutex (at_dispatch k uctx) p m (mutex_lock mtx t).2) = l := by
    rw [← hl]
    exact ready_list_congr _ _ (by rw [g2, f3]) (by rw [g3, f4]) (by rw [g5, f6])
  obtain ⟨k', h1, h2, h3, h4, h5⟩ := quiet_step rest on_exit k
    (set_mutex (at_dispatch k uctx) p m (mutex_lock mtx t).2) uctx scause p m t mtx
    (mutex_lock mtx t).2 l (if (mutex_lock mtx t).1 then 0 else -1) (mutex_lock mtx t).1
    S T hexc hcode hd g1 (by rw [g6, f1]) g7 (by rw [g3, f4]; exact hh)
    (by rw [g3, g4, g5, f4, f5, f6]; exact ht)
    (fun _ => by rw [g5, f6, hc, hn]; simpa using hlen)
    (by rw [ha7]; decide) (by rw [ha7]; decide)
    (by
      rw [ha7]
      unfold need_block
      cases (mutex_lock mtx t).1 <;> simp [SYS_MUTEX_LOCK])
  rw [hlist] at h2
  refine ⟨k', h1, h2, ?_, h4, h5⟩
  rw [h3]
  cases (mutex_lock mtx t).1 <;> rfl

/-- An iteration of the scheduling loop on a `mutex_unlock` call that wakes
the thread `w`. -/
theorem mutex_unlock_step (rest : syscall_table Kernel)
    (on_exit : Kernel → Nat → Nat → Kernel)
    (k : Kernel) (uctx : context_t) (scause : Nat) (p m t w : Nat) (mtx : mutex_t)
    (l : List Nat)
    (S : MutexScene k p m mtx (t :: l)) (T : LiveThread k p t)
    (hlen : l.length + 1 < READY_QUEUE_SIZE)
    (hw : (mutex_unlock mtx).1 = w) (hwv : w ≠ TID_INVALID)
    (hexc : is_exception scause = true) (hcode : cause_code scause = EXCEP_U_ECALL)
    (ha7 : ctx_arg uctx 7 = SYS_MUTEX_UNLOCK) (ha0 : to_i32 (ctx_arg uctx 0) = (m : Int)) :
    ∃ k', sched_iter rest on_exit k uctx scause = some k' ∧
      MutexScene k' p m (mutex_unlock mtx).2 (l ++ [w, t]) ∧
      (k'.thread_pool t).ctx.ctx = ctx_set_arg (ctx_move_next uctx) 0 0 ∧
      (∀ t', LiveThread k p t' → LiveThread k' p t') ∧
      (∀ t', t' ≠ t → k'.thread_pool t' = k.thread_pool t') := by
  obtain ⟨hdeq, hl, hh, hc, ht, hn⟩ := scene_dequeue k p m t mtx l S
  obtain ⟨f1, _, f3, f4, f5, f6, _, _⟩ := at_dispatch_fields k uctx
  obtain ⟨g1, g2, g3, g4, g5, g6, g7⟩ :=
    set_mutex_fields (at_dispatch k uctx) p m (mutex_unlock mtx).2
  have hd := dispatched_mutex_unlock rest k uctx p m t mtx hdeq T S.hp S.hm S.mutex ha7 ha0
  rw [hw, if_pos hwv] at hd
  have hlist : ready_list (set_mutex (at_dispatch k uctx) p m (mutex_unlock mtx).2) = l := by
    rw [← hl]
    exact ready_list_congr _ _ (by rw [g2, f3]) (by rw [g3, f4]) (by rw [g5, f6])
  obtain ⟨q1, q2, q3, q4⟩ := ready_list_enqueue
    (set_mutex (at_dispatch k uctx) p m (mutex_unlock mtx).2) w
    (by rw [g5, f6, hc, hn]; omega) (by rw [g3, g4, g5, f4, f5, f6]; exact ht)
  obtain ⟨k', h1, h2, h3, h4, h5⟩ := quiet_step rest on_exit k
    (ready_enqueue (set_mutex (at_dispatch k uctx) p m (mutex_unlock mtx).2) w) uctx scause
    p m t mtx (mutex_unlock mtx).2 l 0 true
    S T hexc hcode hd (by rw [thread_pool_ready_enqueue, g1])
    (by rw [process_pool_ready_enqueue, g6, f1])
    (by rw [process_pool_ready_enqueue]; exact g7) (by rw [q2, g3, f4]; exact hh) q4
    (fun _ => by rw [q3, g5, f6, hc, hn]; omega)
    (by rw [ha7]; decide) (by rw [ha7]; decide)
    (by
      rw [ha7]
      unfold need_block
      simp)
  rw [q1, hlist] at h2
  simp only [if_true, List.append_assoc, List.singleton_append] at h2
  exact ⟨k', h1, h2, h3, h4, h5⟩

end Ch8

end Ucore

namespace Ucore

namespace Ch8

/-- C7, as the code has it.  Process `p` holds in slot `m` a mutex fresh from
`mutex_init`; its live threads `t1 ≠ t2` are the ready queue, in this order,
and the process has no signal to handle.  Thread `t1` traps with
`mutex_lock(m)`, then `t2` traps with `mutex_lock(m)`, then `t1` traps with
`mutex_unlock(m)`.  The first lock succeeds: `t1` gets `a0 = 0`, the mutex is
locked and `t1` goes back to the ready queue.  The second lock reports "must
block": `t2` gets `a0 = -1` and is not in the ready queue, which holds only
`t1`.  After the unlock the ready queue is `[t2, t1]`, the mutex is still
locked with an empty wait queue (it is held on behalf of `t2`), and the
context of `t2` is the one it was left with when it blocked: program counter
after its `ecall` and `a0 = -1` (`2 ^ 64 - 1`), not `0`. -/
theorem C7_mutex_handoff (rest : syscall_table Kernel)
    (on_exit : Kernel → Nat → Nat → Kernel) (k : Kernel) (p m t1 t2 : Nat) (mtx0 : mutex_t)
    (u1 u2 u3 : context_t) (sc1 sc2 sc3 : Nat)
    (S : MutexScene k p m (mutex_init mtx0) [t1, t2])
    (T1 : LiveThread k p t1) (T2 : LiveThread k p t2) (hne : t1 ≠ t2)
    (hsc1 : is_exception sc1 = true ∧ cause_code sc1 = EXCEP_U_ECALL)
    (hsc2 : is_exception sc2 = true ∧ cause_code sc2 = EXCEP_U_ECALL)
    (hsc3 : is_exception sc3 = true ∧ cause_code sc3 = EXCEP_U_ECALL)
    (h1 : ctx_arg u1 7 = SYS_MUTEX_LOCK ∧ to_i32 (ctx_arg u1 0) = (m : Int))
    (h2 : ctx_arg u2 7 = SYS_MUTEX_LOCK ∧ to_i32 (ctx_arg u2 0) = (m : Int))
    (h3 : ctx_arg u3 7 = SYS_MUTEX_UNLOCK ∧ to_i32 (ctx_arg u3 0) = (m : Int)) :
    ∃ k1 k2 k3 mtx1 mtx2 mtx3,
      sched_iter rest on_exit k u1 sc1 = some k1 ∧
      (k1.process_pool p).mutexes m = some mtx1 ∧ mtx1.locked = true ∧
      ctx_arg (k1.thread_pool t1).ctx.ctx 0 = 0 ∧
      ready_list k1 = [t2, t1] ∧
      sched_iter rest on_exit k1 u2 sc2 = some k2 ∧
      (k2.process_pool p).mutexes m = some mtx2 ∧ mtx2.locked = true ∧
      (wq_pop mtx2.wait_queue).1 = t2 ∧
      ctx_arg (k2.thread_pool t2).ctx.ctx 0 = 2 ^ 64 - 1 ∧
      ready_list k2 = [t1] ∧ t2 ∉ ready_list k2 ∧
      sched_iter rest on_exit k2 u3 sc3 = some k3 ∧
      (k3.process_pool p).mutexes m = some mtx3 ∧ mtx3.locked = true ∧
      mtx3.wait_queue.count = 0 ∧
      ready_list k3 = [t2, t1] ∧
      (k3.thread_pool t2).ctx.ctx = ctx_set_arg (ctx_move_next u2) 0 (2 ^ 64 - 1) ∧
      ctx_pc (k3.thread_pool t2).ctx.ctx = (ctx_pc u2 + 4) % 2 ^ 64 ∧
      ctx_arg (k3.thread_pool t2).ctx.ctx 0 = 2 ^ 64 - 1 ∧
      ctx_arg (k3.thread_pool t1).ctx.ctx 0 = 0 := by
  have ht2 : t2 ≠ TID_INVALID := by
    intro h
    have := T2.lt
    rw [h] at this
    exact absurd this (by decide)
  have e1 : mutex_lock (mutex_init mtx0) t1 = (true, ⟨true, wq_init mtx0.wait_queue⟩) := rfl
  have e2 : mutex_lock ⟨true, wq_init mtx0.wait_queue⟩ t2
      = (false, ⟨true, ⟨Function.update mtx0.wait_queue.queue 0 t2, 0, 1, 1⟩⟩) := rfl
  have e3a : (mutex_unlock ⟨true, ⟨Function.update mtx0.wait_queue.queue 0 t2, 0, 1, 1⟩⟩).1
      = t2 := by
    simp [mutex_unlock, wq_pop, ht2]
  have e3b : (mutex_unlock ⟨true, ⟨Function.update mtx0.wait_queue.queue 0 t2, 0, 1, 1⟩⟩).2
      = ⟨true, ⟨Function.update mtx0.wait_queue.queue 0 t2, 1, 1, 0⟩⟩ := by
    simp [mutex_unlock, wq_pop, ht2, WAIT_QUEUE_SIZE]
  have ea0 : ∀ (c : context_t) (v : Nat), ctx_arg (ctx_set_arg c 0 v) 0 = v := by
    intro c v
    unfold ctx_arg ctx_reg ctx_set_arg ctx_set_reg
    simp
  obtain ⟨k1, r1, S1, c1, L1, F1⟩ := mutex_lock_step rest on_exit k u1 sc1 p m t1
    (mutex_init mtx0) [t2] S T1 (by simp [READY_QUEUE_SIZE]) hsc1.1 hsc1.2 h1.1 h1.2
  rw [e1] at S1 c1
  simp only [if_true, List.singleton_append] at S1 c1
  obtain ⟨k2, r2, S2, c2, L2, F2⟩ := mutex_lock_step rest on_exit k1 u2 sc2 p m t2
    ⟨true, wq_init mtx0.wait_queue⟩ [t1] S1 (L1 t2 T2) (by simp [READY_QUEUE_SIZE]) hsc2.1 hsc2.2 h2.1 h2.2
  rw [e2] at S2 c2
  simp only [Bool.false_eq_true, if_false, List.append_nil] at S2 c2
  obtain ⟨k3, r3, S3, c3, L3, F3⟩ := mutex_unlock_step rest on_exit k2 u3 sc3 p m t1 t2
    ⟨true, ⟨Function.update mtx0.wait_queue.queue 0 t2, 0, 1, 1⟩⟩ [] S2 (L2 t1 (L1 t1 T1))
    (by simp [READY_QUEUE_SIZE]) e3a ht2 hsc3.1 hsc3.2 h3.1 h3.2
  rw [e3b] at S3
  simp only [List.nil_append] at S3
  have hk3 : (k3.thread_pool t2).ctx.ctx = ctx_set_arg (ctx_move_next u2) 0 (2 ^ 64 - 1) := by
    rw [F3 t2 (fun h => hne h.symm), c2]
  refine ⟨k1, k2, k3, _, _, _, r1, S1.mutex, rfl, ?_, S1.list, r2, S2.mutex, rfl, ?_, ?_,
    S2.list, ?_, r3, S3.mutex, rfl, rfl, S3.list, hk3, ?_, ?_, ?_⟩
  · rw [c1]
    exact ea0 _ _
  · simp [wq_pop]
  · rw [c2]
    exact ea0 _ _
  · rw [S2.list]
    simp
    exact fun h => hne h.symm
  · rw [hk3]
    rfl
  · rw [hk3]
    exact ea0 _ _
  · rw [c3]
    exact ea0 _ _

set_option maxRecDepth 100000 in
/-- C7, as the code has it, at threads 0 and 1 of process 0 and the mutex in
slot 3. -/
theorem C7_mutex_handoff_witness :
    ∃ k1 k2 k3,
      sched_iter empty_table (fun k _ _ => k) demo_mutex_kernel
        (demo_trap 0x400100 SYS_MUTEX_LOCK 3 0) EXCEP_U_ECALL = some k1 ∧
      sched_iter empty_table (fun k _ _ => k) k1
        (demo_trap 0x400200 SYS_MUTEX_LOCK 3 0) EXCEP_U_ECALL = some k2 ∧
      ready_list k2 = [0] ∧
      sched_iter empty_table (fun k _ _ => k) k2
        (demo_trap 0x400104 SYS_MUTEX_UNLOCK 3 0) EXCEP_U_ECALL = some k3 ∧
      ready_list k3 = [1, 0] ∧
      ctx_arg (k3.thread_pool 1).ctx.ctx 0 = 2 ^ 64 - 1 :=
  have h := C7_mutex_handoff empty_table (fun k _ _ => k) demo_mutex_kernel 0 3 0 1
    ⟨true, ⟨fun _ => 0, 5, 7, 9⟩⟩ (demo_trap 0x400100 SYS_MUTEX_LOCK 3 0)
    (demo_trap 0x400200 SYS_MUTEX_LOCK 3 0) (demo_trap 0x400104 SYS_MUTEX_UNLOCK 3 0)
    EXCEP_U_ECALL EXCEP_U_ECALL EXCEP_U_ECALL
    ⟨by decide, by decide, by decide, by decide, rfl, by decide, by decide, by decide⟩
    ⟨by decide, by decide, by decide, by decide⟩ ⟨by decide, by decide, by decide, by decide⟩
    (by decide) (by decide) (by decide) (by decide) (by decide) (by decide) (by decide)
  match h with
  | ⟨k1, k2, k3, _, _, _, a1, _, _, _, _, a2, _, _, _, _, a3, _, a4, _, _, _, a5, _, _, a6,
      _⟩ => ⟨k1, k2, k3, a1, a2, a3, a4, a5, a6⟩

set_option maxRecDepth 100000 in
/-- C7, literal claim refuted: threads 0 and 1 of process 0 contend for the
mutex in slot 3.  After thread 0 has locked, thread 1 has tried to lock and
thread 0 has unlocked, thread 1 is in the ready queue and the mutex is locked,
but the `a0` with which thread 1 will be resumed is `2 ^ 64 - 1` (`-1`), not
the success value `0`. -/
theorem C7_counterexample :
    three_traps demo_mutex_kernel 1 0 3 (demo_trap 0x400100 SYS_MUTEX_LOCK 3 0)
        (demo_trap 0x400200 SYS_MUTEX_LOCK 3 0) (demo_trap 0x400104 SYS_MUTEX_UNLOCK 3 0)
      = some (2 ^ 64 - 1, [1, 0], some true) := by
  decide

end Ch8

end Ucore

namespace Ucore

namespace Ch8

theorem pair_eq_of_fst {α β : Type} (p : α × β) (a : α) (h : p.1 = a) : p = (a, p.2) := by
  rw [← h]

/-- The outcome of `do_exec` from `map_kernel_to_user(new_as)` on. -/
theorem exec_load_spec {F : Type} (env : exec_env F) (k : Kernel) (fs : F) (m3 : Machine)
    (new_as : address_space_t) (d : Nat × Nat) :
    ((exec_load env k fs m3 new_as d).1 = 0 ∨ (exec_load env k fs m3 new_as d).1 = -1) ∧
    ((exec_load env k fs m3 new_as d).1 = -1 → (exec_load env k fs m3 new_as d).2.kernel = k) ∧
    ((exec_load env k fs m3 new_as d).1 = 0 →
      (elf_load (map_kernel_to_user env m3 new_as) new_as d.1 d.2).1 ≠ 0 ∧
      (exec_load env k fs m3 new_as d).2.kernel
        = exec_commit k new_as
            (elf_load (map_kernel_to_user env m3 new_as) new_as d.1 d.2).1) ∧
    ((elf_load (map_kernel_to_user env m3 new_as) new_as d.1 d.2).1 ≠ 0 →
      (exec_load env k fs m3 new_as d).1 = 0) := by
  unfold exec_load
  by_cases h : (elf_load (map_kernel_to_user env m3 new_as) new_as d.1 d.2).1 = 0
  · rw [if_pos h]
    exact ⟨Or.inr rfl, fun _ => rfl, fun h0 => (by cases h0), fun h0 => absurd h h0⟩
  · rw [if_neg h]
    exact ⟨Or.inl rfl, fun h0 => (by cases h0), fun _ => ⟨h, rfl⟩, fun _ => rfl⟩

/-- The outcome of `do_exec` from `as_create()` on. -/
theorem exec_image_spec {F : Type} (env : exec_env F) (k : Kernel) (c : Machine × F)
    (d : Nat × Nat) :
    ((exec_image env k c d).1 = 0 ∨ (exec_image env k c d).1 = -1) ∧
    ((exec_image env k c d).1 = -1 → (exec_image env k c d).2.kernel = k) ∧
    ((exec_image env k c d).1 = 0 →
      ∃ new_as m3, as_create c.1 = (some new_as, m3) ∧
        (elf_load (map_kernel_to_user env m3 new_as) new_as d.1 d.2).1 ≠ 0 ∧
        (exec_image env k c d).2.kernel
          = exec_commit k new_as
              (elf_load (map_kernel_to_user env m3 new_as) new_as d.1 d.2).1) ∧
    ((∃ new_as m3, as_create c.1 = (some new_as, m3) ∧
        (elf_load (map_kernel_to_user env m3 new_as) new_as d.1 d.2).1 ≠ 0) →
      (exec_image env k c d).1 = 0) := by
  unfold exec_image
  cases h : (as_create c.1).1 with
  | none =>
    rw [Option.elim_none]
    refine ⟨Or.inr rfl, fun _ => rfl, fun h0 => (by cases h0), fun h0 => ?_⟩
    obtain ⟨new_as, m3, h1, _⟩ := h0
    rw [h1] at h
    cases h
  | some new_as =>
    rw [Option.elim_some]
    obtain ⟨a, b, c1, c2⟩ := exec_load_spec env k c.2 (as_create c.1).2 new_as d
    refine ⟨a, b, fun h0 => ⟨new_as, (as_create c.1).2, pair_eq_of_fst _ _ h, c1 h0⟩,
      fun h0 => ?_⟩
    obtain ⟨new_as', m3, h1, h2⟩ := h0
    rw [h1] at h c2 ⊢
    have e : new_as' = new_as := Option.some.inj h
    subst e
    exact c2 h2

/-- The outcome of `do_exec` from `read_all_file(fh, &elf_len)` on. -/
theorem exec_file_spec {F : Type} (env : exec_env F) (k : Kernel) (fh : Nat)
    (s1 : Machine × F) :
    ((exec_file env k fh s1).1 = 0 ∨ (exec_file env k fh s1).1 = -1) ∧
    ((exec_file env k fh s1).1 = -1 → (exec_file env k fh s1).2.kernel = k) ∧
    ((exec_file env k fh s1).1 = 0 →
      ∃ d s2 new_as m3, env.read_all_file fh s1 = (some d, s2) ∧
        as_create (env.file_close fh s2).1 = (some new_as, m3) ∧
        (elf_load (map_kernel_to_user env m3 new_as) new_as d.1 d.2).1 ≠ 0 ∧
        (exec_file env k fh s1).2.kernel
          = exec_commit k new_as
              (elf_load (map_kernel_to_user env m3 new_as) new_as d.1 d.2).1) ∧
    ((∃ d s2 new_as m3, env.read_all_file fh s1 = (some d, s2) ∧
        as_create (env.file_close fh s2).1 = (some new_as, m3) ∧
        (elf_load (map_kernel_to_user env m3 new_as) new_as d.1 d.2).1 ≠ 0) →
      (exec_file env k fh s1).1 = 0) := by
  unfold exec_file
  cases h : (env.read_all_file fh s1).1 with
  | none =>
    rw [Option.elim_none]
    refine ⟨Or.inr rfl, fun _ => rfl, fun h0 => (by cases h0), fun h0 => ?_⟩
    obtain ⟨d, s2, _, _, h1, _⟩ := h0
    rw [h1] at h
    cases h
  | some d =>
    rw [Option.elim_some]
    obtain ⟨a, b, c1, c2⟩ :=
      exec_image_spec env k (env.file_close fh (env.read_all_file fh s1).2) d
    refine ⟨a, b, fun h0 => ?_, fun h0 => ?_⟩
    · obtain ⟨new_as, m3, e1, e2, e3⟩ := c1 h0
      exact ⟨d, (env.read_all_file fh s1).2, new_as, m3, pair_eq_of_fst _ _ h, e1, e2, e3⟩
    · obtain ⟨d', s2, new_as, m3, h1, h2, h3⟩ := h0
      rw [h1] at h c2 ⊢
      have e : d' = d := Option.some.inj h
      subst e
      exact c2 ⟨new_as, m3, h2, h3⟩

/-- The outcome of `do_exec` from `if (!kpath)` on. -/
theorem exec_path_spec {F : Type} (env : exec_env F) (w : World F) (kpath len : Nat) :
    ((exec_path env w kpath len).1 = 0 ∨ (exec_path env w kpath len).1 = -1) ∧
    ((exec_path env w kpath len).1 = -1 → (exec_path env w kpath len).2.kernel = w.kernel) ∧
    ((exec_path env w kpath len).1 = 0 →
      kpath ≠ 0 ∧
      ∃ fh s1 d s2 new_as m3,
        env.file_open (exec_name w.machine kpath len) (w.machine, w.fs) = (some fh, s1) ∧
        env.read_all_file fh s1 = (some d, s2) ∧
        as_create (env.file_close fh s2).1 = (some new_as, m3) ∧
        (elf_load (map_kernel_to_user env m3 new_as) new_as d.1 d.2).1 ≠ 0 ∧
        (exec_path env w kpath len).2.kernel
          = exec_commit w.kernel new_as
              (elf_load (map_kernel_to_user env m3 new_as) new_as d.1 d.2).1) ∧
    ((kpath ≠ 0 ∧
      ∃ fh s1 d s2 new_as m3,
        env.file_open (exec_name w.machine kpath len) (w.machine, w.fs) = (some fh, s1) ∧
        env.read_all_file fh s1 = (some d, s2) ∧
        as_create (env.file_close fh s2).1 = (some new_as, m3) ∧
        (elf_load (map_kernel_to_user env m3 new_as) new_as d.1 d.2).1 ≠ 0) →
      (exec_path env w kpath len).1 = 0) := by
  unfold exec_path
  by_cases hk : kpath = 0
  · rw [if_pos hk]
    exact ⟨Or.inr rfl, fun _ => rfl, fun h0 => (by cases h0), fun h0 => absurd hk h0.1⟩
  · rw [if_neg hk]
    cases h : (env.file_open (exec_name w.machine kpath len) (w.machine, w.fs)).1 with
    | none =>
      rw [Option.elim_none]
      refine ⟨Or.inr rfl, fun _ => rfl, fun h0 => (by cases h0), fun h0 => ?_⟩
      obtain ⟨_, fh, s1, _, _, _, _, h1, _⟩ := h0
      rw [h1] at h
      cases h
    | some fh =>
      rw [Option.elim_some]
      obtain ⟨a, b, c1, c2⟩ := exec_file_spec env w.kernel fh
        (env.file_open (exec_name w.machine kpath len) (w.machine, w.fs)).2
      refine ⟨a, b, fun h0 => ⟨hk, ?_⟩, fun h0 => ?_⟩
      · obtain ⟨d, s2, new_as, m3, e1, e2, e3, e4⟩ := c1 h0
        exact ⟨fh, _, d, s2, new_as, m3, pair_eq_of_fst _ _ h, e1, e2, e3, e4⟩
      · obtain ⟨_, fh', s1, d, s2, new_as, m3, h1, h2, h3, h4⟩ := h0
        rw [h1] at h c2 ⊢
        have e : fh' = fh := Option.some.inj h
        subst e
        exact c2 ⟨d, s2, new_as, m3, h2, h3, h4⟩

end Ch8

end Ucore

namespace Ucore

namespace Ch8

/-- C13. In ch8 `do_exec`, for a calling process whose address-space pointer
is not `NULL`: the call returns, with `0` or `-1`.  It returns `0` exactly
when there is a current process, the path translates, `file_open` finds the
name, `read_all_file` reads the file, `as_create` succeeds and `elf_load`
accepts the image; in every other case (no current process, path not
translatable, name not found, file unreadable, address-space allocation
failure, image rejected by the ELF loader) it returns `-1`.  Whenever it
returns `-1` the pools are exactly as before the call, so the process's
address-space pointer, the thread's context and satp, and the process's
signal manager with its action table are unchanged; when it returns `0` the
pools are those that the last part of `do_exec` builds. -/
theorem C13_exec_failure_atomic {F : Type} (env : exec_env F) (path len : Nat) (w : World F)
    (as : address_space_t)
    (has : current_process w.kernel = true →
      (w.kernel.process_pool (w.kernel.thread_pool w.kernel.current_tid).pid).as = some as) :
    ∃ r w', do_exec env path len w = some (r, w') ∧ (r = 0 ∨ r = -1) ∧
      (r = -1 → w'.kernel = w.kernel ∧
        (w'.kernel.process_pool (w.kernel.thread_pool w.kernel.current_tid).pid).as
          = (w.kernel.process_pool (w.kernel.thread_pool w.kernel.current_tid).pid).as ∧
        (w'.kernel.thread_pool w.kernel.current_tid).ctx
          = (w.kernel.thread_pool w.kernel.current_tid).ctx ∧
        (w'.kernel.process_pool (w.kernel.thread_pool w.kernel.current_tid).pid).signal
          = (w.kernel.process_pool (w.kernel.thread_pool w.kernel.current_tid).pid).signal) ∧
      (r = 0 →
        current_process w.kernel = true ∧
        as_translate w.machine as path (PTE_R ||| PTE_V) ≠ 0 ∧
        ∃ fh s1 d s2 new_as m3,
          env.file_open
              (exec_name w.machine (as_translate w.machine as path (PTE_R ||| PTE_V)) len)
              (w.machine, w.fs) = (some fh, s1) ∧
          env.read_all_file fh s1 = (some d, s2) ∧
          as_create (env.file_close fh s2).1 = (some new_as, m3) ∧
          (elf_load (map_kernel_to_user env m3 new_as) new_as d.1 d.2).1 ≠ 0 ∧
          w'.kernel = exec_commit w.kernel new_as
            (elf_load (map_kernel_to_user env m3 new_as) new_as d.1 d.2).1) ∧
      ((current_process w.kernel = true ∧
        as_translate w.machine as path (PTE_R ||| PTE_V) ≠ 0 ∧
        ∃ fh s1 d s2 new_as m3,
          env.file_open
              (exec_name w.machine (as_translate w.machine as path (PTE_R ||| PTE_V)) len)
              (w.machine, w.fs) = (some fh, s1) ∧
          env.read_all_file fh s1 = (some d, s2) ∧
          as_create (env.file_close fh s2).1 = (some new_as, m3) ∧
          (elf_load (map_kernel_to_user env m3 new_as) new_as d.1 d.2).1 ≠ 0) → r = 0) := by
  unfold do_exec
  by_cases hc : current_process w.kernel = true
  · have hn : ¬ ((!current_process w.kernel) = true) := by
      rw [hc]
      decide
    rw [if_neg hn, has hc, Option.map_some']
    obtain ⟨a, b, c1, c2⟩ :=
      exec_path_spec env w (as_translate w.machine as path (PTE_R ||| PTE_V)) len
    refine ⟨(exec_path env w (as_translate w.machine as path (PTE_R ||| PTE_V)) len).1,
      (exec_path env w (as_translate w.machine as path (PTE_R ||| PTE_V)) len).2, rfl, a,
      fun h => ?_, fun h => ⟨hc, c1 h⟩, fun h => c2 h.2⟩
    rw [b h]
    exact ⟨rfl, has hc, rfl, rfl⟩
  · have hn : (!current_process w.kernel) = true := by
      cases h : current_process w.kernel
      · rfl
      · exact absurd h hc
    rw [if_pos hn]
    exact ⟨-1, w, rfl, Or.inr rfl, fun _ => ⟨rfl, rfl, rfl, rfl⟩, fun h => (by cases h),
      fun h => absurd h.1 hc⟩

set_option maxRecDepth 100000 in
/-- C13, at an `exec` on a file system that holds no file (`file_open`
returns `NULL` for every name): `do_exec` returns `-1` with the pools
unchanged. -/
theorem C13_exec_failure_atomic_witness :
    ∃ r w', do_exec demo_env 0x5000 4 demo_world = some (r, w') ∧ r = -1 ∧
      w'.kernel = demo_world.kernel :=
  have h := C13_exec_failure_atomic demo_env 0x5000 4 demo_world demo_as (fun _ => rfl)
  match h with
  | ⟨r, w', h1, h2, h3, h4, _⟩ =>
    have hr : r = -1 := h2.elim
      (fun h0 => absurd (h4 h0).2.2 (fun ⟨_, _, _, _, _, _, e, _⟩ => by cases e)) id
    ⟨r, w', h1, hr, (h3 hr).1⟩

end Ch8

end Ucore

namespace Ucore

/-! ## Wait queues -/

theorem wq_push_full (wq : wait_queue_t) (t : Nat) (h : WAIT_QUEUE_SIZE ≤ wq.count) :
    wq_push wq t = (false, wq) := by
  unfold wq_push
  rw [if_pos h]

theorem wq_list_push (wq : wait_queue_t) (t : Nat) (hok : WqOk wq)
    (hroom : wq.count < WAIT_QUEUE_SIZE) :
    (wq_push wq t).1 = true ∧ wq_list (wq_push wq t).2 = wq_list wq ++ [t] ∧
    WqOk (wq_push wq t).2 ∧ (wq_push wq t).2.count = wq.count + 1 := by
  obtain ⟨hh, ht, hc⟩ := hok
  unfold wq_push
  rw [if_neg (Nat.not_le.mpr hroom)]
  unfold WAIT_QUEUE_SIZE at *
  refine ⟨rfl, ?_, ⟨hh, ?_, ?_⟩, rfl⟩
  · unfold wq_list WAIT_QUEUE_SIZE
    simp only
    rw [List.range_succ, List.map_append, List.map_singleton]
    congr 1
    · apply List.map_congr_left
      intro i hi
      rw [List.mem_range] at hi
      apply Function.update_noteq
      rw [ht]
      omega
    · rw [ht, Function.update_same]
  · show (wq.tail + 1) % 16 = (wq.head + (wq.count + 1)) % 16
    rw [ht]
    omega
  · show wq.count + 1 ≤ 16
    omega

theorem wq_pop_empty (wq : wait_queue_t) (h : wq.count = 0) :
    wq_pop wq = (TID_INVALID, wq) ∧ wq_list wq = [] := by
  unfold wq_pop wq_list
  rw [if_pos h, h]
  exact ⟨rfl, rfl⟩

theorem wq_list_pop (wq : wait_queue_t) (hok : WqOk wq) (h : wq.count ≠ 0) :
    wq_list wq = (wq_pop wq).1 :: wq_list (wq_pop wq).2 ∧ WqOk (wq_pop wq).2 ∧
    (wq_pop wq).2.count = wq.count - 1 := by
  obtain ⟨hh, ht, hc⟩ := hok
  unfold wq_pop
  rw [if_neg h]
  unfold WAIT_QUEUE_SIZE at *
  refine ⟨?_, ⟨?_, ?_, ?_⟩, rfl⟩
  · unfold wq_list WAIT_QUEUE_SIZE
    simp only
    obtain ⟨n, hn⟩ : ∃ n, wq.count = n + 1 := ⟨wq.count - 1, by omega⟩
    rw [hn, List.range_succ_eq_map, List.map_cons, List.map_map, Nat.add_sub_cancel]
    congr 1
    · rw [Nat.add_zero, Nat.mod_eq_of_lt hh]
    · apply List.map_congr_left
      intro i _
      simp only [Function.comp]
      congr 1
      omega
  · show (wq.head + 1) % 16 < 16
    omega
  · show wq.tail = ((wq.head + 1) % 16 + (wq.count - 1)) % 16
    rw [ht]
    omega
  · show wq.count - 1 ≤ 16
    omega

theorem wq_list_nil_iff (wq : wait_queue_t) : wq_list wq = [] ↔ wq.count = 0 := by
  unfold wq_list
  rw [List.map_eq_nil_iff, List.range_eq_nil]

theorem wq_init_ok (wq : wait_queue_t) : WqOk (wq_init wq) ∧ wq_list (wq_init wq) = [] :=
  ⟨⟨Nat.succ_pos 15, rfl, Nat.zero_le 16⟩, rfl⟩

/-- What `wq_pop` does on a ring with the ids `w :: l`. -/
theorem wq_pop_cons (wq : wait_queue_t) (hok : WqOk wq) (w : Nat) (l : List Nat)
    (hl : wq_list wq = w :: l) :
    (wq_pop wq).1 = w ∧ wq_list (wq_pop wq).2 = l ∧ WqOk (wq_pop wq).2 ∧
    (wq_pop wq).2.count = wq.count - 1 ∧ wq.count ≠ 0 := by
  have hc : wq.count ≠ 0 := by
    intro h0
    rw [(wq_list_nil_iff wq).mpr h0] at hl
    cases hl
  obtain ⟨h1, h2, h3⟩ := wq_list_pop wq hok hc
  rw [hl] at h1
  injection h1 with ha hb
  exact ⟨ha.symm, hb.symm, h2, h3, hc⟩

theorem wrap_i32_of_int (v : Int) (h1 : -(2 ^ 31) ≤ v) (h2 : v < 2 ^ 31) : wrap_i32 v = v := by
  unfold wrap_i32
  split_ifs with h <;> omega

/-! ## Semaphore, mutex, condition variable -/

/-- C21: for a semaphore whose wait queue is a well-formed ring with fewer
than 16 waiters and whose count `c` is an `int`: when `c - 1` is an `int`,
`sem_down` sets the count to `c - 1` and returns true with the wait queue
unchanged if `c - 1 ≥ 0`, and returns false with `t` appended at the tail
otherwise; when `c + 1` is an `int`, `sem_up` sets the count to `c + 1` and
returns the head waiter, removing it, or `TID_INVALID` with the queue
unchanged when no waiter is queued.  (The decrement of `INT_MIN` and the
increment of `INT_MAX` overflow `int`.) -/
theorem C21_semaphore_down_up (sem : semaphore_t) (t : Nat)
    (hok : WqOk sem.wait_queue) (hroom : sem.wait_queue.count < WAIT_QUEUE_SIZE)
    (hlo : -(2 ^ 31) ≤ sem.count) (hhi : sem.count < 2 ^ 31) :
    (-(2 ^ 31) < sem.count →
      (sem_down sem t).2.count = sem.count - 1 ∧
      (0 ≤ sem.count - 1 →
        (sem_down sem t).1 = true ∧ (sem_down sem t).2.wait_queue = sem.wait_queue) ∧
      (sem.count - 1 < 0 →
        (sem_down sem t).1 = false ∧
        wq_list (sem_down sem t).2.wait_queue = wq_list sem.wait_queue ++ [t])) ∧
    (sem.count < 2 ^ 31 - 1 →
      (sem_up sem).2.count = sem.count + 1 ∧
      (∀ w l, wq_list sem.wait_queue = w :: l →
        (sem_up sem).1 = w ∧ wq_list (sem_up sem).2.wait_queue = l) ∧
      (wq_list sem.wait_queue = [] →
        (sem_up sem).1 = TID_INVALID ∧ (sem_up sem).2.wait_queue = sem.wait_queue)) := by
  refine ⟨fun hmin => ?_, fun hmax => ?_⟩
  · have hw : wrap_i32 (sem.count - 1) = sem.count - 1 :=
      wrap_i32_of_int _ (by omega) (by omega)
    unfold sem_down
    rw [hw]
    by_cases hneg : sem.count - 1 < 0
    · rw [if_pos hneg]
      exact ⟨rfl, fun h => absurd hneg (by omega),
        fun _ => ⟨rfl, (wq_list_push sem.wait_queue t hok hroom).2.1⟩⟩
    · rw [if_neg hneg]
      exact ⟨rfl, fun _ => ⟨rfl, rfl⟩, fun h => absurd h hneg⟩
  · have hw : wrap_i32 (sem.count + 1) = sem.count + 1 :=
      wrap_i32_of_int _ (by omega) (by omega)
    unfold sem_up
    rw [hw]
    refine ⟨rfl, fun w l hl => ?_, fun hl => ?_⟩
    · obtain ⟨h1, h2, _⟩ := wq_pop_cons sem.wait_queue hok w l hl
      exact ⟨h1, h2⟩
    · obtain ⟨h1, _⟩ := wq_pop_empty sem.wait_queue ((wq_list_nil_iff _).mp hl)
      rw [h1]
      exact ⟨rfl, rfl⟩

theorem mutex_init_ok (m : mutex_t) : MutexOk (mutex_init m) :=
  ⟨(wq_init_ok m.wait_queue).1,
    fun t ht => (by
      rw [show wq_list (mutex_init m).wait_queue = [] from rfl] at ht
      cases ht),
    fun h => absurd rfl h⟩

theorem mutex_lock_ok (m : mutex_t) (t : Nat) (hok : MutexOk m)
    (hroom : m.wait_queue.count < WAIT_QUEUE_SIZE) (ht : t ≠ TID_INVALID) :
    MutexOk (mutex_lock m t).2 := by
  unfold mutex_lock
  by_cases hl : m.locked = true
  · rw [if_pos hl]
    obtain ⟨_, h2, h3, _⟩ := wq_list_push m.wait_queue t hok.wq hroom
    refine ⟨h3, fun x hx => ?_, fun _ => hl⟩
    rw [show wq_list (mutex_t.mk m.locked (wq_push m.wait_queue t).2).wait_queue
      = wq_list m.wait_queue ++ [t] from h2] at hx
    rcases List.mem_append.mp hx with hx | hx
    · exact hok.ids x hx
    · rw [List.mem_singleton] at hx
      rw [hx]
      exact ht
  · rw [if_neg hl]
    exact ⟨hok.wq, hok.ids, fun _ => rfl⟩

theorem mutex_unlock_ok (m : mutex_t) (hok : MutexOk m) : MutexOk (mutex_unlock m).2 := by
  unfold mutex_unlock
  by_cases hc : m.wait_queue.count = 0
  · obtain ⟨h1, h2⟩ := wq_pop_empty m.wait_queue hc
    simp only [h1, if_true]
    exact ⟨hok.wq, hok.ids, fun h => absurd hc h⟩
  · obtain ⟨h1, h2, h3⟩ := wq_list_pop m.wait_queue hok.wq hc
    have hmem : ∀ x ∈ wq_list (wq_pop m.wait_queue).2, x ≠ TID_INVALID := by
      intro x hx
      apply hok.ids
      rw [h1]
      exact List.mem_cons_of_mem _ hx
    have hne : (wq_pop m.wait_queue).1 ≠ TID_INVALID := by
      apply hok.ids
      rw [h1]
      exact List.mem_cons_self _ _
    simp only [if_neg hne]
    exact ⟨h2, hmem, fun _ => hok.held hc⟩

/-- C22: for a mutex in a state that `mutex_init`, `mutex_lock` and
`mutex_unlock` keep (its wait queue is a ring of thread ids, and a mutex with
a waiter is locked), with fewer than 16 waiters: `mutex_lock` on an unlocked
mutex sets the flag, returns true and leaves the wait queue unchanged; on a
locked mutex it returns false, appends `t` at the tail and leaves the flag
set; `mutex_unlock` with a waiter returns the head waiter, removes it and
leaves the flag set; with no waiter it clears the flag and returns
`TID_INVALID`.  The three functions keep the state well-formed. -/
theorem C22_mutex_lock_unlock (m : mutex_t) (t : Nat) (hok : MutexOk m)
    (hroom : m.wait_queue.count < WAIT_QUEUE_SIZE) :
    (m.locked = false →
      (mutex_lock m t).1 = true ∧ (mutex_lock m t).2.locked = true ∧
      (mutex_lock m t).2.wait_queue = m.wait_queue) ∧
    (m.locked = true →
      (mutex_lock m t).1 = false ∧ (mutex_lock m t).2.locked = true ∧
      wq_list (mutex_lock m t).2.wait_queue = wq_list m.wait_queue ++ [t]) ∧
    (∀ w l, wq_list m.wait_queue = w :: l →
      (mutex_unlock m).1 = w ∧ wq_list (mutex_unlock m).2.wait_queue = l ∧
      (mutex_unlock m).2.locked = true) ∧
    (wq_list m.wait_queue = [] →
      (mutex_unlock m).1 = TID_INVALID ∧ (mutex_unlock m).2.locked = false ∧
      (mutex_unlock m).2.wait_queue = m.wait_queue) ∧
    (t ≠ TID_INVALID → MutexOk (mutex_lock m t).2) ∧
    MutexOk (mutex_unlock m).2 ∧ MutexOk (mutex_init m) := by
  refine ⟨fun hl => ?_, fun hl => ?_, fun w l hwl => ?_, fun hnil => ?_,
    fun ht => mutex_lock_ok m t hok hroom ht, mutex_unlock_ok m hok, mutex_init_ok m⟩
  · unfold mutex_lock
    rw [if_neg (by rw [hl]; exact Bool.false_ne_true)]
    exact ⟨rfl, rfl, rfl⟩
  · unfold mutex_lock
    rw [if_pos hl]
    exact ⟨rfl, hl, (wq_list_push m.wait_queue t hok.wq hroom).2.1⟩
  · obtain ⟨h1, h2, _, _, hc⟩ := wq_pop_cons m.wait_queue hok.wq w l hwl
    have hne : (wq_pop m.wait_queue).1 ≠ TID_INVALID := by
      rw [h1]
      apply hok.ids
      rw [hwl]
      exact List.mem_cons_self _ _
    unfold mutex_unlock
    simp only [if_neg hne]
    exact ⟨h1, h2, hok.held hc⟩
  · obtain ⟨h1, _⟩ := wq_pop_empty m.wait_queue ((wq_list_nil_iff _).mp hnil)
    unfold mutex_unlock
    simp only [h1, if_true]
    exact ⟨trivial, trivial, trivial⟩

/-- C23: for a condition variable `cv`, a mutex `m` in a well-formed state
(see C22) and a thread id `t`: `condvar_wait_with_mutex` returns as
`waking_tid` what `mutex_unlock(m)` returns on the initial state;
`need_block` is true exactly when a waiter was woken, and then the wait
queue of `m` is its initial queue without the woken head and with `t`
appended; `m` is locked afterwards in every case, and the wait queue of `cv`
is unchanged. -/
theorem C23_condvar_wait_with_mutex (cv : condvar_t) (m : mutex_t) (t : Nat)
    (hok : MutexOk m) :
    (condvar_wait_with_mutex cv m t).1.waking_tid = (mutex_unlock m).1 ∧
    ((condvar_wait_with_mutex cv m t).1.need_block = true ↔
      (condvar_wait_with_mutex cv m t).1.waking_tid ≠ TID_INVALID) ∧
    ((condvar_wait_with_mutex cv m t).1.need_block = true →
      wq_list (condvar_wait_with_mutex cv m t).2.2.wait_queue
        = (wq_list m.wait_queue).tail ++ [t]) ∧
    ((condvar_wait_with_mutex cv m t).1.need_block = false →
      wq_list (condvar_wait_with_mutex cv m t).2.2.wait_queue = []) ∧
    (condvar_wait_with_mutex cv m t).2.2.locked = true ∧
    (condvar_wait_with_mutex cv m t).2.1.wait_queue = cv.wait_queue := by
  unfold condvar_wait_with_mutex
  refine ⟨rfl, ?_, ?_, ?_, ?_, rfl⟩
  all_goals
    by_cases hc : m.wait_queue.count = 0
    · obtain ⟨h1, h2⟩ := wq_pop_empty m.wait_queue hc
      have hu : mutex_unlock m = (TID_INVALID, ⟨false, m.wait_queue⟩) := by
        unfold mutex_unlock
        simp only [h1, if_true]
      rw [hu]
      simp [mutex_lock, h2]
    · obtain ⟨h1, h2, h3⟩ := wq_list_pop m.wait_queue hok.wq hc
      have hne : (wq_pop m.wait_queue).1 ≠ TID_INVALID := by
        apply hok.ids
        rw [h1]
        exact List.mem_cons_self _ _
      have hu : mutex_unlock m = ((wq_pop m.wait_queue).1, ⟨m.locked, (wq_pop m.wait_queue).2⟩) := by
        unfold mutex_unlock
        simp only [if_neg hne]
      have hl := hok.held hc
      have hroom : (wq_pop m.wait_queue).2.count < WAIT_QUEUE_SIZE := by
        have := hok.wq.count
        omega
      obtain ⟨_, p2, _, _⟩ := wq_list_push (wq_pop m.wait_queue).2 t h2 hroom
      rw [hu]
      simp [mutex_lock, hl, hne, p2, h1]

/-- C21 at a semaphore with count 0 and no waiter, for thread 5: `sem_down`
blocks the thread, and `sem_up` on a semaphore with count -1 and the waiter
`7` returns `7`. -/
theorem C21_semaphore_down_up_witness :
    (sem_down ⟨0, wq_init demo_full_wq⟩ 5).1 = false ∧
    (sem_down ⟨0, wq_init demo_full_wq⟩ 5).2.count = -1 ∧
    wq_list (sem_down ⟨0, wq_init demo_full_wq⟩ 5).2.wait_queue = [5] ∧
    (sem_up ⟨0, wq_init demo_full_wq⟩).2.count = 1 ∧
    (sem_up ⟨0, wq_init demo_full_wq⟩).1 = TID_INVALID :=
  have h := C21_semaphore_down_up ⟨0, wq_init demo_full_wq⟩ 5 (wq_init_ok demo_full_wq).1
    (by decide) (by decide) (by decide)
  have hd := h.1 (by decide)
  have hu := h.2 (by decide)
  ⟨(hd.2.2 (by decide)).1, hd.1, (hd.2.2 (by decide)).2, hu.1, (hu.2.2 rfl).1⟩

theorem demo_held_mutex_ok : MutexOk demo_held_mutex :=
  ⟨⟨by decide, by decide, by decide⟩, by decide, fun _ => rfl⟩

/-- C22 at a locked mutex with the waiters `7, 8`, for thread 9. -/
theorem C22_mutex_lock_unlock_witness :
    (mutex_lock demo_held_mutex 9).1 = false ∧
    wq_list (mutex_lock demo_held_mutex 9).2.wait_queue = [7, 8, 9] ∧
    (mutex_unlock demo_held_mutex).1 = 7 ∧
    wq_list (mutex_unlock demo_held_mutex).2.wait_queue = [8] ∧
    (mutex_unlock demo_held_mutex).2.locked = true :=
  have h := C22_mutex_lock_unlock demo_held_mutex 9 demo_held_mutex_ok (by decide)
  ⟨(h.2.1 rfl).1, (h.2.1 rfl).2.2, (h.2.2.1 7 [8] (by decide)).1,
    (h.2.2.1 7 [8] (by decide)).2.1, (h.2.2.1 7 [8] (by decide)).2.2⟩

/-- C23 at a locked mutex with the waiters `7, 8`, for thread 9: thread 7 is
woken and thread 9 must block behind thread 8. -/
theorem C23_condvar_wait_with_mutex_witness :
    (condvar_wait_with_mutex ⟨demo_full_wq⟩ demo_held_mutex 9).1.waking_tid = 7 ∧
    (condvar_wait_with_mutex ⟨demo_full_wq⟩ demo_held_mutex 9).1.need_block = true ∧
    wq_list (condvar_wait_with_mutex ⟨demo_full_wq⟩ demo_held_mutex 9).2.2.wait_queue = [8, 9] ∧
    (condvar_wait_with_mutex ⟨demo_full_wq⟩ demo_held_mutex 9).2.2.locked = true :=
  have h := C23_condvar_wait_with_mutex ⟨demo_full_wq⟩ demo_held_mutex 9 demo_held_mutex_ok
  have hw : (condvar_wait_with_mutex ⟨demo_full_wq⟩ demo_held_mutex 9).1.waking_tid = 7 := by
    rw [h.1]
    decide
  have hb := h.2.1.mpr (by rw [hw]; decide)
  ⟨hw, hb, h.2.2.1 hb, h.2.2.2.2.1⟩

end Ucore

namespace Ucore

theorem wq_list_length (wq : wait_queue_t) : (wq_list wq).length = wq.count := by
  unfold wq_list
  rw [List.length_map, List.length_range]

/-- The wait queue behaves as the queue of the specification. -/
theorem wq_pops_fifo (ops : List queue_op) :
    ∀ wq : wait_queue_t, WqOk wq →
      wq_pops wq ops = fifo_pops WAIT_QUEUE_SIZE (wq_list wq) ops := by
  induction ops with
  | nil =>
    intro wq _
    rfl
  | cons op ops ih =>
    intro wq hok
    cases op with
    | push t =>
      show wq_pops (wq_push wq t).2 ops
        = fifo_pops WAIT_QUEUE_SIZE
            (if (wq_list wq).length < WAIT_QUEUE_SIZE then wq_list wq ++ [t] else wq_list wq) ops
      rw [wq_list_length]
      by_cases hroom : wq.count < WAIT_QUEUE_SIZE
      · obtain ⟨_, h2, h3, _⟩ := wq_list_push wq t hok hroom
        rw [if_pos hroom, ih _ h3, h2]
      · rw [if_neg hroom, wq_push_full wq t (Nat.not_lt.mp hroom)]
        exact ih wq hok
    | pop =>
      show (wq_pop wq).1 :: wq_pops (wq_pop wq).2 ops
        = (wq_list wq).headD TID_INVALID :: fifo_pops WAIT_QUEUE_SIZE (wq_list wq).tail ops
      by_cases hc : wq.count = 0
      · obtain ⟨h1, h2⟩ := wq_pop_empty wq hc
        rw [h1, h2]
        show TID_INVALID :: wq_pops wq ops = TID_INVALID :: fifo_pops WAIT_QUEUE_SIZE [] ops
        rw [ih wq hok, h2]
      · obtain ⟨h1, h2, _⟩ := wq_list_pop wq hok hc
        rw [h1, ih _ h2]
        rfl

namespace Ch8

theorem ready_dequeue_empty (k : Kernel) (h : k.ready_count = 0) :
    ready_dequeue k = (TID_INVALID, k) ∧ ready_list k = [] := by
  unfold ready_dequeue ready_list
  rw [if_pos h, h]
  exact ⟨rfl, rfl⟩

theorem ready_enqueue_full (k : Kernel) (t : Nat) (h : ¬ k.ready_count < READY_QUEUE_SIZE) :
    ready_enqueue k t = k := by
  unfold ready_enqueue
  rw [if_neg h]

/-- The ready queue behaves as the queue of the specification. -/
theorem ready_pops_fifo (ops : List queue_op) :
    ∀ k : Kernel, k.ready_head < READY_QUEUE_SIZE →
      k.ready_tail = (k.ready_head + k.ready_count) % READY_QUEUE_SIZE →
      ready_pops k ops = fifo_pops READY_QUEUE_SIZE (ready_list k) ops := by
  induction ops with
  | nil =>
    intro k _ _
    rfl
  | cons op ops ih =>
    intro k hh ht
    cases op with
    | push t =>
      show ready_pops (ready_enqueue k t) ops
        = fifo_pops READY_QUEUE_SIZE
            (if (ready_list k).length < READY_QUEUE_SIZE then ready_list k ++ [t]
              else ready_list k) ops
      rw [ready_list_length]
      by_cases hroom : k.ready_count < READY_QUEUE_SIZE
      · obtain ⟨h1, h2, _, h4⟩ := ready_list_enqueue k t hroom ht
        rw [if_pos hroom, ih _ (by rw [h2]; exact hh) h4, h1]
      · rw [if_neg hroom, ready_enqueue_full k t hroom]
        exact ih k hh ht
    | pop =>
      show (ready_dequeue k).1 :: ready_pops (ready_dequeue k).2 ops
        = (ready_list k).headD TID_INVALID :: fifo_pops READY_QUEUE_SIZE (ready_list k).tail ops
      by_cases hc : k.ready_count = 0
      · obtain ⟨h1, h2⟩ := ready_dequeue_empty k hc
        rw [h1, h2]
        show TID_INVALID :: ready_pops k ops = TID_INVALID :: fifo_pops READY_QUEUE_SIZE [] ops
        rw [ih k hh ht, h2]
      · obtain ⟨h1, h2, _, h4⟩ := ready_list_dequeue k hc hh ht
        rw [h1, ih _ h2 h4]
        rfl

/-- C24: a wait queue and the ready queue whose state is a well-formed ring
behave, for every sequence of pushes and pops, as the queue of the
specification of capacity 16, respectively 64 (a list, oldest first: a pop
returns the oldest id not yet returned, or `TID_INVALID` when none is held);
when the ids held are thread ids, a pop returns `TID_INVALID` exactly when
the queue is empty; `wq_push` on a wait queue that holds 16 ids returns
false and leaves the queue unchanged, and returns true otherwise. -/
theorem C24_queues_fifo (wq : wait_queue_t) (k : Kernel) (ops : List queue_op) (t : Nat)
    (hwq : WqOk wq) (hhead : k.ready_head < READY_QUEUE_SIZE)
    (htail : k.ready_tail = (k.ready_head + k.ready_count) % READY_QUEUE_SIZE) :
    wq_pops wq ops = fifo_pops WAIT_QUEUE_SIZE (wq_list wq) ops ∧
    ready_pops k ops = fifo_pops READY_QUEUE_SIZE (ready_list k) ops ∧
    ((∀ x ∈ wq_list wq, x ≠ TID_INVALID) →
      ((wq_pop wq).1 = TID_INVALID ↔ wq_list wq = [])) ∧
    ((∀ x ∈ ready_list k, x ≠ TID_INVALID) →
      ((ready_dequeue k).1 = TID_INVALID ↔ ready_list k = [])) ∧
    ((wq_list wq).length = WAIT_QUEUE_SIZE → wq_push wq t = (false, wq)) ∧
    ((wq_list wq).length < WAIT_QUEUE_SIZE → (wq_push wq t).1 = true) := by
  refine ⟨wq_pops_fifo ops wq hwq, ready_pops_fifo ops k hhead htail, fun hid => ?_,
    fun hid => ?_, fun hfull => ?_, fun hroom => ?_⟩
  · by_cases hc : wq.count = 0
    · obtain ⟨h1, h2⟩ := wq_pop_empty wq hc
      rw [h1, h2]
      exact ⟨fun _ => rfl, fun _ => rfl⟩
    · obtain ⟨h1, _, _⟩ := wq_list_pop wq hwq hc
      have hne : (wq_pop wq).1 ≠ TID_INVALID := by
        apply hid
        rw [h1]
        exact List.mem_cons_self _ _
      refine ⟨fun h => absurd h hne, fun h => ?_⟩
      rw [h1] at h
      cases h
  · by_cases hc : k.ready_count = 0
    · obtain ⟨h1, h2⟩ := ready_dequeue_empty k hc
      rw [h1, h2]
      exact ⟨fun _ => rfl, fun _ => rfl⟩
    · obtain ⟨h1, _, _, _⟩ := ready_list_dequeue k hc hhead htail
      have hne : (ready_dequeue k).1 ≠ TID_INVALID := by
        apply hid
        rw [h1]
        exact List.mem_cons_self _ _
      refine ⟨fun h => absurd h hne, fun h => ?_⟩
      rw [h1] at h
      cases h
  · rw [wq_list_length] at hfull
    exact wq_push_full wq t (Nat.le_of_eq hfull.symm)
  · rw [wq_list_length] at hroom
    exact (wq_list_push wq t hwq hroom).1

/-- C24 at a full wait queue with the ids `0, …, 15` and at a ready queue
with the ids `0, 1`: the push on the full wait queue is refused, and the ids
come out in the order in which they went in. -/
theorem C24_queues_fifo_witness :
    wq_pops demo_full_wq [queue_op.push 99, queue_op.pop, queue_op.pop, queue_op.push 99,
      queue_op.pop] = [0, 1, 2] ∧
    ready_pops demo_mutex_kernel [queue_op.push 5, queue_op.pop, queue_op.pop, queue_op.pop,
      queue_op.pop] = [0, 1, 5, TID_INVALID] ∧
    wq_push demo_full_wq 99 = (false, demo_full_wq) :=
  have h := C24_queues_fifo demo_full_wq demo_mutex_kernel
    [queue_op.push 5, queue_op.pop, queue_op.pop, queue_op.pop, queue_op.pop] 99
    ⟨by decide, by decide, by decide⟩ (by decide) (by decide)
  ⟨(wq_pops_fifo _ demo_full_wq ⟨by decide, by decide, by decide⟩).trans (by decide),
    h.2.1.trans (by decide), h.2.2.2.2.1 (by decide)⟩

end Ch8

end Ucore

namespace Ucore

/-- One round of the loop of `pm_exit_current` that hands the children
over. -/
theorem adopt_step (pid fuel i : Nat) (pm : proc_manager_t)
    (hi : i < (pm.relations pid).children.length)
    (hchild : (pm.relations pid).children.getD i 0 < MAX_PROCS)
    (hroom : (pm.relations 0).children.length < MAX_CHILDREN) :
    ∃ pm1, adopt_loop pid (fuel + 1) i pm = adopt_loop pid fuel (i + 1) pm1 ∧
      (∀ q, (pm1.relations q).dead_children = (pm.relations q).dead_children) ∧
      (∀ q, (pm1.relations q).parent
        = if q = (pm.relations pid).children.getD i 0 then 0 else (pm.relations q).parent) ∧
      (∀ q, (pm1.relations q).children
        = if q = 0 then (pm.relations 0).children ++ [(pm.relations pid).children.getD i 0]
          else (pm.relations q).children) := by
  have hlen : ((Function.update pm.relations ((pm.relations pid).children.getD i 0)
      ⟨0, (pm.relations ((pm.relations pid).children.getD i 0)).children,
        (pm.relations ((pm.relations pid).children.getD i 0)).dead_children⟩) 0).children.length
      < MAX_CHILDREN := by
    by_cases h0 : (0 : Nat) = (pm.relations pid).children.getD i 0
    · rw [← h0, Function.update_same]
      exact hroom
    · rw [Function.update_noteq h0]
      exact hroom
  refine ⟨{ pm with relations :=
      (Function.update
        (Function.update pm.relations ((pm.relations pid).children.getD i 0)
          ⟨0, (pm.relations ((pm.relations pid).children.getD i 0)).children,
            (pm.relations ((pm.relations pid).children.getD i 0)).dead_children⟩) 0
        ⟨((Function.update pm.relations ((pm.relations pid).children.getD i 0)
            ⟨0, (pm.relations ((pm.relations pid).children.getD i 0)).children,
              (pm.relations ((pm.relations pid).children.getD i 0)).dead_children⟩) 0).parent,
          ((Function.update pm.relations ((pm.relations pid).children.getD i 0)
            ⟨0, (pm.relations ((pm.relations pid).children.getD i 0)).children,
              (pm.relations ((pm.relations pid).children.getD i 0)).dead_children⟩) 0).children
            ++ [(pm.relations pid).children.getD i 0],
          ((Function.update pm.relations ((pm.relations pid).children.getD i 0)
            ⟨0, (pm.relations ((pm.relations pid).children.getD i 0)).children,
              (pm.relations ((pm.relations pid).children.getD i 0)).dead_children⟩)
                0).dead_children⟩) },
    ?_, ?_, ?_, ?_⟩
  · rw [adopt_loop]
    simp only [hi, if_true, hchild, hlen]
  · intro q
    by_cases hq0 : q = 0
    · subst hq0
      simp only [Function.update_same]
      by_cases h0 : (0 : Nat) = (pm.relations pid).children.getD i 0
      · rw [← h0, Function.update_same]
      · rw [Function.update_noteq h0]
    · simp only [Function.update_noteq hq0]
      by_cases hq : q = (pm.relations pid).children.getD i 0
      · rw [← hq, Function.update_same]
      · rw [Function.update_noteq hq]
  · intro q
    by_cases hq0 : q = 0
    · subst hq0
      simp only [Function.update_same]
      by_cases h0 : (0 : Nat) = (pm.relations pid).children.getD i 0
      · rw [← h0, Function.update_same, if_pos rfl]
      · rw [Function.update_noteq h0, if_neg h0]
    · simp only [Function.update_noteq hq0]
      by_cases hq : q = (pm.relations pid).children.getD i 0
      · rw [← hq, Function.update_same, if_pos rfl]
      · rw [Function.update_noteq hq, if_neg hq]
  · intro q
    by_cases hq0 : q = 0
    · subst hq0
      simp only [Function.update_same, if_true]
      by_cases h0 : (0 : Nat) = (pm.relations pid).children.getD i 0
      · rw [← h0, Function.update_same]
      · rw [Function.update_noteq h0]
    · simp only [Function.update_noteq hq0, if_neg hq0]
      by_cases hq : q = (pm.relations pid).children.getD i 0
      · rw [← hq, Function.update_same]
      · rw [Function.update_noteq hq]

/-- The loop of `pm_exit_current` that hands the children `cs` of `pid` over
to process 0, when the children list of process 0 has room for them. -/
theorem adopt_loop_spec (pid : Nat) (hpid : pid ≠ 0) (cs : List Nat)
    (hcs : ∀ c ∈ cs, c < MAX_PROCS) :
    ∀ (fuel i : Nat) (pm : proc_manager_t), (pm.relations pid).children = cs →
      cs.length ≤ i + fuel →
      (pm.relations 0).children.length + (cs.length - i) ≤ MAX_CHILDREN →
      ((adopt_loop pid fuel i pm).relations 0).children
        = (pm.relations 0).children ++ cs.drop i ∧
      (∀ q, ((adopt_loop pid fuel i pm).relations q).dead_children
        = (pm.relations q).dead_children) ∧
      (∀ q, ((adopt_loop pid fuel i pm).relations q).parent
        = if q ∈ cs.drop i then 0 else (pm.relations q).parent) := by
  intro fuel
  induction fuel with
  | zero =>
    intro i pm _ hlen _
    have hd : cs.drop i = [] := List.drop_eq_nil_of_le (by omega)
    rw [hd]
    exact ⟨by rw [adopt_loop, List.append_nil], fun _ => rfl, fun q => by simp [adopt_loop]⟩
  | succ fuel ih =>
    intro i pm hch hlen hroom
    by_cases hi : i < cs.length
    · have hget : cs.getD i 0 = cs[i] := by
        rw [List.getD_eq_getElem?_getD, List.getElem?_eq_getElem hi]
        rfl
      have hdrop : cs.drop i = cs[i] :: cs.drop (i + 1) := List.drop_eq_getElem_cons hi
      obtain ⟨pm1, hstep, hdead, hpar, hchl⟩ := adopt_step pid fuel i pm (by rw [hch]; exact hi)
        (by rw [hch, hget]; exact hcs _ (List.getElem_mem hi))
        (by omega)
      rw [hch, hget] at hpar hchl
      have hch1 : (pm1.relations pid).children = cs := by
        rw [hchl pid, if_neg hpid, hch]
      have hlen0 : (pm1.relations 0).children.length = (pm.relations 0).children.length + 1 := by
        rw [hchl 0, if_pos rfl, List.length_append, List.length_singleton]
      obtain ⟨a1, a2, a3⟩ := ih (i + 1) pm1 hch1 (by omega) (by omega)
      rw [hstep]
      refine ⟨?_, fun q => ?_, fun q => ?_⟩
      · rw [a1, hchl 0, if_pos rfl, hdrop, List.append_assoc, List.singleton_append]
      · rw [a2 q, hdead q]
      · rw [a3 q, hpar q, hdrop]
        by_cases h1 : q ∈ cs.drop (i + 1)
        · rw [if_pos h1, if_pos (List.mem_cons_of_mem _ h1)]
        · rw [if_neg h1]
          by_cases h2 : q = cs[i]
          · rw [if_pos h2, if_pos (List.mem_cons.mpr (Or.inl h2))]
          · rw [if_neg h2, if_neg (fun h => (List.mem_cons.mp h).elim h2 h1)]
    · have hd : cs.drop i = [] := List.drop_eq_nil_of_le (by omega)
      have he : adopt_loop pid (fuel + 1) i pm = pm := by
        rw [adopt_loop, hch, if_neg hi]
      rw [he, hd]
      exact ⟨by rw [List.append_nil], fun _ => rfl, fun q => by simp⟩

/-- C27 (amended): when the current process `pid` (not process 0, not its
own parent, with children that are process ids, for which the children list
of process 0 has room) exits through `pm_exit_current`: every child of it
gets `parent = 0` and is listed among the children of process 0; its own
relations, the dead-children list included, are cleared; and the
dead-children list of every other process keeps its entries, process 0
gaining at most the exiting process itself: the exit statuses that the
exiting process had recorded are not handed over, and a `pm_wait` for any
child with process 0 current returns the last entry of the list of
process 0. -/
theorem C27_exit_reparents (pm : proc_manager_t) (code : Int)
    (hcur : pm.current < MAX_PROCS) (hne0 : pm.current ≠ 0)
    (hself : (pm.relations pm.current).parent ≠ pm.current)
    (hcs : ∀ c ∈ (pm.relations pm.current).children, c < MAX_PROCS)
    (hroom : (pm.relations 0).children.length + (pm.relations pm.current).children.length
      ≤ MAX_CHILDREN) :
    (∀ c ∈ (pm.relations pm.current).children,
      ((pm_exit_current pm code).relations c).parent = 0 ∧
      c ∈ ((pm_exit_current pm code).relations 0).children) ∧
    (pm_exit_current pm code).relations pm.current = rel_zero ∧
    (∀ d ∈ ((pm_exit_current pm code).relations 0).dead_children,
      d ∈ (pm.relations 0).dead_children ∨ d = ⟨pm.current, code⟩) ∧
    (∀ d, ((pm_exit_current pm code).relations 0).dead_children.getLast? = some d →
      (pm_wait (set_current (pm_exit_current pm code) 0) PID_INVALID).1
        = ⟨d.pid, d.exit_code, true⟩) := by
  have hinv : pm.current ≠ PID_INVALID := by
    unfold MAX_PROCS at hcur
    unfold PID_INVALID
    omega
  -- the state after the parent has been notified
  obtain ⟨pm1, hpm1, hshape⟩ :
      ∃ pm1 : proc_manager_t,
        pm_exit_current pm code =
          { adopt_loop pm.current MAX_CHILDREN 0 pm1 with
            procs := Function.update (adopt_loop pm.current MAX_CHILDREN 0 pm1).procs
              pm.current 0,
            relations := Function.update (adopt_loop pm.current MAX_CHILDREN 0 pm1).relations
              pm.current rel_zero,
            current := PID_INVALID } ∧
        (pm1 = pm ∨ ∃ dead : List dead_child_t,
          (∀ d ∈ dead, d ∈ (pm.relations (pm.relations pm.current).parent).dead_children
            ∨ d = ⟨pm.current, code⟩) ∧
          pm1.relations = Function.update pm.relations (pm.relations pm.current).parent
            ⟨(pm.relations (pm.relations pm.current).parent).parent,
              (pm.relations (pm.relations pm.current).parent).children.erase pm.current,
              dead⟩) := by
    refine ⟨(if (pm.relations pm.current).parent ≠ PID_INVALID
          ∧ (pm.relations pm.current).parent < MAX_PROCS then
        if pm.current ∈ (pm.relations (pm.relations pm.current).parent).children then
          { pm with relations :=
              (Function.update pm.relations (pm.relations pm.current).parent
                ⟨(pm.relations (pm.relations pm.current).parent).parent,
                  (pm.relations (pm.relations pm.current).parent).children.erase pm.current,
                  if (pm.relations (pm.relations pm.current).parent).dead_children.length
                      < MAX_CHILDREN then
                    (pm.relations (pm.relations pm.current).parent).dead_children
                      ++ [⟨pm.current, code⟩]
                  else (pm.relations (pm.relations pm.current).parent).dead_children⟩) }
        else pm
      else pm), ?_, ?_⟩
    · unfold pm_exit_current
      simp only [hinv, if_false]
    · by_cases ha : (pm.relations pm.current).parent ≠ PID_INVALID
          ∧ (pm.relations pm.current).parent < MAX_PROCS
      · by_cases hb : pm.current ∈ (pm.relations (pm.relations pm.current).parent).children
        · rw [if_pos ha, if_pos hb]
          refine Or.inr ⟨_, fun d hd => ?_, rfl⟩
          split_ifs at hd
          · rcases List.mem_append.mp hd with h | h
            · exact Or.inl h
            · rw [List.mem_singleton] at h
              exact Or.inr h
          · exact Or.inl hd
        · rw [if_pos ha, if_neg hb]
          exact Or.inl rfl
      · rw [if_neg ha]
        exact Or.inl rfl
  have h1cur : pm1.relations pm.current = pm.relations pm.current := by
    rcases hshape with h | ⟨dead, _, h⟩
    · rw [h]
    · rw [h]
      exact Function.update_noteq (Ne.symm hself) _ _
  have h1len : (pm1.relations 0).children.length ≤ (pm.relations 0).children.length := by
    rcases hshape with h | ⟨dead, _, h⟩
    · rw [h]
    · rw [h]
      by_cases hp0 : (0 : Nat) = (pm.relations pm.current).parent
      · rw [← hp0, Function.update_same]
        exact (List.erase_sublist _ _).length_le
      · rw [Function.update_noteq hp0]
  have h1dead : ∀ d ∈ (pm1.relations 0).dead_children,
      d ∈ (pm.relations 0).dead_children ∨ d = ⟨pm.current, code⟩ := by
    intro d hd
    rcases hshape with h | ⟨dead, hdead, h⟩
    · rw [h] at hd
      exact Or.inl hd
    · rw [h] at hd
      by_cases hp0 : (0 : Nat) = (pm.relations pm.current).parent
      · rw [← hp0, Function.update_same] at hd
        rw [← hp0] at hdead
        exact hdead d hd
      · rw [Function.update_noteq hp0] at hd
        exact Or.inl hd
  obtain ⟨a1, a2, a3⟩ := adopt_loop_spec pm.current hne0 (pm.relations pm.current).children hcs
    MAX_CHILDREN 0 pm1 (by rw [h1cur]) (by unfold MAX_CHILDREN at *; omega)
    (by unfold MAX_CHILDREN at *; omega)
  rw [List.drop_zero] at a1 a3
  have hrel0 : (pm_exit_current pm code).relations 0
      = (adopt_loop pm.current MAX_CHILDREN 0 pm1).relations 0 := by
    rw [hpm1]
    exact Function.update_noteq (Ne.symm hne0) _ _
  refine ⟨fun c hc => ⟨?_, ?_⟩, ?_, fun d hd => ?_, fun d hd => ?_⟩
  · by_cases hcp : c = pm.current
    · rw [hpm1, hcp]
      show ((Function.update (adopt_loop pm.current MAX_CHILDREN 0 pm1).relations pm.current
        rel_zero) pm.current).parent = 0
      rw [Function.update_same]
      rfl
    · rw [hpm1]
      show ((Function.update (adopt_loop pm.current MAX_CHILDREN 0 pm1).relations pm.current
        rel_zero) c).parent = 0
      rw [Function.update_noteq hcp, a3 c, if_pos hc]
  · rw [hrel0, a1]
    exact List.mem_append_right _ hc
  · rw [hpm1]
    exact Function.update_same _ _ _
  · rw [hrel0, a2 0] at hd
    exact h1dead d hd
  · have h0 : (0 : Nat) ≠ PID_INVALID := by decide
    unfold pm_wait set_current
    simp only [h0, if_false, if_true, hd]

/-- C27 (amended) at `demo_orphans`: process 1, with the live child 3 and
the exit status of child 2 recorded, exits with code 0; child 3 is handed
over to process 0. -/
theorem C27_exit_reparents_witness :
    ((pm_exit_current demo_orphans 0).relations 3).parent = 0 ∧
    3 ∈ ((pm_exit_current demo_orphans 0).relations 0).children ∧
    (pm_exit_current demo_orphans 0).relations 1 = rel_zero :=
  have h := C27_exit_reparents demo_orphans 0 (by decide) (by decide) (by decide) (by decide)
    (by decide)
  ⟨(h.1 3 (by decide)).1, (h.1 3 (by decide)).2, h.2.1⟩

/-- C27, the claim as stated fails: in `demo_orphans` process 1 has the exit
status `(2, 7)` of its child 2 in its dead-children list; after process 1
has exited, the list of process 0 holds the status of process 1 only, the
`pm_wait` calls of process 0 return process 1 and then the answer for a
child that still runs (child 3), and a `pm_wait` for child 2 finds
nothing. -/
theorem C27_counterexample :
    (demo_orphans.relations 1).dead_children = [⟨2, 7⟩] ∧
    ((pm_exit_current demo_orphans 0).relations 0).dead_children = [⟨1, 0⟩] ∧
    wait_any 2 (set_current (pm_exit_current demo_orphans 0) 0)
      = [⟨1, 0, true⟩, ⟨2 ^ 64 - 2, -1, true⟩] ∧
    (pm_wait (set_current (pm_exit_current demo_orphans 0) 0) 2).1
      = ⟨PID_INVALID, -1, false⟩ := by
  decide

end Ucore

namespace Ucore

namespace Ch8

/-- An iteration of the scheduling loop in which the thread `t` at the head
of the ready queue stops with a cause other than a user environment call. -/
theorem sched_iter_not_ecall (rest : syscall_table Kernel)
    (on_exit : Kernel → Nat → Nat → Kernel) (k : Kernel) (uctx : context_t) (scause : Nat)
    (t : Nat) (l : List Nat)
    (hcause : (is_exception scause && cause_code scause == EXCEP_U_ECALL) = false)
    (hhead : k.ready_head < READY_QUEUE_SIZE)
    (htail : k.ready_tail = (k.ready_head + k.ready_count) % READY_QUEUE_SIZE)
    (hlist : ready_list k = t :: l) (ht : t < MAX_PROCS * MAX_THREADS)
    (hlive : (k.thread_pool t).exited = false) :
    ∃ k', sched_iter rest on_exit k uctx scause = some k' ∧
      (k'.thread_pool t).exited = true ∧ (k'.thread_pool t).ctx.ctx = uctx ∧
      ready_list k' = l ∧ k'.process_pool = k.process_pool ∧
      (∀ q, q ≠ t → k'.thread_pool q = k.thread_pool q) ∧ k'.current_tid = TID_INVALID := by
  have hcount : k.ready_count ≠ 0 := by
    intro h0
    have := ready_list_length k
    rw [hlist, h0] at this
    cases this
  obtain ⟨h1, _, _, _⟩ := ready_list_dequeue k hcount hhead htail
  rw [hlist] at h1
  injection h1 with hd hl
  have hne : (ready_dequeue k).1 ≠ TID_INVALID := by
    rw [← hd]
    unfold MAX_PROCS MAX_THREADS at ht
    unfold TID_INVALID
    omega
  have hgt : get_thread (ready_dequeue k).1 = true := by
    rw [← hd]
    unfold get_thread
    exact decide_eq_true ht
  have htp : (ready_dequeue k).2.thread_pool = k.thread_pool := by
    unfold ready_dequeue
    split_ifs <;> rfl
  have hpp : (ready_dequeue k).2.process_pool = k.process_pool := by
    unfold ready_dequeue
    split_ifs <;> rfl
  have hex : ((ready_dequeue k).2.thread_pool (ready_dequeue k).1).exited = false := by
    rw [htp, ← hd]
    exact hlive
  refine ⟨{ set_thread_exited
      (set_ctx { (ready_dequeue k).2 with current_tid := (ready_dequeue k).1 }
        (ready_dequeue k).1 uctx) (ready_dequeue k).1 with current_tid := TID_INVALID },
    ?_, ?_, ?_, ?_, ?_, ?_, rfl⟩
  · unfold sched_iter
    simp only [hne, if_false, hgt, hex, Bool.not_true, Bool.or_false, Bool.false_eq_true,
      hcause]
  · rw [hd]
    simp [set_thread_exited, set_ctx]
  · rw [hd]
    simp [set_thread_exited, set_ctx]
  · rw [hl]
    rfl
  · exact hpp
  · intro q hq
    rw [hd] at hq
    simp [set_thread_exited, set_ctx, Function.update_noteq hq, htp]

/-- C28 (amended): in the scheduling loop of `ch8`, when the thread at the
head of the ready queue stops with an interrupt cause (the interrupt bit of
`scause` is set; the timer, code 5, included), the thread is marked exited
and is not put back into the ready queue, which holds the threads that
followed it; its context is as the trap left it, and the processes and the
other threads are unchanged. -/
theorem C28_interrupt_kills (rest : syscall_table Kernel)
    (on_exit : Kernel → Nat → Nat → Kernel) (k : Kernel) (uctx : context_t) (scause : Nat)
    (t : Nat) (l : List Nat)
    (hint : is_exception scause = false)
    (hhead : k.ready_head < READY_QUEUE_SIZE)
    (htail : k.ready_tail = (k.ready_head + k.ready_count) % READY_QUEUE_SIZE)
    (hlist : ready_list k = t :: l) (ht : t < MAX_PROCS * MAX_THREADS)
    (hlive : (k.thread_pool t).exited = false) :
    ∃ k', sched_iter rest on_exit k uctx scause = some k' ∧
      (k'.thread_pool t).exited = true ∧ (k'.thread_pool t).ctx.ctx = uctx ∧
      ready_list k' = l ∧ k'.process_pool = k.process_pool ∧
      (∀ q, q ≠ t → k'.thread_pool q = k.thread_pool q) ∧ k'.current_tid = TID_INVALID :=
  sched_iter_not_ecall rest on_exit k uctx scause t l (by rw [hint]; rfl) hhead htail hlist ht
    hlive

/-- C28 (amended) at `demo_mutex_kernel`, whose ready queue holds the threads
0 and 1, for a timer interrupt. -/
theorem C28_interrupt_kills_witness :
    ∃ k', sched_iter empty_table (fun k _ _ => k) demo_mutex_kernel
        (demo_trap 0x400100 0 0 0) (2 ^ 63 + 5) = some k' ∧
      (k'.thread_pool 0).exited = true ∧ ready_list k' = [1] :=
  have h := C28_interrupt_kills empty_table (fun k _ _ => k) demo_mutex_kernel
    (demo_trap 0x400100 0 0 0) (2 ^ 63 + 5) 0 [1] (by decide) (by decide) (by decide)
    (by decide) (by decide) (by decide)
  Exists.elim h (fun k' hk => ⟨k', hk.1, hk.2.1, hk.2.2.2.1⟩)

set_option maxRecDepth 100000 in
/-- C28, the claim as stated fails: the ready queue holds the threads 0 and
1, thread 0 stops with the timer-interrupt cause (interrupt bit set, code 5);
after the iteration thread 0 is marked exited and the ready queue holds
thread 1 only. -/
theorem C28_counterexample :
    is_exception (2 ^ 63 + 5) = false ∧ cause_code (2 ^ 63 + 5) = 5 ∧
    (sched_iter empty_table (fun k _ _ => k) demo_mutex_kernel
        (demo_trap 0x400100 0 0 0) (2 ^ 63 + 5)).map
      (fun k => ((k.thread_pool 0).exited, ready_list k)) = some (true, [1]) := by
  decide

set_option maxRecDepth 100000 in
/-- C26, evaluated.  Process 1 waits for any child (its thread 1 is recorded
with the destination `0x9000`) and its child, process 2, has the single
thread 2.  When `SIGKILL` is pending for process 2 and thread 2 traps with
the call `getpid`, process 2 becomes exited with code -9, but the ready queue
is empty afterwards, the record of process 1 is as before and `a0` of thread
1 is not set.  When thread 2 traps with `exit(3)` instead, thread 1 is in the
ready queue with `a0 = 2`, the record is cleared and the `int` at `0x9000`
holds 3. -/
theorem C26_killed_child_no_wakeup :
    (sched_iter sync_table (ch8_on_exit (fun _ => 0xEE))
        (demo_family (demo_state handling_type_t.HANDLING_NONE (1 <<< SIGKILL) 0) 1 0x9000 [2])
        (demo_trap 0x400100 SYS_GETPID 0 0) EXCEP_U_ECALL).map family_view
      = some ⟨[], ⟨false, 0, 1, 0x9000⟩, ⟨true, -9, TID_INVALID, 0⟩, ⟨false, 0⟩, ⟨true, 0⟩⟩ ∧
    (sched_iter sync_table (ch8_on_exit (fun _ => 0xEE))
        (demo_family signal_init 1 0x9000 [2])
        (demo_trap 0x400100 SYS_EXIT 3 0) EXCEP_U_ECALL).map family_view
      = some ⟨[1], ⟨false, 0, TID_INVALID, 0⟩, ⟨true, 3, TID_INVALID, 0⟩, ⟨false, 2⟩,
          ⟨true, 3⟩⟩ ∧
    (List.range 5).map (fun i => exit_mem sync_table (demo_family signal_init 1 0x9000 [2])
        (fun _ => 0xEE) (demo_trap 0x400100 SYS_EXIT 3 0) (0x9000 + i))
      = [3, 0, 0, 0, 0xEE] := by
  refine ⟨?_, ?_, ?_⟩ <;> decide

set_option maxRecDepth 100000 in
/-- C29, evaluated.  Process 2 has the single thread 2 and is a child of
process 1.  Thread 2 stops with an illegal-instruction exception (cause 2):
the thread is marked exited, but process 2 is not.  When process 1 waits for
any child, its thread 1 is not woken: the ready queue is empty and the next
iteration ends the loop.  When process 1 calls `waitpid(-1, NULL)` after the
fault, the call returns -2 (must block).  And when thread 0 of a process with
the threads 0 and 1 stops with that exception, thread 1 runs in the next
iteration (its call `gettid` returns 1) and is back in the ready queue. -/
theorem C29_fault_leaves_process :
    is_exception 2 = true ∧ cause_code 2 = 2 ∧
    (sched_iter sync_table (ch8_on_exit (fun _ => 0xEE)) (demo_family signal_init 1 0x9000 [2])
        (demo_trap 0x400100 0 0 0) 2).map family_view
      = some ⟨[], ⟨false, 0, 1, 0x9000⟩, ⟨false, 0, TID_INVALID, 0⟩, ⟨false, 0⟩, ⟨true, 0⟩⟩ ∧
    (two_iters sync_table (ch8_on_exit (fun _ => 0xEE)) (demo_family signal_init 1 0x9000 [2])
        (demo_trap 0x400100 0 0 0) 2 (demo_trap 0x400100 0 0 0) 2).map family_view = none ∧
    waitpid_after (sched_iter sync_table (ch8_on_exit (fun _ => 0xEE))
        (demo_family signal_init TID_INVALID 0 [2, 1]) (demo_trap 0x400100 0 0 0) 2)
      = some (-2) ∧
    (two_iters sync_table (ch8_on_exit (fun _ => 0xEE)) demo_mutex_kernel
        (demo_trap 0x400100 0 0 0) 2 (demo_trap 0x400100 SYS_GETTID 0 0) EXCEP_U_ECALL).map
      mutex_view
      = some ⟨[1], ⟨true, 0⟩, ⟨false, 1⟩, false, some []⟩ := by
  refine ⟨?_, ?_, ?_, ?_, ?_, ?_⟩ <;> decide

set_option maxRecDepth 100000 in
/-- C30, evaluated.  Process 0 has a mutex in slot 3 only, no semaphore and
no condition variable; its threads 0 and 1 are in the ready queue.  Thread 0
traps with `mutex_lock(5)`, with `semaphore_down(0)` or with
`condvar_wait(99, 3)`: after the iteration `a0` is -1, the thread is not
marked exited and is on no wait queue, but it is not in the ready queue
either.  After `sched_yield` it is in the ready queue. -/
theorem C30_invalid_id_blocks :
    (sched_iter sync_table (ch8_on_exit (fun _ => 0xEE)) demo_mutex_kernel
        (demo_trap 0x400100 SYS_MUTEX_LOCK 5 0) EXCEP_U_ECALL).map mutex_view
      = some ⟨[1], ⟨false, 2 ^ 64 - 1⟩, ⟨false, 0⟩, false, some []⟩ ∧
    (sched_iter sync_table (ch8_on_exit (fun _ => 0xEE)) demo_mutex_kernel
        (demo_trap 0x400100 SYS_SEMAPHORE_DOWN 0 0) EXCEP_U_ECALL).map mutex_view
      = some ⟨[1], ⟨false, 2 ^ 64 - 1⟩, ⟨false, 0⟩, false, some []⟩ ∧
    (sched_iter sync_table (ch8_on_exit (fun _ => 0xEE)) demo_mutex_kernel
        (demo_trap 0x400100 SYS_CONDVAR_WAIT 99 3) EXCEP_U_ECALL).map mutex_view
      = some ⟨[1], ⟨false, 2 ^ 64 - 1⟩, ⟨false, 0⟩, false, some []⟩ ∧
    (sched_iter sync_table (ch8_on_exit (fun _ => 0xEE)) demo_mutex_kernel
        (demo_trap 0x400100 SYS_SCHED_YIELD 0 0) EXCEP_U_ECALL).map mutex_view
      = some ⟨[1, 0], ⟨false, 0⟩, ⟨false, 0⟩, false, some []⟩ := by
  refine ⟨?_, ?_, ?_, ?_⟩ <;> decide

end Ch8

end Ucore

namespace Ucore

namespace Ch8

end Ch8

end Ucore

namespace Ucore

namespace Ch8

end Ch8

end Ucore

namespace Ucore

namespace Ch8

end Ch8

end Ucore

namespace Ucore

/-- A `uintptr_t` below `2 ^ 63` keeps its value as a `long`. -/
theorem to_i64_small (n : Nat) (h : n < 2 ^ 63) : to_i64 n = (n : Int) := by
  have h1 : n % 2 ^ 64 = n := Nat.mod_eq_of_lt (by omega)
  unfold to_i64
  rw [h1, if_pos h]

/-- A number without a `case` reaches the `default` branch. -/
theorem syscall_dispatch_default {σ : Type} (tbl : syscall_table σ) (id : Nat)
    (args : Nat → Nat) (k : σ) (h : id ∉ defined_ids) :
    syscall_dispatch tbl id args k = (⟨syscall_ret_t.SYSCALL_UNSUPPORTED, to_i64 id⟩, k) := by
  simp only [defined_ids, List.mem_cons, List.mem_singleton, List.not_mem_nil, or_false,
    not_or] at h
  obtain ⟨h1, h2, h3, h4, h5, h6, h7, h8, h9, h10, h11, h12, h13, h14, h15, h16, h17, h18,
    h19, h20, h21, h22, h23, h24, h25, h26, h27⟩ := h
  unfold syscall_dispatch
  simp only [SYS_EXIT, SYS_WAITPID, SYS_KILL, SYS_MUTEX_LOCK, SYS_MUTEX_UNLOCK,
    SYS_SEMAPHORE_DOWN, SYS_CONDVAR_WAIT]
  rw [if_neg h1, if_neg h2, if_neg h3, if_neg h4, if_neg h5, if_neg h6, if_neg h7, if_neg h8,
    if_neg h9, if_neg h10, if_neg h11, if_neg h12, if_neg h13, if_neg h14, if_neg h15,
    if_neg h16, if_neg h17, if_neg h18, if_neg h19, if_neg h20, if_neg h21, if_neg h22,
    if_neg h23, if_neg h24, if_neg h25, if_neg h26, if_neg h27]

/-- A number with a `case` calls the handler of that case, when it is set,
and keeps the value `0` for `SYS_EXIT` or when the handler is not set. -/
theorem syscall_dispatch_defined {σ : Type} (tbl : syscall_table σ) (id : Nat)
    (args : Nat → Nat) (k : σ) (h : id ∈ defined_ids) :
    syscall_dispatch tbl id args k =
      (⟨syscall_ret_t.SYSCALL_OK,
          if id = 93 then 0 else (call_handler (handler_of tbl id) args k).1.value⟩,
        (call_handler (handler_of tbl id) args k).2) := by
  simp only [defined_ids, List.mem_cons, List.mem_singleton, List.not_mem_nil, or_false] at h
  rcases h with h | h | h | h | h | h | h | h | h | h | h | h | h | h | h | h | h | h | h | h |
    h | h | h | h | h | h | h <;> subst h <;>
  · cases hh : handler_of tbl _ <;>
      simp [handler_of] at hh <;>
      simp [syscall_dispatch, call_handler, hh, SYS_EXIT, SYS_WAITPID, SYS_KILL, SYS_MUTEX_LOCK,
        SYS_MUTEX_UNLOCK, SYS_SEMAPHORE_DOWN, SYS_CONDVAR_WAIT]

/-- C31: for a system call number below `2 ^ 63` the dispatcher answers
`SYSCALL_UNSUPPORTED`, with the number as value and the state untouched,
exactly when the number is not one of the 27 numbers of `syscall.h`; for
each of the 27 numbers it answers `SYSCALL_OK`: with value `0` and the
state untouched when the handler of the number is not set, and otherwise
with the state the handler leaves and the handler's return value (`0` for
`SYS_EXIT`, whose handler returns nothing). -/
theorem C31_dispatch_unsupported {σ : Type} (tbl : syscall_table σ) (id : Nat)
    (args : Nat → Nat) (k : σ) (hid : id < 2 ^ 63) :
    ((syscall_dispatch tbl id args k).1.status = syscall_ret_t.SYSCALL_UNSUPPORTED ↔
        id ∉ defined_ids) ∧
      (id ∉ defined_ids →
        syscall_dispatch tbl id args k = (⟨syscall_ret_t.SYSCALL_UNSUPPORTED, (id : Int)⟩, k)) ∧
      (id ∈ defined_ids →
        (syscall_dispatch tbl id args k).1.status = syscall_ret_t.SYSCALL_OK ∧
        (handler_of tbl id = none →
          syscall_dispatch tbl id args k = (⟨syscall_ret_t.SYSCALL_OK, 0⟩, k)) ∧
        ∀ f, handler_of tbl id = some f →
          syscall_dispatch tbl id args k =
            (⟨syscall_ret_t.SYSCALL_OK, if id = 93 then 0 else (f args k).1⟩, (f args k).2)) := by
  have hdef : id ∈ defined_ids →
      (syscall_dispatch tbl id args k).1.status = syscall_ret_t.SYSCALL_OK := by
    intro h
    rw [syscall_dispatch_defined tbl id args k h]
  have hundef : id ∉ defined_ids →
      syscall_dispatch tbl id args k =
        (⟨syscall_ret_t.SYSCALL_UNSUPPORTED, (id : Int)⟩, k) := by
    intro h
    rw [syscall_dispatch_default tbl id args k h, to_i64_small id hid]
  refine ⟨⟨fun hs hin => ?_, fun h => ?_⟩, hundef, fun h => ⟨hdef h, fun hn => ?_, fun f hf => ?_⟩⟩
  · rw [hdef hin] at hs
    exact absurd hs (by decide)
  · rw [hundef h]
  · rw [syscall_dispatch_defined tbl id args k h, hn]
    simp [call_handler]
  · rw [syscall_dispatch_defined tbl id args k h, hf]
    simp [call_handler]

/-- The statement of C31 at the numbers 172 (handler set), 93 (handler set,
no return value), 56 (handler not set) and 58 (no such call). -/
theorem C31_dispatch_unsupported_witness :
    (172 < 2 ^ 63 ∧ 172 ∈ defined_ids ∧
      syscall_dispatch demo_counting_table 172 (fun _ => 0) 5 =
        (⟨syscall_ret_t.SYSCALL_OK, 42⟩, 6)) ∧
    syscall_dispatch demo_counting_table 93 (fun _ => 0) 5 = (⟨syscall_ret_t.SYSCALL_OK, 0⟩, 6) ∧
    syscall_dispatch demo_counting_table 56 (fun _ => 0) 5 = (⟨syscall_ret_t.SYSCALL_OK, 0⟩, 5) ∧
    syscall_dispatch demo_counting_table 58 (fun _ => 0) 5 =
      (⟨syscall_ret_t.SYSCALL_UNSUPPORTED, 58⟩, 5) :=
  ⟨⟨by decide, by decide,
      ((C31_dispatch_unsupported demo_counting_table 172 (fun _ => 0) 5 (by decide)).2.2
        (by decide)).2.2 _ rfl⟩,
    by decide, by decide, by decide⟩

end Ucore

namespace Ucore

/-- C33: `elf_check` returns the field `e_entry` of the header when the
length is at least 64, the first four bytes are `0x7f 'E' 'L' 'F'`, the class
byte is `2`, `e_type` is `ET_EXEC` and `e_machine` is `EM_RISCV`, and `0` in
every other case; and when `elf_check` returns `0`, `elf_load` returns `0`
and leaves the machine, hence the address space, as it was. -/
theorem C33_elf_check (m : Machine) (as : address_space_t) (data len : Nat) :
    (elf_header_ok m.mem data len → elf_check m.mem data len = read64 m.mem (data + 24)) ∧
    (¬ elf_header_ok m.mem data len → elf_check m.mem data len = 0) ∧
    (elf_check m.mem data len = 0 → elf_load m as data len = (0, m)) := by
  refine ⟨fun h => ?_, fun h => ?_, fun h => ?_⟩
  · obtain ⟨h1, h2, h3, h4, h5, h6, h7, h8⟩ := h
    unfold elf_check
    rw [if_neg (by omega), if_neg (by simp [h2, h3, h4, h5]), if_neg (by simp [h6]),
      if_neg (by simp [h7, ET_EXEC]), if_neg (by simp [h8, EM_RISCV])]
  · unfold elf_check
    split_ifs with c1 c2 c3 c4 c5
    · rfl
    · rfl
    · rfl
    · rfl
    · rfl
    · exfalso
      apply h
      simp only [not_or, not_not, ET_EXEC, EM_RISCV] at c2 c3 c4 c5
      exact ⟨by omega, c2.1, c2.2.1, c2.2.2.1, c2.2.2.2, c3, c4, c5⟩
  · unfold elf_load
    simp only [h, if_true]

set_option maxRecDepth 100000 in
/-- C32, the claim fails: `elf_load` returns the value of `elf_check`
whatever the allocator answers.  On `demo_elf_machine` the heap is used up:
the image is valid and has one `PT_LOAD` segment at `0x10000`, the
allocation of its page fails, and `elf_load` returns the entry `0x10000`
although no page is mapped at `0x10000`. -/
theorem C32_elf_load_hides_alloc_failure :
    (∀ (m : Machine) (as : address_space_t) (data len : Nat),
      (elf_load m as data len).1 = elf_check m.mem data len) ∧
    elf_check demo_elf_machine.mem 0x200000 128 = 0x10000 ∧
    read16 demo_elf_machine.mem (0x200000 + 56) = 1 ∧
    read32 demo_elf_machine.mem (0x200000 + 64) = PT_LOAD ∧
    read64 demo_elf_machine.mem (0x200000 + 64 + 16) = 0x10000 ∧
    (alloc_pages demo_elf_machine 1).1 = 0 ∧
    (elf_load demo_elf_machine demo_elf_as 0x200000 128).1 = 0x10000 ∧
    (elf_load demo_elf_machine demo_elf_as 0x200000 128).2.alloc_failed = true ∧
    as_translate (elf_load demo_elf_machine demo_elf_as 0x200000 128).2 demo_elf_as 0x10000
      PTE_V = 0 := by
  refine ⟨fun m as data len => ?_, ?_, ?_, ?_, ?_, ?_, ?_, ?_, ?_⟩
  · unfold elf_load
    by_cases h : elf_check m.mem data len = 0
    · simp only [h, if_true]
    · simp only [h, if_false]
  all_goals decide

end Ucore

namespace Ucore

/-- The path to a valid last-level entry: the entries of the two upper
levels are branch entries that point at the tables of the next level. -/
theorem leaf_path {owner : Nat → Option (Nat × Nat)} {m : Machine} {root : Nat}
    (h : PTInv owner m root) (vpn : Nat) (hv : pte_valid (leaf m.mem root vpn) = true) :
    ∃ t1 t2, owner t1 = some (1, vpn_index vpn 0) ∧
      owner t2 = some (2, vpn_index vpn 0 * 512 + vpn_index vpn 1) ∧
      entry m.mem root (vpn_index vpn 0) = make_pte (pa_ppn t1) PTE_V ∧
      child m.mem root (vpn_index vpn 0) = t1 ∧
      entry m.mem t1 (vpn_index vpn 1) = make_pte (pa_ppn t2) PTE_V ∧
      child m.mem t1 (vpn_index vpn 1) = t2 ∧
      leaf m.mem root vpn = entry m.mem t2 (vpn_index vpn 2) := by
  unfold leaf at hv ⊢
  by_cases h0 : pte_valid (entry m.mem root (vpn_index vpn 0)) = true
  · rw [if_pos h0] at hv ⊢
    by_cases h1 : pte_valid (entry m.mem (child m.mem root (vpn_index vpn 0))
        (vpn_index vpn 1)) = true
    · rw [if_pos h1] at hv ⊢
      have e0 := h.child_eq h.own_root (by decide) (vpn_index_lt vpn 0) h0
      have e1 := h.child_eq e0.2 (by decide) (vpn_index_lt vpn 1) h1
      refine ⟨_, _, ?_, ?_, e0.1, rfl, e1.1, rfl, rfl⟩
      · simpa using e0.2
      · simpa using e1.2
    · rw [if_neg h1] at hv
      rw [pte_valid_zero] at hv
      exact absurd hv (by decide)
  · rw [if_neg h0] at hv
    rw [pte_valid_zero] at hv
    exact absurd hv (by decide)

/-- An entry built with the valid bit is valid, and it is a leaf when one of
the bits R, W, X is among its flags. -/
theorem installed_valid_leaf (ppn flags : Nat)
    (hrwx : flags &&& (PTE_R ||| PTE_W ||| PTE_X) ≠ 0) :
    pte_valid (make_pte ppn (flags ||| PTE_V)) = true ∧
    pte_is_leaf (make_pte ppn (flags ||| PTE_V)) = true := by
  have h1 : (flags ||| PTE_V) % 2 = 1 := by
    rw [PTE_V_eq, or_one_eq]
    omega
  have h2 : (flags ||| PTE_V) % 16 / 2 = flags % 16 / 2 := by
    rw [PTE_V_eq, or_one_eq]
    omega
  have h3 := (pte_is_leaf_iff flags).mp hrwx
  rw [pte_valid_make_pte, pte_is_leaf_make_pte, h1, h2]
  refine ⟨by decide, ?_⟩
  simpa using h3

/-- C35, amended: after `as_create` and a history of well-formed calls in
which no allocation fails, a call of `as_map_extern` or `as_map` whose
`flags` hold at least one of R, W, X leaves, for every page `vpn` of its
range, the last-level entry `(ppn << 10) | flags | PTE_V` (in 64 bits) with
`ppn = ppn_base + (vpn - vpn_start)`, where `ppn_base` is the argument of
`as_map_extern`, respectively the page number of the block that `as_map`
allocates; this entry is valid and a leaf.  The entries of the two upper
levels on the path of `vpn` are branches: valid, without R, W, X, each
pointing at its own page-aligned table, and the three tables differ. -/
theorem C35_installed_entries (m0 : Machine) (as : address_space_t) (pre : List MapCall)
    (c : MapCall) (vpn : Nat)
    (hheap : m0.heap_end ≤ 2 ^ 56)
    (hcreate : (as_create m0).1 = some as)
    (hwf : ∀ c' ∈ pre, c'.wf) (hc : c.wf) (hmaps : c.maps vpn)
    (hok : (run_calls as (as_create m0).2 (pre ++ [c])).alloc_failed = false)
    (hrwx : c.flags &&& (PTE_R ||| PTE_W ||| PTE_X) ≠ 0) :
    ∃ ppn_base t1 t2,
      (∀ vs ve pb f, c = MapCall.extern_call vs ve pb f → ppn_base = pb) ∧
      leaf (run_calls as (as_create m0).2 (pre ++ [c])).mem as.root vpn
        = make_pte ((ppn_base + (vpn - c.vpn_start)) % 2 ^ 64) (c.flags ||| PTE_V) ∧
      pte_valid (leaf (run_calls as (as_create m0).2 (pre ++ [c])).mem as.root vpn) = true ∧
      pte_is_leaf (leaf (run_calls as (as_create m0).2 (pre ++ [c])).mem as.root vpn) = true ∧
      entry (run_calls as (as_create m0).2 (pre ++ [c])).mem as.root (vpn_index vpn 0)
        = make_pte (pa_ppn t1) PTE_V ∧
      child (run_calls as (as_create m0).2 (pre ++ [c])).mem as.root (vpn_index vpn 0) = t1 ∧
      entry (run_calls as (as_create m0).2 (pre ++ [c])).mem t1 (vpn_index vpn 1)
        = make_pte (pa_ppn t2) PTE_V ∧
      child (run_calls as (as_create m0).2 (pre ++ [c])).mem t1 (vpn_index vpn 1) = t2 ∧
      leaf (run_calls as (as_create m0).2 (pre ++ [c])).mem as.root vpn
        = entry (run_calls as (as_create m0).2 (pre ++ [c])).mem t2 (vpn_index vpn 2) ∧
      pte_valid (make_pte (pa_ppn t1) PTE_V) = true ∧
      pte_is_leaf (make_pte (pa_ppn t1) PTE_V) = false ∧
      pte_valid (make_pte (pa_ppn t2) PTE_V) = true ∧
      pte_is_leaf (make_pte (pa_ppn t2) PTE_V) = false ∧
      t1 % 4096 = 0 ∧ t2 % 4096 = 0 ∧ t1 ≠ as.root ∧ t2 ≠ as.root ∧ t1 ≠ t2 := by
  obtain ⟨root⟩ := as
  obtain ⟨o0, inv0, -⟩ := as_create_spec m0 ⟨root⟩ hheap hcreate
  obtain ⟨o1, g1, -⟩ := run_calls_spec root pre o0 _ inv0 hwf
  rw [run_calls_append] at hok ⊢
  have hrun : ∀ m, run_calls ⟨root⟩ m [c] = c.run ⟨root⟩ m := fun m => rfl
  rw [hrun] at hok ⊢
  have key : ∃ ppn_base o2,
      PTInv o2 (c.run ⟨root⟩ (run_calls ⟨root⟩ (as_create m0).2 pre)) root ∧
      (∀ vs ve pb f, c = MapCall.extern_call vs ve pb f → ppn_base = pb) ∧
      leaf (c.run ⟨root⟩ (run_calls ⟨root⟩ (as_create m0).2 pre)).mem root vpn
        = make_pte ((ppn_base + (vpn - c.vpn_start)) % 2 ^ 64) (c.flags ||| PTE_V) := by
    cases c with
    | extern_call vs ve pb f =>
      obtain ⟨o2, g2, -, hl⟩ := as_map_extern_spec g1.inv vs ve pb f hc.2
      refine ⟨pb, o2, g2.inv, ?_, hl hok vpn hmaps.1 hmaps.2⟩
      intro vs' ve' pb' f' he
      cases he
      rfl
    | map vs ve data len offset f =>
      obtain ⟨o2, g2, -, hl⟩ := as_map_spec g1.inv vs ve data len offset f hc.1 hc.2.1
      obtain ⟨p, -, -, -, hleaf, -⟩ := hl hok
      refine ⟨pa_ppn p, o2, g2.inv, ?_, hleaf vpn hmaps.1 hmaps.2⟩
      intro vs' ve' pb' f' he
      cases he
  obtain ⟨ppn_base, o2, inv2, hext, hleaf⟩ := key
  have hvl := installed_valid_leaf ((ppn_base + (vpn - c.vpn_start)) % 2 ^ 64) c.flags hrwx
  have hv : pte_valid (leaf (c.run ⟨root⟩ (run_calls ⟨root⟩ (as_create m0).2 pre)).mem
      root vpn) = true := by
    rw [hleaf]
    exact hvl.1
  obtain ⟨t1, t2, ho1, ho2, e0, c0, e1, c1, el⟩ := leaf_path inv2 vpn hv
  have hr := inv2.own_root
  refine ⟨ppn_base, t1, t2, hext, hleaf, hv, ?_, e0, c0, e1, c1, el, branch_valid t1,
    branch_not_leaf t1, branch_valid t2, branch_not_leaf t2, (inv2.own_page t1 _ ho1).1,
    (inv2.own_page t2 _ ho2).1, ?_, ?_, ?_⟩
  · rw [hleaf]
    exact hvl.2
  · intro e
    rw [e] at ho1
    exact absurd (Prod.mk.inj (Option.some.inj (hr.symm.trans ho1))).1 (by decide)
  · intro e
    rw [e] at ho2
    exact absurd (Prod.mk.inj (Option.some.inj (hr.symm.trans ho2))).1 (by decide)
  · intro e
    rw [e] at ho1
    exact absurd (Prod.mk.inj (Option.some.inj (ho1.symm.trans ho2))).1 (by decide)

end Ucore

namespace Ucore

set_option maxRecDepth 100000 in
/-- The statement of C35 for `as_map_extern` of page 5 onto the physical page
`0x200` with the flags `PTE_R | PTE_U`, in a fresh address space. -/
theorem C35_installed_entries_witness :
    (run_calls demo_as (as_create demo_machine).2
      ([] ++ [MapCall.extern_call 5 6 0x200 (PTE_R ||| PTE_U)])).alloc_failed = false ∧
    (PTE_R ||| PTE_U) &&& (PTE_R ||| PTE_W ||| PTE_X) ≠ 0 ∧
    ∃ t1 t2,
      leaf (run_calls demo_as (as_create demo_machine).2
          ([] ++ [MapCall.extern_call 5 6 0x200 (PTE_R ||| PTE_U)])).mem demo_as.root 5
        = make_pte ((0x200 + (5 - 5)) % 2 ^ 64) ((PTE_R ||| PTE_U) ||| PTE_V) ∧
      pte_is_leaf (leaf (run_calls demo_as (as_create demo_machine).2
          ([] ++ [MapCall.extern_call 5 6 0x200 (PTE_R ||| PTE_U)])).mem demo_as.root 5) = true ∧
      entry (run_calls demo_as (as_create demo_machine).2
          ([] ++ [MapCall.extern_call 5 6 0x200 (PTE_R ||| PTE_U)])).mem demo_as.root
          (vpn_index 5 0) = make_pte (pa_ppn t1) PTE_V ∧
      entry (run_calls demo_as (as_create demo_machine).2
          ([] ++ [MapCall.extern_call 5 6 0x200 (PTE_R ||| PTE_U)])).mem t1
          (vpn_index 5 1) = make_pte (pa_ppn t2) PTE_V := by
  refine ⟨by decide, by decide, ?_⟩
  obtain ⟨pb, t1, t2, hpb, hl, -, hleaf, e0, -, e1, -⟩ :=
    C35_installed_entries demo_machine demo_as [] (MapCall.extern_call 5 6 0x200 (PTE_R ||| PTE_U))
      5 demo_heap demo_create (fun c hc => by simp at hc) ⟨by decide, by decide⟩
      ⟨by decide, by decide⟩ (by decide) (by decide)
  have hb : pb = 0x200 := hpb 5 6 0x200 _ rfl
  rw [hb] at hl
  exact ⟨t1, t2, hl, hleaf, e0, e1⟩

set_option maxRecDepth 100000 in
/-- C35, the claim as stated fails: `flags = PTE_U` is a value that a caller
can pass (of `elf_load`, a segment without `PF_R`, `PF_W`, `PF_X`); no
allocation fails, and the entry that `as_map_extern` installs for page 5 is
`(0x200 << 10) | PTE_U | PTE_V`, which is valid and is not a leaf. -/
theorem C35_counterexample :
    (run_calls demo_as (as_create demo_machine).2
      [MapCall.extern_call 5 6 0x200 PTE_U]).alloc_failed = false ∧
    leaf (run_calls demo_as (as_create demo_machine).2
      [MapCall.extern_call 5 6 0x200 PTE_U]).mem demo_as.root 5
      = (0x200 <<< 10) ||| PTE_U ||| PTE_V ∧
    pte_valid (leaf (run_calls demo_as (as_create demo_machine).2
      [MapCall.extern_call 5 6 0x200 PTE_U]).mem demo_as.root 5) = true ∧
    pte_is_leaf (leaf (run_calls demo_as (as_create demo_machine).2
      [MapCall.extern_call 5 6 0x200 PTE_U]).mem demo_as.root 5) = false := by
  decide

end Ucore

namespace Ucore

/-- With the pending set in range, the number that `sigset_find_first`
selects is `-1` or lies in `1 .. MAX_SIG`. -/
theorem find_first_in_range (sm : signal_manager_t) (h : pending_in_range sm) :
    sigset_find_first sm.received sm.mask = -1 ∨
    ∃ s : Nat, 1 ≤ s ∧ s ≤ MAX_SIG ∧ sigset_find_first sm.received sm.mask = (s : Int) := by
  by_cases h0 : sm.received.bits &&& not64 sm.mask.bits = 0
  · exact Or.inl (sigset_find_first_none _ _ h0)
  · obtain ⟨s, hs, he, hb, -⟩ := sigset_find_first_some _ _ h0
    rw [Nat.testBit_and] at hb
    have hr : sm.received.bits.testBit s = true := by
      cases hx : sm.received.bits.testBit s
      · rw [hx] at hb
        simp at hb
      · rfl
    have := h s (by rw [sigset_contains_eq]; exact hr)
    exact Or.inr ⟨s, this.1, this.2, he⟩

/-- The table entries that `signal_handle` reads lie inside the arrays. -/
theorem signal_handle_agree (sm sm2 : signal_manager_t) (ctx : context_t)
    (h : pending_in_range sm) (ha : table_agree sm sm2) :
    (signal_handle sm2 ctx).1 = (signal_handle sm ctx).1 ∧
    (signal_handle sm2 ctx).2.2 = (signal_handle sm ctx).2.2 ∧
    table_agree (signal_handle sm ctx).2.1 (signal_handle sm2 ctx).2.1 := by
  obtain ⟨r, m, hd, a, st⟩ := sm
  obtain ⟨r2, m2, hd2, a2, st2⟩ := sm2
  obtain ⟨e1, e2, e3, e4⟩ := ha
  simp only at e1 e2 e3 e4
  subst e1 e2 e3
  rcases find_first_in_range _ h with hf | ⟨s, hs1, hs2, hf⟩
  · simp only at hf
    unfold signal_handle signal_is_handling table_agree
    simp only [hf]
    split_ifs <;> simp_all
  · simp only at hf
    have ea := (e4 s hs2).1
    have es := (e4 s hs2).2
    unfold signal_handle signal_is_handling table_agree
    have hneg : ¬ ((s : Int) < 0) := by omega
    simp only [hf, hneg, Int.toNat_ofNat, if_false, ea, es]
    split_ifs <;> simp_all

/-- C40: when the pending set holds signals `1 .. 31` only, the number that
`signal_handle` selects is `-1` (no signal) or lies in `1 .. 31`, inside the
32 entries of the action table, for every mask, table, handling state and
context; `signal_handle` reads the tables inside these entries only (a
manager that differs outside of them gives the same result and context) and
does not write them; `signal_set_action` leaves every place beyond entry 31
as it was, and `signal_get_action` and `signal_set_action` read nothing
beyond entry 31, for every `signum` (a value of the enum `signal_no_t`,
which has no negative value). -/
theorem C40_signal_tables_in_bounds (sm sm2 : signal_manager_t) (ctx : context_t)
    (signum : Nat) (action old : signal_action_t)
    (hpend : pending_in_range sm) (ha : table_agree sm sm2) :
    (sigset_find_first sm.received sm.mask = -1 ∨
      ∃ s : Nat, 1 ≤ s ∧ s ≤ MAX_SIG ∧ sigset_find_first sm.received sm.mask = (s : Int)) ∧
    (signal_handle sm2 ctx).1 = (signal_handle sm ctx).1 ∧
    (signal_handle sm2 ctx).2.2 = (signal_handle sm ctx).2.2 ∧
    table_agree (signal_handle sm ctx).2.1 (signal_handle sm2 ctx).2.1 ∧
    (signal_handle sm ctx).2.1.actions = sm.actions ∧
    (signal_handle sm ctx).2.1.action_set = sm.action_set ∧
    (∀ j, MAX_SIG < j →
      (signal_set_action sm signum action).2.actions j = sm.actions j ∧
      (signal_set_action sm signum action).2.action_set j = sm.action_set j) ∧
    (signal_set_action sm2 signum action).1 = (signal_set_action sm signum action).1 ∧
    table_agree (signal_set_action sm signum action).2 (signal_set_action sm2 signum action).2 ∧
    signal_get_action sm2 signum old = signal_get_action sm signum old := by
  obtain ⟨h1, h2, h3⟩ := signal_handle_agree sm sm2 ctx hpend ha
  refine ⟨find_first_in_range sm hpend, h1, h2, h3, ?_, ?_, ?_, ?_, ?_, ?_⟩
  · unfold signal_handle
    simp only []
    split_ifs <;> rfl
  · unfold signal_handle
    simp only []
    split_ifs <;> rfl
  · intro j hj
    unfold signal_set_action
    split_ifs with c1 c2
    · exact ⟨rfl, rfl⟩
    · exact ⟨rfl, rfl⟩
    · have hne : j ≠ signum := by omega
      simp only [Function.update_noteq hne]
      exact ⟨trivial, trivial⟩
  · unfold signal_set_action
    split_ifs <;> rfl
  · obtain ⟨e1, e2, e3, e4⟩ := ha
    unfold signal_set_action
    split_ifs with c1 c2
    · exact ⟨e1, e2, e3, e4⟩
    · exact ⟨e1, e2, e3, e4⟩
    · refine ⟨e1, e2, e3, fun i hi => ?_⟩
      by_cases hi2 : i = signum
      · subst hi2
        simp only [Function.update_same]
        exact ⟨trivial, trivial⟩
      · simp only [Function.update_noteq hi2]
        exact e4 i hi
  · obtain ⟨e1, e2, e3, e4⟩ := ha
    unfold signal_get_action
    split_ifs with c1 c2 c3 c4 c4
    · rfl
    · rfl
    · rw [(e4 signum (by omega)).1]
    · rw [(e4 signum (by omega)).2] at c3
      exact absurd c3 c4
    · rw [(e4 signum (by omega)).2] at c3
      exact absurd c4 c3
    · rfl

/-- The signal `SIGUSR1` alone is pending in `demo_handlers (2 ^ 10)`. -/
theorem demo_handlers_pending : pending_in_range (demo_handlers (2 ^ 10)) := by
  intro i hi
  rw [sigset_contains_eq] at hi
  have e : (demo_handlers (2 ^ 10)).received.bits = 2 ^ 10 := rfl
  rw [e, Nat.testBit_two_pow] at hi
  have : 10 = i := by simpa using hi
  subst this
  exact ⟨by decide, by decide⟩

/-- The statement of C40 for a manager with `SIGUSR1` pending and a handler
for it, against a manager that differs beyond entry 31 of the tables. -/
theorem C40_signal_tables_in_bounds_witness :
    pending_in_range (demo_handlers (2 ^ 10)) ∧
    table_agree (demo_handlers (2 ^ 10)) (demo_handlers_beyond (2 ^ 10)) ∧
    sigset_find_first (demo_handlers (2 ^ 10)).received (demo_handlers (2 ^ 10)).mask = 10 ∧
    (signal_handle (demo_handlers_beyond (2 ^ 10)) (context_user 0x400000)).1
      = (signal_handle (demo_handlers (2 ^ 10)) (context_user 0x400000)).1 ∧
    signal_get_action (demo_handlers_beyond (2 ^ 10)) 40 ⟨1, 2⟩
      = signal_get_action (demo_handlers (2 ^ 10)) 40 ⟨1, 2⟩ :=
  have ha : table_agree (demo_handlers (2 ^ 10)) (demo_handlers_beyond (2 ^ 10)) :=
    ⟨rfl, rfl, rfl, fun i hi => by simp [demo_handlers_beyond, demo_handlers, hi]⟩
  ⟨demo_handlers_pending, ha, by decide,
    (C40_signal_tables_in_bounds (demo_handlers (2 ^ 10)) (demo_handlers_beyond (2 ^ 10))
      (context_user 0x400000) 40 ⟨0, 0⟩ ⟨1, 2⟩ demo_handlers_pending ha).2.1,
    (C40_signal_tables_in_bounds (demo_handlers (2 ^ 10)) (demo_handlers_beyond (2 ^ 10))
      (context_user 0x400000) 40 ⟨0, 0⟩ ⟨1, 2⟩ demo_handlers_pending ha).2.2.2.2.2.2.2.2.2⟩

end Ucore

namespace Ucore

theorem sem_net_down (t : Nat) (ops : List sem_op) :
    sem_net (sem_op.down t :: ops) = sem_net ops - 1 := rfl

theorem sem_net_up (ops : List sem_op) : sem_net (sem_op.up :: ops) = sem_net ops + 1 := rfl

/-- The invariant of a semaphore and the list of its blocked callers, and
its preservation by a run in which the counter stays in `-16 .. 2 ^ 31 - 1`. -/
theorem sem_trace_inv (ops : List sem_op) :
    ∀ (s : semaphore_t) (b : List Nat), WqOk s.wait_queue → wq_list s.wait_queue = b →
      (b.length : Int) = max 0 (-s.count) →
      (∀ k, k ≤ ops.length → -16 ≤ s.count + sem_net (ops.take k)) →
      s.count + ops.length < 2 ^ 31 →
      WqOk (sem_trace (s, b) ops).1.wait_queue ∧
      wq_list (sem_trace (s, b) ops).1.wait_queue = (sem_trace (s, b) ops).2 ∧
      (((sem_trace (s, b) ops).2.length : Nat) : Int) = max 0 (-(sem_trace (s, b) ops).1.count) ∧
      (sem_trace (s, b) ops).1.count = s.count + sem_net ops := by
  induction ops with
  | nil =>
    intro s b hok hl hlen _ _
    refine ⟨hok, hl, hlen, ?_⟩
    simp [sem_trace, sem_net]
  | cons op ops ih =>
    intro s b hok hl hlen hpre hhi
    have h0 : -16 ≤ s.count := by
      have := hpre 0 (Nat.zero_le _)
      simpa [sem_net] using this
    have hlen' : (ops.length : Int) + 1 = ((op :: ops).length : Nat) := by
      simp
    cases op with
    | down t =>
      have h1 : -16 ≤ s.count - 1 := by
        have := hpre 1 (by simp)
        simp only [List.take_succ_cons, List.take_zero, sem_net_down, sem_net] at this
        omega
      have hw : wrap_i32 (s.count - 1) = s.count - 1 :=
        wrap_i32_of_int _ (by omega) (by omega)
      have hpre' : ∀ k, k ≤ ops.length → -16 ≤ s.count - 1 + sem_net (ops.take k) := by
        intro k hk
        have := hpre (k + 1) (by simp; omega)
        simp only [List.take_succ_cons, sem_net_down] at this
        omega
      have hhi' : s.count - 1 + ops.length < 2 ^ 31 := by omega
      by_cases hneg : s.count - 1 < 0
      · have hb : (b.length : Int) = -s.count := by
          rw [hlen]
          exact max_eq_right (by omega)
        have hroom : s.wait_queue.count < WAIT_QUEUE_SIZE := by
          rw [← wq_list_length, hl]
          have : WAIT_QUEUE_SIZE = 16 := rfl
          omega
        obtain ⟨-, p2, p3, -⟩ := wq_list_push s.wait_queue t hok hroom
        have hd : sem_down s t = (false, ⟨s.count - 1, (wq_push s.wait_queue t).2⟩) := by
          unfold sem_down
          rw [hw, if_pos hneg]
        have hstep : sem_trace (s, b) (sem_op.down t :: ops)
            = sem_trace (⟨s.count - 1, (wq_push s.wait_queue t).2⟩, b ++ [t]) ops := by
          simp [sem_trace, hd]
        rw [hstep]
        have e : (((b ++ [t]).length : Nat) : Int) = max 0 (-(s.count - 1)) := by
          rw [max_eq_right (by omega)]
          simp only [List.length_append, List.length_singleton, Nat.cast_add, Nat.cast_one]
          omega
        have := ih ⟨s.count - 1, (wq_push s.wait_queue t).2⟩ (b ++ [t]) p3 (by rw [p2, hl])
          e hpre' hhi'
        refine ⟨this.1, this.2.1, this.2.2.1, ?_⟩
        rw [this.2.2.2, sem_net_down]
        simp only
        ring
      · have hb : b.length = 0 := by
          have : (b.length : Int) = 0 := by
            rw [hlen]
            exact max_eq_left (by omega)
          exact_mod_cast this
        have hd : sem_down s t = (true, ⟨s.count - 1, s.wait_queue⟩) := by
          unfold sem_down
          rw [hw, if_neg hneg]
        have hstep : sem_trace (s, b) (sem_op.down t :: ops)
            = sem_trace (⟨s.count - 1, s.wait_queue⟩, b) ops := by
          simp [sem_trace, hd]
        rw [hstep]
        have e : ((b.length : Nat) : Int) = max 0 (-(s.count - 1)) := by
          rw [max_eq_left (by omega), hb]
          rfl
        have := ih ⟨s.count - 1, s.wait_queue⟩ b hok hl e hpre' hhi'
        refine ⟨this.1, this.2.1, this.2.2.1, ?_⟩
        rw [this.2.2.2, sem_net_down]
        simp only
        ring
    | up =>
      have hw : wrap_i32 (s.count + 1) = s.count + 1 :=
        wrap_i32_of_int _ (by omega) (by simp only [List.length_cons] at hhi; push_cast at hhi; omega)
      have hpre' : ∀ k, k ≤ ops.length → -16 ≤ s.count + 1 + sem_net (ops.take k) := by
        intro k hk
        have := hpre (k + 1) (by simp; omega)
        simp only [List.take_succ_cons, sem_net_up] at this
        omega
      have hhi' : s.count + 1 + ops.length < 2 ^ 31 := by
        simp only [List.length_cons] at hhi
        push_cast at hhi
        omega
      have hu : sem_up s = ((wq_pop s.wait_queue).1, ⟨s.count + 1, (wq_pop s.wait_queue).2⟩) := by
        unfold sem_up
        rw [hw]
      have hstep : sem_trace (s, b) (sem_op.up :: ops)
          = sem_trace (⟨s.count + 1, (wq_pop s.wait_queue).2⟩,
              b.erase (wq_pop s.wait_queue).1) ops := by
        simp [sem_trace, hu]
      rw [hstep]
      cases hbl : b with
      | nil =>
        have hc0 : s.wait_queue.count = 0 := by
          rw [← wq_list_length, hl, hbl]
          rfl
        have hp := (wq_pop_empty s.wait_queue hc0).1
        rw [hp]
        have hcnt : 0 ≤ s.count := by
          rw [hbl] at hlen
          simp only [List.length_nil, Nat.cast_zero] at hlen
          have := le_max_right (0 : Int) (-s.count)
          omega
        have e : ((([] : List Nat).erase TID_INVALID).length : Int) = max 0 (-(s.count + 1)) := by
          rw [max_eq_left (by omega)]
          rfl
        have := ih ⟨s.count + 1, s.wait_queue⟩ ([].erase TID_INVALID) hok
          (by rw [hl, hbl]; rfl) e hpre' hhi'
        refine ⟨this.1, this.2.1, this.2.2.1, ?_⟩
        rw [this.2.2.2, sem_net_up]
        simp only
        ring
      | cons w l =>
        obtain ⟨q1, q2, q3, -, -⟩ := wq_pop_cons s.wait_queue hok w l (by rw [hl, hbl])
        rw [q1, List.erase_cons_head]
        have hcnt : (l.length : Int) + 1 = max 0 (-s.count) := by
          rw [← hlen, hbl]
          simp
        have hneg : s.count < 0 := by
          by_contra hge
          rw [max_eq_left (by omega)] at hcnt
          omega
        have e : ((l.length : Nat) : Int) = max 0 (-(s.count + 1)) := by
          rw [max_eq_right (by omega)] at hcnt
          rw [max_eq_right (by omega)]
          omega
        have := ih ⟨s.count + 1, (wq_pop s.wait_queue).2⟩ l q3 q2 e hpre' hhi'
        refine ⟨this.1, this.2.1, this.2.2.1, ?_⟩
        rw [this.2.2.2, sem_net_up]
        simp only
        ring

/-- C38, amended: for every sequence of `sem_down` and `sem_up` calls on a
semaphore initialised with `sem_init(n)`, `n ≥ 0`, in which at most 16
callers (`WAIT_QUEUE_SIZE`) are blocked at any time (the counter never drops
below `-16`) and the counter stays in the range of `int`: the wait queue
holds exactly the callers that `sem_down` told to block and that no `sem_up`
has returned yet, in blocking order; their number is `max(0, -count)`; the
next `sem_up` returns the first of them (`TID_INVALID` when there is none);
and a next `sem_down` that tells its caller to block records it, while
fewer than 16 callers are blocked. -/
theorem C38_semaphore_queue (sem : semaphore_t) (n : Int) (ops : List sem_op)
    (hn : 0 ≤ n)
    (hcap : ∀ k, k ≤ ops.length → -16 ≤ n + sem_net (ops.take k))
    (hint : n + ops.length < 2 ^ 31) :
    WqOk (sem_trace (sem_init sem n, []) ops).1.wait_queue ∧
    wq_list (sem_trace (sem_init sem n, []) ops).1.wait_queue
      = (sem_trace (sem_init sem n, []) ops).2 ∧
    (((sem_trace (sem_init sem n, []) ops).2.length : Nat) : Int)
      = max 0 (-(sem_trace (sem_init sem n, []) ops).1.count) ∧
    (sem_trace (sem_init sem n, []) ops).1.count = n + sem_net ops ∧
    (sem_up (sem_trace (sem_init sem n, []) ops).1).1
      = (sem_trace (sem_init sem n, []) ops).2.headD TID_INVALID ∧
    (∀ t, (sem_down (sem_trace (sem_init sem n, []) ops).1 t).1 = false →
      -16 < (sem_trace (sem_init sem n, []) ops).1.count →
      wq_list (sem_down (sem_trace (sem_init sem n, []) ops).1 t).2.wait_queue
        = (sem_trace (sem_init sem n, []) ops).2 ++ [t]) := by
  have hi := wq_init_ok sem.wait_queue
  have e0 : ((([] : List Nat).length : Nat) : Int) = max 0 (-n) := by
    rw [max_eq_left (by omega)]
    rfl
  obtain ⟨h1, h2, h3, h4⟩ := sem_trace_inv ops (sem_init sem n) [] hi.1 hi.2 e0 hcap hint
  have h4' : (sem_trace (sem_init sem n, []) ops).1.count = n + sem_net ops := h4
  refine ⟨h1, h2, h3, h4', ?_, ?_⟩
  · generalize (sem_trace (sem_init sem n, []) ops).1 = s at h1 h2
    generalize (sem_trace (sem_init sem n, []) ops).2 = b at h2
    have hu : (sem_up s).1 = (wq_pop s.wait_queue).1 := rfl
    rw [hu]
    cases hb : b with
    | nil =>
      have hc0 : s.wait_queue.count = 0 := by
        rw [← wq_list_length, h2, hb]
        rfl
      rw [(wq_pop_empty s.wait_queue hc0).1]
      rfl
    | cons w l =>
      rw [(wq_pop_cons s.wait_queue h1 w l (by rw [h2, hb])).1]
      rfl
  · intro t hd hc
    generalize (sem_trace (sem_init sem n, []) ops).1 = s at h1 h2 h3 hd hc
    generalize (sem_trace (sem_init sem n, []) ops).2 = b at h2 h3
    have hroom : s.wait_queue.count < WAIT_QUEUE_SIZE := by
      rw [← wq_list_length, h2]
      have e16 : WAIT_QUEUE_SIZE = 16 := rfl
      rw [e16]
      rcases le_total 0 (-s.count) with hle | hle
      · rw [max_eq_right hle] at h3
        omega
      · rw [max_eq_left hle] at h3
        omega
    obtain ⟨-, p2, -, -⟩ := wq_list_push s.wait_queue t h1 hroom
    unfold sem_down at hd ⊢
    split_ifs at hd ⊢ with c
    rw [p2, h2]

/-- The statement of C38 for `sem_init(1)` and the calls `sem_down(3)`,
`sem_down(4)`, `sem_up`, `sem_down(5)`, `sem_down(6)`. -/
theorem C38_semaphore_queue_witness :
    wq_list (sem_trace (sem_init ⟨7, demo_full_wq⟩ 1, [])
      [sem_op.down 3, sem_op.down 4, sem_op.up, sem_op.down 5, sem_op.down 6]).1.wait_queue
      = (sem_trace (sem_init ⟨7, demo_full_wq⟩ 1, [])
      [sem_op.down 3, sem_op.down 4, sem_op.up, sem_op.down 5, sem_op.down 6]).2 ∧
    (sem_trace (sem_init ⟨7, demo_full_wq⟩ 1, [])
      [sem_op.down 3, sem_op.down 4, sem_op.up, sem_op.down 5, sem_op.down 6]).2 = [5, 6] ∧
    (sem_trace (sem_init ⟨7, demo_full_wq⟩ 1, [])
      [sem_op.down 3, sem_op.down 4, sem_op.up, sem_op.down 5, sem_op.down 6]).1.count = -2 :=
  ⟨(C38_semaphore_queue ⟨7, demo_full_wq⟩ 1
      [sem_op.down 3, sem_op.down 4, sem_op.up, sem_op.down 5, sem_op.down 6]
      (by decide) (by decide) (by decide)).2.1,
    by decide, by decide⟩

set_option maxRecDepth 100000 in
/-- C38, the claim as stated fails: after `sem_init(0)` and `sem_down` by
the 17 threads `0, …, 16`, each of which is told to block, the counter is
`-17` and the wait queue holds 16 ids: thread 16 is not recorded, and the 17
calls of `sem_up` that follow return the threads `0, …, 15` and then
`TID_INVALID`. -/
theorem C38_counterexample :
    (sem_trace (sem_init ⟨7, demo_full_wq⟩ 0, []) demo_downs).1.count = -17 ∧
    (sem_trace (sem_init ⟨7, demo_full_wq⟩ 0, []) demo_downs).2 = List.range 17 ∧
    wq_list (sem_trace (sem_init ⟨7, demo_full_wq⟩ 0, []) demo_downs).1.wait_queue
      = List.range 16 ∧
    16 ∉ wq_list (sem_trace (sem_init ⟨7, demo_full_wq⟩ 0, []) demo_downs).1.wait_queue ∧
    sem_ups (sem_trace (sem_init ⟨7, demo_full_wq⟩ 0, []) demo_downs).1
      (List.replicate 17 sem_op.up) = List.range 16 ++ [TID_INVALID] := by
  refine ⟨?_, ?_, ?_, ?_, ?_⟩ <;> decide

end Ucore

namespace Ucore

namespace Ch8

/-- A slot that holds zeroes counts as a live child of a caller whose pid is
`0`: with no exited child of pid 0, `do_waitpid(-1, ...)` returns `-2`. -/
theorem waitpid_scan_zero_slot (k : Kernel) (mem : Mem) (ppid tid kcode i : Nat)
    (hi : i < MAX_PROCS) (hz : (k.process_pool i).parent = 0)
    (hp : (k.process_pool ppid).pid = 0)
    (hlive : ∀ j, j < MAX_PROCS → (k.process_pool j).parent = 0 →
      (k.process_pool j).exited = false) :
    waitpid_scan k mem ppid tid (-1) kcode = (-2, waitpid_record k ppid tid (-1) kcode, mem) := by
  unfold waitpid_scan
  have hnone : (List.range MAX_PROCS).find?
      (fun i => waitpid_match k ppid (-1) i && (k.process_pool i).exited) = none := by
    rw [List.find?_eq_none]
    intro j hj
    rw [List.mem_range] at hj
    intro hm
    simp only [waitpid_match, Bool.and_eq_true, decide_eq_true_eq, hp] at hm
    have := hlive j hj hm.1.1
    rw [this] at hm
    exact absurd hm.2 (by decide)
  have hany : (List.range MAX_PROCS).any (fun i => waitpid_match k ppid (-1) i) = true := by
    rw [List.any_eq_true]
    refine ⟨i, List.mem_range.mpr hi, ?_⟩
    simp [waitpid_match, hp, hz]
  rw [hnone, Option.elim_none, if_pos hany]

set_option maxRecDepth 100000 in
/-- C36, the claim fails for the init process.  A slot of `g_process_pool`
that no process has used holds `parent = 0`, the pid of the init process,
and `exited = false`: when process 0 calls `waitpid(-1, ...)` and none of its
children has exited, every such slot counts as a live child.  In the state
after boot no created process is a child of process 0, and `do_waitpid`
returns `-2` and writes the pending-wait record (`waiting_tid = 0`)
instead of returning `-1`. -/
theorem C36_init_waitpid_blocks :
    (∀ (k : Kernel) (mem : Mem) (ppid tid kcode i : Nat), i < MAX_PROCS →
      k.process_pool i = process_zero → (k.process_pool ppid).pid = 0 →
      (∀ j, j < MAX_PROCS → (k.process_pool j).parent = 0 →
        (k.process_pool j).exited = false) →
      (waitpid_scan k mem ppid tid (-1) kcode).1 = -2) ∧
    (∀ i, i < demo_boot.next_pid →
      (demo_boot.process_pool i).parent ≠ (demo_boot.process_pool 0).pid) ∧
    proc_view demo_boot 0 = ⟨false, 0, TID_INVALID, 0⟩ ∧
    call_view 0 (do_waitpid (fun i => if i = 0 then 2 ^ 64 - 1 else 0)
        (⟨demo_boot, demo_machine, ()⟩ : World Unit))
      = some (-2, ⟨false, 0, 0, 0⟩) := by
  refine ⟨?_, ?_, ?_, ?_⟩
  · intro k mem ppid tid kcode i hi hz hp hlive
    have hz' : (k.process_pool i).parent = 0 := by
      rw [hz]
      rfl
    rw [waitpid_scan_zero_slot k mem ppid tid kcode i hi hz' hp hlive]
  · decide
  · decide
  · decide

end Ch8

end Ucore

namespace Ucore

namespace EasyFs

set_option maxRecDepth 1000000 in
/-- C34, the claim fails.  Right after `efs_open` at boot the calls of the
test on the new file `f` return 13 and the 13 bytes written.  After the
kernel has read the 13 blocks of the file `a`, the 16 cache slots are in use
and the blocks of the bitmaps and of the inode of `f` pass through slot 0:
in `inode_write_at` the pointer `di` points into slot 0, `efs_alloc_data`
gives slot 0 to the data bitmap, and `di->direct[0]` is stored into the
bitmap.  `file_write` returns 0, the inode on the device keeps `size = 0`,
the word of the data bitmap holds the block number 21 in its upper half, and
`file_read` returns 0 bytes. -/
theorem C34_round_trip_lost :
    demo_fresh_trip = some (true, true, 13, 13, demo_hello) ∧
    demo_fresh_write = some ⟨13, 13, 21, 2 ^ 15 - 1, 0⟩ ∧
    demo_loaded_cache = [0, 2, 7, 8, 9, 10, 11, 12, 13, 14, 15, 16, 17, 18, 19, 20] ∧
    demo_loaded_trip = some (true, true, 0, 0, []) ∧
    demo_loaded_write = some ⟨0, 0, 0, 2 ^ 15 - 1 + 21 * 2 ^ 32, 0⟩ := by
  refine ⟨?_, ?_, ?_, ?_, ?_⟩ <;> decide

set_option maxRecDepth 1000000 in
/-- C39, the claim fails for a file of exactly 28 blocks.  With
`old_blocks = 28` the test `old_blocks < INODE_DIRECT_COUNT` of `easy_fs.c`
is false where the test `old_blocks <= INODE_DIRECT_COUNT` of `fs_pack.c` is
true: the kernel allocates no indirect block, takes block 0 (the super
block) for it, and stores the number of the new data block over the field
`magic`; the packer allocates block 36 as `indirect1` and block 37 as data
block.  From 13 or 27 blocks both give the same result. -/
theorem C39_increase_size_differs :
    kernel_grow 28 (29 * 512) = ⟨29 * 512, 0, 36, 2 ^ 30 - 1, 36⟩ ∧
    packer_grow 28 (29 * 512) = ⟨29 * 512, 36, 37, 2 ^ 31 - 1, EFS_MAGIC⟩ ∧
    kernel_grow 13 (29 * 512) = ⟨29 * 512, 36, 37, 2 ^ 31 - 1, EFS_MAGIC⟩ ∧
    packer_grow 13 (29 * 512) = ⟨29 * 512, 36, 37, 2 ^ 31 - 1, EFS_MAGIC⟩ ∧
    kernel_grow 27 (29 * 512) = packer_grow 27 (29 * 512) := by
  refine ⟨?_, ?_, ?_, ?_, ?_⟩ <;> decide!

end EasyFs

end Ucore

namespace Ucore

namespace Ch8

/-! ### The handlers on a `World` and the threads -/

theorem set_fd_thread_pool (k : Kernel) (pid i fd : Nat) :
    (set_fd k pid i fd).thread_pool = k.thread_pool := rfl

theorem set_signal_thread_pool (k : Kernel) (pid : Nat) (sm : signal_manager_t) :
    (set_signal k pid sm).thread_pool = k.thread_pool := rfl

theorem set_mutex_thread_pool (k : Kernel) (pid i : Nat) (mtx : mutex_t) :
    (set_mutex k pid i mtx).thread_pool = k.thread_pool := rfl

theorem set_semaphore_thread_pool (k : Kernel) (pid i : Nat) (sem : semaphore_t) :
    (set_semaphore k pid i sem).thread_pool = k.thread_pool := rfl

theorem set_condvar_thread_pool (k : Kernel) (pid i : Nat) (cv : condvar_t) :
    (set_condvar k pid i cv).thread_pool = k.thread_pool := rfl

end Ch8

end Ucore

namespace Ucore

namespace Ch8

end Ch8

end Ucore

namespace Ucore

namespace Ch8

end Ch8

end Ucore

namespace Ucore

namespace Ch8

end Ch8

end Ucore
